import Mathlib

/-!
# Plugin loading engine (extensionsystem): embedding and verified properties

Shallow embedding of `src/libs/extensionsystem/pluginspec.cpp` and
`src/libs/extensionsystem/pluginmanager.cpp`.

Conventions of the embedding

* `QString` is a list of characters; a null `QString` is the empty list.
* A `PluginSpec *` is a natural number (an address); the objects live in a
  `Heap`, a total map from addresses to `PluginSpec` records.
* Behaviour of the Qt library that the sources only call (case folding, the
  iteration order of `QHash`, regular expressions given as data, the plugin
  callbacks) is collected in `QtEnv` and `Callbacks`; the functions of the
  sources take it as a parameter.
* `tr`/`QCoreApplication::translate` return the source text (no translator
  installed).
-/

namespace ExtensionSystem

/-! ## Strings -/

abbrev QString := List Char

/-- Source text of a message: `tr` without an installed translator. -/
def tr (s : String) : QString := s.toList

/-- Decimal digit test `[0-9]` of the regular expressions and of `toInt`. -/
def isDigit (c : Char) : Bool := decide ('0'.toNat ≤ c.toNat) && decide (c.toNat ≤ '9'.toNat)

/-- Value of a decimal digit (`QChar::digitValue`, ASCII digits). -/
def digitValue (c : Char) : Nat := c.toNat - '0'.toNat

/-- Value of a string of decimal digits, of any length. -/
def decimalValue (s : QString) : Nat := s.foldl (fun acc c => 10 * acc + digitValue c) 0

/-- Largest `int` (32 bit). -/
def INT_MAX : Nat := 2147483647

/-- `QString::toInt()` as called on a captured digit group: the value when the
text is a non-empty digit string whose value fits an `int`, and `0` when the
conversion fails (empty text, or a value out of the range of `int`). -/
def toInt (s : QString) : Int :=
  if s ≠ [] ∧ s.all isDigit = true ∧ decimalValue s ≤ INT_MAX then (decimalValue s : Int) else 0

/-- `QString::compare(a, b, Qt::CaseInsensitive)`: three-way comparison of the
case-folded texts; only the sign of the result is meaningful. -/
def compareCaseInsensitive (fold : Char → Char) : QString → QString → Int
  | [], [] => 0
  | [], _ :: _ => -1
  | _ :: _, [] => 1
  | a :: as, b :: bs =>
    if fold a = fold b then compareCaseInsensitive fold as bs
    else if (fold a).toNat < (fold b).toNat then -1 else 1

/-! ### `QString::arg`

`s.arg(a)` replaces every occurrence of the lowest numbered place marker
(`%1` .. `%99`, optionally written `%L1`) of `s` by `a`; a string without place
marker is returned unchanged. -/

/-- Place marker starting right after a `%`: its number and the number of
characters it takes after the `%`. -/
def escapeAt (t : QString) : Option (Nat × Nat) :=
  let body : QString × Nat := match t with
    | 'L' :: r => (r, 1)
    | _ => (t, 0)
  match body.1 with
  | c :: r =>
    if isDigit c then
      match r with
      | c2 :: _ =>
        if isDigit c2 then some (10 * digitValue c + digitValue c2, body.2 + 2)
        else some (digitValue c, body.2 + 1)
      | [] => some (digitValue c, body.2 + 1)
    else none
  | [] => none

/-- Smaller of a number and an optional number. -/
def optMin (n : Nat) : Option Nat → Nat
  | none => n
  | some m => min n m

/-- Lowest place-marker number of a string (`findArgEscapes`). -/
def findArgEscapes : QString → Option Nat
  | [] => none
  | c :: t =>
    if c = '%' then
      match escapeAt t with
      | some (n, _) => some (optMin n (findArgEscapes t))
      | none => findArgEscapes t
    else findArgEscapes t

/-- Replaces the place markers numbered `n` by `a` (`replaceArgEscapes`); the
first argument counts the characters of a replaced marker still to be dropped. -/
def replaceArgEscapes (n : Nat) (a : QString) : Nat → QString → QString
  | _, [] => []
  | k + 1, _ :: t => replaceArgEscapes n a k t
  | 0, c :: t =>
    if c = '%' then
      match escapeAt t with
      | some (m, len) =>
        if m = n then a ++ replaceArgEscapes n a len t
        else c :: replaceArgEscapes n a 0 t
      | none => c :: replaceArgEscapes n a 0 t
    else c :: replaceArgEscapes n a 0 t

/-- `QString::arg(const QString &)`. -/
def arg (s a : QString) : QString :=
  match findArgEscapes s with
  | none => s
  | some n => replaceArgEscapes n a 0 s

/-! ## Version comparator -/

/-- One optional group `(?:SEP([0-9]+))?` of the version pattern, tried at the
head of `s`: the captured digits (empty when the group does not take part) and
the text left. -/
def optionalGroup (sep : Char) (s : QString) : QString × QString :=
  match s with
  | c :: r =>
    if c = sep ∧ r.takeWhile isDigit ≠ [] then (r.takeWhile isDigit, r.dropWhile isDigit)
    else ([], s)
  | [] => ([], [])

/-- Match of `versionRegExp()`, the pattern
`^([0-9]+)(?:[.]([0-9]+))?(?:[.]([0-9]+))?(?:_([0-9]+))?$`, against `s`: the
captured texts `[captured(0), .., captured(4)]`, or `none` without match.
The closing `$` of a `QRegularExpression` matches at the very end of the
subject and also before a line feed that ends it. -/
def versionRegExpMatch (s : QString) : Option (List QString) :=
  let g1 := s.takeWhile isDigit
  if g1 = [] then none
  else
    let m2 := optionalGroup '.' (s.dropWhile isDigit)
    let m3 := optionalGroup '.' m2.2
    let m4 := optionalGroup '_' m3.2
    if m4.2 = [] then some [s, g1, m2.1, m3.1, m4.1]
    else if m4.2 = ['\n'] then some [s.dropLast, g1, m2.1, m3.1, m4.1]
    else none

/-- `QRegularExpressionMatch::captured(n)`; null for a group that is absent. -/
def captured (m : List QString) (n : Nat) : QString := m.getD n []

/-- `PluginSpecPrivate::isValidVersion`. -/
def isValidVersion (version : QString) : Bool := (versionRegExpMatch version).isSome

/-- The `for (int i = 0; i < 4; ++i)` loop of `versionCompare`, over the
indices still to visit. -/
def versionCompareLoop (match1 match2 : List QString) : List Nat → Int
  | [] => 0
  | i :: rest =>
    let number1 := toInt (captured match1 (i + 1))
    let number2 := toInt (captured match2 (i + 1))
    if number1 < number2 then -1
    else if number1 > number2 then 1
    else versionCompareLoop match1 match2 rest

/-- `PluginSpecPrivate::versionCompare`. -/
def versionCompare (version1 version2 : QString) : Int :=
  match versionRegExpMatch version1, versionRegExpMatch version2 with
  | none, _ => 0
  | some _, none => 0
  | some match1, some match2 => versionCompareLoop match1 match2 [0, 1, 2, 3]

/-! ## JSON values of the plugin metadata -/

/-- A `QJsonValue`; the payload of a number is not inspected by the sources. -/
inductive QJsonValue where
  | undefined
  | null
  | bool (b : Bool)
  | double (n : Int)
  | string (s : QString)
  | array (items : List QJsonValue)
  | object (members : List (QString × QJsonValue))

abbrev QJsonObject := List (QString × QJsonValue)

namespace QJsonValue

def isUndefined : QJsonValue → Bool
  | undefined => true
  | _ => false

def isString : QJsonValue → Bool
  | string _ => true
  | _ => false

def isBool : QJsonValue → Bool
  | bool _ => true
  | _ => false

def isArray : QJsonValue → Bool
  | array _ => true
  | _ => false

def isObject : QJsonValue → Bool
  | object _ => true
  | _ => false

/-- `QJsonValue::toString(defaultValue)`. -/
def toQString (v : QJsonValue) (defaultValue : QString) : QString :=
  match v with
  | string s => s
  | _ => defaultValue

/-- `QJsonValue::toBool(defaultValue)`. -/
def toBool (v : QJsonValue) (defaultValue : Bool) : Bool :=
  match v with
  | bool b => b
  | _ => defaultValue

def toArray : QJsonValue → List QJsonValue
  | array items => items
  | _ => []

def toObject : QJsonValue → QJsonObject
  | object members => members
  | _ => []

end QJsonValue

/-- `QJsonObject::value(key)`: the member named `key`, `Undefined` without one. -/
def QJsonObject.value (o : QJsonObject) (key : QString) : QJsonValue :=
  match o.find? (fun m => decide (m.1 = key)) with
  | some m => m.2
  | none => QJsonValue.undefined

/-- Text of a key or of a constant (`QLatin1String`). -/
def QLatin1String (s : String) : QString := s.toList

/-- Joins lines with a line feed (`QStringList::join('\n')`). -/
def joinLines : List QString → QString
  | [] => []
  | [l] => l
  | l :: rest => l ++ '\n' :: joinLines rest

/-- Modelled from the spec: `Utils::readMultiLineString` (utils/stringutils.cpp
is not part of the sources); a value that is a string, or an array of strings
"joined with newlines", anything else is refused. -/
def readMultiLineString (value : QJsonValue) : Option QString :=
  match value with
  | QJsonValue.string s => some s
  | QJsonValue.array items =>
    if items.all QJsonValue.isString then some (joinLines (items.map (fun v => v.toQString [])))
    else none
  | _ => none

/-! ## Plugin specification -/

/-- `PluginDependency::Type`. -/
inductive DependencyType where
  | Required
  | Optional
  | Test
  deriving DecidableEq, Repr

/-- `PluginDependency`; the derived equality is `operator==` (name, version and
type all equal). -/
structure PluginDependency where
  name : QString
  version : QString
  type : DependencyType
  deriving DecidableEq, Repr

/-- `PluginArgumentDescription`. -/
structure PluginArgumentDescription where
  name : QString
  parameter : QString
  description : QString
  deriving DecidableEq, Repr

/-- `PluginSpec::State`, in declaration order. -/
inductive State where
  | Invalid
  | Read
  | Resolved
  | Loaded
  | Initialized
  | Running
  | Stopped
  | Deleted
  deriving DecidableEq, Repr

/-- Integer value of the enumerator. -/
def State.toNat : State → Nat
  | Invalid => 0
  | Read => 1
  | Resolved => 2
  | Loaded => 3
  | Initialized => 4
  | Running => 5
  | Stopped => 6
  | Deleted => 7

/-- A `QHash<PluginDependency, PluginSpec *>`, as the list of its entries in
iteration order; keys are pairwise different. -/
abbrev DependencyHash := List (PluginDependency × Nat)

/-- Behaviour of the Qt library and of the host that the sources rely on. -/
structure QtEnv where
  /-- Case folding of `Qt::CaseInsensitive` comparisons. -/
  foldCase : Char → Char
  /-- `qHash(const QString &)`. -/
  qHashString : QString → Nat
  /-- Arrangement of the entries of a `QHash` after an entry was added: the
  iteration order is not specified, it only holds the same entries. -/
  hashOrder : DependencyHash → DependencyHash
  hashOrder_perm : ∀ l, (hashOrder l).Perm l
  /-- `QString::trimmed`. -/
  trimmed : QString → QString
  /-- `QString::toLower`. -/
  toLower : QString → QString
  /-- `QDir::toNativeSeparators`. -/
  toNativeSeparators : QString → QString
  /-- `QRegularExpression::isValid` for a pattern. -/
  regexValid : QString → Bool
  /-- `QRegularExpression::errorString` for a pattern. -/
  regexError : QString → QString
  /-- `QRegularExpression(pattern).match(subject).hasMatch()`. -/
  regexHasMatch : QString → QString → Bool
  /-- `PluginManager::platformName()`. -/
  platformName : QString

/-- The members of `PluginSpecPrivate`; `plugin` is the `IPlugin *` (`none` is
the null pointer), `platformSpecification` the pattern of the expression. -/
structure PluginSpec where
  name : QString
  version : QString
  compatVersion : QString
  required : Bool
  experimental : Bool
  enabledByDefault : Bool
  vendor : QString
  copyright : QString
  license : QString
  description : QString
  url : QString
  category : QString
  platformSpecification : QString
  dependencies : List PluginDependency
  metaData : QJsonObject
  enabledBySettings : Bool
  enabledIndirectly : Bool
  forceEnabled : Bool
  forceDisabled : Bool
  location : QString
  filePath : QString
  arguments : List QString
  dependencySpecs : DependencyHash
  argumentDescriptions : List PluginArgumentDescription
  plugin : Option Nat
  state : State
  hasError : Bool
  errorString : QString

/-- Modelled from the spec: the member initialisers of `PluginSpecPrivate`
(pluginspec_p.h is not part of the sources): a new spec is in state `Invalid`
("no metadata read yet"), without error, enabled by default and by settings,
with all other flags false and the instance handle cleared. -/
def PluginSpec.new : PluginSpec where
  name := []
  version := []
  compatVersion := []
  required := false
  experimental := false
  enabledByDefault := true
  vendor := []
  copyright := []
  license := []
  description := []
  url := []
  category := []
  platformSpecification := []
  dependencies := []
  metaData := []
  enabledBySettings := true
  enabledIndirectly := false
  forceEnabled := false
  forceDisabled := false
  location := []
  filePath := []
  arguments := []
  dependencySpecs := []
  argumentDescriptions := []
  plugin := none
  state := State.Invalid
  hasError := false
  errorString := []

namespace PluginSpec

/-- `PluginSpec::isAvailableForHostPlatform`. -/
def isAvailableForHostPlatform (E : QtEnv) (d : PluginSpec) : Bool :=
  d.platformSpecification.isEmpty || E.regexHasMatch d.platformSpecification E.platformName

/-- `PluginSpec::isEffectivelyEnabled`. -/
def isEffectivelyEnabled (E : QtEnv) (d : PluginSpec) : Bool :=
  if !d.isAvailableForHostPlatform E then false
  else if d.forceEnabled || d.enabledIndirectly then true
  else if d.forceDisabled then false
  else d.enabledBySettings

/-- `PluginSpecPrivate::setEnabledBySettings`. -/
def setEnabledBySettings (d : PluginSpec) (value : Bool) : PluginSpec :=
  { d with enabledBySettings := value }

/-- `PluginSpecPrivate::setEnabledByDefault`. -/
def setEnabledByDefault (d : PluginSpec) (value : Bool) : PluginSpec :=
  { d with enabledByDefault := value }

/-- Assignment to the member `enabledIndirectly`. -/
def setEnabledIndirectly (d : PluginSpec) (value : Bool) : PluginSpec :=
  { d with enabledIndirectly := value }

/-- `PluginSpecPrivate::setForceEnabled`. -/
def setForceEnabled (d : PluginSpec) (value : Bool) : PluginSpec :=
  let d1 := { d with forceEnabled := value }
  if value then { d1 with forceDisabled := false } else d1

/-- `PluginSpecPrivate::setForceDisabled`. -/
def setForceDisabled (d : PluginSpec) (value : Bool) : PluginSpec :=
  let d1 := if value then { d with forceEnabled := false } else d
  { d1 with forceDisabled := value }

/-- `PluginSpecPrivate::provides`. -/
def provides (E : QtEnv) (d : PluginSpec) (pluginName pluginVersion : QString) : Bool :=
  if compareCaseInsensitive E.foldCase pluginName d.name ≠ 0 then false
  else decide (versionCompare d.version pluginVersion ≥ 0)
    && decide (versionCompare d.compatVersion pluginVersion ≤ 0)

end PluginSpec

/-! ### `QString::arg` with several arguments

`s.arg(a1, a2)` replaces, in one pass, the lowest numbered place marker by the
first argument, the next one by the second, and so on. -/

/-- Place marker of the several-argument form starting right after a `%`
(`getEscape`): its number (at most 999) and its length after the `%`. -/
def multiEscapeAt (t : QString) : Option (Nat × Nat) :=
  let body : QString × Nat := match t with
    | 'L' :: r => (r, 1)
    | _ => (t, 0)
  let digits := body.1.takeWhile isDigit
  if digits ≠ [] ∧ decimalValue digits ≤ 999 then some (decimalValue digits, body.2 + digits.length)
  else none

/-- Numbers of all place markers of a string. -/
def multiArgNumbers : QString → List Nat
  | [] => []
  | c :: t =>
    if c = '%' then
      match multiEscapeAt t with
      | some (n, _) => n :: multiArgNumbers t
      | none => multiArgNumbers t
    else multiArgNumbers t

/-- One pass replacement of the markers listed in `table`. -/
def multiArgReplace (table : List (Nat × QString)) : Nat → QString → QString
  | _, [] => []
  | k + 1, _ :: t => multiArgReplace table k t
  | 0, c :: t =>
    if c = '%' then
      match multiEscapeAt t with
      | some (m, len) =>
        match table.lookup m with
        | some a => a ++ multiArgReplace table len t
        | none => c :: multiArgReplace table 0 t
      | none => c :: multiArgReplace table 0 t
    else c :: multiArgReplace table 0 t

/-- `QString::arg(a1, a2, ...)`. -/
def multiArg (s : QString) (args : List QString) : QString :=
  multiArgReplace (((multiArgNumbers s).dedup.insertionSort (fun a b => a ≤ b)).zip args) 0 s

/-! ### Reading the metadata -/

def PLUGIN_METADATA : String := "MetaData"
def PLUGIN_NAME : String := "Name"
def PLUGIN_VERSION : String := "Version"
def PLUGIN_COMPATVERSION : String := "CompatVersion"
def PLUGIN_REQUIRED : String := "Required"
def PLUGIN_EXPERIMENTAL : String := "Experimental"
def PLUGIN_DISABLED_BY_DEFAULT : String := "DisabledByDefault"
def VENDOR : String := "Vendor"
def COPYRIGHT : String := "Copyright"
def LICENSE : String := "License"
def DESCRIPTION : String := "Description"
def URL : String := "Url"
def CATEGORY : String := "Category"
def PLATFORM : String := "Platform"
def DEPENDENCIES : String := "Dependencies"
def DEPENDENCY_NAME : String := "Name"
def DEPENDENCY_VERSION : String := "Version"
def DEPENDENCY_TYPE : String := "Type"
def DEPENDENCY_TYPE_SOFT : String := "optional"
def DEPENDENCY_TYPE_HARD : String := "required"
def DEPENDENCY_TYPE_TEST : String := "test"
def ARGUMENTS : String := "Arguments"
def ARGUMENT_NAME : String := "Name"
def ARGUMENT_PARAMETER : String := "Parameter"
def ARGUMENT_DESCRIPTION : String := "Description"

def msgValueMissing (key : String) : QString :=
  arg (tr "\"%1\" is missing") (QLatin1String key)

def msgValueIsNotAString (key : String) : QString :=
  arg (tr "Value for key \"%1\" is not a string") (QLatin1String key)

def msgValueIsNotABool (key : String) : QString :=
  arg (tr "Value for key \"%1\" is not a bool") (QLatin1String key)

def msgValueIsNotAObjectArray (key : String) : QString :=
  arg (tr "Value for key \"%1\" is not an array of objects") (QLatin1String key)

def msgValueIsNotAMultilineString (key : String) : QString :=
  arg (tr "Value for key \"%1\" is not a string and not an array of strings") (QLatin1String key)

def msgInvalidFormat (key : String) (content : QString) : QString :=
  multiArg (tr "Value \"%2\" for key \"%1\" has invalid format") [QLatin1String key, content]

/-- Outcome of a function of `PluginSpecPrivate` that may leave early: the
value it returns there together with the members at that point. -/
abbrev Early := Except (Bool × PluginSpec) PluginSpec

namespace PluginSpec

/-- `PluginSpecPrivate::reportError`: records the error and returns `true`. -/
def reportError (d : PluginSpec) (err : QString) : Bool × PluginSpec :=
  (true, { d with errorString := err, hasError := true })

def setMetaData (d : PluginSpec) (v : QJsonObject) : PluginSpec := { d with metaData := v }
def setName (d : PluginSpec) (v : QString) : PluginSpec := { d with name := v }
def setVersion (d : PluginSpec) (v : QString) : PluginSpec := { d with version := v }
def setCompatVersion (d : PluginSpec) (v : QString) : PluginSpec := { d with compatVersion := v }
def setRequired (d : PluginSpec) (v : Bool) : PluginSpec := { d with required := v }
def setExperimental (d : PluginSpec) (v : Bool) : PluginSpec := { d with experimental := v }
def setVendor (d : PluginSpec) (v : QString) : PluginSpec := { d with vendor := v }
def setCopyright (d : PluginSpec) (v : QString) : PluginSpec := { d with copyright := v }
def setDescription (d : PluginSpec) (v : QString) : PluginSpec := { d with description := v }
def setUrl (d : PluginSpec) (v : QString) : PluginSpec := { d with url := v }
def setCategory (d : PluginSpec) (v : QString) : PluginSpec := { d with category := v }
def setLicense (d : PluginSpec) (v : QString) : PluginSpec := { d with license := v }
def setPlatformSpecification (d : PluginSpec) (v : QString) : PluginSpec :=
  { d with platformSpecification := v }
def appendDependency (d : PluginSpec) (dep : PluginDependency) : PluginSpec :=
  { d with dependencies := d.dependencies ++ [dep] }
def appendArgumentDescription (d : PluginSpec) (a : PluginArgumentDescription) : PluginSpec :=
  { d with argumentDescriptions := d.argumentDescriptions ++ [a] }

/-- Body of the loop over the `Dependencies` array in `readMetaData`. -/
def readDependency (E : QtEnv) (v : QJsonValue) (d : PluginSpec) : Early := do
  if !v.isObject then
    throw (d.reportError (msgValueIsNotAObjectArray DEPENDENCIES))
  let dependencyObject := v.toObject
  let value := dependencyObject.value (QLatin1String DEPENDENCY_NAME)
  if value.isUndefined then
    throw (d.reportError (arg (tr "Dependency: %1") (msgValueMissing DEPENDENCY_NAME)))
  if !value.isString then
    throw (d.reportError (arg (tr "Dependency: %1") (msgValueIsNotAString DEPENDENCY_NAME)))
  let depName := value.toQString []
  let value := dependencyObject.value (QLatin1String DEPENDENCY_VERSION)
  if !value.isUndefined && !value.isString then
    throw (d.reportError (arg (tr "Dependency: %1") (msgValueIsNotAString DEPENDENCY_VERSION)))
  let depVersion := value.toQString []
  if !isValidVersion depVersion then
    throw (d.reportError (arg (tr "Dependency: %1") (msgInvalidFormat DEPENDENCY_VERSION depVersion)))
  let value := dependencyObject.value (QLatin1String DEPENDENCY_TYPE)
  if !value.isUndefined && !value.isString then
    throw (d.reportError (arg (tr "Dependency: %1") (msgValueIsNotAString DEPENDENCY_TYPE)))
  if !value.isUndefined then
    let typeValue := value.toQString []
    if E.toLower typeValue = QLatin1String DEPENDENCY_TYPE_HARD then
      pure (d.appendDependency ⟨depName, depVersion, DependencyType.Required⟩)
    else if E.toLower typeValue = QLatin1String DEPENDENCY_TYPE_SOFT then
      pure (d.appendDependency ⟨depName, depVersion, DependencyType.Optional⟩)
    else if E.toLower typeValue = QLatin1String DEPENDENCY_TYPE_TEST then
      pure (d.appendDependency ⟨depName, depVersion, DependencyType.Test⟩)
    else
      throw (d.reportError (multiArg (tr "Dependency: \"%1\" must be \"%2\" or \"%3\" (is \"%4\").")
        [QLatin1String DEPENDENCY_TYPE, QLatin1String DEPENDENCY_TYPE_HARD,
         QLatin1String DEPENDENCY_TYPE_SOFT, typeValue]))
  else
    pure (d.appendDependency ⟨depName, depVersion, DependencyType.Required⟩)

/-- The loop over the `Dependencies` array. -/
def readDependencies (E : QtEnv) : List QJsonValue → PluginSpec → Early
  | [], d => pure d
  | v :: rest, d => do
    let d1 ← readDependency E v d
    readDependencies E rest d1

/-- Body of the loop over the `Arguments` array in `readMetaData`. -/
def readArgument (v : QJsonValue) (d : PluginSpec) : Early := do
  if !v.isObject then
    throw (d.reportError (msgValueIsNotAObjectArray ARGUMENTS))
  let argumentObject := v.toObject
  let value := argumentObject.value (QLatin1String ARGUMENT_NAME)
  if value.isUndefined then
    throw (d.reportError (arg (tr "Argument: %1") (msgValueMissing ARGUMENT_NAME)))
  if !value.isString then
    throw (d.reportError (arg (tr "Argument: %1") (msgValueIsNotAString ARGUMENT_NAME)))
  let argName := value.toQString []
  if argName.isEmpty then
    throw (d.reportError (arg (tr "Argument: \"%1\" is empty") (QLatin1String ARGUMENT_NAME)))
  let value := argumentObject.value (QLatin1String ARGUMENT_DESCRIPTION)
  if !value.isUndefined && !value.isString then
    throw (d.reportError (arg (tr "Argument: %1") (msgValueIsNotAString ARGUMENT_DESCRIPTION)))
  let argDescription := value.toQString []
  let value := argumentObject.value (QLatin1String ARGUMENT_PARAMETER)
  if !value.isUndefined && !value.isString then
    throw (d.reportError (arg (tr "Argument: %1") (msgValueIsNotAString ARGUMENT_PARAMETER)))
  let argParameter := value.toQString []
  pure (d.appendArgumentDescription ⟨argName, argParameter, argDescription⟩)

/-- The loop over the `Arguments` array. -/
def readArguments : List QJsonValue → PluginSpec → Early
  | [], d => pure d
  | v :: rest, d => do
    let d1 ← readArgument v d
    readArguments rest d1

/-! `PluginSpecPrivate::readMetaData` reads one key after the other; each key
is a step below, in the order of the source. A step that finds an error leaves
the function through `reportError`. -/

/-- The `IID` test: a file that is no plugin makes `readMetaData` return false. -/
def readIID (pluginIID : QString) (pluginMetaData : QJsonObject) (d : PluginSpec) : Early :=
  if !(pluginMetaData.value (QLatin1String "IID")).isString then Except.error (false, d)
  else if (pluginMetaData.value (QLatin1String "IID")).toQString [] ≠ pluginIID then
    Except.error (false, d)
  else Except.ok d

/-- The key `MetaData`. -/
def readMetaDataObject (pluginMetaData : QJsonObject) (d : PluginSpec) : Early :=
  if !(pluginMetaData.value (QLatin1String PLUGIN_METADATA)).isObject then
    Except.error (d.reportError (tr "Plugin meta data not found"))
  else Except.ok (d.setMetaData (pluginMetaData.value (QLatin1String PLUGIN_METADATA)).toObject)

/-- The key `Name`. -/
def readName (d : PluginSpec) : Early :=
  if (d.metaData.value (QLatin1String PLUGIN_NAME)).isUndefined then
    Except.error (d.reportError (msgValueMissing PLUGIN_NAME))
  else if !(d.metaData.value (QLatin1String PLUGIN_NAME)).isString then
    Except.error (d.reportError (msgValueIsNotAString PLUGIN_NAME))
  else Except.ok (d.setName ((d.metaData.value (QLatin1String PLUGIN_NAME)).toQString []))

/-- The key `Version`; the version is stored before its format is checked. -/
def readVersion (d : PluginSpec) : Early :=
  if (d.metaData.value (QLatin1String PLUGIN_VERSION)).isUndefined then
    Except.error (d.reportError (msgValueMissing PLUGIN_VERSION))
  else if !(d.metaData.value (QLatin1String PLUGIN_VERSION)).isString then
    Except.error (d.reportError (msgValueIsNotAString PLUGIN_VERSION))
  else if !isValidVersion ((d.metaData.value (QLatin1String PLUGIN_VERSION)).toQString []) then
    Except.error ((d.setVersion ((d.metaData.value (QLatin1String PLUGIN_VERSION)).toQString
      [])).reportError (msgInvalidFormat PLUGIN_VERSION
        ((d.metaData.value (QLatin1String PLUGIN_VERSION)).toQString [])))
  else Except.ok (d.setVersion ((d.metaData.value (QLatin1String PLUGIN_VERSION)).toQString []))

/-- The key `CompatVersion`, which defaults to the version. -/
def readCompatVersion (d : PluginSpec) : Early :=
  if !(d.metaData.value (QLatin1String PLUGIN_COMPATVERSION)).isUndefined
      && !(d.metaData.value (QLatin1String PLUGIN_COMPATVERSION)).isString then
    Except.error (d.reportError (msgValueIsNotAString PLUGIN_COMPATVERSION))
  else if !(d.metaData.value (QLatin1String PLUGIN_COMPATVERSION)).isUndefined
      && !isValidVersion ((d.metaData.value (QLatin1String PLUGIN_COMPATVERSION)).toQString
        d.version) then
    Except.error ((d.setCompatVersion ((d.metaData.value
      (QLatin1String PLUGIN_COMPATVERSION)).toQString d.version)).reportError
        (msgInvalidFormat PLUGIN_COMPATVERSION
          ((d.metaData.value (QLatin1String PLUGIN_COMPATVERSION)).toQString d.version)))
  else
    Except.ok (d.setCompatVersion
      ((d.metaData.value (QLatin1String PLUGIN_COMPATVERSION)).toQString d.version))

/-- The key `Required`. -/
def readRequired (d : PluginSpec) : Early :=
  if !(d.metaData.value (QLatin1String PLUGIN_REQUIRED)).isUndefined
      && !(d.metaData.value (QLatin1String PLUGIN_REQUIRED)).isBool then
    Except.error (d.reportError (msgValueIsNotABool PLUGIN_REQUIRED))
  else Except.ok (d.setRequired ((d.metaData.value (QLatin1String PLUGIN_REQUIRED)).toBool false))

/-- The key `Experimental`. -/
def readExperimental (d : PluginSpec) : Early :=
  if !(d.metaData.value (QLatin1String PLUGIN_EXPERIMENTAL)).isUndefined
      && !(d.metaData.value (QLatin1String PLUGIN_EXPERIMENTAL)).isBool then
    Except.error (d.reportError (msgValueIsNotABool PLUGIN_EXPERIMENTAL))
  else
    Except.ok (d.setExperimental
      ((d.metaData.value (QLatin1String PLUGIN_EXPERIMENTAL)).toBool false))

/-- The statements `if (experimental) enabledByDefault = false;` and
`enabledBySettings = enabledByDefault;`. -/
def applyExperimental (d : PluginSpec) : PluginSpec :=
  if d.experimental then (d.setEnabledByDefault false).setEnabledBySettings false
  else d.setEnabledBySettings d.enabledByDefault

/-- The key `DisabledByDefault`, and the defaults derived from it. -/
def readDisabledByDefault (d : PluginSpec) : Early :=
  if !(d.metaData.value (QLatin1String PLUGIN_DISABLED_BY_DEFAULT)).isUndefined
      && !(d.metaData.value (QLatin1String PLUGIN_DISABLED_BY_DEFAULT)).isBool then
    Except.error (d.reportError (msgValueIsNotABool PLUGIN_DISABLED_BY_DEFAULT))
  else
    Except.ok (d.setEnabledByDefault
      (!(d.metaData.value (QLatin1String PLUGIN_DISABLED_BY_DEFAULT)).toBool false)).applyExperimental

/-- The key `Vendor`. -/
def readVendor (d : PluginSpec) : Early :=
  if !(d.metaData.value (QLatin1String VENDOR)).isUndefined
      && !(d.metaData.value (QLatin1String VENDOR)).isString then
    Except.error (d.reportError (msgValueIsNotAString VENDOR))
  else Except.ok (d.setVendor ((d.metaData.value (QLatin1String VENDOR)).toQString []))

/-- The key `Copyright`. -/
def readCopyright (d : PluginSpec) : Early :=
  if !(d.metaData.value (QLatin1String COPYRIGHT)).isUndefined
      && !(d.metaData.value (QLatin1String COPYRIGHT)).isString then
    Except.error (d.reportError (msgValueIsNotAString COPYRIGHT))
  else Except.ok (d.setCopyright ((d.metaData.value (QLatin1String COPYRIGHT)).toQString []))

/-- The key `Description`, a string or an array of strings. -/
def readDescription (d : PluginSpec) : Early :=
  if (d.metaData.value (QLatin1String DESCRIPTION)).isUndefined then Except.ok d
  else
    match readMultiLineString (d.metaData.value (QLatin1String DESCRIPTION)) with
    | none => Except.error (d.reportError (msgValueIsNotAString DESCRIPTION))
    | some text => Except.ok (d.setDescription text)

/-- The key `Url`. -/
def readUrl (d : PluginSpec) : Early :=
  if !(d.metaData.value (QLatin1String URL)).isUndefined
      && !(d.metaData.value (QLatin1String URL)).isString then
    Except.error (d.reportError (msgValueIsNotAString URL))
  else Except.ok (d.setUrl ((d.metaData.value (QLatin1String URL)).toQString []))

/-- The key `Category`. -/
def readCategory (d : PluginSpec) : Early :=
  if !(d.metaData.value (QLatin1String CATEGORY)).isUndefined
      && !(d.metaData.value (QLatin1String CATEGORY)).isString then
    Except.error (d.reportError (msgValueIsNotAString CATEGORY))
  else Except.ok (d.setCategory ((d.metaData.value (QLatin1String CATEGORY)).toQString []))

/-- The key `License`, a string or an array of strings. -/
def readLicense (d : PluginSpec) : Early :=
  if (d.metaData.value (QLatin1String LICENSE)).isUndefined then Except.ok d
  else
    match readMultiLineString (d.metaData.value (QLatin1String LICENSE)) with
    | none => Except.error (d.reportError (msgValueIsNotAMultilineString LICENSE))
    | some text => Except.ok (d.setLicense text)

/-- The key `Platform`: a pattern that is not empty after trimming is stored
and must be a valid regular expression. -/
def readPlatform (E : QtEnv) (d : PluginSpec) : Early :=
  if !(d.metaData.value (QLatin1String PLATFORM)).isUndefined
      && !(d.metaData.value (QLatin1String PLATFORM)).isString then
    Except.error (d.reportError (msgValueIsNotAString PLATFORM))
  else if (E.trimmed ((d.metaData.value (QLatin1String PLATFORM)).toQString [])).isEmpty then
    Except.ok d
  else if !E.regexValid (E.trimmed ((d.metaData.value (QLatin1String PLATFORM)).toQString [])) then
    Except.error ((d.setPlatformSpecification
      (E.trimmed ((d.metaData.value (QLatin1String PLATFORM)).toQString []))).reportError
        (multiArg (tr "Invalid platform specification \"%1\": %2")
          [E.trimmed ((d.metaData.value (QLatin1String PLATFORM)).toQString []),
           E.regexError (E.trimmed ((d.metaData.value (QLatin1String PLATFORM)).toQString []))]))
  else
    Except.ok (d.setPlatformSpecification
      (E.trimmed ((d.metaData.value (QLatin1String PLATFORM)).toQString [])))

/-- The key `Dependencies`. -/
def readDependenciesKey (E : QtEnv) (d : PluginSpec) : Early :=
  if !(d.metaData.value (QLatin1String DEPENDENCIES)).isUndefined
      && !(d.metaData.value (QLatin1String DEPENDENCIES)).isArray then
    Except.error (d.reportError (msgValueIsNotAObjectArray DEPENDENCIES))
  else if (d.metaData.value (QLatin1String DEPENDENCIES)).isUndefined then Except.ok d
  else readDependencies E (d.metaData.value (QLatin1String DEPENDENCIES)).toArray d

/-- The key `Arguments`. -/
def readArgumentsKey (d : PluginSpec) : Early :=
  if !(d.metaData.value (QLatin1String ARGUMENTS)).isUndefined
      && !(d.metaData.value (QLatin1String ARGUMENTS)).isArray then
    Except.error (d.reportError (msgValueIsNotAObjectArray ARGUMENTS))
  else if (d.metaData.value (QLatin1String ARGUMENTS)).isUndefined then Except.ok d
  else readArguments (d.metaData.value (QLatin1String ARGUMENTS)).toArray d

/-- The steps of `readMetaData` in the order of the source. -/
def readMetaDataSteps (E : QtEnv) (pluginIID : QString) (pluginMetaData : QJsonObject) :
    List (PluginSpec → Early) :=
  [readIID pluginIID pluginMetaData, readMetaDataObject pluginMetaData, readName, readVersion,
   readCompatVersion, readRequired, readExperimental, readDisabledByDefault, readVendor,
   readCopyright, readDescription, readUrl, readCategory, readLicense, readPlatform E,
   readDependenciesKey E, readArgumentsKey]

/-- Runs steps one after the other until one leaves early. -/
def runSteps : List (PluginSpec → Early) → PluginSpec → Early
  | [], d => Except.ok d
  | step :: rest, d =>
    match step d with
    | Except.ok d1 => runSteps rest d1
    | Except.error r => Except.error r

/-- `PluginSpecPrivate::readMetaData`: the value returned and the members
afterwards. An error found in the metadata is recorded by `reportError`, whose
value `true` is what `readMetaData` then returns. -/
def readMetaData (E : QtEnv) (pluginIID : QString) (pluginMetaData : QJsonObject)
    (d : PluginSpec) : Bool × PluginSpec :=
  match runSteps (readMetaDataSteps E pluginIID pluginMetaData) d with
  | Except.ok d1 => (true, d1)
  | Except.error r => r

end PluginSpec

/-- What `QPluginLoader` finds for a library file: the absolute directory and
path (`QFileInfo`), whether the loader resolves the file name
(`loader.fileName()` not empty) and the embedded metadata. -/
structure PluginFile where
  absolutePath : QString
  absoluteFilePath : QString
  resolved : Bool
  metaData : QJsonObject

/-- `PluginSpecPrivate::read`. -/
def PluginSpec.read (E : QtEnv) (pluginIID : QString) (file : PluginFile) (d : PluginSpec) :
    Bool × PluginSpec :=
  let d1 := { d with
    name := [], version := [], compatVersion := [], vendor := [], copyright := [],
    license := [], description := [], url := [], category := [], location := [],
    state := State.Invalid, hasError := false, errorString := [], dependencies := [],
    metaData := [] }
  let d2 := { d1 with location := file.absolutePath, filePath := file.absoluteFilePath }
  if !file.resolved then (false, d2)
  else
    let r := d2.readMetaData E pluginIID file.metaData
    if !r.1 then (false, r.2)
    else (true, { r.2 with state := State.Read })

/-! ## Objects and addresses -/

/-- The `PluginSpec` objects by address. -/
abbrev Heap := Nat → PluginSpec

/-- Stores `d` at address `a`. -/
def Heap.set (heap : Heap) (a : Nat) (d : PluginSpec) : Heap :=
  fun x => if x = a then d else heap x

/-- `QHash::insert`: the value of a key already present is replaced in place, a
new entry is added and the entries are arranged anew. -/
def DependencyHash.insert (E : QtEnv) (h : DependencyHash) (key : PluginDependency)
    (value : Nat) : DependencyHash :=
  if h.any (fun e => decide (e.1 = key)) then
    h.map (fun e => if e.1 = key then (e.1, value) else e)
  else E.hashOrder (h ++ [(key, value)])

/-- `QString::operator<`: lexicographic order of the characters. -/
def qstringLess : QString → QString → Bool
  | [], [] => false
  | [], _ :: _ => true
  | _ :: _, [] => false
  | a :: as, b :: bs =>
    if a.toNat < b.toNat then true
    else if b.toNat < a.toNat then false
    else qstringLess as bs

/-! ## Dependency resolution (`PluginSpecPrivate`) -/

namespace PluginSpec

/-- Text appended by `resolveDependencies` for an unmatched required
dependency. -/
def msgCouldNotResolve (dependency : PluginDependency) : QString :=
  arg (arg (tr "Could not resolve dependency '%1(%2)'") dependency.name) dependency.version

/-- The statements of `resolveDependencies` for a required dependency that no
spec provides: the error flag is set and the message is appended, after a line
feed when there is a message already. -/
def recordUnresolved (d : PluginSpec) (dependency : PluginDependency) : PluginSpec :=
  let d1 := { d with hasError := true }
  let d2 := if !d1.errorString.isEmpty then { d1 with errorString := d1.errorString ++ ['\n'] }
    else d1
  { d2 with errorString := d2.errorString ++ msgCouldNotResolve dependency }

/-- The loop of `resolveDependencies` over the declared dependencies of the
spec at address `self`. -/
def resolveDependenciesLoop (E : QtEnv) (self : Nat) (specs : List Nat) :
    List PluginDependency → Heap → DependencyHash → Heap × DependencyHash
  | [], heap, resolvedDependencies => (heap, resolvedDependencies)
  | dependency :: rest, heap, resolvedDependencies =>
    match specs.find? (fun spec => (heap spec).provides E dependency.name dependency.version) with
    | none =>
      if dependency.type = DependencyType.Required then
        resolveDependenciesLoop E self specs rest
          (heap.set self ((heap self).recordUnresolved dependency)) resolvedDependencies
      else resolveDependenciesLoop E self specs rest heap resolvedDependencies
    | some found =>
      resolveDependenciesLoop E self specs rest heap
        (resolvedDependencies.insert E dependency found)

/-- `PluginSpecPrivate::resolveDependencies` from the test `state != Read` on. -/
def resolveDependenciesFromRead (E : QtEnv) (self : Nat) (specs : List Nat) (heap : Heap) :
    Bool × Heap :=
  if (heap self).state ≠ State.Read then
    (false, heap.set self { heap self with
      errorString := tr "Resolving dependencies failed because state != Read",
      hasError := true })
  else
    let r := resolveDependenciesLoop E self specs (heap self).dependencies heap []
    if (r.1 self).hasError then (false, r.1)
    else (true, r.1.set self { r.1 self with dependencySpecs := r.2, state := State.Resolved })

/-- The statement `if (state == PluginSpec::Resolved) state = PluginSpec::Read;`
of `resolveDependencies`. -/
def backToRead (self : Nat) (heap : Heap) : Heap :=
  if (heap self).state = State.Resolved then heap.set self { heap self with state := State.Read }
  else heap

/-- `PluginSpecPrivate::resolveDependencies` for the spec at address `self`. -/
def resolveDependencies (E : QtEnv) (self : Nat) (specs : List Nat) (heap : Heap) : Bool × Heap :=
  if (heap self).hasError then (false, heap)
  else resolveDependenciesFromRead E self specs (backToRead self heap)

/-- The loop of `PluginSpecPrivate::enableDependenciesIndirectly` over the
resolved dependencies. -/
def enableDependenciesIndirectlyLoop (E : QtEnv) (enableTestDependencies : Bool) :
    DependencyHash → Heap → List Nat → Heap × List Nat
  | [], heap, enabled => (heap, enabled)
  | (key, dependencySpec) :: rest, heap, enabled =>
    if key.type ≠ DependencyType.Required
        ∧ (enableTestDependencies = false ∨ key.type ≠ DependencyType.Test) then
      enableDependenciesIndirectlyLoop E enableTestDependencies rest heap enabled
    else if !(heap dependencySpec).isEffectivelyEnabled E then
      enableDependenciesIndirectlyLoop E enableTestDependencies rest
        (heap.set dependencySpec ((heap dependencySpec).setEnabledIndirectly true))
        (enabled ++ [dependencySpec])
    else enableDependenciesIndirectlyLoop E enableTestDependencies rest heap enabled

/-- `PluginSpecPrivate::enableDependenciesIndirectly` for the spec at address
`self`: the specs it enabled. -/
def enableDependenciesIndirectly (E : QtEnv) (self : Nat) (enableTestDependencies : Bool)
    (heap : Heap) : Heap × List Nat :=
  if !(heap self).isEffectivelyEnabled E then (heap, [])
  else enableDependenciesIndirectlyLoop E enableTestDependencies (heap self).dependencySpecs heap []

end PluginSpec

/-! ## Plugin manager -/

/-- The plugin callbacks and the library loader, by address of the spec. -/
structure Callbacks where
  /-- `loader.load()`. -/
  loaderLoad : Nat → Bool
  /-- `loader.errorString()`. -/
  loaderErrorString : Nat → QString
  /-- `qobject_cast<IPlugin*>(loader.instance())`. -/
  loaderInstance : Nat → Option Nat
  /-- `plugin->initialize(arguments, &err)`: the result and the message. -/
  pluginInitialize : Nat → List QString → Bool × QString
  /-- `plugin->delayedInitialize()`. -/
  delayedInitialize : Nat → Bool
  /-- `plugin->aboutToShutdown()` asks for an asynchronous shutdown. -/
  aboutToShutdownAsynchronous : Nat → Bool

/-- The members of `PluginManagerPrivate` used by the functions below;
`nextSpec` is the address the next `new PluginSpec` gets. -/
structure PluginManagerPrivate where
  heap : Heap
  nextSpec : Nat
  pluginSpecs : List Nat
  pluginCategories : List (QString × List Nat)
  pluginIID : QString
  defaultDisabledPlugins : List QString
  defaultEnabledPlugins : List QString
  disabledPlugins : List QString
  forceEnabledPlugins : List QString
  testSpecs : List Nat
  delayedInitializeQueue : List Nat
  asynchronousPlugins : List Nat
  allObjects : List Nat
  m_isInitializationDone : Bool
  enableCrashCheck : Bool
  arguments : List QString

/-- State of the recursion of `loadQueue`: the objects, the queue built so far
and the circularity check queue. -/
structure LoadQueueState where
  heap : Heap
  queue : List Nat
  circularityCheckQueue : List Nat

namespace PluginManagerPrivate

/-- The lines `name (version) depends on` of the circular dependency message. -/
def circularChain (heap : Heap) : List Nat → QString
  | [] => []
  | x :: rest =>
    arg (arg (tr "%1 (%2) depends on") (heap x).name) (heap x).version ++ '\n'
      :: circularChain heap rest

/-- The error text set by `loadQueue` on a spec met again on the circularity
check queue. -/
def msgCircular (heap : Heap) (spec : Nat) (circularityCheckQueue : List Nat) : QString :=
  tr "Circular dependency detected:" ++ '\n'
    :: (circularChain heap (circularityCheckQueue.drop (circularityCheckQueue.indexOf spec))
      ++ arg (arg (tr "%1 (%2)") (heap spec).name) (heap spec).version)

/-- The error text set by `loadQueue` on a spec whose dependency failed. -/
def msgDependencyFailed (heap : Heap) (depSpec : Nat) : QString :=
  arg (arg (arg (tr "Cannot load plugin because dependency failed to load: %1 (%2)\nReason: %3")
    (heap depSpec).name) (heap depSpec).version) (heap depSpec).errorString

/-- The loop of `loadQueue(spec, queue, circularityCheckQueue)` over the
resolved dependencies of `spec`; `recurse` is the recursive call. -/
def loadQueueDeps (recurse : Nat → LoadQueueState → Option (Bool × LoadQueueState)) (spec : Nat) :
    DependencyHash → LoadQueueState → Option (Bool × LoadQueueState)
  | [], st => some (true, st)
  | (key, depSpec) :: rest, st =>
    if key.type = DependencyType.Test then loadQueueDeps recurse spec rest st
    else
      match recurse depSpec st with
      | none => none
      | some (true, st1) => loadQueueDeps recurse spec rest st1
      | some (false, st1) =>
        some (false, { st1 with heap := st1.heap.set spec { st1.heap spec with
          hasError := true, errorString := msgDependencyFailed st1.heap depSpec } })

/-- `PluginManagerPrivate::loadQueue(spec, queue, circularityCheckQueue)`; the
first argument bounds the depth of the recursion, and the result is `none` when
the bound is reached. -/
def loadQueueSpec : Nat → Nat → LoadQueueState → Option (Bool × LoadQueueState)
  | 0, _, _ => none
  | fuel + 1, spec, st =>
    if st.queue.contains spec then some (true, st)
    else if st.circularityCheckQueue.contains spec then
      some (false, { st with heap := st.heap.set spec { st.heap spec with
        hasError := true,
        errorString := msgCircular st.heap spec st.circularityCheckQueue } })
    else
      let st1 := { st with circularityCheckQueue := st.circularityCheckQueue ++ [spec] }
      if (st1.heap spec).state = State.Invalid ∨ (st1.heap spec).state = State.Read then
        some (false, { st1 with queue := st1.queue ++ [spec] })
      else
        match loadQueueDeps (loadQueueSpec fuel) spec (st1.heap spec).dependencySpecs st1 with
        | none => none
        | some (false, st2) => some (false, st2)
        | some (true, st2) => some (true, { st2 with queue := st2.queue ++ [spec] })

/-- The loop of `PluginManagerPrivate::loadQueue()` over `pluginSpecs`. -/
def loadQueueLoop (fuel : Nat) : List Nat → Heap → List Nat → Option (Heap × List Nat)
  | [], heap, queue => some (heap, queue)
  | spec :: rest, heap, queue =>
    match loadQueueSpec fuel spec ⟨heap, queue, []⟩ with
    | none => none
    | some r => loadQueueLoop fuel rest r.2.heap r.2.queue

/-- `PluginManagerPrivate::loadQueue()`: the queue, and the manager with the
errors the function recorded. The recursion is bounded by the number of specs
plus one. -/
def loadQueue (m : PluginManagerPrivate) : Option (List Nat × PluginManagerPrivate) :=
  match loadQueueLoop (m.pluginSpecs.length + 1) m.pluginSpecs m.heap [] with
  | none => none
  | some r => some (r.2, { m with heap := r.1 })

/-- `PluginManagerPrivate::resolveDependencies`. -/
def resolveDependencies (E : QtEnv) (m : PluginManagerPrivate) : PluginManagerPrivate :=
  let heap1 := m.pluginSpecs.foldl
    (fun heap spec => (PluginSpec.resolveDependencies E spec m.pluginSpecs heap).2) m.heap
  { m with heap := heap1 }

/-- The `while (!queue.isEmpty())` loop of
`PluginManagerPrivate::enableDependenciesIndirectly`; the first argument bounds
the number of iterations, and the result is `none` when the bound is reached. -/
def enableDependenciesIndirectlyLoop (E : QtEnv) (testSpecs : List Nat) :
    Nat → List Nat → Heap → Option Heap
  | _, [], heap => some heap
  | 0, _ :: _, _ => none
  | fuel + 1, spec :: queue, heap =>
    let r := PluginSpec.enableDependenciesIndirectly E spec (testSpecs.contains spec) heap
    enableDependenciesIndirectlyLoop E testSpecs fuel (queue ++ r.2) r.1

/-- Bound on the iterations of the indirect-enable loop: twice the number of
specs and of resolved dependency entries, plus one. -/
def enableFuel (heap : Heap) (specs : List Nat) : Nat :=
  2 * (specs.map (fun spec => 1 + (heap spec).dependencySpecs.length)).sum + 1

/-- `PluginManagerPrivate::enableDependenciesIndirectly`. -/
def enableDependenciesIndirectly (E : QtEnv) (m : PluginManagerPrivate) :
    Option PluginManagerPrivate :=
  let heap1 := m.pluginSpecs.foldl
    (fun heap spec => heap.set spec ((heap spec).setEnabledIndirectly false)) m.heap
  let queue := m.pluginSpecs.filter (fun spec => (heap1 spec).isEffectivelyEnabled E)
  match enableDependenciesIndirectlyLoop E m.testSpecs (enableFuel heap1 m.pluginSpecs) queue heap1 with
  | none => none
  | some heap2 => some { m with heap := heap2 }

/-- `pluginCategories[category].append(spec)`. -/
def categoriesAppend (categories : List (QString × List Nat)) (category : QString) (spec : Nat) :
    List (QString × List Nat) :=
  if categories.any (fun e => decide (e.1 = category)) then
    categories.map (fun e => if e.1 = category then (e.1, e.2 ++ [spec]) else e)
  else categories ++ [(category, [spec])]

/-- Body of the loop of `readPluginPaths` over the plugin files. -/
def readPluginFile (E : QtEnv) (m : PluginManagerPrivate) (pluginFile : PluginFile) :
    PluginManagerPrivate :=
  let r := PluginSpec.read E m.pluginIID pluginFile PluginSpec.new
  if !r.1 then m
  else
    let spec1 := if r.2.enabledByDefault && m.defaultDisabledPlugins.contains r.2.name then
        (r.2.setEnabledByDefault false).setEnabledBySettings false
      else if !r.2.enabledByDefault && m.defaultEnabledPlugins.contains r.2.name then
        (r.2.setEnabledByDefault true).setEnabledBySettings true
      else r.2
    let spec2 := if !spec1.enabledByDefault && m.forceEnabledPlugins.contains spec1.name then
        spec1.setEnabledBySettings true
      else spec1
    let spec3 := if spec2.enabledByDefault && m.disabledPlugins.contains spec2.name then
        spec2.setEnabledBySettings false
      else spec2
    { m with
      heap := m.heap.set m.nextSpec spec3,
      nextSpec := m.nextSpec + 1,
      pluginCategories := categoriesAppend m.pluginCategories spec3.category m.nextSpec,
      pluginSpecs := m.pluginSpecs ++ [m.nextSpec] }

/-- `Utils::sort(pluginSpecs, &PluginSpec::name)`: a stable sort by name. -/
def sortByName (heap : Heap) (specs : List Nat) : List Nat :=
  specs.insertionSort (fun a b => qstringLess (heap b).name (heap a).name = false)

/-- `PluginManagerPrivate::readPluginPaths`, given the library files found
under the plugin paths in the order of their discovery. -/
def readPluginPaths (E : QtEnv) (files : List PluginFile) (m : PluginManagerPrivate) :
    Option PluginManagerPrivate :=
  let m1 := { m with pluginSpecs := [], pluginCategories := [([], [])] }
  let m2 := files.foldl (readPluginFile E) m1
  let m3 := m2.resolveDependencies E
  match m3.enableDependenciesIndirectly E with
  | none => none
  | some m4 => some { m4 with pluginSpecs := sortByName m4.heap m4.pluginSpecs }

end PluginManagerPrivate

/-! ## Phases of a plugin (`PluginSpecPrivate`) -/

namespace PluginSpec

/-- `PluginSpecPrivate::loadLibrary` for the spec at address `self`. -/
def loadLibrary (E : QtEnv) (C : Callbacks) (self : Nat) (d : PluginSpec) : Bool × PluginSpec :=
  if d.hasError then (false, d)
  else if d.state ≠ State.Resolved then
    if d.state = State.Loaded then (true, d)
    else (false, { d with
      errorString := tr "Loading the library failed because state != Resolved", hasError := true })
  else if !C.loaderLoad self then
    (false, { d with
      hasError := true,
      errorString := E.toNativeSeparators d.filePath ++ QLatin1String ": " ++ C.loaderErrorString self })
  else
    match C.loaderInstance self with
    | none => (false, { d with
        hasError := true,
        errorString := tr "Plugin is not valid (does not derive from IPlugin)" })
    | some pluginObject => (true, { d with state := State.Loaded, plugin := some pluginObject })

/-- `PluginSpecPrivate::initializePlugin` for the spec at address `self`. -/
def initializePlugin (C : Callbacks) (self : Nat) (d : PluginSpec) : Bool × PluginSpec :=
  if d.hasError then (false, d)
  else if d.state ≠ State.Loaded then
    if d.state = State.Initialized then (true, d)
    else (false, { d with
      errorString := tr "Initializing the plugin failed because state != Loaded", hasError := true })
  else if d.plugin.isNone then
    (false, { d with
      errorString := tr "Internal error: have no plugin instance to initialize", hasError := true })
  else if !(C.pluginInitialize self d.arguments).1 then
    (false, { d with
      errorString := arg (tr "Plugin initialization failed: %1") (C.pluginInitialize self d.arguments).2,
      hasError := true })
  else (true, { d with state := State.Initialized })

/-- `PluginSpecPrivate::initializeExtensions`. -/
def initializeExtensions (d : PluginSpec) : Bool × PluginSpec :=
  if d.hasError then (false, d)
  else if d.state ≠ State.Initialized then
    if d.state = State.Running then (true, d)
    else (false, { d with
      errorString := tr "Cannot perform extensionsInitialized because state != Initialized",
      hasError := true })
  else if d.plugin.isNone then
    (false, { d with
      errorString := tr "Internal error: have no plugin instance to perform extensionsInitialized",
      hasError := true })
  else (true, { d with state := State.Running })

/-- `PluginSpecPrivate::delayedInitialize` for the spec at address `self`. -/
def delayedInitialize (C : Callbacks) (self : Nat) (d : PluginSpec) : Bool × PluginSpec :=
  if d.hasError then (false, d)
  else if d.state ≠ State.Running then (false, d)
  else if d.plugin.isNone then
    (false, { d with
      errorString := tr "Internal error: have no plugin instance to perform delayedInitialize",
      hasError := true })
  else (C.delayedInitialize self, d)

/-- `PluginSpecPrivate::stop` for the spec at address `self`: whether the
plugin asks for an asynchronous shutdown. -/
def stop (C : Callbacks) (self : Nat) (d : PluginSpec) : Bool × PluginSpec :=
  if d.plugin.isNone then (false, d)
  else (C.aboutToShutdownAsynchronous self, { d with state := State.Stopped })

/-- `PluginSpecPrivate::kill`. -/
def kill (d : PluginSpec) : PluginSpec :=
  if d.plugin.isNone then d
  else { d with plugin := none, state := State.Deleted }

end PluginSpec

namespace PluginManagerPrivate

/-- The error text set by `loadPlugin` on a spec whose dependency is not in
the destination state. -/
def msgDependencyNotLoaded (heap : Heap) (depSpec : Nat) : QString :=
  arg (arg (arg (tr "Cannot load plugin because dependency failed to load: %1(%2)\nReason: %3")
    (heap depSpec).name) (heap depSpec).version) (heap depSpec).errorString

/-- The loop of `loadPlugin` over the resolved dependencies: the first required
dependency that is not in state `destState`. -/
def firstDependencyNotIn (heap : Heap) (destState : State) : DependencyHash → Option Nat
  | [] => none
  | (key, depSpec) :: rest =>
    if key.type ≠ DependencyType.Required then firstDependencyNotIn heap destState rest
    else if (heap depSpec).state ≠ destState then some depSpec
    else firstDependencyNotIn heap destState rest

/-- `PluginManagerPrivate::loadPlugin`. The lock file written while the
function runs is not part of the state. -/
def loadPlugin (E : QtEnv) (C : Callbacks) (spec : Nat) (destState : State)
    (m : PluginManagerPrivate) : PluginManagerPrivate :=
  if (m.heap spec).hasError ∨ ((m.heap spec).state.toNat : Int) ≠ (destState.toNat : Int) - 1 then m
  else if !(m.heap spec).isEffectivelyEnabled E && decide (destState = State.Loaded) then m
  else
    match destState with
    | State.Running => { m with heap := m.heap.set spec (m.heap spec).initializeExtensions.2 }
    | State.Deleted => { m with heap := m.heap.set spec (m.heap spec).kill }
    | _ =>
      match firstDependencyNotIn m.heap destState (m.heap spec).dependencySpecs with
      | some depSpec =>
        { m with heap := m.heap.set spec { m.heap spec with
            hasError := true, errorString := msgDependencyNotLoaded m.heap depSpec } }
      | none =>
        match destState with
        | State.Loaded =>
          { m with heap := m.heap.set spec ((m.heap spec).loadLibrary E C spec).2 }
        | State.Initialized =>
          { m with heap := m.heap.set spec ((m.heap spec).initializePlugin C spec).2 }
        | State.Stopped =>
          let r := (m.heap spec).stop C spec
          if r.1 then
            { m with
              heap := m.heap.set spec r.2,
              asynchronousPlugins :=
                if m.asynchronousPlugins.contains spec then m.asynchronousPlugins
                else m.asynchronousPlugins ++ [spec] }
          else { m with heap := m.heap.set spec r.2 }
        | _ => m

/-- Modelled from the spec: `Utils::reverseForeach` (utils/algorithm.h is not
part of the sources): the function is applied to the elements of the container
in reverse order, from the last to the first. -/
def reverseForeach (c : List Nat) (step : PluginManagerPrivate → Nat → PluginManagerPrivate)
    (m : PluginManagerPrivate) : PluginManagerPrivate :=
  c.reverse.foldl step m

/-- Body of the reverse loop of `loadPlugins`. -/
def loadPluginsRunning (E : QtEnv) (C : Callbacks) (m : PluginManagerPrivate) (spec : Nat) :
    PluginManagerPrivate :=
  let m1 := m.loadPlugin E C spec State.Running
  if (m1.heap spec).state = State.Running then
    { m1 with delayedInitializeQueue := m1.delayedInitializeQueue ++ [spec] }
  else { m1 with heap := m1.heap.set spec (m1.heap spec).kill }

/-- `PluginManagerPrivate::loadPlugins`, up to the start of the timer of the
delayed initialisation. -/
def loadPlugins (E : QtEnv) (C : Callbacks) (m : PluginManagerPrivate) :
    Option PluginManagerPrivate :=
  match m.loadQueue with
  | none => none
  | some (queue, m0) =>
    let m1 := queue.foldl (fun m spec => m.loadPlugin E C spec State.Loaded) m0
    let m2 := queue.foldl (fun m spec => m.loadPlugin E C spec State.Initialized) m1
    some (reverseForeach queue (loadPluginsRunning E C) m2)

/-- `PluginManagerPrivate::stopAll`; the timer of the delayed initialisation is
not part of the state. -/
def stopAll (E : QtEnv) (C : Callbacks) (m : PluginManagerPrivate) : Option PluginManagerPrivate :=
  match m.loadQueue with
  | none => none
  | some (queue, m0) => some (queue.foldl (fun m spec => m.loadPlugin E C spec State.Stopped) m0)

/-- `PluginManagerPrivate::deleteAll`. -/
def deleteAll (E : QtEnv) (C : Callbacks) (m : PluginManagerPrivate) : Option PluginManagerPrivate :=
  match m.loadQueue with
  | none => none
  | some (queue, m0) =>
    some (reverseForeach queue (fun m spec => m.loadPlugin E C spec State.Deleted) m0)

/-- `PluginManagerPrivate::asyncShutdownFinished` for the signal
`asynchronousShutdownFinished` of the plugin of `spec` (`sender()` is the
plugin, `plugin->pluginSpec()` its spec): the manager, and whether
`shutdownEventLoop->exit()` is called. `asynchronousPlugins` is a set. -/
def asyncShutdownFinished (m : PluginManagerPrivate) (spec : Nat) : PluginManagerPrivate × Bool :=
  let m1 := { m with asynchronousPlugins := m.asynchronousPlugins.filter (fun s => s ≠ spec) }
  (m1, m1.asynchronousPlugins.isEmpty)

/-- `shutdownEventLoop->exec()`: the slot `asyncShutdownFinished` runs for the
signals `asynchronousShutdownFinished` that arrive, given by the specs of the
sending plugins in order. The loop returns when the slot has called `exit()`;
when the signals end before, it does not return (`none`). -/
def shutdownEventLoopExec : List Nat → PluginManagerPrivate → Option PluginManagerPrivate
  | [], _ => none
  | spec :: rest, m =>
    if (m.asyncShutdownFinished spec).2 then some (m.asyncShutdownFinished spec).1
    else shutdownEventLoopExec rest (m.asyncShutdownFinished spec).1

/-- `PluginManagerPrivate::shutdown`; `finished` are the specs of the plugins
whose signal `asynchronousShutdownFinished` arrives while the event loop
runs. -/
def shutdown (E : QtEnv) (C : Callbacks) (finished : List Nat) (m : PluginManagerPrivate) :
    Option PluginManagerPrivate :=
  match m.stopAll E C with
  | none => none
  | some m1 =>
    if !m1.asynchronousPlugins.isEmpty then
      match shutdownEventLoopExec finished m1 with
      | none => none
      | some m2 => PluginManagerPrivate.deleteAll E C m2
    else PluginManagerPrivate.deleteAll E C m1

end PluginManagerPrivate

/-! ## Calls of the plugin and of its library loader -/

/-- A call that the plugin manager makes into a plugin or its library loader. -/
inductive Invocation where
  | loaderLoad (spec : Nat)
  | loaderInstance (spec : Nat)
  | loaderUnload (spec : Nat)
  | pluginInitialize (spec : Nat)
  | extensionsInitialized (spec : Nat)
  | delayedInitialize (spec : Nat)
  | aboutToShutdown (spec : Nat)
  | deletePlugin (spec : Nat)
  deriving DecidableEq, Repr

namespace PluginSpec

/-- The calls made by `loadLibrary`, in order. -/
def loadLibraryCalls (C : Callbacks) (self : Nat) (d : PluginSpec) : List Invocation :=
  if d.hasError then []
  else if d.state ≠ State.Resolved then []
  else if !C.loaderLoad self then [Invocation.loaderLoad self]
  else
    match C.loaderInstance self with
    | none => [Invocation.loaderLoad self, Invocation.loaderInstance self,
        Invocation.loaderUnload self]
    | some _ => [Invocation.loaderLoad self, Invocation.loaderInstance self]

/-- The calls made by `initializePlugin`. -/
def initializePluginCalls (self : Nat) (d : PluginSpec) : List Invocation :=
  if d.hasError then []
  else if d.state ≠ State.Loaded then []
  else if d.plugin.isNone then []
  else [Invocation.pluginInitialize self]

/-- The calls made by `initializeExtensions`. -/
def initializeExtensionsCalls (self : Nat) (d : PluginSpec) : List Invocation :=
  if d.hasError then []
  else if d.state ≠ State.Initialized then []
  else if d.plugin.isNone then []
  else [Invocation.extensionsInitialized self]

/-- The calls made by `delayedInitialize`. -/
def delayedInitializeCalls (self : Nat) (d : PluginSpec) : List Invocation :=
  if d.hasError then []
  else if d.state ≠ State.Running then []
  else if d.plugin.isNone then []
  else [Invocation.delayedInitialize self]

/-- The calls made by `stop`. -/
def stopCalls (self : Nat) (d : PluginSpec) : List Invocation :=
  if d.plugin.isNone then [] else [Invocation.aboutToShutdown self]

/-- The calls made by `kill`. -/
def killCalls (self : Nat) (d : PluginSpec) : List Invocation :=
  if d.plugin.isNone then [] else [Invocation.deletePlugin self]

end PluginSpec

/-- The calls made by `PluginManagerPrivate::loadPlugin`, in order. -/
def PluginManagerPrivate.loadPluginCalls (E : QtEnv) (C : Callbacks) (spec : Nat)
    (destState : State) (m : PluginManagerPrivate) : List Invocation :=
  if (m.heap spec).hasError ∨ ((m.heap spec).state.toNat : Int) ≠ (destState.toNat : Int) - 1 then []
  else if !(m.heap spec).isEffectivelyEnabled E && decide (destState = State.Loaded) then []
  else
    match destState with
    | State.Running => (m.heap spec).initializeExtensionsCalls spec
    | State.Deleted => (m.heap spec).killCalls spec
    | _ =>
      match PluginManagerPrivate.firstDependencyNotIn m.heap destState (m.heap spec).dependencySpecs with
      | some _ => []
      | none =>
        match destState with
        | State.Loaded => (m.heap spec).loadLibraryCalls C spec
        | State.Initialized => (m.heap spec).initializePluginCalls spec
        | State.Stopped => (m.heap spec).stopCalls spec
        | _ => []

/-! ## Sequences of calls -/

/-- A call of one of the functions that move a spec through its states. -/
inductive Call where
  | loadQueue
  | loadPlugin (spec : Nat) (destState : State)
  | loadPluginsRunning (spec : Nat)
  | resolveDependencies (spec : Nat) (specs : List Nat)
  | loadLibrary (spec : Nat)
  | initializePlugin (spec : Nat)
  | initializeExtensions (spec : Nat)
  | delayedInitialize (spec : Nat)
  | stop (spec : Nat)
  | kill (spec : Nat)
  | asyncShutdownFinished (spec : Nat)

/-- The manager after the call; `loadPluginsRunning` is the body of the reverse
loop of `loadPlugins`, `asyncShutdownFinished` the slot that runs in the event
loop of `shutdown`. -/
def Call.run (E : QtEnv) (C : Callbacks) (m : PluginManagerPrivate) : Call → PluginManagerPrivate
  | Call.loadQueue =>
    match m.loadQueue with
    | some r => r.2
    | none => m
  | Call.loadPlugin spec destState => m.loadPlugin E C spec destState
  | Call.loadPluginsRunning spec => PluginManagerPrivate.loadPluginsRunning E C m spec
  | Call.resolveDependencies spec specs =>
    { m with heap := (PluginSpec.resolveDependencies E spec specs m.heap).2 }
  | Call.loadLibrary spec => { m with heap := m.heap.set spec ((m.heap spec).loadLibrary E C spec).2 }
  | Call.initializePlugin spec =>
    { m with heap := m.heap.set spec ((m.heap spec).initializePlugin C spec).2 }
  | Call.initializeExtensions spec =>
    { m with heap := m.heap.set spec (m.heap spec).initializeExtensions.2 }
  | Call.delayedInitialize spec =>
    { m with heap := m.heap.set spec ((m.heap spec).delayedInitialize C spec).2 }
  | Call.stop spec => { m with heap := m.heap.set spec ((m.heap spec).stop C spec).2 }
  | Call.kill spec => { m with heap := m.heap.set spec (m.heap spec).kill }
  | Call.asyncShutdownFinished spec => (m.asyncShutdownFinished spec).1

/-- The calls that `PluginManagerPrivate` makes while loading and shutting down. -/
def Call.byManager : Call → Bool
  | Call.loadQueue => true
  | Call.loadPlugin _ _ => true
  | Call.loadPluginsRunning _ => true
  | Call.asyncShutdownFinished _ => true
  | _ => false

/-! ## Delayed initialization -/

/-- A signal emitted by the plugin manager or by an aggregate. -/
inductive Signal where
  | objectAdded (obj : Nat)
  | aboutToRemoveObject (obj : Nat)
  | initializationDone
  | changed (aggregate : Nat)
  deriving DecidableEq, Repr

/-- What one run of `nextDelayedInitialize` did: the manager afterwards, the
specs on which `delayedInitialize` was called with the value each call
returned, the signals emitted, and whether `delayedInitializeTimer` was started
again. -/
structure Tick where
  manager : PluginManagerPrivate
  called : List (Nat × Bool)
  emitted : List Signal
  timerStarted : Bool

/-- The `while` loop of `nextDelayedInitialize`: the queue that remains, the
objects, and the calls made. -/
def PluginManagerPrivate.nextDelayedInitializeLoop (C : Callbacks) :
    List Nat → Heap → List (Nat × Bool) → List Nat × Heap × List (Nat × Bool)
  | [], heap, called => ([], heap, called)
  | spec :: rest, heap, called =>
    if ((heap spec).delayedInitialize C spec).1 then
      (rest, heap.set spec ((heap spec).delayedInitialize C spec).2,
        called ++ [(spec, true)])
    else
      PluginManagerPrivate.nextDelayedInitializeLoop C rest
        (heap.set spec ((heap spec).delayedInitialize C spec).2) (called ++ [(spec, false)])

/-- `PluginManagerPrivate::nextDelayedInitialize`, the slot of the timer of the
delayed initialization. -/
def PluginManagerPrivate.nextDelayedInitialize (C : Callbacks) (m : PluginManagerPrivate) : Tick :=
  let r := PluginManagerPrivate.nextDelayedInitializeLoop C m.delayedInitializeQueue m.heap []
  if r.1.isEmpty then
    { manager := { m with heap := r.2.1, delayedInitializeQueue := r.1,
                          m_isInitializationDone := true },
      called := r.2.2, emitted := [Signal.initializationDone], timerStarted := false }
  else
    { manager := { m with heap := r.2.1, delayedInitializeQueue := r.1 },
      called := r.2.2, emitted := [], timerStarted := true }

/-- The runs of `nextDelayedInitialize` that follow each other as long as the
timer is started again; the first argument bounds their number, and the result
is `none` when the bound is reached. -/
def PluginManagerPrivate.delayedInitializeTicks (C : Callbacks) :
    Nat → PluginManagerPrivate → Option (List Tick)
  | 0, _ => none
  | fuel + 1, m =>
    if (m.nextDelayedInitialize C).timerStarted then
      (PluginManagerPrivate.delayedInitializeTicks C fuel (m.nextDelayedInitialize C).manager).map
        (fun ticks => m.nextDelayedInitialize C :: ticks)
    else some [m.nextDelayedInitialize C]

/-! ## Object pool -/

/-- `PluginManagerPrivate::addObject`; `none` is the null pointer. The result
holds the signals emitted. -/
def PluginManagerPrivate.addObject (m : PluginManagerPrivate) (obj : Option Nat) :
    PluginManagerPrivate × List Signal :=
  match obj with
  | none => (m, [])
  | some o =>
    if m.allObjects.contains o then (m, [])
    else ({ m with allObjects := m.allObjects ++ [o] }, [Signal.objectAdded o])

/-- `PluginManagerPrivate::removeObject`; `none` is the null pointer. The
signal `aboutToRemoveObject` is emitted before the object is removed. -/
def PluginManagerPrivate.removeObject (m : PluginManagerPrivate) (obj : Option Nat) :
    PluginManagerPrivate × List Signal :=
  match obj with
  | none => (m, [])
  | some o =>
    if !m.allObjects.contains o then (m, [])
    else ({ m with allObjects := m.allObjects.filter (fun x => x ≠ o) },
      [Signal.aboutToRemoveObject o])

/-! ## Aggregation (`aggregate.h`, `aggregate.cpp`)

Objects are addresses. The parent of an `Aggregate` as a `QObject` and the
locks are left out. -/

/-- The objects of the aggregation library: the static hash `aggregateMap()`,
the member `m_components` of each aggregate, the live `Aggregate` objects, the
connections from the signal `destroyed` of a component to the slot `deleteSelf`
of an aggregate, and the objects destroyed so far, in order. -/
structure AggregateWorld where
  aggregateMap : Nat → Option Nat
  m_components : Nat → List Nat
  isAggregate : Nat → Bool
  connections : List (Nat × Nat)
  destroyed : List Nat

namespace AggregateWorld

/-- No aggregate, an empty `aggregateMap()`. -/
def empty : AggregateWorld where
  aggregateMap := fun _ => none
  m_components := fun _ => []
  isAggregate := fun _ => false
  connections := []
  destroyed := []

/-- `aggregateMap().insert(key, value)`. -/
def mapInsert (w : AggregateWorld) (key value : Nat) : AggregateWorld :=
  { w with aggregateMap := fun x => if x = key then some value else w.aggregateMap x }

/-- `aggregateMap().remove(key)`. -/
def mapRemove (w : AggregateWorld) (key : Nat) : AggregateWorld :=
  { w with aggregateMap := fun x => if x = key then none else w.aggregateMap x }

/-- Assignment to `m_components` of the aggregate `aggregate`. -/
def setComponents (w : AggregateWorld) (aggregate : Nat) (l : List Nat) : AggregateWorld :=
  { w with m_components := fun x => if x = aggregate then l else w.m_components x }

/-- `connect(component, &QObject::destroyed, aggregate, &Aggregate::deleteSelf)`. -/
def connect (w : AggregateWorld) (component aggregate : Nat) : AggregateWorld :=
  { w with connections := w.connections ++ [(component, aggregate)] }

/-- `disconnect(component, &QObject::destroyed, aggregate, &Aggregate::deleteSelf)`. -/
def disconnect (w : AggregateWorld) (component aggregate : Nat) : AggregateWorld :=
  { w with connections := w.connections.filter (fun c => c ≠ (component, aggregate)) }

end AggregateWorld

namespace Aggregate

/-- `Aggregate::parentAggregate`: `aggregateMap().value(obj)`, null when there
is no entry. -/
def parentAggregate (w : AggregateWorld) (obj : Nat) : Option Nat := w.aggregateMap obj

/-- `Aggregate::Aggregate` for a new object at the address `this`. -/
def new (this : Nat) (w : AggregateWorld) : AggregateWorld :=
  { (w.setComponents this []).mapInsert this this with
    isAggregate := fun x => if x = this then true else w.isAggregate x }

/-- `Aggregate::add`; `none` is the null pointer. The result holds the signals
emitted. -/
def add (this : Nat) (component : Option Nat) (w : AggregateWorld) :
    AggregateWorld × List Signal :=
  match component with
  | none => (w, [])
  | some c =>
    match w.aggregateMap c with
    | some parentAggregation =>
      if parentAggregation = this then (w, []) else (w, [])
    | none =>
      ((((w.setComponents this (w.m_components this ++ [c])).connect c this).mapInsert c this),
        [Signal.changed this])

/-- `Aggregate::remove`; `none` is the null pointer. -/
def remove (this : Nat) (component : Option Nat) (w : AggregateWorld) :
    AggregateWorld × List Signal :=
  match component with
  | none => (w, [])
  | some c =>
    ((((w.mapRemove c).setComponents this ((w.m_components this).filter (fun x => x ≠ c))).disconnect
        c this),
      [Signal.changed this])

/-- `Aggregate::component<T>()`: the first component for which
`qobject_cast<T *>` succeeds (`isT`). -/
def component (isT : Nat → Bool) (this : Nat) (w : AggregateWorld) : Option Nat :=
  (w.m_components this).find? isT

end Aggregate

namespace Aggregation

/-- `Aggregation::query<T>(Aggregate *obj)`. -/
def queryAggregate (isT : Nat → Bool) (obj : Option Nat) (w : AggregateWorld) : Option Nat :=
  match obj with
  | none => none
  | some aggregate => Aggregate.component isT aggregate w

/-- `Aggregation::query<T>(QObject *obj)`. -/
def query (isT : Nat → Bool) (obj : Option Nat) (w : AggregateWorld) : Option Nat :=
  match obj with
  | none => none
  | some o =>
    if isT o then some o
    else
      match Aggregate.parentAggregate w o with
      | some parentAggregation => queryAggregate isT (some parentAggregation) w
      | none => none

end Aggregation

/-- `delete obj`, with the destructor `Aggregate::~Aggregate` when the object is
an aggregate, then `QObject::~QObject`, which emits `destroyed(obj)` to the
slots `Aggregate::deleteSelf` connected to it and removes the connections of
the object. The first argument bounds the depth of the nested deletions; the
result is `none` when the bound is reached. -/
def deleteObject : Nat → Nat → AggregateWorld → Option AggregateWorld
  | 0, _, _ => none
  | fuel + 1, obj, w =>
    let afterBody : Option AggregateWorld :=
      if w.isAggregate obj then
        -- `Aggregate::~Aggregate`
        let components := w.m_components obj
        let w1 := components.foldl (fun acc component =>
          (acc.disconnect component obj).mapRemove component) w
        let w2 := (w1.setComponents obj []).mapRemove obj
        -- `qDeleteAll(components)`
        components.foldl (fun acc component => acc.bind (deleteObject fuel component)) (some w2)
      else some w
    match afterBody with
    | none => none
    | some w3 =>
      -- `emit destroyed(obj)`: the slots `deleteSelf(obj)` of the aggregates connected
      let receivers := (w3.connections.filter (fun c => c.1 = obj)).map (fun c => c.2)
      let afterSlots : Option AggregateWorld :=
        receivers.foldl (fun acc aggregate =>
          acc.bind (fun a =>
            if a.connections.contains (obj, aggregate) then
              -- `Aggregate::deleteSelf`
              deleteObject fuel aggregate
                ((a.mapRemove obj).setComponents aggregate
                  ((a.m_components aggregate).filter (fun x => x ≠ obj)))
            else some a)) (some w3)
      match afterSlots with
      | none => none
      | some w4 =>
        some { w4 with
          connections := w4.connections.filter (fun c => c.1 ≠ obj ∧ c.2 ≠ obj),
          isAggregate := fun x => if x = obj then false else w4.isAggregate x,
          destroyed := w4.destroyed ++ [obj] }

/-- A call of the interface of `Aggregate`. -/
inductive AggregateCall where
  | construct (this : Nat)
  | add (this : Nat) (component : Option Nat)
  | remove (this : Nat) (component : Option Nat)
  deriving DecidableEq, Repr

/-- The objects after the call. -/
def AggregateCall.run (w : AggregateWorld) : AggregateCall → AggregateWorld
  | AggregateCall.construct this => Aggregate.new this w
  | AggregateCall.add this component => (Aggregate.add this component w).1
  | AggregateCall.remove this component => (Aggregate.remove this component w).1

/-! ## Reference definitions and scenarios -/

/-- Three-way lexicographic comparison of two lists of numbers. -/
def lexOrder : List Nat → List Nat → Int
  | a :: as, b :: bs => if a < b then -1 else if b < a then 1 else lexOrder as bs
  | _, _ => 0

/-- The four integer components (major, minor, patch, build) of a text that
matches the version format; a component that is absent counts as 0. -/
def versionComponents (v : QString) : Option (List Nat) :=
  (versionRegExpMatch v).map (fun m => [1, 2, 3, 4].map (fun i => decimalValue (captured m i)))

/-- The precedence of `isEffectivelyEnabled()` in the words of the
specification, on the five flags. -/
def effectivelyEnabledRule (available forceEnabled enabledIndirectly forceDisabled
    enabledBySettings : Bool) : Bool :=
  if available = false then false
  else if forceEnabled = true ∨ enabledIndirectly = true then true
  else if forceDisabled = true then false
  else enabledBySettings

/-- A call of `setForceEnabled(b)` or of `setForceDisabled(b)`. -/
inductive ForceCall where
  | setForceEnabled (value : Bool)
  | setForceDisabled (value : Bool)

/-- Effect of one call on a spec. -/
def ForceCall.run (d : PluginSpec) : ForceCall → PluginSpec
  | ForceCall.setForceEnabled value => d.setForceEnabled value
  | ForceCall.setForceDisabled value => d.setForceDisabled value

/-- ASCII lower case, the case folding of the characters `A` .. `Z`. -/
def asciiLower (c : Char) : Char :=
  if 'A'.toNat ≤ c.toNat ∧ c.toNat ≤ 'Z'.toNat then Char.ofNat (c.toNat + 32) else c

/-- ASCII white space. -/
def isAsciiSpace (c : Char) : Bool := c = ' ' || c = '\t' || c = '\n' || c = '\r'

/-- A host for the scenarios: ASCII texts, a `QHash` that iterates in the order
of insertion, every platform pattern valid and matching, platform `Linux`. -/
def plainEnv : QtEnv where
  foldCase := asciiLower
  qHashString := fun s => s.length
  hashOrder := fun l => l
  hashOrder_perm := fun l => List.Perm.refl l
  trimmed := fun s => ((s.dropWhile isAsciiSpace).reverse.dropWhile isAsciiSpace).reverse
  toLower := fun s => s.map asciiLower
  toNativeSeparators := fun s => s
  regexValid := fun _ => true
  regexError := fun _ => []
  regexHasMatch := fun _ _ => true
  platformName := "Linux".toList

/-- The plugin interface identifier of the scenarios. -/
def scenarioIID : QString := "org.qt-project.Qt.QtCreatorPlugin".toList

/-- Metadata of a plugin file: name, version, optional compatibility version
and required dependencies `(name, version)`. -/
def scenarioMetaData (name version : String) (compatVersion : Option String)
    (dependencies : List (String × String)) : QJsonObject :=
  [(QLatin1String "IID", QJsonValue.string scenarioIID),
   (QLatin1String PLUGIN_METADATA, QJsonValue.object (
     [(QLatin1String PLUGIN_NAME, QJsonValue.string name.toList),
      (QLatin1String PLUGIN_VERSION, QJsonValue.string version.toList)]
     ++ (match compatVersion with
        | some c => [(QLatin1String PLUGIN_COMPATVERSION, QJsonValue.string c.toList)]
        | none => [])
     ++ [(QLatin1String DEPENDENCIES, QJsonValue.array (dependencies.map (fun dep =>
          QJsonValue.object [(QLatin1String DEPENDENCY_NAME, QJsonValue.string dep.1.toList),
            (QLatin1String DEPENDENCY_VERSION, QJsonValue.string dep.2.toList)])))]))]

/-- A plugin library file with the given metadata. -/
def scenarioFile (name version : String) (compatVersion : Option String)
    (dependencies : List (String × String)) : PluginFile where
  absolutePath := "/plugins".toList
  absoluteFilePath := ("/plugins/lib" ++ name ++ ".so").toList
  resolved := true
  metaData := scenarioMetaData name version compatVersion dependencies

/-- A plugin manager before any plugin path was read. -/
def scenarioManager : PluginManagerPrivate where
  heap := fun _ => PluginSpec.new
  nextSpec := 0
  pluginSpecs := []
  pluginCategories := []
  pluginIID := scenarioIID
  defaultDisabledPlugins := []
  defaultEnabledPlugins := []
  disabledPlugins := []
  forceEnabledPlugins := []
  testSpecs := []
  delayedInitializeQueue := []
  asynchronousPlugins := []
  allObjects := []
  m_isInitializationDone := false
  enableCrashCheck := true
  arguments := []

/-- Libraries that all load, and plugins whose callbacks all succeed. -/
def scenarioCallbacks : Callbacks where
  loaderLoad := fun _ => true
  loaderErrorString := fun _ => []
  loaderInstance := fun spec => some spec
  pluginInitialize := fun _ _ => (true, [])
  delayedInitialize := fun _ => false
  aboutToShutdownAsynchronous := fun _ => false

/-- The spec read from a file with name `A`, version `1.0` and compatibility
version `2.0`. -/
def specCompatAboveVersion : Bool × PluginSpec :=
  PluginSpec.read plainEnv scenarioIID (scenarioFile "A" "1.0" (some "2.0") []) PluginSpec.new

/-- Two specs with the same name, version and compatibility version. -/
def sameIdentity (a b : PluginSpec) : Prop :=
  a.name = b.name ∧ a.version = b.version ∧ a.compatVersion = b.compatVersion

/-- Some spec of `specs` provides the dependency `dep`. -/
def dependencyMatched (E : QtEnv) (heap : Heap) (specs : List Nat) (dep : PluginDependency) : Prop :=
  ∃ s ∈ specs, (heap s).provides E dep.name dep.version = true

instance (E : QtEnv) (heap : Heap) (specs : List Nat) (dep : PluginDependency) :
    Decidable (dependencyMatched E heap specs dep) := by
  unfold dependencyMatched
  infer_instance

/-- Scenario: `A` 1.0 requires `B` 3.0 and only `B` 2.5 is present; the
manager after `readPluginPaths`. -/
def scenarioMissingVersion : Option PluginManagerPrivate :=
  PluginManagerPrivate.readPluginPaths plainEnv
    [scenarioFile "A" "1.0" none [("B", "3.0")], scenarioFile "B" "2.5" none []] scenarioManager

/-- A spec in state `Read` that requires a plugin named `%2` in version `1.0`. -/
def specRequiringPercent : PluginSpec :=
  { PluginSpec.new with
    name := "A".toList, version := "1.0".toList, compatVersion := "1.0".toList,
    state := State.Read,
    dependencies := [⟨"%2".toList, "1.0".toList, DependencyType.Required⟩] }

/-- A spec in state `Read` that requires a plugin named `B` in version `3.0`. -/
def specRequiringB : PluginSpec :=
  { PluginSpec.new with
    name := "A".toList, version := "1.0".toList, compatVersion := "1.0".toList,
    state := State.Read,
    dependencies := [⟨"B".toList, "3.0".toList, DependencyType.Required⟩] }

/-- Two heaps whose specs have the same states and resolved dependencies. -/
def sameGraph (h h' : Heap) : Prop :=
  ∀ s, (h s).state = (h' s).state ∧ (h s).dependencySpecs = (h' s).dependencySpecs

/-- The spec went through dependency resolution: its state is neither
`Invalid` nor `Read`. -/
def isResolved (d : PluginSpec) : Prop := d.state ≠ State.Invalid ∧ d.state ≠ State.Read

/-- A queue without repetition in which every resolved spec comes after all
the specs of its resolved dependencies that are not test dependencies. -/
def queueOrdered (heap : Heap) (queue : List Nat) : Prop :=
  queue.Nodup ∧ ∀ pre X post, queue = pre ++ X :: post → isResolved (heap X) →
    ∀ e ∈ (heap X).dependencySpecs, e.1.type ≠ DependencyType.Test → e.2 ∈ pre

/-- How a call of `loadQueue(spec, queue, circularityCheckQueue)` may change
its state: states and resolved dependencies stay, both queues only grow at the
end, a spec added to the queue was not on the circularity check queue before,
and an ordered queue stays ordered. -/
def loadQueueStep (st st' : LoadQueueState) : Prop :=
  sameGraph st.heap st'.heap
    ∧ st.queue <+: st'.queue
    ∧ st.circularityCheckQueue <+: st'.circularityCheckQueue
    ∧ (∀ y ∈ st'.queue, y ∈ st.queue ∨ y ∉ st.circularityCheckQueue)
    ∧ (queueOrdered st.heap st.queue → queueOrdered st'.heap st'.queue)

/-- The resolved dependencies of the specs of `specs` point into `specs`. -/
def dependenciesWithin (heap : Heap) (specs : List Nat) : Prop :=
  ∀ s ∈ specs, ∀ e ∈ (heap s).dependencySpecs, e.2 ∈ specs

/-- A function of the members has the same value before and after a step that
may leave early. -/
def keeps {α : Type} (f : PluginSpec → α) (d : PluginSpec) (r : Early) : Prop :=
  match r with
  | Except.ok d' => f d' = f d
  | Except.error e => f e.2 = f d

/-- The members that the steps of `readMetaData` never write. -/
def untouched (d : PluginSpec) : DependencyHash × State × Option Nat × Bool × Bool × Bool :=
  (d.dependencySpecs, d.state, d.plugin, d.enabledIndirectly, d.forceEnabled, d.forceDisabled)

/-- Two heaps that differ at most in `enabledIndirectly` flags that went from
false to true. -/
def onlyIndirectlyEnabled (h h' : Heap) : Prop :=
  ∀ s, h' s = h s ∨ h' s = (h s).setEnabledIndirectly true

/-- Cost of an entry of the work list of the indirect-enable loop: one for the
iteration, and one for each resolved dependency when the spec is available for
the host (only then can the iteration add entries). -/
def enableWeight (E : QtEnv) (h : Heap) (s : Nat) : Nat :=
  1 + (if (h s).isAvailableForHostPlatform E then (h s).dependencySpecs.length else 0)

/-- Cost reserved for a spec that is available for the host and not yet
effectively enabled: the cost of the entry it may become. -/
def enablePending (E : QtEnv) (h : Heap) (s : Nat) : Nat :=
  if (h s).isAvailableForHostPlatform E = true ∧ (h s).isEffectivelyEnabled E = false then
    1 + (h s).dependencySpecs.length
  else 0

/-- Measure of the indirect-enable loop for a work list and the specs `U`. -/
def enablePotential (E : QtEnv) (U : List Nat) (queue : List Nat) (h : Heap) : Nat :=
  (queue.map (enableWeight E h)).sum + (U.map (enablePending E h)).sum

/-- State of the specs right after the plugin files were read: each spec is
in state `Read` and has no resolved dependency yet. -/
def freshlyRead (heap : Heap) (specs : List Nat) : Prop :=
  ∀ s ∈ specs, (heap s).state = State.Read ∧ (heap s).dependencySpecs = []

/-- State of a spec after dependency resolution: still in `Read` without
resolved dependencies, or `Resolved` with resolved dependencies among `U`. -/
def resolutionDone (heap : Heap) (U : List Nat) (s : Nat) : Prop :=
  ((heap s).state = State.Read ∧ (heap s).dependencySpecs = [])
    ∨ ((heap s).state = State.Resolved ∧ ∀ e ∈ (heap s).dependencySpecs, e.2 ∈ U)

/-- The spec at `a` has a resolved dependency, other than a test dependency,
on the spec at `b`. -/
def dependsOn (heap : Heap) (a b : Nat) : Prop :=
  ∃ e ∈ (heap a).dependencySpecs, e.1.type ≠ DependencyType.Test ∧ e.2 = b

/-- The spec `d` after its library was loaded and gave the instance `p`. -/
def PluginSpec.asLoaded (d : PluginSpec) (p : Option Nat) : PluginSpec :=
  { d with state := State.Loaded, plugin := p }

/-- The spec `d` moved to the state `s`. -/
def PluginSpec.inState (d : PluginSpec) (s : State) : PluginSpec :=
  { d with state := s }

/-- Scenario: `Core` 2.0 (compatible down to 1.0) without dependency, `A`
requiring `Core` 1.5 and `B` requiring `A` 1.0; the manager after
`readPluginPaths`. -/
def scenarioChain : Option PluginManagerPrivate :=
  PluginManagerPrivate.readPluginPaths plainEnv
    [scenarioFile "Core" "2.0" (some "1.0") [], scenarioFile "A" "1.0" none [("Core", "1.5")],
     scenarioFile "B" "1.0" none [("A", "1.0")]] scenarioManager

/-- Scenario: three plugin files forming the required cycle `first` → `B` →
`C` → `first`; the manager after `readPluginPaths`. -/
def scenarioCycle (first : String) : Option PluginManagerPrivate :=
  PluginManagerPrivate.readPluginPaths plainEnv
    [scenarioFile first "1.0" none [("B", "1.0")], scenarioFile "B" "1.0" none [("C", "1.0")],
     scenarioFile "C" "1.0" none [(first, "1.0")]] scenarioManager

/-- Scenario: the only plugin file is `A` 1.0, which requires a plugin named
`%2` in version `1.0`; the manager after `readPluginPaths`. -/
def scenarioPercentDependency : Option PluginManagerPrivate :=
  PluginManagerPrivate.readPluginPaths plainEnv
    [scenarioFile "A" "1.0" none [("%2", "1.0")]] scenarioManager

/-- Two heaps that differ at most in errors that were recorded: `hasError` set
and a new `errorString`. -/
def errorsRecorded (h h' : Heap) : Prop :=
  ∀ s, h' s = h s ∨ ∃ msg, h' s = { h s with hasError := true, errorString := msg }

/-- Scenario: the plugin files `Core` and `B` without dependencies, with `B`
listed in the settings as disabled; the manager after `readPluginPaths`. -/
def scenarioDisabled : PluginManagerPrivate :=
  (PluginManagerPrivate.readPluginPaths plainEnv
    [scenarioFile "Core" "1.0" none [], scenarioFile "B" "1.0" none []]
    { scenarioManager with disabledPlugins := ["B".toList] }).getD scenarioManager

/-- No spec in state `Deleted` has a plugin instance: the state `Deleted` is
only set by `kill`, which clears the instance. -/
def deletedWithoutInstance (h : Heap) : Prop :=
  ∀ s, (h s).state = State.Deleted → (h s).plugin = none

/-- The members `d'` follow the members `d` of a spec without a step back in
the order of the states, and keep a deleted spec without instance. -/
def advances (d d' : PluginSpec) : Prop :=
  (d.state = State.Deleted → d.plugin = none) →
    d.state.toNat ≤ d'.state.toNat ∧ (d'.state = State.Deleted → d'.plugin = none)

/-- The resolved dependencies of the spec at `S` that indirect enabling follows
(required ones, and test ones when `S` is a test spec) are effectively enabled
as far as they are available for the host platform. -/
def dependenciesEnabled (E : QtEnv) (testSpecs : List Nat) (h : Heap) (S : Nat) : Prop :=
  ∀ e ∈ (h S).dependencySpecs,
    (e.1.type = DependencyType.Required
      ∨ (e.1.type = DependencyType.Test ∧ testSpecs.contains S = true)) →
    (h e.2).isAvailableForHostPlatform E = true → (h e.2).isEffectivelyEnabled E = true

/-- Scenario: `Core`, `A` (requires `Core`) and `B` (requires `A`) after
`readPluginPaths`, and then `setEnabledBySettings(false)` on `Core`. -/
def scenarioCoreDisabled : PluginManagerPrivate :=
  { scenarioChain.getD scenarioManager with
    heap := (scenarioChain.getD scenarioManager).heap.set 0
      (((scenarioChain.getD scenarioManager).heap 0).setEnabledBySettings false) }

/-! ### Structural violations of a metadata record -/

/-- The key is present with a value of another type than `isT` accepts. -/
def wrongType (isT : QJsonValue → Bool) (o : QJsonObject) (key : String) : Bool :=
  !(o.value (QLatin1String key)).isUndefined && !isT (o.value (QLatin1String key))

/-- The key is missing or its value is not a string. -/
def missingOrNotString (o : QJsonObject) (key : String) : Bool :=
  (o.value (QLatin1String key)).isUndefined || !(o.value (QLatin1String key)).isString

/-- The key is present and is neither a string nor an array of strings. -/
def notMultiLine (o : QJsonObject) (key : String) : Bool :=
  !(o.value (QLatin1String key)).isUndefined
    && (readMultiLineString (o.value (QLatin1String key))).isNone

/-- A malformed entry of the `Dependencies` array: not an object, `Name`
missing or not a string, `Version` not a string or of invalid format, `Type`
not a string or none of `required`, `optional`, `test`. -/
def dependencyMalformed (E : QtEnv) (v : QJsonValue) : Bool :=
  !v.isObject
    || missingOrNotString v.toObject DEPENDENCY_NAME
    || wrongType QJsonValue.isString v.toObject DEPENDENCY_VERSION
    || !isValidVersion ((v.toObject.value (QLatin1String DEPENDENCY_VERSION)).toQString [])
    || wrongType QJsonValue.isString v.toObject DEPENDENCY_TYPE
    || (!(v.toObject.value (QLatin1String DEPENDENCY_TYPE)).isUndefined
      && decide (E.toLower ((v.toObject.value (QLatin1String DEPENDENCY_TYPE)).toQString [])
          ≠ QLatin1String DEPENDENCY_TYPE_HARD)
      && decide (E.toLower ((v.toObject.value (QLatin1String DEPENDENCY_TYPE)).toQString [])
          ≠ QLatin1String DEPENDENCY_TYPE_SOFT)
      && decide (E.toLower ((v.toObject.value (QLatin1String DEPENDENCY_TYPE)).toQString [])
          ≠ QLatin1String DEPENDENCY_TYPE_TEST))

/-- A malformed entry of the `Arguments` array: not an object, `Name` missing,
not a string or empty, `Description` or `Parameter` not a string. -/
def argumentMalformed (v : QJsonValue) : Bool :=
  !v.isObject
    || missingOrNotString v.toObject ARGUMENT_NAME
    || ((v.toObject.value (QLatin1String ARGUMENT_NAME)).toQString []).isEmpty
    || wrongType QJsonValue.isString v.toObject ARGUMENT_DESCRIPTION
    || wrongType QJsonValue.isString v.toObject ARGUMENT_PARAMETER

/-- The structural violations of the object `MetaData`, key by key. -/
def metaDataViolations (E : QtEnv) (o : QJsonObject) : List Bool :=
  [missingOrNotString o PLUGIN_NAME,
   missingOrNotString o PLUGIN_VERSION
     || !isValidVersion ((o.value (QLatin1String PLUGIN_VERSION)).toQString []),
   wrongType QJsonValue.isString o PLUGIN_COMPATVERSION
     || (!(o.value (QLatin1String PLUGIN_COMPATVERSION)).isUndefined
       && !isValidVersion ((o.value (QLatin1String PLUGIN_COMPATVERSION)).toQString [])),
   wrongType QJsonValue.isBool o PLUGIN_REQUIRED,
   wrongType QJsonValue.isBool o PLUGIN_EXPERIMENTAL,
   wrongType QJsonValue.isBool o PLUGIN_DISABLED_BY_DEFAULT,
   wrongType QJsonValue.isString o VENDOR,
   wrongType QJsonValue.isString o COPYRIGHT,
   notMultiLine o DESCRIPTION,
   wrongType QJsonValue.isString o URL,
   wrongType QJsonValue.isString o CATEGORY,
   notMultiLine o LICENSE,
   wrongType QJsonValue.isString o PLATFORM
     || (!(E.trimmed ((o.value (QLatin1String PLATFORM)).toQString [])).isEmpty
       && !E.regexValid (E.trimmed ((o.value (QLatin1String PLATFORM)).toQString []))),
   wrongType QJsonValue.isArray o DEPENDENCIES
     || (o.value (QLatin1String DEPENDENCIES)).toArray.any (dependencyMalformed E),
   wrongType QJsonValue.isArray o ARGUMENTS
     || (o.value (QLatin1String ARGUMENTS)).toArray.any argumentMalformed]

/-- A metadata record has a structural violation: `MetaData` is not an object,
`Name` or `Version` is missing or not a string, `Version` or `CompatVersion`
has an invalid format, an optional key has a value of the wrong type, an entry
of `Dependencies` or `Arguments` is malformed, or `Platform` is not a valid
regular expression. -/
def structuralViolation (E : QtEnv) (pluginMetaData : QJsonObject) : Bool :=
  !(pluginMetaData.value (QLatin1String PLUGIN_METADATA)).isObject
    || (metaDataViolations E
      (pluginMetaData.value (QLatin1String PLUGIN_METADATA)).toObject).any (fun b => b)

/-- The record names the configured interface identifier. -/
def hasPluginIID (pluginIID : QString) (pluginMetaData : QJsonObject) : Bool :=
  (pluginMetaData.value (QLatin1String "IID")).isString
    && decide ((pluginMetaData.value (QLatin1String "IID")).toQString [] = pluginIID)

/-- Outcome of a step of `readMetaData` in terms of a violation `bad`: without
violation the step goes on and leaves the error members and the metadata alone,
with a violation it leaves through `reportError`. -/
def stepDecides (bad : Bool) (d : PluginSpec) (r : Early) : Prop :=
  match r with
  | Except.ok d' => bad = false ∧ d'.hasError = d.hasError ∧ d'.errorString = d.errorString
      ∧ d'.metaData = d.metaData
  | Except.error e => bad = true ∧ e.1 = true ∧ e.2.hasError = true ∧ e.2.errorString ≠ []

/-- A plugin file whose metadata has the configured interface identifier and an
object `MetaData` without the key `Name`. -/
def scenarioFileWithoutName : PluginFile where
  absolutePath := "/plugins".toList
  absoluteFilePath := "/plugins/libbroken.so".toList
  resolved := true
  metaData := [(QLatin1String "IID", QJsonValue.string scenarioIID),
    (QLatin1String PLUGIN_METADATA, QJsonValue.object
      [(QLatin1String PLUGIN_VERSION, QJsonValue.string "1.0".toList)])]

/-- The calls into plugins and loaders that a call makes in the manager `m`. -/
def Call.invocations (E : QtEnv) (C : Callbacks) (m : PluginManagerPrivate) :
    Call → List Invocation
  | Call.loadQueue => []
  | Call.loadPlugin spec destState => m.loadPluginCalls E C spec destState
  | Call.loadPluginsRunning spec =>
    m.loadPluginCalls E C spec State.Running
      ++ (if ((m.loadPlugin E C spec State.Running).heap spec).state = State.Running then []
        else ((m.loadPlugin E C spec State.Running).heap spec).killCalls spec)
  | Call.resolveDependencies _ _ => []
  | Call.loadLibrary spec => (m.heap spec).loadLibraryCalls C spec
  | Call.initializePlugin spec => (m.heap spec).initializePluginCalls spec
  | Call.initializeExtensions spec => (m.heap spec).initializeExtensionsCalls spec
  | Call.delayedInitialize spec => (m.heap spec).delayedInitializeCalls spec
  | Call.stop spec => (m.heap spec).stopCalls spec
  | Call.kill spec => (m.heap spec).killCalls spec
  | Call.asyncShutdownFinished _ => []

/-- The calls into plugins and loaders made by a sequence of calls, in order. -/
def invocationsOf (E : QtEnv) (C : Callbacks) : List Call → PluginManagerPrivate → List Invocation
  | [], _ => []
  | call :: rest, m => Call.invocations E C m call ++ invocationsOf E C rest (Call.run E C m call)

/-- The attempts of `loadPlugins()` for a load queue: the transition to
`Loaded` and then to `Initialized` for the specs in the order of the queue, and
the body of the reverse loop (transition to `Running`) from the last spec of
the queue to the first. -/
def loadPluginsAttempts (queue : List Nat) : List Call :=
  queue.map (fun spec => Call.loadPlugin spec State.Loaded)
    ++ queue.map (fun spec => Call.loadPlugin spec State.Initialized)
    ++ queue.reverse.map Call.loadPluginsRunning

/-- The attempts of `stopAll()` for a load queue. -/
def stopAllAttempts (queue : List Nat) : List Call :=
  queue.map (fun spec => Call.loadPlugin spec State.Stopped)

/-- The attempts of `deleteAll()` for a load queue: the transition to `Deleted`
from the last spec of the queue to the first. -/
def deleteAllAttempts (queue : List Nat) : List Call :=
  queue.reverse.map (fun spec => Call.loadPlugin spec State.Deleted)

/-- Every required resolved dependency of a spec in state `Initialized` is in
state `Initialized` or later. -/
def initializedAfterDependencies (h : Heap) : Prop :=
  ∀ X, (h X).state = State.Initialized → ∀ e ∈ (h X).dependencySpecs,
    e.1.type = DependencyType.Required → State.Initialized.toNat ≤ (h e.2).state.toNat

/-- The calls of `loadPlugins()` when `loadQueue()` returns `queue`. -/
def loadPluginsCalls (queue : List Nat) : List Call :=
  Call.loadQueue :: loadPluginsAttempts queue

/-- The calls of `shutdown()` when `loadQueue()` returns `stopQueue` in
`stopAll()` and `deleteQueue` in `deleteAll()`, and the slot
`asyncShutdownFinished` runs for the plugins of the specs `delivered` in the
event loop. -/
def shutdownCalls (stopQueue delivered deleteQueue : List Nat) : List Call :=
  Call.loadQueue :: stopAllAttempts stopQueue
    ++ delivered.map Call.asyncShutdownFinished
    ++ Call.loadQueue :: deleteAllAttempts deleteQueue

/-- The scenario `Core`, `A`, `B` with the heap restricted to the three specs
read from the files. -/
def scenarioChainManager : PluginManagerPrivate :=
  { scenarioChain.getD scenarioManager with
    heap := fun s => if s < 3 then (scenarioChain.getD scenarioManager).heap s else PluginSpec.new }

/-- Every required resolved dependency of a spec whose state has number `k` or
more has a state of number `k` or more. -/
def reachedAfterDependencies (k : Nat) (h : Heap) : Prop :=
  ∀ X, k ≤ (h X).state.toNat → ∀ e ∈ (h X).dependencySpecs,
    e.1.type = DependencyType.Required → k ≤ (h e.2).state.toNat

/-- Libraries that fail to load except the one of the spec at address 2;
plugins whose callbacks all succeed. -/
def callbacksLibrariesFail : Callbacks :=
  { scenarioCallbacks with
    loaderLoad := fun spec => decide (spec = 2),
    loaderErrorString := fun _ => "cannot load library".toList }

/-- The library of the spec at address 1 fails to load, and `initialize()` of
the plugin at address 0 fails. -/
def callbacksInitializeFails : Callbacks :=
  { scenarioCallbacks with
    loaderLoad := fun spec => decide (spec ≠ 1),
    loaderErrorString := fun _ => "cannot load library".toList,
    pluginInitialize := fun spec _ => (decide (spec ≠ 0), "no display".toList) }

/-- Scenario: the plugin files `Core` and `Lib` without dependencies and `A`,
which requires both; the manager after `readPluginPaths`. -/
def scenarioTwoDependencies : Option PluginManagerPrivate :=
  PluginManagerPrivate.readPluginPaths plainEnv
    [scenarioFile "Core" "1.0" none [], scenarioFile "Lib" "1.0" none [],
     scenarioFile "A" "1.0" none [("Core", "1.0"), ("Lib", "1.0")]] scenarioManager

/-- The scenario `Core`, `A`, `B` after `setForceDisabled(true)` on `Core`. -/
def scenarioCoreForceDisabled : PluginManagerPrivate :=
  { scenarioChain.getD scenarioManager with
    heap := (scenarioChain.getD scenarioManager).heap.set 0
      (((scenarioChain.getD scenarioManager).heap 0).setForceDisabled true) }

/-- A host platform that no platform specification matches. -/
def otherPlatformEnv : QtEnv :=
  { plainEnv with regexHasMatch := fun _ _ => false }

/-- The scenario `Core`, `A`, `B` with the heap restricted to the three specs,
in which `Core` is disabled in the settings and specified for the platform
`Windows`. -/
def scenarioCoreOtherPlatform : PluginManagerPrivate :=
  { scenarioChainManager with
    heap := scenarioChainManager.heap.set 0
      { (scenarioChainManager.heap 0).setEnabledBySettings false with
        platformSpecification := "Windows".toList } }

/-- Plugins whose callbacks all succeed; `delayedInitialize()` of the plugin at
address 1 returns true. -/
def callbacksDelayed : Callbacks :=
  { scenarioCallbacks with delayedInitialize := fun spec => decide (spec = 1) }

/-- Plugins whose callbacks all succeed; `aboutToShutdown()` of the plugin at
address 1 returns `AsynchronousShutdown`. -/
def callbacksAsynchronous : Callbacks :=
  { scenarioCallbacks with aboutToShutdownAsynchronous := fun spec => decide (spec = 1) }

/-- The calls of the sequence are made as the interface expects: an aggregate
is constructed at an address that is in no component list, and `remove` is
called with a component that has no entry in `aggregateMap()` or is mapped to
the aggregate it is removed from. -/
def AggregateCall.ownRemoves : AggregateWorld → List AggregateCall → Prop
  | _, [] => True
  | w, AggregateCall.construct this :: rest =>
    (∀ A, this ∉ w.m_components A) ∧
      AggregateCall.ownRemoves (AggregateCall.run w (AggregateCall.construct this)) rest
  | w, AggregateCall.add this component :: rest =>
    AggregateCall.ownRemoves (AggregateCall.run w (AggregateCall.add this component)) rest
  | w, AggregateCall.remove this none :: rest =>
    AggregateCall.ownRemoves (AggregateCall.run w (AggregateCall.remove this none)) rest
  | w, AggregateCall.remove this (some c) :: rest =>
    (w.aggregateMap c = none ∨ w.aggregateMap c = some this) ∧
      AggregateCall.ownRemoves (AggregateCall.run w (AggregateCall.remove this (some c))) rest

/-- The objects after `Z = new Aggregate; Z->add(X); Z->add(Y)`, starting
without aggregates. -/
def scenarioBundle (X Y Z : Nat) : AggregateWorld :=
  (Aggregate.add Z (some Y) (Aggregate.add Z (some X) (Aggregate.new Z AggregateWorld.empty)).1).1

/-! ## Crash check -/

/-- `PluginSpec::isRequired`. -/
def PluginSpec.isRequired (d : PluginSpec) : Bool := d.required

/-- `PluginSpec::requiresAny`: some key of the resolved dependencies is of type
`Required` and its value is in `plugins`. The keys of the hash are pairwise
different, so the value of a key is the value of its entry. -/
def PluginSpec.requiresAny (d : PluginSpec) (plugins : List Nat) : Bool :=
  d.dependencySpecs.any (fun e =>
    decide (e.1.type = DependencyType.Required) && plugins.contains e.2)

/-- `PluginManagerPrivate::pluginByName`: `Utils::findOrDefault` (utils/algorithm.h
is not part of the sources) gives the first spec of `pluginSpecs` with that
name, null when there is none. -/
def PluginManagerPrivate.pluginByName (m : PluginManagerPrivate) (name : QString) : Option Nat :=
  m.pluginSpecs.find? (fun spec => decide ((m.heap spec).name = name))

/-- The loop of `PluginManager::pluginsRequiringPlugin` over the load queue;
`dependingPlugins` is the set, as the list of its elements. -/
def pluginsRequiringPluginLoop (heap : Heap) : List Nat → List Nat → List Nat
  | [], dependingPlugins => dependingPlugins
  | spec :: rest, dependingPlugins =>
    if (heap spec).requiresAny dependingPlugins then
      pluginsRequiringPluginLoop heap rest
        (if dependingPlugins.contains spec then dependingPlugins else dependingPlugins ++ [spec])
    else pluginsRequiringPluginLoop heap rest dependingPlugins

/-- `PluginManager::pluginsRequiringPlugin`: the set, and the manager with the
errors recorded by `loadQueue()`. -/
def PluginManagerPrivate.pluginsRequiringPlugin (m : PluginManagerPrivate) (spec : Nat) :
    Option (List Nat × PluginManagerPrivate) :=
  match m.loadQueue with
  | none => none
  | some (queue, m1) =>
    some ((pluginsRequiringPluginLoop m1.heap queue [spec]).filter (fun s => s ≠ spec), m1)

/-- `LockFile::lockedPluginName`; `lockFileLine` is the first line of the lock
file, `none` when the file does not exist or cannot be read. -/
def lockedPluginName (E : QtEnv) (lockFileLine : Option QString) : Option QString :=
  match lockFileLine with
  | none => none
  | some line => some (E.trimmed line)

/-- `PluginManagerPrivate::checkForProblematicPlugins`; `disableClicked` tells
whether the user closes the dialog with the button "Disable Plugin". The texts
of the dialog are left out. -/
def PluginManagerPrivate.checkForProblematicPlugins (E : QtEnv) (lockFileLine : Option QString)
    (disableClicked : Bool) (m : PluginManagerPrivate) : Option PluginManagerPrivate :=
  if !m.enableCrashCheck then some m
  else
    match lockedPluginName E lockFileLine with
    | none => some m
    | some pluginName =>
      match m.pluginByName pluginName with
      | none => some m
      | some spec =>
        if (m.heap spec).isRequired then some m
        else
          match m.pluginsRequiringPlugin spec with
          | none => none
          | some (dependents, m1) =>
            if disableClicked then
              let heap1 := m1.heap.set spec ((m1.heap spec).setForceDisabled true)
              let heap2 := dependents.foldl
                (fun heap other => heap.set other ((heap other).setForceDisabled true)) heap1
              PluginManagerPrivate.enableDependenciesIndirectly E { m1 with heap := heap2 }
            else some m1

/-- The spec at `a` went through dependency resolution and has a resolved
dependency of type `Required` on the spec at `b`. -/
def requiresSpec (heap : Heap) (a b : Nat) : Prop :=
  isResolved (heap a) ∧ ∃ e ∈ (heap a).dependencySpecs, e.1.type = DependencyType.Required ∧ e.2 = b

/-- Scenario: `Foo` without dependency, `A` requiring `Foo` and `B`, `B`
requiring `A`, and `C` requiring `Foo`; the manager after `readPluginPaths`. -/
def scenarioCrash : Option PluginManagerPrivate :=
  PluginManagerPrivate.readPluginPaths plainEnv
    [scenarioFile "Foo" "1.0" none [], scenarioFile "A" "1.0" none [("Foo", "1.0"), ("B", "1.0")],
     scenarioFile "B" "1.0" none [("A", "1.0")], scenarioFile "C" "1.0" none [("Foo", "1.0")]]
    scenarioManager

/-- `PluginDependency::operator==`. -/
def PluginDependency.eq (self other : PluginDependency) : Bool :=
  decide (self.name = other.name) && decide (self.version = other.version)
    && decide (self.type = other.type)

/-- `ExtensionSystem::qHash(const PluginDependency &)`. -/
def qHash (E : QtEnv) (value : PluginDependency) : Nat := E.qHashString value.name

/-- Scenario: `Core` without dependency, `A` and `B` requiring `Core`, and `D`
requiring `A` and `B`; the manager after `readPluginPaths`. -/
def scenarioDiamond : Option PluginManagerPrivate :=
  PluginManagerPrivate.readPluginPaths plainEnv
    [scenarioFile "Core" "1.0" none [], scenarioFile "A" "1.0" none [("Core", "1.0")],
     scenarioFile "B" "1.0" none [("Core", "1.0")],
     scenarioFile "D" "1.0" none [("A", "1.0"), ("B", "1.0")]] scenarioManager

/-- The spec at `a` has a resolved dependency of type `Required` on the spec at
`b`. -/
def requiresDirectly (heap : Heap) (a b : Nat) : Prop :=
  ∃ e ∈ (heap a).dependencySpecs, e.1.type = DependencyType.Required ∧ e.2 = b

/-- `PluginManagerPrivate::writeSettings`, with a settings object: the lists
stored under the keys `Plugins/Ignored` and `Plugins/ForceEnabled`. -/
def PluginManagerPrivate.writeSettings (m : PluginManagerPrivate) :
    List QString × List QString :=
  m.pluginSpecs.foldl (fun (lists : List QString × List QString) spec =>
    let tempDisabledPlugins :=
      if (m.heap spec).enabledByDefault && !(m.heap spec).enabledBySettings then
        lists.1 ++ [(m.heap spec).name]
      else lists.1
    let tempForceEnabledPlugins :=
      if !(m.heap spec).enabledByDefault && (m.heap spec).enabledBySettings then
        lists.2 ++ [(m.heap spec).name]
      else lists.2
    (tempDisabledPlugins, tempForceEnabledPlugins)) ([], [])

/-- The members `enabledBySettings` and `enabledByDefault`. -/
def enabledMembers (d : PluginSpec) : Bool × Bool := (d.enabledBySettings, d.enabledByDefault)

/-- At the end of a step, `enabledBySettings` has the value of
`enabledByDefault`. -/
def settingsAtDefault (r : Early) : Prop :=
  match r with
  | Except.ok d => d.enabledBySettings = d.enabledByDefault
  | Except.error e => e.2.enabledBySettings = e.2.enabledByDefault

/-- A plugin library file whose metadata has the key `DisabledByDefault` set. -/
def scenarioFileDisabledByDefault (name version : String) : PluginFile where
  absolutePath := "/plugins".toList
  absoluteFilePath := ("/plugins/lib" ++ name ++ version ++ ".so").toList
  resolved := true
  metaData := [(QLatin1String "IID", QJsonValue.string scenarioIID),
    (QLatin1String PLUGIN_METADATA, QJsonValue.object
      [(QLatin1String PLUGIN_NAME, QJsonValue.string name.toList),
       (QLatin1String PLUGIN_VERSION, QJsonValue.string version.toList),
       (QLatin1String PLUGIN_DISABLED_BY_DEFAULT, QJsonValue.bool true)])]

/-- Scenario: two plugin files named `A`, version 1.0 enabled by default and
version 2.0 disabled by default; the manager after `readPluginPaths`. -/
def scenarioSameNameRead : PluginManagerPrivate :=
  (PluginManagerPrivate.readPluginPaths plainEnv
    [scenarioFile "A" "1.0" none [], scenarioFileDisabledByDefault "A" "2.0"]
    scenarioManager).getD scenarioManager

/-- The scenario of the two plugins named `A` after the user disabled version
1.0 and enabled version 2.0 (`PluginSpec::setEnabledBySettings`). -/
def scenarioSameName : PluginManagerPrivate :=
  { scenarioSameNameRead with
    heap := (scenarioSameNameRead.heap.set 0
        ((scenarioSameNameRead.heap 0).setEnabledBySettings false)).set 1
      ((scenarioSameNameRead.heap 1).setEnabledBySettings true) }

/-- The manager about to read the plugin files again, with the lists written by
the scenario `Core`, `B` in which `B` is disabled by the user. -/
def scenarioReadBack : PluginManagerPrivate :=
  { scenarioManager with
    disabledPlugins := scenarioDisabled.writeSettings.1,
    forceEnabledPlugins := scenarioDisabled.writeSettings.2 }

/-! ## Arguments for a running instance -/

/-- `QStringList::join(QChar)`. -/
def joinWith (sep : Char) : List QString → QString
  | [] => []
  | [a] => a
  | a :: b :: rest => a ++ sep :: joinWith sep (b :: rest)

/-- `QString::split(QChar)`: the parts between the separators, empty parts
kept; the empty text has one empty part. -/
def split (sep : Char) : QString → List QString
  | [] => [[]]
  | c :: r =>
    if c = sep then [] :: split sep r
    else
      match split sep r with
      | part :: parts => (c :: part) :: parts
      | [] => [[c]]

def argumentKeywordC : QString := ":arguments".toList
def pwdKeywordC : QString := ":pwd".toList

/-- `QString::startsWith(QChar)`. -/
def startsWith (s : QString) (c : Char) : Bool := s.head? == some c

/-- `PluginManager::serializedArguments`; `currentPath` is
`QDir::currentPath()`. -/
def PluginManagerPrivate.serializedArguments (m : PluginManagerPrivate) (currentPath : QString) :
    QString :=
  let rc1 := m.pluginSpecs.foldl (fun (rc : QString) ps =>
    if !(m.heap ps).arguments.isEmpty then
      (if !rc.isEmpty then rc ++ ['|'] else rc) ++ [':'] ++ (m.heap ps).name ++ ['|']
        ++ joinWith '|' (m.heap ps).arguments
    else rc) []
  let rc2 := if !rc1.isEmpty then rc1 ++ ['|'] else rc1
  let rc3 := rc2 ++ (pwdKeywordC ++ ['|'] ++ currentPath)
  if !m.arguments.isEmpty then
    m.arguments.foldl (fun (rc : QString) argument => rc ++ ('|' :: argument))
      ((if !rc3.isEmpty then rc3 ++ ['|'] else rc3) ++ argumentKeywordC)
  else rc3

/-- The static function `subList` of pluginmanager.cpp: the items after the
first item equal to `key`, up to the end or to the next item that starts with
a colon. -/
def subList (input : List QString) (key : QString) : List QString :=
  match input.dropWhile (fun x => decide (x ≠ key)) with
  | [] => []
  | _ :: rest => rest.takeWhile (fun x => !startsWith x ':')

/-- `PluginManager::remoteArguments`: the calls
`remoteCommand(pluginOptions, workingDirectory, arguments)` it makes, with the
spec of the plugin called. The socket is left out. -/
def PluginManagerPrivate.remoteArguments (m : PluginManagerPrivate)
    (serializedArgument : QString) : List (Nat × List QString × QString × List QString) :=
  if serializedArgument.isEmpty then []
  else
    let serializedArguments := split '|' serializedArgument
    let pwdValue := subList serializedArguments pwdKeywordC
    let workingDirectory := if pwdValue.isEmpty then [] else pwdValue.headD []
    let arguments := subList serializedArguments argumentKeywordC
    (m.pluginSpecs.filter (fun ps => decide ((m.heap ps).state = State.Running))).map
      (fun ps => (ps, subList serializedArguments (':' :: (m.heap ps).name), workingDirectory,
        arguments))

/-- The items of the serialized arguments for the plugins `specs`: for each
plugin with arguments, the colon and its name, then its arguments. -/
def pluginTokens (heap : Heap) : List Nat → List QString
  | [] => []
  | ps :: rest =>
    (if (heap ps).arguments = [] then [] else (':' :: (heap ps).name) :: (heap ps).arguments)
      ++ pluginTokens heap rest

/-- The items of the serialized arguments after those of the plugins. -/
def tailTokens (currentPath : QString) (arguments : List QString) : List QString :=
  pwdKeywordC :: currentPath :: (if arguments = [] then [] else argumentKeywordC :: arguments)

/-- A running plugin with the given name and arguments. -/
def scenarioRunningSpec (name : String) (arguments : List String) : PluginSpec :=
  { PluginSpec.new with
    name := name.toList
    state := State.Running
    arguments := arguments.map String.toList }

/-- Scenario: the plugins `Core` and `A` running, `A` with the arguments `-x`
and the empty text, the manager with the argument `file.txt`. -/
def scenarioArguments : PluginManagerPrivate :=
  { scenarioManager with
    heap := fun s =>
      if s = 0 then scenarioRunningSpec "Core" [] else scenarioRunningSpec "A" ["-x", ""]
    nextSpec := 2
    pluginSpecs := [1, 0]
    arguments := ["file.txt".toList] }

/-! ## ANSI escape codes (`utils/ansiescapecodehandler.cpp`) -/

/-- A `QColor`: invalid, given by red, green and blue, or made lighter by a
factor (`QColor::lighter`). -/
inductive QColor where
  | invalid
  | rgb (red green blue : Int)
  | lighter (color : QColor) (factor : Int)
  deriving DecidableEq, Repr

/-- The members of a `QTextCharFormat` that `parseText` sets; `none` is the
brush of a format that has none. -/
structure QTextCharFormat where
  foreground : Option QColor
  background : Option QColor
  bold : Bool
  deriving DecidableEq, Repr

/-- `FormattedText`. -/
structure FormattedText where
  text : QString
  format : QTextCharFormat
  deriving DecidableEq, Repr

/-- The members of `AnsiEscapeCodeHandler`. -/
structure AnsiEscapeCodeHandler where
  m_previousFormatClosed : Bool
  m_previousFormat : QTextCharFormat
  m_pendingText : QString
  m_waitingForTerminator : Bool
  m_alternateTerminator : QString
  deriving DecidableEq, Repr

/-- What stops `parseText` in the model: an index `k` passed to `numbers.at`
that is not below `numbers.size()`, or the bound on the iterations of a loop. -/
inductive AnsiFault where
  | outOfRange (k size : Nat)
  | outOfFuel
  deriving DecidableEq, Repr

/-- Largest `uint` (32 bit). -/
def UINT_MAX : Nat := 4294967295

/-- `QString::toUInt()`: the value of a non-empty string of the digits `0` to
`9` that fits a `uint`, and `0` when the conversion fails. -/
def toUInt (s : QString) : Nat :=
  if s ≠ [] ∧ s.all isDigit = true ∧ decimalValue s ≤ UINT_MAX then decimalValue s else 0

/-- `QString::indexOf(const QString &)`: the first position at which `t`
occurs in `s`, `none` for -1. -/
def indexOfText (s t : QString) : Option Nat :=
  match s with
  | [] => if t = [] then some 0 else none
  | _ :: r => if t.isPrefixOf s then some 0 else (indexOfText r t).map (fun n => n + 1)

/-- The static function `ansiColor`. -/
def ansiColor (code : Nat) : QColor :=
  if code < 8 then
    QColor.rgb (if code % 2 = 1 then 170 else 0) (if code / 2 % 2 = 1 then 170 else 0)
      (if code / 4 % 2 = 1 then 170 else 0)
  else QColor.invalid

namespace AnsiEscapeCodeHandler

/-- `AnsiEscapeCodeHandler::endFormatScope`. -/
def endFormatScope (h : AnsiEscapeCodeHandler) : AnsiEscapeCodeHandler :=
  { h with m_previousFormatClosed := true }

/-- `AnsiEscapeCodeHandler::setFormatScope`. -/
def setFormatScope (h : AnsiEscapeCodeHandler) (charFormat : QTextCharFormat) :
    AnsiEscapeCodeHandler :=
  { h with m_previousFormat := charFormat, m_previousFormatClosed := false }

/-- `numbers.at(k)`: `QList::at` requires `0 <= k < size()`. -/
def numbersAt (numbers : List QString) (k : Nat) : Except AnsiFault QString :=
  match numbers.get? k with
  | some s => Except.ok s
  | none => Except.error (AnsiFault.outOfRange k numbers.length)

/-- The conversion `int(u)` of the value of a `uint` expression: the value is
taken modulo 2^32, and values from 2^31 on become negative. -/
def uintToInt (u : Nat) : Int :=
  if u % 4294967296 < 2147483648 then ((u % 4294967296 : Nat) : Int)
  else ((u % 4294967296 : Nat) : Int) - 4294967296

/-- The colour of the 256 colour mode for an index. -/
def indexedColor (index : Nat) : QColor :=
  if index < 8 then ansiColor index
  else if index < 16 then QColor.lighter (ansiColor (index - 8)) 150
  else if index < 232 then
    QColor.rgb (((index - 16) / 36) * 51) ((((index - 16) / 6) % 6) * 51) (((index - 16) % 6) * 51)
  else QColor.rgb (uintToInt ((index - 232) * 11)) (uintToInt ((index - 232) * 11))
    (uintToInt ((index - 232) * 11))

/-- The loop `for (int i = 0; i < numbers.size(); ++i)` of `parseText` over the
numbers of a colour sequence, from the index `i`; the first argument bounds
the number of iterations. -/
def interpretNumbers (inputFormat : QTextCharFormat) (numbers : List QString) :
    Nat → Nat → QTextCharFormat → AnsiEscapeCodeHandler →
      Except AnsiFault (QTextCharFormat × AnsiEscapeCodeHandler)
  | 0, _, _, _ => Except.error AnsiFault.outOfFuel
  | fuel + 1, i, charFormat, h =>
    if ¬ i < numbers.length then Except.ok (charFormat, h)
    else do
      let code := toUInt (← numbersAt numbers i)
      if 30 ≤ code ∧ code ≤ 37 then
        let charFormat1 := { charFormat with foreground := some (ansiColor (code - 30)) }
        interpretNumbers inputFormat numbers fuel (i + 1) charFormat1
          (h.setFormatScope charFormat1)
      else if 40 ≤ code ∧ code ≤ 47 then
        let charFormat1 := { charFormat with background := some (ansiColor (code - 40)) }
        interpretNumbers inputFormat numbers fuel (i + 1) charFormat1
          (h.setFormatScope charFormat1)
      else if code = 0 then
        interpretNumbers inputFormat numbers fuel (i + 1) inputFormat h.endFormatScope
      else if code = 1 then
        let charFormat1 := { charFormat with bold := true }
        interpretNumbers inputFormat numbers fuel (i + 1) charFormat1
          (h.setFormatScope charFormat1)
      else if code = 39 then
        let charFormat1 := { charFormat with foreground := inputFormat.foreground }
        interpretNumbers inputFormat numbers fuel (i + 1) charFormat1
          (h.setFormatScope charFormat1)
      else if code = 49 then
        let charFormat1 := { charFormat with background := inputFormat.background }
        interpretNumbers inputFormat numbers fuel (i + 1) charFormat1
          (h.setFormatScope charFormat1)
      else if code = 38 ∨ code = 48 then
        -- `if (++i >= numbers.size()) break;`
        if ¬ i + 1 < numbers.length then
          interpretNumbers inputFormat numbers fuel (i + 1 + 1) charFormat h
        else do
          let mode := toInt (← numbersAt numbers (i + 1))
          if mode = 2 then
            if i + 1 + 3 < numbers.length then do
              let red := toInt (← numbersAt numbers (i + 1 + 1))
              let green := toInt (← numbersAt numbers (i + 1 + 2))
              let blue := toInt (← numbersAt numbers (i + 1 + 3))
              let charFormat1 :=
                if code = 38 then
                  { charFormat with foreground := some (QColor.rgb red green blue) }
                else { charFormat with background := some (QColor.rgb red green blue) }
              interpretNumbers inputFormat numbers fuel (i + 1 + 3 + 1) charFormat1
                (h.setFormatScope charFormat1)
            else interpretNumbers inputFormat numbers fuel (i + 1 + 3 + 1) charFormat h
          else if mode = 5 then do
            let index := toUInt (← numbersAt numbers (i + 1 + 1))
            let charFormat1 :=
              if code = 38 then { charFormat with foreground := some (indexedColor index) }
              else { charFormat with background := some (indexedColor index) }
            interpretNumbers inputFormat numbers fuel (i + 1 + 1 + 1) charFormat1
              (h.setFormatScope charFormat1)
          else interpretNumbers inputFormat numbers fuel (i + 1 + 1) charFormat h
      else interpretNumbers inputFormat numbers fuel (i + 1) charFormat h

/-- The loop of `parseText` that collects the numbers after `ESC [`: the text
left, the numbers and `m_pendingText`. -/
def readNumbers : QString → QString → List QString → QString → QString × List QString × QString
  | [], _, numbers, pendingText => ([], numbers, pendingText)
  | c :: r, strNumber, numbers, pendingText =>
    if isDigit c then readNumbers r (strNumber ++ [c]) numbers (pendingText ++ [c])
    else
      let numbers1 := if !strNumber.isEmpty then numbers ++ [strNumber] else numbers
      if strNumber.isEmpty || c ≠ ';' then (c :: r, numbers1, pendingText)
      else readNumbers r [] numbers1 (pendingText ++ [c])

/-- The local variables of `parseText` together with the members of the
handler. -/
structure ParseState where
  handler : AnsiEscapeCodeHandler
  strippedText : QString
  charFormat : QTextCharFormat
  outputData : List FormattedText
  deriving DecidableEq, Repr

/-- The character `ESC`, `escape.at(0)`. -/
def escapeChar : Char := Char.ofNat 27

/-- The text `ESC [`. -/
def escape : QString := [escapeChar, '[']

/-- The loop `while (!strippedText.isEmpty() && escape.at(0) == strippedText.at(0))`
of `parseText`; the first argument bounds the number of iterations. -/
def escapeLoop (inputFormat : QTextCharFormat) : Nat → ParseState → Except AnsiFault ParseState
  | 0, _ => Except.error AnsiFault.outOfFuel
  | fuel + 1, st =>
    if st.strippedText.isEmpty || st.strippedText.head? ≠ some escapeChar then Except.ok st
    else if st.strippedText.isPrefixOf escape then
      -- the control sequence is not complete
      Except.ok { st with
        handler := { st.handler with
          m_pendingText := st.handler.m_pendingText ++ st.strippedText },
        strippedText := [] }
    else if !escape.isPrefixOf st.strippedText then
      let c := (st.strippedText.drop 1).headD ' '
      if c = '\\' ∨ c = 'N' ∨ c = 'O' then
        Except.ok { st with strippedText := st.strippedText.drop 2 }
      else if c = ']' then
        Except.ok { st with
          handler := { st.handler with
            m_alternateTerminator := [Char.ofNat 7], m_waitingForTerminator := true },
          strippedText := st.strippedText.drop 2 }
      else if c = 'P' ∨ c = 'X' ∨ c = '^' ∨ c = '_' then
        Except.ok { st with
          handler := { st.handler with m_waitingForTerminator := true },
          strippedText := st.strippedText.drop 2 }
      else
        -- not a control sequence
        escapeLoop inputFormat fuel { st with
          handler := { st.handler with m_pendingText := [] },
          outputData := st.outputData ++ [⟨st.strippedText.take 1, st.charFormat⟩],
          strippedText := st.strippedText.drop 1 }
    else
      let pendingText1 := st.handler.m_pendingText ++ st.strippedText.take escape.length
      let strippedText1 := st.strippedText.drop escape.length
      if startsWith strippedText1 'K' then
        escapeLoop inputFormat fuel { st with
          handler := { st.handler with m_pendingText := [] },
          strippedText := strippedText1.drop 1 }
      else
        let r := readNumbers strippedText1 [] [] pendingText1
        if r.1.isEmpty then
          Except.ok { st with
            handler := { st.handler with m_pendingText := r.2.2 }, strippedText := r.1 }
        else if !startsWith r.1 'm' then
          Except.ok { st with
            handler := { st.handler with m_pendingText := [] }, strippedText := r.1.drop 1 }
        else do
          let handler1 := { st.handler with m_pendingText := [] }
          let start : QTextCharFormat × AnsiEscapeCodeHandler :=
            if r.2.1.isEmpty then (inputFormat, handler1.endFormatScope)
            else (st.charFormat, handler1)
          let done ← interpretNumbers inputFormat r.2.1 (r.2.1.length + 1) 0 start.1 start.2
          escapeLoop inputFormat fuel { st with
            handler := done.2, charFormat := done.1, strippedText := r.1.drop 1 }

/-- The loop `while (!strippedText.isEmpty())` of `parseText`; the first
argument bounds the number of iterations. -/
def textLoop (inputFormat : QTextCharFormat) : Nat → ParseState → Except AnsiFault ParseState
  | 0, _ => Except.error AnsiFault.outOfFuel
  | fuel + 1, st =>
    if st.strippedText.isEmpty then Except.ok st
    else if !st.handler.m_pendingText.isEmpty then Except.ok st
    else
      -- escape codes that take a string argument are ignored
      let afterTerminator : Option ParseState :=
        if st.handler.m_waitingForTerminator then
          let found : Option (Nat × Nat) :=
            match indexOfText st.strippedText [escapeChar, '\\'] with
            | some pos => some (pos, 2)
            | none =>
              if !st.handler.m_alternateTerminator.isEmpty then
                (indexOfText st.strippedText st.handler.m_alternateTerminator).map
                  (fun pos => (pos, st.handler.m_alternateTerminator.length))
              else none
          match found with
          | none => none
          | some (terminatorPos, terminatorLength) =>
            some { st with
              handler := { st.handler with
                m_waitingForTerminator := false, m_alternateTerminator := [] },
              strippedText := st.strippedText.drop (terminatorPos + terminatorLength) }
        else some st
      match afterTerminator with
      | none =>
        Except.ok { st with handler := { st.handler with m_pendingText := st.strippedText } }
      | some st1 =>
        if st.handler.m_waitingForTerminator && st1.strippedText.isEmpty then Except.ok st1
        else
          match st1.strippedText.indexOf? escapeChar with
          | none =>
            Except.ok { st1 with
              outputData := st1.outputData ++ [⟨st1.strippedText, st1.charFormat⟩] }
          | some escapePos =>
            let st2 :=
              if escapePos ≠ 0 then
                { st1 with
                  outputData := st1.outputData
                    ++ [⟨st1.strippedText.take escapePos, st1.charFormat⟩],
                  strippedText := st1.strippedText.drop escapePos }
              else st1
            if st2.strippedText.head? ≠ some escapeChar then Except.ok st2
            else do
              let st3 ← escapeLoop inputFormat (st2.strippedText.length + 1) st2
              textLoop inputFormat fuel st3

/-- `AnsiEscapeCodeHandler::parseText`: the handler afterwards and the list
returned, or the fault that stops it. -/
def parseText (h : AnsiEscapeCodeHandler) (input : FormattedText) :
    Except AnsiFault (AnsiEscapeCodeHandler × List FormattedText) :=
  let charFormat := if h.m_previousFormatClosed then input.format else h.m_previousFormat
  let strippedText := if h.m_pendingText.isEmpty then input.text else h.m_pendingText ++ input.text
  let h1 := { h with m_pendingText := [] }
  match textLoop input.format (strippedText.length + 1) ⟨h1, strippedText, charFormat, []⟩ with
  | Except.ok st => Except.ok (st.handler, st.outputData)
  | Except.error e => Except.error e

/-- The text `ESC [` followed by `body`. -/
def controlSequence (body : String) : QString := escape ++ body.toList

end AnsiEscapeCodeHandler

/-- The plugin `A` 2.0, compatible down to 1.0, in the plugin directory of the
user. -/
def scenarioFileUserA : PluginFile :=
  { scenarioFile "A" "2.0" (some "1.0") [] with
    absolutePath := "/home/user/plugins".toList
    absoluteFilePath := "/home/user/plugins/libA.so".toList }

/-- Scenario: the plugin files `A` 1.0, `A` 2.0 (compatible down to 1.0) and
`B`, which requires `A` 1.0, read in the order given; the manager after
`readPluginPaths`. -/
def scenarioDiscovery (files : List PluginFile) : Option PluginManagerPrivate :=
  PluginManagerPrivate.readPluginPaths plainEnv files scenarioManager

/-- The load queue of a manager, each spec given by its name and version. -/
def describedLoadQueue (m : PluginManagerPrivate) : Option (List (QString × QString)) :=
  m.loadQueue.map (fun r => r.1.map (fun s => ((r.2.heap s).name, (r.2.heap s).version)))

/-- The resolved dependencies of the specs of the load queue, each given by the
name and the version of the spec it is resolved to. -/
def describedDependencies (m : PluginManagerPrivate) : Option (List (List (QString × QString))) :=
  m.loadQueue.map (fun r => r.1.map (fun s =>
    (r.2.heap s).dependencySpecs.map (fun e => ((r.2.heap e.2).name, (r.2.heap e.2).version))))

/-! # Verified properties -/

/-! ## Strings and versions -/

theorem compareCaseInsensitive_eq_zero_iff (fold : Char → Char) (a b : QString) :
    compareCaseInsensitive fold a b = 0 ↔ a.map fold = b.map fold := by
  induction a generalizing b with
  | nil => cases b <;> simp [compareCaseInsensitive]
  | cons x xs ih =>
    cases b with
    | nil => simp [compareCaseInsensitive]
    | cons y ys =>
      simp only [compareCaseInsensitive, List.map_cons, List.cons.injEq]
      by_cases h : fold x = fold y
      · simp [h, ih]
      · simp only [h, if_false, false_and, iff_false]
        split <;> decide

theorem versionCompareLoop_self (m : List QString) (l : List Nat) :
    versionCompareLoop m m l = 0 := by
  induction l with
  | nil => rfl
  | cons i rest ih => simp [versionCompareLoop, ih]

theorem versionCompare_self (v : QString) : versionCompare v v = 0 := by
  unfold versionCompare
  cases h : versionRegExpMatch v with
  | none => rfl
  | some m => simp [versionCompareLoop_self]

theorem provides_eq_true_iff (E : QtEnv) (d : PluginSpec) (pluginName v : QString) :
    d.provides E pluginName v = true ↔
      pluginName.map E.foldCase = d.name.map E.foldCase
        ∧ versionCompare d.compatVersion v ≤ 0 ∧ versionCompare d.version v ≥ 0 := by
  unfold PluginSpec.provides
  by_cases h : compareCaseInsensitive E.foldCase pluginName d.name = 0
  · have h' := (compareCaseInsensitive_eq_zero_iff _ _ _).1 h
    simp [h, h']
    tauto
  · have h' : ¬ pluginName.map E.foldCase = d.name.map E.foldCase :=
      fun e => h ((compareCaseInsensitive_eq_zero_iff _ _ _).2 e)
    simp [h, h']

/-- C1. `provides(pluginName, v)` is true exactly when `pluginName` equals the
name of the spec up to case folding, `versionCompare(compatVersion, v) <= 0`
and `versionCompare(version, v) >= 0`. -/
theorem provides_iff (E : QtEnv) (d : PluginSpec) (pluginName v : QString) :
    d.provides E pluginName v = true ↔
      pluginName.map E.foldCase = d.name.map E.foldCase
        ∧ versionCompare d.compatVersion v ≤ 0 ∧ versionCompare d.version v ≥ 0 :=
  provides_eq_true_iff E d pluginName v

/-- C2, as the code has it: a spec provides its own name and version exactly
when `versionCompare(compatVersion, version) <= 0`; this is the case whenever
the compatibility version equals the version (the default of `readMetaData`). -/
theorem provides_own_iff (E : QtEnv) (d : PluginSpec) :
    (d.provides E d.name d.version = true ↔ versionCompare d.compatVersion d.version ≤ 0)
      ∧ (d.compatVersion = d.version → d.provides E d.name d.version = true) := by
  have key : d.provides E d.name d.version = true ↔ versionCompare d.compatVersion d.version ≤ 0 := by
    rw [provides_eq_true_iff]
    simp [versionCompare_self]
  refine ⟨key, fun h => key.2 ?_⟩
  rw [h, versionCompare_self]

/-- C2, counterexample: the metadata with name `A`, version `1.0` and
compatibility version `2.0` is read without error into state `Read`, and the
spec does not provide its own name and version. -/
theorem provides_own_fails_compat_above :
    specCompatAboveVersion.1 = true
      ∧ specCompatAboveVersion.2.hasError = false
      ∧ specCompatAboveVersion.2.state = State.Read
      ∧ specCompatAboveVersion.2.provides plainEnv specCompatAboveVersion.2.name
          specCompatAboveVersion.2.version = false := by
  decide

theorem toInt_eq_decimalValue (s : QString) (hd : s.all isDigit = true)
    (hr : decimalValue s ≤ INT_MAX) : toInt s = (decimalValue s : Int) := by
  unfold toInt
  by_cases hs : s = []
  · subst hs
    simp [decimalValue]
  · simp [hs, hd, hr]

theorem takeWhile_all_isDigit (s : QString) : (s.takeWhile isDigit).all isDigit = true := by
  induction s with
  | nil => rfl
  | cons c t ih =>
    by_cases h : isDigit c = true
    · simp [List.takeWhile, h]
    · simp [List.takeWhile, h]

theorem optionalGroup_all_isDigit (sep : Char) (s : QString) :
    (optionalGroup sep s).1.all isDigit = true := by
  unfold optionalGroup
  split
  · split
    · exact takeWhile_all_isDigit _
    · rfl
  · rfl

/-- Shape of a match of the version pattern: the whole match and four captured
groups of digits. -/
theorem versionRegExpMatch_shape (v : QString) (m : List QString)
    (h : versionRegExpMatch v = some m) :
    ∃ w g1 g2 g3 g4, m = [w, g1, g2, g3, g4]
      ∧ g1.all isDigit = true ∧ g2.all isDigit = true
      ∧ g3.all isDigit = true ∧ g4.all isDigit = true := by
  unfold versionRegExpMatch at h
  simp only at h
  split at h
  · cases h
  · split at h
    · cases h
      exact ⟨_, _, _, _, _, rfl, takeWhile_all_isDigit _, optionalGroup_all_isDigit _ _,
        optionalGroup_all_isDigit _ _, optionalGroup_all_isDigit _ _⟩
    · split at h
      · cases h
        exact ⟨_, _, _, _, _, rfl, takeWhile_all_isDigit _, optionalGroup_all_isDigit _ _,
          optionalGroup_all_isDigit _ _, optionalGroup_all_isDigit _ _⟩
      · cases h

/-- C3, within the range of `int`: for texts that match the version format and
whose four components are at most 2147483647, `versionCompare` is the three-way
lexicographic comparison of the components; `versionCompare("1.2.3","1.2.10")`
is -1 and `versionCompare("2.0","2.0.0")` is 0. -/
theorem versionCompare_lexicographic (v1 v2 : QString) (c1 c2 : List Nat)
    (h1 : versionComponents v1 = some c1) (h2 : versionComponents v2 = some c2)
    (r1 : ∀ c ∈ c1, c ≤ INT_MAX) (r2 : ∀ c ∈ c2, c ≤ INT_MAX) :
    versionCompare v1 v2 = lexOrder c1 c2
      ∧ versionCompare "1.2.3".toList "1.2.10".toList = -1
      ∧ versionCompare "2.0".toList "2.0.0".toList = 0 := by
  refine ⟨?_, by decide, by decide⟩
  unfold versionComponents at h1 h2
  cases hm1 : versionRegExpMatch v1 with
  | none => simp [hm1] at h1
  | some m1 =>
    cases hm2 : versionRegExpMatch v2 with
    | none => simp [hm2] at h2
    | some m2 =>
      obtain ⟨w, a1, a2, a3, a4, rfl, da1, da2, da3, da4⟩ := versionRegExpMatch_shape v1 m1 hm1
      obtain ⟨w', b1, b2, b3, b4, rfl, db1, db2, db3, db4⟩ := versionRegExpMatch_shape v2 m2 hm2
      simp only [hm1, hm2, Option.map_some', Option.some.injEq] at h1 h2
      subst h1
      subst h2
      simp only [List.map_cons, List.map_nil, captured, List.getD_cons_succ, List.getD_cons_zero,
        List.mem_cons, List.mem_singleton, forall_eq_or_imp, forall_eq, List.not_mem_nil,
        false_imp_iff, implies_true, and_true] at r1 r2
      obtain ⟨ra1, ra2, ra3, ra4⟩ := r1
      obtain ⟨rb1, rb2, rb3, rb4⟩ := r2
      simp only [versionCompare, hm1, hm2, versionCompareLoop, captured, List.getD_cons_succ,
        List.getD_cons_zero, List.map_cons, List.map_nil, lexOrder,
        toInt_eq_decimalValue _ da1 ra1, toInt_eq_decimalValue _ da2 ra2,
        toInt_eq_decimalValue _ da3 ra3, toInt_eq_decimalValue _ da4 ra4,
        toInt_eq_decimalValue _ db1 rb1, toInt_eq_decimalValue _ db2 rb2,
        toInt_eq_decimalValue _ db3 rb3, toInt_eq_decimalValue _ db4 rb4,
        Nat.cast_lt, gt_iff_lt]

/-- C3, witness: the texts `1.2.3` and `1.2.10`. -/
theorem versionCompare_lexicographic_witness :
    versionCompare "1.2.3".toList "1.2.10".toList = lexOrder [1, 2, 3, 0] [1, 2, 10, 0]
      ∧ versionCompare "1.2.3".toList "1.2.10".toList = -1
      ∧ versionCompare "2.0".toList "2.0.0".toList = 0 :=
  versionCompare_lexicographic "1.2.3".toList "1.2.10".toList [1, 2, 3, 0] [1, 2, 10, 0]
    (by decide) (by decide) (by decide) (by decide)

/-- C3, counterexample: `2147483648` and `1` match the version format, the
first component of the former is the larger one, and `versionCompare` returns
-1 because `toInt` fails on a value above the range of `int`. -/
theorem versionCompare_overflow :
    versionComponents "2147483648".toList = some [2147483648, 0, 0, 0]
      ∧ versionComponents "1".toList = some [1, 0, 0, 0]
      ∧ lexOrder [2147483648, 0, 0, 0] [1, 0, 0, 0] = 1
      ∧ versionCompare "2147483648".toList "1".toList = -1 := by
  decide

/-- C4. When one of two texts does not match the version format,
`versionCompare` returns 0 in both orders. -/
theorem versionCompare_unparsable (v1 v2 : QString)
    (h : isValidVersion v1 = false ∨ isValidVersion v2 = false) :
    versionCompare v1 v2 = 0 ∧ versionCompare v2 v1 = 0 := by
  unfold isValidVersion at h
  unfold versionCompare
  rcases h with h | h
  · have h' : versionRegExpMatch v1 = none := by simpa using h
    rw [h']
    cases versionRegExpMatch v2 <;> simp
  · have h' : versionRegExpMatch v2 = none := by simpa using h
    rw [h']
    cases versionRegExpMatch v1 <;> simp

/-- C4, witness: `1.` does not match the version format and compares equal to
`3.0` in both orders. -/
theorem versionCompare_unparsable_witness :
    versionCompare "1.".toList "3.0".toList = 0 ∧ versionCompare "3.0".toList "1.".toList = 0 :=
  versionCompare_unparsable "1.".toList "3.0".toList (Or.inl (by decide))

/-! ## Enabling flags -/

/-- C9. `isEffectivelyEnabled()` follows the precedence of the specification
on the five flags, for every spec and host. -/
theorem isEffectivelyEnabled_rule (E : QtEnv) (d : PluginSpec) :
    d.isEffectivelyEnabled E =
      effectivelyEnabledRule (d.isAvailableForHostPlatform E) d.forceEnabled d.enabledIndirectly
        d.forceDisabled d.enabledBySettings := by
  unfold PluginSpec.isEffectivelyEnabled effectivelyEnabledRule
  cases d.isAvailableForHostPlatform E <;> cases d.forceEnabled <;> cases d.enabledIndirectly <;>
    cases d.forceDisabled <;> cases d.enabledBySettings <;> rfl

theorem forceCall_run_exclusive (d : PluginSpec) (c : ForceCall) :
    ¬ ((c.run d).forceEnabled = true ∧ (c.run d).forceDisabled = true) := by
  cases c with
  | setForceEnabled value =>
    cases value <;> simp_all [ForceCall.run, PluginSpec.setForceEnabled]
  | setForceDisabled value =>
    cases value <;> simp_all [ForceCall.run, PluginSpec.setForceDisabled]

/-- C10. Starting from a spec whose `forceEnabled` and `forceDisabled` are not
both true, no sequence of `setForceEnabled` and `setForceDisabled` calls makes
both true; `setForceEnabled(true)` clears `forceDisabled` and
`setForceDisabled(true)` clears `forceEnabled`. -/
theorem force_flags_exclusive (d : PluginSpec) (calls : List ForceCall)
    (h : ¬ (d.forceEnabled = true ∧ d.forceDisabled = true)) :
    ¬ ((calls.foldl ForceCall.run d).forceEnabled = true
        ∧ (calls.foldl ForceCall.run d).forceDisabled = true)
      ∧ (∀ s : PluginSpec, (s.setForceEnabled true).forceEnabled = true
          ∧ (s.setForceEnabled true).forceDisabled = false)
      ∧ (∀ s : PluginSpec, (s.setForceDisabled true).forceDisabled = true
          ∧ (s.setForceDisabled true).forceEnabled = false) := by
  refine ⟨?_, fun s => by simp [PluginSpec.setForceEnabled],
    fun s => by simp [PluginSpec.setForceDisabled]⟩
  induction calls generalizing d with
  | nil => exact h
  | cons c rest ih => exact ih (c.run d) (forceCall_run_exclusive d c)

/-- C10, witness: a new spec, force-enabled and then force-disabled. -/
theorem force_flags_exclusive_witness :
    ¬ (([ForceCall.setForceEnabled true, ForceCall.setForceDisabled true].foldl ForceCall.run
          PluginSpec.new).forceEnabled = true
        ∧ ([ForceCall.setForceEnabled true, ForceCall.setForceDisabled true].foldl ForceCall.run
          PluginSpec.new).forceDisabled = true)
      ∧ (∀ s : PluginSpec, (s.setForceEnabled true).forceEnabled = true
          ∧ (s.setForceEnabled true).forceDisabled = false)
      ∧ (∀ s : PluginSpec, (s.setForceDisabled true).forceDisabled = true
          ∧ (s.setForceDisabled true).forceEnabled = false) :=
  force_flags_exclusive PluginSpec.new
    [ForceCall.setForceEnabled true, ForceCall.setForceDisabled true] (by decide)

/-! ## Place markers -/

theorem findArgEscapes_append_left (p s : QString) (hp : '%' ∉ p) :
    findArgEscapes (p ++ s) = findArgEscapes s := by
  induction p with
  | nil => rfl
  | cons c t ih =>
    have hc : c ≠ '%' := fun e => hp (by simp [e])
    have ht : '%' ∉ t := fun e => hp (by simp [e])
    simp [findArgEscapes, hc, ih ht]

theorem replaceArgEscapes_append_left (n : Nat) (a p s : QString) (hp : '%' ∉ p) :
    replaceArgEscapes n a 0 (p ++ s) = p ++ replaceArgEscapes n a 0 s := by
  induction p with
  | nil => rfl
  | cons c t ih =>
    have hc : c ≠ '%' := fun e => hp (by simp [e])
    have ht : '%' ∉ t := fun e => hp (by simp [e])
    simp [replaceArgEscapes, hc, ih ht]

theorem findArgEscapes_noPercent (p : QString) (hp : '%' ∉ p) : findArgEscapes p = none := by
  have h := findArgEscapes_append_left p [] hp
  simpa [findArgEscapes] using h

theorem replaceArgEscapes_noPercent (n : Nat) (a p : QString) (hp : '%' ∉ p) :
    replaceArgEscapes n a 0 p = p := by
  have h := replaceArgEscapes_append_left n a p [] hp
  simpa [replaceArgEscapes] using h

/-- A one-digit marker followed by a character that is not a digit. -/
theorem escapeAt_digit (d x : Char) (r : QString) (hd : isDigit d = true) (hx : isDigit x = false) :
    escapeAt (d :: x :: r) = some (digitValue d, 1) := by
  have hL : d ≠ 'L' := by
    intro e
    rw [e] at hd
    exact absurd hd (by decide)
  unfold escapeAt
  split
  · rename_i r' h
    simp only [List.cons.injEq] at h
    exact absurd h.1 hL
  · simp [hd, hx]

/-- A one-digit marker at the end of the text. -/
theorem escapeAt_digit_end (d : Char) (hd : isDigit d = true) :
    escapeAt [d] = some (digitValue d, 1) := by
  have hL : d ≠ 'L' := by
    intro e
    rw [e] at hd
    exact absurd hd (by decide)
  unfold escapeAt
  split
  · rename_i r' h
    simp only [List.cons.injEq] at h
    exact absurd h.1 hL
  · simp [hd]

/-- Substitution of the marker `%d` when it is the lowest one of the text and
occurs once. -/
theorem arg_marker (p r a : QString) (d : Char) (n : Nat) (hp : '%' ∉ p)
    (hesc : escapeAt (d :: r) = some (n, 1)) (hd : d ≠ '%')
    (hmin : optMin n (findArgEscapes r) = n) (hrep : replaceArgEscapes n a 0 r = r) :
    arg (p ++ '%' :: d :: r) a = p ++ a ++ r := by
  unfold arg
  rw [findArgEscapes_append_left _ _ hp]
  simp [findArgEscapes, hesc, hd, hmin, replaceArgEscapes_append_left _ _ _ _ hp, replaceArgEscapes,
    hrep]

/-- A marker with another number is left in place. -/
theorem replaceArgEscapes_other (n k : Nat) (a m q : QString) (d : Char) (hm : '%' ∉ m)
    (hesc : escapeAt (d :: q) = some (k, 1)) (hk : k ≠ n) (hd : d ≠ '%')
    (hq : replaceArgEscapes n a 0 q = q) :
    replaceArgEscapes n a 0 (m ++ '%' :: d :: q) = m ++ '%' :: d :: q := by
  rw [replaceArgEscapes_append_left _ _ _ _ hm]
  simp [replaceArgEscapes, hesc, hk, hd, hq]

theorem findArgEscapes_marker (m q : QString) (d : Char) (k : Nat) (hm : '%' ∉ m)
    (hesc : escapeAt (d :: q) = some (k, 1)) (hd : d ≠ '%')
    (hq : optMin k (findArgEscapes q) = k) :
    findArgEscapes (m ++ '%' :: d :: q) = some k := by
  rw [findArgEscapes_append_left _ _ hm]
  simp [findArgEscapes, hesc, hd, hq]

/-- Two chained `arg` calls on a text `p %1 x m %2 q`: when neither the fixed
parts nor the first argument contain `%`, both markers are replaced by their
arguments. -/
theorem arg_two (p m q a b : QString) (x : Char) (hp : '%' ∉ p) (ha : '%' ∉ a)
    (hx : x ≠ '%') (hxd : isDigit x = false) (hm : '%' ∉ m) (hq : '%' ∉ q)
    (hq2 : escapeAt ('2' :: q) = some (2, 1)) :
    arg (arg (p ++ '%' :: '1' :: x :: (m ++ '%' :: '2' :: q)) a) b
      = p ++ a ++ x :: (m ++ b ++ q) := by
  have hxm : '%' ∉ x :: m := by
    simp only [List.mem_cons, not_or]
    exact ⟨fun e => hx e.symm, hm⟩
  have e1 : escapeAt ('1' :: x :: (m ++ '%' :: '2' :: q)) = some (1, 1) :=
    escapeAt_digit '1' x _ (by decide) hxd
  have f2 : findArgEscapes (x :: m ++ '%' :: '2' :: q) = some 2 :=
    findArgEscapes_marker (x :: m) q '2' 2 hxm hq2 (by decide)
      (by rw [findArgEscapes_noPercent q hq]; rfl)
  have r2 : replaceArgEscapes 1 a 0 (x :: m ++ '%' :: '2' :: q) = x :: m ++ '%' :: '2' :: q :=
    replaceArgEscapes_other 1 2 a (x :: m) q '2' hxm hq2 (by decide) (by decide)
      (replaceArgEscapes_noPercent 1 a q hq)
  have s1 : arg (p ++ '%' :: '1' :: x :: (m ++ '%' :: '2' :: q)) a
      = p ++ a ++ (x :: m ++ '%' :: '2' :: q) :=
    arg_marker p (x :: (m ++ '%' :: '2' :: q)) a '1' 1 hp e1 (by decide)
      (by rw [← List.cons_append, f2]; rfl) (by rw [← List.cons_append]; exact r2)
  rw [s1]
  have hpam : '%' ∉ p ++ a ++ x :: m := by
    simp only [List.mem_append, not_or]
    exact ⟨⟨hp, ha⟩, hxm⟩
  have s2 := arg_marker (p ++ a ++ x :: m) q b '2' 2 hpam hq2 (by decide)
    (by rw [findArgEscapes_noPercent q hq]; rfl) (replaceArgEscapes_noPercent 2 b q hq)
  simpa [List.append_assoc] using s2

theorem msgCouldNotResolve_eq (dep : PluginDependency) (h : '%' ∉ dep.name) :
    PluginSpec.msgCouldNotResolve dep =
      tr "Could not resolve dependency '" ++ dep.name ++ '(' :: (dep.version ++ tr ")'") := by
  unfold PluginSpec.msgCouldNotResolve
  have e1 : tr "Could not resolve dependency '%1(%2)'" =
      tr "Could not resolve dependency '" ++ '%' :: '1' :: '(' :: ([] ++ '%' :: '2' :: tr ")'") := by
    decide
  rw [e1, arg_two _ [] _ _ _ '(' (by decide) h (by decide) (by decide) (by decide) (by decide)
    (by decide)]
  simp

/-- Three chained `arg` calls on a text `p %1 x m1 %2 y m2 %3 q`: when neither
the fixed parts nor the first two arguments contain `%`, the three markers are
replaced by their arguments. -/
theorem arg_three (p m1 m2 q a b c : QString) (x y : Char) (hp : '%' ∉ p) (ha : '%' ∉ a)
    (hb : '%' ∉ b) (hx : x ≠ '%') (hxd : isDigit x = false) (hy : y ≠ '%')
    (hyd : isDigit y = false) (hm1 : '%' ∉ m1) (hm2 : '%' ∉ m2) (hq : '%' ∉ q)
    (hq3 : escapeAt ('3' :: q) = some (3, 1)) :
    arg (arg (arg (p ++ '%' :: '1' :: x :: (m1 ++ '%' :: '2' :: y :: (m2 ++ '%' :: '3' :: q))) a) b) c
      = p ++ a ++ x :: (m1 ++ b ++ y :: (m2 ++ c ++ q)) := by
  have hxm : '%' ∉ x :: m1 := by
    simp only [List.mem_cons, not_or]
    exact ⟨fun e => hx e.symm, hm1⟩
  have hym : '%' ∉ y :: m2 := by
    simp only [List.mem_cons, not_or]
    exact ⟨fun e => hy e.symm, hm2⟩
  have e1 : escapeAt ('1' :: x :: (m1 ++ '%' :: '2' :: y :: (m2 ++ '%' :: '3' :: q))) = some (1, 1) :=
    escapeAt_digit '1' x _ (by decide) hxd
  have e2 : escapeAt ('2' :: y :: (m2 ++ '%' :: '3' :: q)) = some (2, 1) :=
    escapeAt_digit '2' y _ (by decide) hyd
  have f3 : findArgEscapes (y :: m2 ++ '%' :: '3' :: q) = some 3 :=
    findArgEscapes_marker (y :: m2) q '3' 3 hym hq3 (by decide)
      (by rw [findArgEscapes_noPercent q hq]; rfl)
  have f2 : findArgEscapes (x :: m1 ++ '%' :: '2' :: y :: (m2 ++ '%' :: '3' :: q)) = some 2 :=
    findArgEscapes_marker (x :: m1) (y :: (m2 ++ '%' :: '3' :: q)) '2' 2 hxm e2 (by decide)
      (by rw [← List.cons_append, f3]; rfl)
  have r3 : ∀ (n : Nat) (t : QString), n ≠ 3 →
      replaceArgEscapes n t 0 (y :: m2 ++ '%' :: '3' :: q) = y :: m2 ++ '%' :: '3' :: q :=
    fun n t hn => replaceArgEscapes_other n 3 t (y :: m2) q '3' hym hq3 (fun e => hn e.symm)
      (by decide) (replaceArgEscapes_noPercent n t q hq)
  have r2 : replaceArgEscapes 1 a 0 (x :: m1 ++ '%' :: '2' :: y :: (m2 ++ '%' :: '3' :: q))
      = x :: m1 ++ '%' :: '2' :: y :: (m2 ++ '%' :: '3' :: q) :=
    replaceArgEscapes_other 1 2 a (x :: m1) (y :: (m2 ++ '%' :: '3' :: q)) '2' hxm e2 (by decide)
      (by decide) (by rw [← List.cons_append]; exact r3 1 a (by decide))
  have s1 : arg (p ++ '%' :: '1' :: x :: (m1 ++ '%' :: '2' :: y :: (m2 ++ '%' :: '3' :: q))) a
      = p ++ a ++ (x :: m1 ++ '%' :: '2' :: y :: (m2 ++ '%' :: '3' :: q)) :=
    arg_marker p (x :: (m1 ++ '%' :: '2' :: y :: (m2 ++ '%' :: '3' :: q))) a '1' 1 hp e1 (by decide)
      (by rw [← List.cons_append, f2]; rfl) (by rw [← List.cons_append]; exact r2)
  rw [s1]
  have hpam : '%' ∉ p ++ a ++ x :: m1 := by
    simp only [List.mem_append, not_or]
    exact ⟨⟨hp, ha⟩, hxm⟩
  have s2 : arg (p ++ a ++ x :: m1 ++ '%' :: '2' :: y :: (m2 ++ '%' :: '3' :: q)) b
      = p ++ a ++ x :: m1 ++ b ++ (y :: m2 ++ '%' :: '3' :: q) :=
    arg_marker (p ++ a ++ x :: m1) (y :: (m2 ++ '%' :: '3' :: q)) b '2' 2 hpam e2 (by decide)
      (by rw [← List.cons_append, f3]; rfl) (by rw [← List.cons_append]; exact r3 2 b (by decide))
  have s2' : arg (p ++ a ++ (x :: m1 ++ '%' :: '2' :: y :: (m2 ++ '%' :: '3' :: q))) b
      = p ++ a ++ x :: m1 ++ b ++ y :: m2 ++ '%' :: '3' :: q := by
    simpa [List.append_assoc] using s2
  rw [s2']
  have hpab : '%' ∉ p ++ a ++ x :: m1 ++ b ++ y :: m2 := by
    simp only [List.mem_append, not_or]
    exact ⟨⟨⟨⟨hp, ha⟩, hxm⟩, hb⟩, hym⟩
  have s3 := arg_marker (p ++ a ++ x :: m1 ++ b ++ y :: m2) q c '3' 3 hpab hq3 (by decide)
    (by rw [findArgEscapes_noPercent q hq]; rfl) (replaceArgEscapes_noPercent 3 c q hq)
  simpa [List.append_assoc] using s3

/-! ## Dependency resolution -/

theorem provides_congr (E : QtEnv) (a b : PluginSpec) (h : sameIdentity a b) (n v : QString) :
    a.provides E n v = b.provides E n v := by
  obtain ⟨h1, h2, h3⟩ := h
  simp [PluginSpec.provides, h1, h2, h3]

theorem dependencyMatched_congr (E : QtEnv) (h h' : Heap) (specs : List Nat)
    (hid : ∀ s ∈ specs, sameIdentity (h s) (h' s)) (dep : PluginDependency) :
    dependencyMatched E h specs dep ↔ dependencyMatched E h' specs dep := by
  unfold dependencyMatched
  constructor
  · rintro ⟨s, hs, hp⟩
    exact ⟨s, hs, by rw [← provides_congr E _ _ (hid s hs)]; exact hp⟩
  · rintro ⟨s, hs, hp⟩
    exact ⟨s, hs, by rw [provides_congr E _ _ (hid s hs)]; exact hp⟩

theorem find_provides_none_iff (E : QtEnv) (heap : Heap) (specs : List Nat)
    (dep : PluginDependency) :
    specs.find? (fun spec => (heap spec).provides E dep.name dep.version) = none
      ↔ ¬ dependencyMatched E heap specs dep := by
  simp [dependencyMatched, List.find?_eq_none]

theorem find_provides_congr (E : QtEnv) (h h' : Heap) (specs : List Nat)
    (hid : ∀ s ∈ specs, sameIdentity (h s) (h' s)) (dep : PluginDependency) :
    specs.find? (fun spec => (h spec).provides E dep.name dep.version)
      = specs.find? (fun spec => (h' spec).provides E dep.name dep.version) := by
  induction specs with
  | nil => rfl
  | cons s rest ih =>
    simp only [List.find?_cons]
    rw [provides_congr E _ _ (hid s (by simp))]
    rw [ih (fun t ht => hid t (by simp [ht]))]

@[simp] theorem Heap.set_same (heap : Heap) (a : Nat) (d : PluginSpec) : heap.set a d a = d := by
  simp [Heap.set]

theorem Heap.set_other (heap : Heap) (a : Nat) (d : PluginSpec) (x : Nat) (h : x ≠ a) :
    heap.set a d x = heap x := by
  simp [Heap.set, h]


theorem recordUnresolved_eq (d : PluginSpec) (dep : PluginDependency) :
    d.recordUnresolved dep = { d with
      hasError := true,
      errorString := (d.recordUnresolved dep).errorString } := by
  unfold PluginSpec.recordUnresolved
  by_cases h : d.errorString.isEmpty = true <;> simp [h]

theorem recordUnresolved_update (d : PluginSpec) (dep : PluginDependency) (e : Bool)
    (s : QString) :
    { d.recordUnresolved dep with hasError := e, errorString := s }
      = { d with hasError := e, errorString := s } := by
  unfold PluginSpec.recordUnresolved
  by_cases h : d.errorString.isEmpty = true <;> simp [h]

theorem recordUnresolved_hasError (d : PluginSpec) (dep : PluginDependency) :
    (d.recordUnresolved dep).hasError = true := by
  rw [recordUnresolved_eq]

theorem recordUnresolved_sameIdentity (d : PluginSpec) (dep : PluginDependency) :
    sameIdentity d (d.recordUnresolved dep) := by
  rw [recordUnresolved_eq]
  exact ⟨rfl, rfl, rfl⟩

theorem recordUnresolved_errorString_prefix (d : PluginSpec) (dep : PluginDependency) :
    d.errorString <+: (d.recordUnresolved dep).errorString := by
  unfold PluginSpec.recordUnresolved
  by_cases h : d.errorString.isEmpty = true
  · simp [h]
  · simp only [h, Bool.not_false, if_true, Bool.not_eq_true]
    simp [List.append_assoc]

theorem recordUnresolved_errorString_infix (d : PluginSpec) (dep : PluginDependency) :
    PluginSpec.msgCouldNotResolve dep <:+: (d.recordUnresolved dep).errorString := by
  unfold PluginSpec.recordUnresolved
  by_cases h : d.errorString.isEmpty = true
  · simp only [h]
    exact (List.suffix_append _ _).isInfix
  · simp only [h]
    exact (List.suffix_append _ _).isInfix

/-- What the loop of `resolveDependencies` does to the objects. -/
theorem resolveDependenciesLoop_spec (E : QtEnv) (self : Nat) (specs : List Nat)
    (deps : List PluginDependency) :
    ∀ (heap : Heap) (res : DependencyHash),
      (∀ s, s ≠ self → (PluginSpec.resolveDependenciesLoop E self specs deps heap res).1 s = heap s)
      ∧ (PluginSpec.resolveDependenciesLoop E self specs deps heap res).1 self
          = { heap self with
              hasError := ((PluginSpec.resolveDependenciesLoop E self specs deps heap res).1 self).hasError,
              errorString :=
                ((PluginSpec.resolveDependenciesLoop E self specs deps heap res).1 self).errorString }
      ∧ (((PluginSpec.resolveDependenciesLoop E self specs deps heap res).1 self).hasError = true
          ↔ (heap self).hasError = true
            ∨ ∃ dep ∈ deps, dep.type = DependencyType.Required ∧ ¬ dependencyMatched E heap specs dep)
      ∧ (heap self).errorString
          <+: ((PluginSpec.resolveDependenciesLoop E self specs deps heap res).1 self).errorString
      ∧ (∀ dep ∈ deps, dep.type = DependencyType.Required → ¬ dependencyMatched E heap specs dep →
          PluginSpec.msgCouldNotResolve dep
            <:+: ((PluginSpec.resolveDependenciesLoop E self specs deps heap res).1 self).errorString) := by
  induction deps with
  | nil =>
    intro heap res
    simp [PluginSpec.resolveDependenciesLoop]
  | cons dep rest ih =>
    intro heap res
    simp only [PluginSpec.resolveDependenciesLoop]
    cases hf : specs.find? (fun spec => (heap spec).provides E dep.name dep.version) with
    | some found =>
      have hm : dependencyMatched E heap specs dep := by
        by_contra hn
        rw [(find_provides_none_iff E heap specs dep).2 hn] at hf
        cases hf
      obtain ⟨i1, i2, i3, i4, i5⟩ := ih heap (res.insert E dep found)
      refine ⟨i1, i2, ?_, i4, ?_⟩
      · rw [i3]
        constructor
        · rintro (h | ⟨d, hd, ht, hn⟩)
          · exact Or.inl h
          · exact Or.inr ⟨d, by simp [hd], ht, hn⟩
        · rintro (h | ⟨d, hd, ht, hn⟩)
          · exact Or.inl h
          · rcases List.mem_cons.1 hd with e | hd'
            · exact absurd (e ▸ hm) hn
            · exact Or.inr ⟨d, hd', ht, hn⟩
      · intro d hd ht hn
        rcases List.mem_cons.1 hd with e | hd'
        · exact absurd (e ▸ hm) hn
        · exact i5 d hd' ht hn
    | none =>
      have hm : ¬ dependencyMatched E heap specs dep := (find_provides_none_iff E heap specs dep).1 hf
      by_cases ht : dep.type = DependencyType.Required
      · simp only [ht, if_true]
        obtain ⟨i1, i2, i3, i4, i5⟩ :=
          ih (heap.set self ((heap self).recordUnresolved dep)) res
        have hid : ∀ s ∈ specs, sameIdentity (heap s)
            ((heap.set self ((heap self).recordUnresolved dep)) s) := by
          intro s _
          by_cases hs : s = self
          · subst hs
            rw [Heap.set_same]
            exact recordUnresolved_sameIdentity _ _
          · rw [Heap.set_other _ _ _ _ hs]
            exact ⟨rfl, rfl, rfl⟩
        refine ⟨?_, ?_, ?_, ?_, ?_⟩
        · intro s hs
          rw [i1 s hs, Heap.set_other _ _ _ _ hs]
        · refine i2.trans ?_
          rw [Heap.set_same, recordUnresolved_update]
        · rw [i3]
          simp only [Heap.set_same, recordUnresolved_hasError, true_or, true_iff]
          exact Or.inr ⟨dep, by simp, ht, hm⟩
        · refine List.IsPrefix.trans ?_ i4
          rw [Heap.set_same]
          exact recordUnresolved_errorString_prefix _ _
        · intro d hd ht' hn
          rcases List.mem_cons.1 hd with e | hd'
          · subst e
            refine List.IsInfix.trans ?_ i4.isInfix
            rw [Heap.set_same]
            exact recordUnresolved_errorString_infix _ _
          · exact i5 d hd' ht' (fun hmm => hn ((dependencyMatched_congr E _ _ specs hid d).2 hmm))
      · simp only [ht, if_false]
        obtain ⟨i1, i2, i3, i4, i5⟩ := ih heap res
        refine ⟨i1, i2, ?_, i4, ?_⟩
        · rw [i3]
          constructor
          · rintro (h | ⟨d, hd, ht', hn⟩)
            · exact Or.inl h
            · exact Or.inr ⟨d, by simp [hd], ht', hn⟩
          · rintro (h | ⟨d, hd, ht', hn⟩)
            · exact Or.inl h
            · rcases List.mem_cons.1 hd with e | hd'
              · exact absurd (e ▸ ht') ht
              · exact Or.inr ⟨d, hd', ht', hn⟩
        · intro d hd ht' hn
          rcases List.mem_cons.1 hd with e | hd'
          · exact absurd (e ▸ ht') ht
          · exact i5 d hd' ht' hn


/-- The loop of `resolveDependencies` reads of the other specs only their name,
version and compatibility version. -/
theorem resolveDependenciesLoop_congr (E : QtEnv) (self : Nat) (specs : List Nat)
    (deps : List PluginDependency) :
    ∀ (h h' : Heap) (res : DependencyHash), h self = h' self →
      (∀ s ∈ specs, sameIdentity (h s) (h' s)) →
      (PluginSpec.resolveDependenciesLoop E self specs deps h res).1 self
          = (PluginSpec.resolveDependenciesLoop E self specs deps h' res).1 self
        ∧ (PluginSpec.resolveDependenciesLoop E self specs deps h res).2
          = (PluginSpec.resolveDependenciesLoop E self specs deps h' res).2 := by
  induction deps with
  | nil =>
    intro h h' res hs _
    simp [PluginSpec.resolveDependenciesLoop, hs]
  | cons dep rest ih =>
    intro h h' res hs hid
    simp only [PluginSpec.resolveDependenciesLoop]
    rw [← find_provides_congr E h h' specs hid dep]
    cases specs.find? (fun spec => (h spec).provides E dep.name dep.version) with
    | some found => exact ih h h' _ hs hid
    | none =>
      by_cases ht : dep.type = DependencyType.Required
      · simp only [ht, if_true]
        apply ih
        · simp [hs]
        · intro s hsm
          by_cases e : s = self
          · subst e
            simp only [Heap.set_same, hs]
            exact ⟨rfl, rfl, rfl⟩
          · rw [Heap.set_other _ _ _ _ e, Heap.set_other _ _ _ _ e]
            exact hid s hsm
      · simp only [ht, if_false]
        exact ih h h' _ hs hid

theorem resolveDependenciesFromRead_congr (E : QtEnv) (self : Nat) (specs : List Nat)
    (g g' : Heap) (hg : g self = g' self) (hgid : ∀ s ∈ specs, sameIdentity (g s) (g' s)) :
    (PluginSpec.resolveDependenciesFromRead E self specs g).1
        = (PluginSpec.resolveDependenciesFromRead E self specs g').1
      ∧ (PluginSpec.resolveDependenciesFromRead E self specs g).2 self
        = (PluginSpec.resolveDependenciesFromRead E self specs g').2 self := by
  unfold PluginSpec.resolveDependenciesFromRead
  obtain ⟨c1, c2⟩ := resolveDependenciesLoop_congr E self specs (g self).dependencies g g' [] hg hgid
  simp only
  rw [← hg]
  by_cases hst : (g self).state = State.Read
  · simp only [hst, ne_eq, not_true_eq_false, if_false]
    rw [← c1, ← c2]
    split
    · exact ⟨rfl, c1⟩
    · exact ⟨rfl, by simp only [Heap.set_same]⟩
  · simp [hst]

theorem backToRead_other (self : Nat) (heap : Heap) (s : Nat) (hs : s ≠ self) :
    PluginSpec.backToRead self heap s = heap s := by
  unfold PluginSpec.backToRead
  split
  · exact Heap.set_other _ _ _ _ hs
  · rfl

theorem backToRead_self (self : Nat) (heap : Heap) :
    PluginSpec.backToRead self heap self
      = if (heap self).state = State.Resolved then { heap self with state := State.Read }
        else heap self := by
  unfold PluginSpec.backToRead
  split
  · exact Heap.set_same _ _ _
  · rfl

theorem backToRead_sameIdentity (self : Nat) (heap : Heap) (s : Nat) :
    sameIdentity (PluginSpec.backToRead self heap s) (heap s) := by
  by_cases hs : s = self
  · subst hs
    rw [backToRead_self]
    split <;> exact ⟨rfl, rfl, rfl⟩
  · rw [backToRead_other _ _ _ hs]
    exact ⟨rfl, rfl, rfl⟩

/-- `resolveDependencies` reads of the other specs only their name, version and
compatibility version. -/
theorem resolveDependencies_congr (E : QtEnv) (self : Nat) (specs : List Nat) (h h' : Heap)
    (hs : h self = h' self) (hid : ∀ s ∈ specs, sameIdentity (h s) (h' s)) :
    (PluginSpec.resolveDependencies E self specs h).1
        = (PluginSpec.resolveDependencies E self specs h').1
      ∧ (PluginSpec.resolveDependencies E self specs h).2 self
        = (PluginSpec.resolveDependencies E self specs h').2 self := by
  unfold PluginSpec.resolveDependencies
  rw [← hs]
  by_cases he : (h self).hasError = true
  · simp only [he, if_true]
    exact ⟨trivial, hs⟩
  · simp only [he, Bool.false_eq_true, if_false]
    apply resolveDependenciesFromRead_congr
    · rw [backToRead_self, backToRead_self, hs]
    · intro s hsm
      by_cases e : s = self
      · subst e
        rw [backToRead_self, backToRead_self, hs]
        exact ⟨rfl, rfl, rfl⟩
      · rw [backToRead_other _ _ _ e, backToRead_other _ _ _ e]
        exact hid s hsm

theorem resolveDependenciesFromRead_spec (E : QtEnv) (self : Nat) (specs : List Nat) (g : Heap)
    (hst : (g self).state = State.Read) (he : (g self).hasError = false) :
    ((∀ dep ∈ (g self).dependencies, dep.type = DependencyType.Required →
          dependencyMatched E g specs dep) →
        (PluginSpec.resolveDependenciesFromRead E self specs g).1 = true
          ∧ ((PluginSpec.resolveDependenciesFromRead E self specs g).2 self).state = State.Resolved)
      ∧ (¬ (∀ dep ∈ (g self).dependencies, dep.type = DependencyType.Required →
          dependencyMatched E g specs dep) →
        (PluginSpec.resolveDependenciesFromRead E self specs g).1 = false
          ∧ ((PluginSpec.resolveDependenciesFromRead E self specs g).2 self).hasError = true
          ∧ ((PluginSpec.resolveDependenciesFromRead E self specs g).2 self).state = State.Read
          ∧ ∀ dep ∈ (g self).dependencies, dep.type = DependencyType.Required →
              ¬ dependencyMatched E g specs dep →
              PluginSpec.msgCouldNotResolve dep
                <:+: ((PluginSpec.resolveDependenciesFromRead E self specs g).2 self).errorString)
      ∧ (∀ s, s ≠ self → (PluginSpec.resolveDependenciesFromRead E self specs g).2 s = g s) := by
  obtain ⟨i1, i2, i3, _, i5⟩ :=
    resolveDependenciesLoop_spec E self specs (g self).dependencies g []
  have hstL : ((PluginSpec.resolveDependenciesLoop E self specs (g self).dependencies g []).1 self).state
      = State.Read := by
    rw [i2]
    exact hst
  simp only [he, Bool.false_eq_true, false_or] at i3
  by_cases hL : ((PluginSpec.resolveDependenciesLoop E self specs (g self).dependencies g []).1 self).hasError
      = true
  · have hr : PluginSpec.resolveDependenciesFromRead E self specs g
        = (false, (PluginSpec.resolveDependenciesLoop E self specs (g self).dependencies g []).1) := by
      unfold PluginSpec.resolveDependenciesFromRead
      simp only [hst, ne_eq, not_true_eq_false, if_false, hL, if_true]
    rw [hr]
    obtain ⟨d, hd, ht, hn⟩ := i3.1 hL
    exact ⟨fun hall => absurd (hall d hd ht) hn, fun _ => ⟨rfl, hL, hstL, i5⟩, i1⟩
  · have hr : PluginSpec.resolveDependenciesFromRead E self specs g
        = (true, (PluginSpec.resolveDependenciesLoop E self specs (g self).dependencies g []).1.set self
            { (PluginSpec.resolveDependenciesLoop E self specs (g self).dependencies g []).1 self with
              dependencySpecs :=
                (PluginSpec.resolveDependenciesLoop E self specs (g self).dependencies g []).2,
              state := State.Resolved }) := by
      unfold PluginSpec.resolveDependenciesFromRead
      simp only [hst, ne_eq, not_true_eq_false, if_false, hL, Bool.false_eq_true]
    rw [hr]
    have hall : ∀ dep ∈ (g self).dependencies, dep.type = DependencyType.Required →
        dependencyMatched E g specs dep := by
      intro d hd ht
      by_contra hn
      exact hL (i3.2 ⟨d, hd, ht, hn⟩)
    refine ⟨fun _ => ⟨rfl, ?_⟩, fun hn => absurd hall hn, ?_⟩
    · show (Heap.set _ self _ self).state = State.Resolved
      rw [Heap.set_same]
    · intro s hs
      show Heap.set _ self _ s = g s
      rw [Heap.set_other _ _ _ _ hs]
      exact i1 s hs

theorem name_version_infix_msgCouldNotResolve (dep : PluginDependency) (h : '%' ∉ dep.name) :
    dep.name ++ '(' :: (dep.version ++ [')']) <:+: PluginSpec.msgCouldNotResolve dep := by
  rw [msgCouldNotResolve_eq dep h]
  refine ⟨tr "Could not resolve dependency '", ['\''], ?_⟩
  have e : tr ")'" = [')', '\''] := by decide
  simp [e, List.append_assoc]

/-- Outcome of `resolveDependencies`. For a spec without error in state
`Read` or `Resolved`, `resolveDependencies(specs)` returns true and reaches
`Resolved` exactly when every required dependency is provided by some spec of
`specs`; otherwise it returns false, sets `hasError`, stays in `Read` and its
`errorString` contains `name(version)` for every unmatched required dependency
whose name has no `%`. Only the spec itself is changed, and the outcome depends
on the other specs only through their name, version and compatibility version.
In the scenario where `A` requires `B` 3.0 and only `B` 2.5 exists, `A` ends
with an error in `Read` and `B` is `Resolved`. -/
theorem resolveDependencies_outcome (E : QtEnv) (heap : Heap) (self : Nat) (specs : List Nat)
    (herr : (heap self).hasError = false)
    (hstate : (heap self).state = State.Read ∨ (heap self).state = State.Resolved) :
    (((PluginSpec.resolveDependencies E self specs heap).1 = true
          ∧ ((PluginSpec.resolveDependencies E self specs heap).2 self).state = State.Resolved)
        ↔ ∀ dep ∈ (heap self).dependencies, dep.type = DependencyType.Required →
            dependencyMatched E heap specs dep)
      ∧ (¬ (∀ dep ∈ (heap self).dependencies, dep.type = DependencyType.Required →
            dependencyMatched E heap specs dep) →
          (PluginSpec.resolveDependencies E self specs heap).1 = false
            ∧ ((PluginSpec.resolveDependencies E self specs heap).2 self).hasError = true
            ∧ ((PluginSpec.resolveDependencies E self specs heap).2 self).state = State.Read
            ∧ ∀ dep ∈ (heap self).dependencies, dep.type = DependencyType.Required →
                ¬ dependencyMatched E heap specs dep → '%' ∉ dep.name →
                dep.name ++ '(' :: (dep.version ++ [')'])
                  <:+: ((PluginSpec.resolveDependencies E self specs heap).2 self).errorString)
      ∧ (∀ s, s ≠ self → (PluginSpec.resolveDependencies E self specs heap).2 s = heap s)
      ∧ (∀ heap' : Heap, heap' self = heap self →
          (∀ s ∈ specs, sameIdentity (heap' s) (heap s)) →
          (PluginSpec.resolveDependencies E self specs heap').1
              = (PluginSpec.resolveDependencies E self specs heap).1
            ∧ (PluginSpec.resolveDependencies E self specs heap').2 self
              = (PluginSpec.resolveDependencies E self specs heap).2 self)
      ∧ scenarioMissingVersion.map (fun m => m.pluginSpecs.map (fun a =>
            ((m.heap a).name, (m.heap a).hasError, (m.heap a).state)))
          = some [("A".toList, true, State.Read), ("B".toList, false, State.Resolved)] := by
  have hcongr := fun heap' hs hid => resolveDependencies_congr E self specs heap' heap hs hid
  have hres : PluginSpec.resolveDependencies E self specs heap
      = PluginSpec.resolveDependenciesFromRead E self specs (PluginSpec.backToRead self heap) := by
    unfold PluginSpec.resolveDependencies
    simp only [herr, Bool.false_eq_true, if_false]
  have hst1 : (PluginSpec.backToRead self heap self).state = State.Read := by
    rw [backToRead_self]
    split
    · rfl
    · rename_i hr
      exact hstate.resolve_right hr
  have he1 : (PluginSpec.backToRead self heap self).hasError = false := by
    rw [backToRead_self]
    split <;> exact herr
  have hdeps : (PluginSpec.backToRead self heap self).dependencies = (heap self).dependencies := by
    rw [backToRead_self]
    split <;> rfl
  obtain ⟨p1, p2, p3⟩ := resolveDependenciesFromRead_spec E self specs _ hst1 he1
  rw [hdeps] at p1 p2
  have hmatch := fun dep => dependencyMatched_congr E (PluginSpec.backToRead self heap) heap specs
    (fun s _ => backToRead_sameIdentity self heap s) dep
  simp only [hmatch] at p1 p2
  rw [← hres] at p1 p2 p3
  refine ⟨⟨?_, p1⟩, ?_, ?_, hcongr, by decide⟩
  · intro h
    by_contra hn
    have := (p2 hn).1
    rw [h.1] at this
    cases this
  · intro hn
    obtain ⟨q1, q2, q3, q4⟩ := p2 hn
    exact ⟨q1, q2, q3, fun dep hd ht hm hp =>
      (name_version_infix_msgCouldNotResolve dep hp).trans (q4 dep hd ht hm)⟩
  · intro s hs
    rw [p3 s hs, backToRead_other _ _ _ hs]

/-- The outcome of `resolveDependencies` for a spec in state `Read` that
requires `B` 3.0, with no other spec than itself. -/
theorem resolveDependencies_outcome_witness :
    specRequiringB.hasError = false
      ∧ specRequiringB.state = State.Read
      ∧ (PluginSpec.resolveDependencies plainEnv 0 [0] (fun _ => specRequiringB)).1 = false
      ∧ ((PluginSpec.resolveDependencies plainEnv 0 [0] (fun _ => specRequiringB)).2 0).hasError = true
      ∧ ((PluginSpec.resolveDependencies plainEnv 0 [0] (fun _ => specRequiringB)).2 0).state
          = State.Read
      ∧ "B(3.0)".toList
          <:+: ((PluginSpec.resolveDependencies plainEnv 0 [0] (fun _ => specRequiringB)).2
            0).errorString := by
  have h := (resolveDependencies_outcome plainEnv (fun _ => specRequiringB) 0 [0] (by decide)
    (Or.inl (by decide))).2.1 (by decide)
  exact ⟨by decide, by decide, h.1, h.2.1, h.2.2.1,
    h.2.2.2 ⟨"B".toList, "3.0".toList, DependencyType.Required⟩ (by decide) rfl (by decide)
      (by decide)⟩

/-- C7. The plugin file `A` 1.0 requires a plugin named `%2` in version `1.0`
that no spec provides: after `readPluginPaths` the spec `A` is in state `Read`
with `hasError`, and its `errorString` is `Could not resolve dependency
'1.0(1.0)'`, which does not contain `%2(1.0)`; the same holds for the call of
`resolveDependencies` on a spec in state `Read` with that dependency. -/
theorem resolveDependencies_percent_name :
    scenarioPercentDependency.map (fun m => m.pluginSpecs.map (fun a =>
        ((m.heap a).name, (m.heap a).state, (m.heap a).hasError)))
      = some [("A".toList, State.Read, true)]
    ∧ scenarioPercentDependency.map (fun m => m.pluginSpecs.map (fun a =>
        (m.heap a).dependencies))
      = some [[⟨"%2".toList, "1.0".toList, DependencyType.Required⟩]]
    ∧ scenarioPercentDependency.map (fun m => m.pluginSpecs.map (fun a =>
        (m.heap a).errorString))
      = some ["Could not resolve dependency '1.0(1.0)'".toList]
    ∧ ((PluginSpec.resolveDependencies plainEnv 0 [0] (fun _ => specRequiringPercent)).2
        0).errorString = "Could not resolve dependency '1.0(1.0)'".toList
    ∧ ¬ ("%2(1.0)".toList <:+: "Could not resolve dependency '1.0(1.0)'".toList) := by
  refine ⟨by decide, by decide, by decide, by decide, by decide⟩

/-! ## Reading the metadata -/

theorem keeps_bind {α : Type} (f : PluginSpec → α) (d : PluginSpec) (r : Early)
    (k : PluginSpec → Early) (hr : keeps f d r) (hk : ∀ d', f d' = f d → keeps f d' (k d')) :
    keeps f d (r >>= k) := by
  cases r with
  | error e => exact hr
  | ok d' =>
    have h1 : f d' = f d := hr
    have h2 := hk d' h1
    show keeps f d (k d')
    unfold keeps at h2 ⊢
    cases hkd : k d' with
    | error e =>
      rw [hkd] at h2
      exact h2.trans h1
    | ok d'' =>
      rw [hkd] at h2
      exact h2.trans h1

theorem keeps_ite {α : Type} (f : PluginSpec → α) (d : PluginSpec) (c : Prop) [Decidable c]
    (a b : Early) (ha : keeps f d a) (hb : keeps f d b) : keeps f d (if c then a else b) := by
  split <;> assumption

theorem readDependency_keeps (E : QtEnv) (v : QJsonValue) (d : PluginSpec) :
    keeps untouched d (PluginSpec.readDependency E v d) := by
  unfold PluginSpec.readDependency
  simp only [pure, throw, throwThe, MonadExceptOf.throw, bind, Except.bind, Except.pure]
  repeat' (first | apply keeps_ite | rfl)

theorem readDependencies_keeps (E : QtEnv) (l : List QJsonValue) :
    ∀ d, keeps untouched d (PluginSpec.readDependencies E l d) := by
  induction l with
  | nil => intro d; rfl
  | cons v rest ih =>
    intro d
    unfold PluginSpec.readDependencies
    exact keeps_bind _ d _ _ (readDependency_keeps E v d) (fun d' _ => ih d')

theorem readArgument_keeps (v : QJsonValue) (d : PluginSpec) :
    keeps untouched d (PluginSpec.readArgument v d) := by
  unfold PluginSpec.readArgument
  simp only [pure, throw, throwThe, MonadExceptOf.throw, bind, Except.bind, Except.pure]
  repeat' (first | apply keeps_ite | rfl)

theorem readArguments_keeps (l : List QJsonValue) :
    ∀ d, keeps untouched d (PluginSpec.readArguments l d) := by
  induction l with
  | nil => intro d; rfl
  | cons v rest ih =>
    intro d
    unfold PluginSpec.readArguments
    exact keeps_bind _ d _ _ (readArgument_keeps v d) (fun d' _ => ih d')

theorem applyExperimental_untouched (d : PluginSpec) :
    untouched d.applyExperimental = untouched d := by
  unfold PluginSpec.applyExperimental
  split <;> rfl

theorem readMetaDataSteps_keep (E : QtEnv) (iid : QString) (md : QJsonObject) :
    ∀ step ∈ PluginSpec.readMetaDataSteps E iid md, ∀ d, keeps untouched d (step d) := by
  intro step hstep d
  simp only [PluginSpec.readMetaDataSteps, List.mem_cons, List.mem_singleton, List.not_mem_nil,
    or_false] at hstep
  rcases hstep with h | h | h | h | h | h | h | h | h | h | h | h | h | h | h | h | h <;> subst h
  · unfold PluginSpec.readIID
    repeat' (first | apply keeps_ite | rfl)
  · unfold PluginSpec.readMetaDataObject
    repeat' (first | apply keeps_ite | rfl)
  · unfold PluginSpec.readName
    repeat' (first | apply keeps_ite | rfl)
  · unfold PluginSpec.readVersion
    repeat' (first | apply keeps_ite | rfl)
  · unfold PluginSpec.readCompatVersion
    repeat' (first | apply keeps_ite | rfl)
  · unfold PluginSpec.readRequired
    repeat' (first | apply keeps_ite | rfl)
  · unfold PluginSpec.readExperimental
    repeat' (first | apply keeps_ite | rfl)
  · unfold PluginSpec.readDisabledByDefault
    apply keeps_ite
    · rfl
    · exact applyExperimental_untouched _
  · unfold PluginSpec.readVendor
    repeat' (first | apply keeps_ite | rfl)
  · unfold PluginSpec.readCopyright
    repeat' (first | apply keeps_ite | rfl)
  · unfold PluginSpec.readDescription
    apply keeps_ite
    · rfl
    · split <;> rfl
  · unfold PluginSpec.readUrl
    repeat' (first | apply keeps_ite | rfl)
  · unfold PluginSpec.readCategory
    repeat' (first | apply keeps_ite | rfl)
  · unfold PluginSpec.readLicense
    apply keeps_ite
    · rfl
    · split <;> rfl
  · unfold PluginSpec.readPlatform
    repeat' (first | apply keeps_ite | rfl)
  · unfold PluginSpec.readDependenciesKey
    repeat' (first | apply keeps_ite | rfl | exact readDependencies_keeps E _ d)
  · unfold PluginSpec.readArgumentsKey
    repeat' (first | apply keeps_ite | rfl | exact readArguments_keeps _ d)

theorem runSteps_keeps {α : Type} (f : PluginSpec → α) (steps : List (PluginSpec → Early))
    (h : ∀ step ∈ steps, ∀ d, keeps f d (step d)) : ∀ d, keeps f d (PluginSpec.runSteps steps d) := by
  induction steps with
  | nil => intro d; rfl
  | cons step rest ih =>
    intro d
    have h1 := h step (by simp) d
    have ih' := ih (fun s hs => h s (List.mem_cons_of_mem _ hs))
    unfold PluginSpec.runSteps
    cases hs : step d with
    | error r =>
      rw [hs] at h1
      exact h1
    | ok d1 =>
      rw [hs] at h1
      have h2 := ih' d1
      have e1 : f d1 = f d := h1
      simp only
      unfold keeps at h2 ⊢
      cases hr : PluginSpec.runSteps rest d1 with
      | error r =>
        rw [hr] at h2
        exact h2.trans e1
      | ok d2 =>
        rw [hr] at h2
        exact h2.trans e1

theorem readMetaData_untouched (E : QtEnv) (iid : QString) (md : QJsonObject) (d : PluginSpec) :
    untouched (d.readMetaData E iid md).2 = untouched d := by
  have h := runSteps_keeps untouched _ (readMetaDataSteps_keep E iid md) d
  unfold PluginSpec.readMetaData
  unfold keeps at h
  cases hr : PluginSpec.runSteps (PluginSpec.readMetaDataSteps E iid md) d with
  | error r =>
    rw [hr] at h
    exact h
  | ok d1 =>
    rw [hr] at h
    exact h

/-- `read` leaves the resolved dependencies alone, and a spec it accepts is in
state `Read`. -/
theorem read_graph (E : QtEnv) (iid : QString) (file : PluginFile) (d : PluginSpec) :
    (PluginSpec.read E iid file d).2.dependencySpecs = d.dependencySpecs
      ∧ ((PluginSpec.read E iid file d).1 = true → (PluginSpec.read E iid file d).2.state = State.Read) := by
  unfold PluginSpec.read
  simp only
  split
  · exact ⟨rfl, fun h => (Bool.false_ne_true h).elim⟩
  · split
    · refine ⟨?_, fun h => (Bool.false_ne_true h).elim⟩
      have h := readMetaData_untouched E iid file.metaData
        ({ ({ d with
          name := [], version := [], compatVersion := [], vendor := [], copyright := [],
          license := [], description := [], url := [], category := [], location := [],
          state := State.Invalid, hasError := false, errorString := [], dependencies := [],
          metaData := [] } : PluginSpec) with
          location := file.absolutePath, filePath := file.absoluteFilePath } : PluginSpec)
      exact congrArg Prod.fst h
    · refine ⟨?_, fun _ => rfl⟩
      have h := readMetaData_untouched E iid file.metaData
        ({ ({ d with
          name := [], version := [], compatVersion := [], vendor := [], copyright := [],
          license := [], description := [], url := [], category := [], location := [],
          state := State.Invalid, hasError := false, errorString := [], dependencies := [],
          metaData := [] } : PluginSpec) with
          location := file.absolutePath, filePath := file.absoluteFilePath } : PluginSpec)
      exact congrArg Prod.fst h

/-! ## The load queue -/

theorem sameGraph_refl (h : Heap) : sameGraph h h := fun _ => ⟨rfl, rfl⟩

theorem sameGraph_trans {h1 h2 h3 : Heap} (a : sameGraph h1 h2) (b : sameGraph h2 h3) :
    sameGraph h1 h3 :=
  fun s => ⟨(a s).1.trans (b s).1, (a s).2.trans (b s).2⟩

theorem sameGraph_set_error (h : Heap) (spec : Nat) (e : Bool) (msg : QString) :
    sameGraph h (h.set spec { h spec with hasError := e, errorString := msg }) := by
  intro s
  by_cases hs : s = spec
  · subst hs
    rw [Heap.set_same]
    exact ⟨rfl, rfl⟩
  · rw [Heap.set_other _ _ _ _ hs]
    exact ⟨rfl, rfl⟩

theorem queueOrdered_congr {h h' : Heap} (g : sameGraph h h') (q : List Nat)
    (o : queueOrdered h q) : queueOrdered h' q := by
  refine ⟨o.1, ?_⟩
  intro pre X post hq hr e he ht
  have hr' : isResolved (h X) := by
    unfold isResolved at *
    rw [(g X).1]
    exact hr
  rw [← (g X).2] at he
  exact o.2 pre X post hq hr' e he ht

theorem loadQueueStep_refl (st : LoadQueueState) : loadQueueStep st st :=
  ⟨sameGraph_refl _, List.prefix_refl _, List.prefix_refl _, fun _ hy => Or.inl hy, fun o => o⟩

theorem loadQueueStep_trans {a b c : LoadQueueState} (p : loadQueueStep a b)
    (q : loadQueueStep b c) : loadQueueStep a c := by
  obtain ⟨p1, p2, p3, p4, p5⟩ := p
  obtain ⟨q1, q2, q3, q4, q5⟩ := q
  refine ⟨sameGraph_trans p1 q1, p2.trans q2, p3.trans q3, ?_, fun o => q5 (p5 o)⟩
  intro y hy
  rcases q4 y hy with h | h
  · exact p4 y h
  · exact Or.inr (fun hc => h (p3.subset hc))

theorem loadQueueStep_set_error (st : LoadQueueState) (spec : Nat) (e : Bool) (msg : QString) :
    loadQueueStep st { st with heap := st.heap.set spec { st.heap spec with
      hasError := e, errorString := msg } } :=
  ⟨sameGraph_set_error _ _ _ _, List.prefix_refl _, List.prefix_refl _, fun _ hy => Or.inl hy,
    fun o => queueOrdered_congr (sameGraph_set_error _ _ _ _) _ o⟩

/-- The loop over the dependencies, given that every recursive call is a step
that, when it returns true, leaves its spec on the queue. -/
theorem loadQueueDeps_step (recurse : Nat → LoadQueueState → Option (Bool × LoadQueueState))
    (spec : Nat)
    (hrec : ∀ d st0 b st1, recurse d st0 = some (b, st1) →
      loadQueueStep st0 st1 ∧ (b = true → d ∈ st1.queue))
    (deps : DependencyHash) :
    ∀ (st : LoadQueueState) (b : Bool) (st' : LoadQueueState),
      PluginManagerPrivate.loadQueueDeps recurse spec deps st = some (b, st') →
      loadQueueStep st st'
        ∧ (b = true → ∀ e ∈ deps, e.1.type ≠ DependencyType.Test → e.2 ∈ st'.queue) := by
  induction deps with
  | nil =>
    intro st b st' h
    simp only [PluginManagerPrivate.loadQueueDeps, Option.some.injEq, Prod.mk.injEq] at h
    obtain ⟨_, rfl⟩ := h
    exact ⟨loadQueueStep_refl _, fun _ e he => absurd he (List.not_mem_nil _)⟩
  | cons entry rest ih =>
    intro st b st' h
    obtain ⟨key, depSpec⟩ := entry
    simp only [PluginManagerPrivate.loadQueueDeps] at h
    by_cases ht : key.type = DependencyType.Test
    · simp only [ht, if_true] at h
      obtain ⟨s1, s2⟩ := ih st b st' h
      refine ⟨s1, fun hb e he hne => ?_⟩
      rcases List.mem_cons.1 he with rfl | he'
      · exact absurd ht hne
      · exact s2 hb e he' hne
    · simp only [ht, if_false] at h
      cases hr : recurse depSpec st with
      | none => simp [hr] at h
      | some r =>
        obtain ⟨rb, st1⟩ := r
        obtain ⟨r1, r2⟩ := hrec depSpec st rb st1 hr
        cases rb with
        | true =>
          simp only [hr] at h
          obtain ⟨s1, s2⟩ := ih st1 b st' h
          refine ⟨loadQueueStep_trans r1 s1, fun hb e he hne => ?_⟩
          rcases List.mem_cons.1 he with rfl | he'
          · exact s1.2.1.subset (r2 rfl)
          · exact s2 hb e he' hne
        | false =>
          simp only [hr, Option.some.injEq, Prod.mk.injEq] at h
          obtain ⟨rfl, rfl⟩ := h
          exact ⟨loadQueueStep_trans r1 (loadQueueStep_set_error _ _ _ _),
            fun hb => absurd hb (by decide)⟩


theorem queueOrdered_append (h : Heap) (q : List Nat) (x : Nat) (o : queueOrdered h q)
    (hx : x ∉ q)
    (hd : isResolved (h x) → ∀ e ∈ (h x).dependencySpecs, e.1.type ≠ DependencyType.Test → e.2 ∈ q) :
    queueOrdered h (q ++ [x]) := by
  refine ⟨?_, ?_⟩
  · rw [List.nodup_append]
    refine ⟨o.1, List.nodup_singleton x, ?_⟩
    intro a ha hb
    rw [List.mem_singleton] at hb
    exact hx (hb ▸ ha)
  · intro pre X post hq hr e he ht
    rcases List.eq_nil_or_concat post with hp | ⟨p', z, hp⟩
    · subst hp
      have := List.append_inj' hq rfl
      obtain ⟨h1, h2⟩ := this
      simp only [List.cons.injEq, and_true] at h2
      subst h1
      subst h2
      exact hd hr e he ht
    · subst hp
      have hq' : q ++ [x] = (pre ++ X :: p') ++ [z] := by
        rw [hq]
        simp [List.concat_eq_append]
      obtain ⟨h1, _⟩ := List.append_inj' hq' rfl
      exact o.2 pre X p' h1 hr e he ht

theorem contains_eq_true_iff (l : List Nat) (a : Nat) : l.contains a = true ↔ a ∈ l := by
  simp

theorem not_contains_eq_true_iff (l : List Nat) (a : Nat) : (!l.contains a) = true ↔ a ∉ l := by
  simp

/-- A call of `loadQueue(spec, queue, circularityCheckQueue)` is a step, and
when it returns true the spec is on the queue. -/
theorem loadQueueSpec_step (fuel : Nat) :
    ∀ (spec : Nat) (st : LoadQueueState) (b : Bool) (st' : LoadQueueState),
      PluginManagerPrivate.loadQueueSpec fuel spec st = some (b, st') →
      loadQueueStep st st' ∧ (b = true → spec ∈ st'.queue) := by
  induction fuel with
  | zero =>
    intro spec st b st' h
    simp [PluginManagerPrivate.loadQueueSpec] at h
  | succ fuel ih =>
    intro spec st b st' h
    simp only [PluginManagerPrivate.loadQueueSpec] at h
    by_cases hq : st.queue.contains spec = true
    · simp only [hq, if_true, Option.some.injEq, Prod.mk.injEq] at h
      obtain ⟨rfl, rfl⟩ := h
      exact ⟨loadQueueStep_refl _, fun _ => (contains_eq_true_iff _ _).1 hq⟩
    · simp only [hq, Bool.false_eq_true, if_false] at h
      have hq' : spec ∉ st.queue := fun hm => hq ((contains_eq_true_iff _ _).2 hm)
      by_cases hc : st.circularityCheckQueue.contains spec = true
      · simp only [hc, if_true, Option.some.injEq, Prod.mk.injEq] at h
        obtain ⟨rfl, rfl⟩ := h
        exact ⟨loadQueueStep_set_error _ _ _ _, fun hb => absurd hb (by decide)⟩
      · simp only [hc, Bool.false_eq_true, if_false] at h
        have hc' : spec ∉ st.circularityCheckQueue :=
          fun hm => hc ((contains_eq_true_iff _ _).2 hm)
        have step1 : loadQueueStep st
            { st with circularityCheckQueue := st.circularityCheckQueue ++ [spec] } :=
          ⟨sameGraph_refl _, List.prefix_refl _, List.prefix_append _ _, fun _ hy => Or.inl hy,
            fun o => o⟩
        by_cases hs : (st.heap spec).state = State.Invalid ∨ (st.heap spec).state = State.Read
        · simp only [hs, if_true, Option.some.injEq, Prod.mk.injEq] at h
          obtain ⟨rfl, rfl⟩ := h
          refine ⟨⟨sameGraph_refl _, List.prefix_append _ _, List.prefix_append _ _, ?_, ?_⟩,
            fun hb => absurd hb (by decide)⟩
          · intro y hy
            rcases List.mem_append.1 hy with hy | hy
            · exact Or.inl hy
            · rw [List.mem_singleton] at hy
              exact Or.inr (hy ▸ hc')
          · intro o
            refine queueOrdered_append _ _ _ o hq' (fun hr => ?_)
            rcases hs with hs | hs
            · exact absurd hs hr.1
            · exact absurd hs hr.2
        · simp only [hs, if_false] at h
          cases hl : PluginManagerPrivate.loadQueueDeps (PluginManagerPrivate.loadQueueSpec fuel) spec
              (st.heap spec).dependencySpecs
              { st with circularityCheckQueue := st.circularityCheckQueue ++ [spec] } with
          | none => simp [hl] at h
          | some r =>
            obtain ⟨rb, st2⟩ := r
            obtain ⟨l1, l2⟩ := loadQueueDeps_step _ spec ih _ _ _ _ hl
            cases rb with
            | false =>
              simp only [hl, Option.some.injEq, Prod.mk.injEq] at h
              obtain ⟨rfl, rfl⟩ := h
              exact ⟨loadQueueStep_trans step1 l1, fun hb => absurd hb (by decide)⟩
            | true =>
              simp only [hl, Option.some.injEq, Prod.mk.injEq] at h
              obtain ⟨rfl, rfl⟩ := h
              obtain ⟨g, pq, pc, pn, po⟩ := l1
              have hnot : spec ∉ st2.queue := by
                intro hm
                rcases pn spec hm with h1 | h1
                · exact hq' h1
                · exact h1 (by simp)
              refine ⟨⟨g, pq.trans (List.prefix_append _ _),
                (List.prefix_append _ _).trans pc, ?_, ?_⟩, fun _ => by simp⟩
              · intro y hy
                rcases List.mem_append.1 hy with hy | hy
                · rcases pn y hy with h1 | h1
                  · exact Or.inl h1
                  · exact Or.inr (fun hm => h1 (List.mem_append_left _ hm))
                · rw [List.mem_singleton] at hy
                  exact Or.inr (hy ▸ hc')
              · intro o
                refine queueOrdered_append _ _ _ (po o) hnot (fun _ e he ht => ?_)
                rw [← (g spec).2] at he
                exact l2 rfl e he ht


theorem dependenciesWithin_congr {h h' : Heap} (g : sameGraph h h') (U : List Nat)
    (w : dependenciesWithin h U) : dependenciesWithin h' U := by
  intro s hs e he
  rw [← (g s).2] at he
  exact w s hs e he

theorem filter_length_mono (l : List Nat) (p q : Nat → Bool) (hpq : ∀ a, q a = true → p a = true) :
    (l.filter q).length ≤ (l.filter p).length :=
  (List.monotone_filter_right l hpq).length_le

theorem filter_length_lt (l : List Nat) (p q : Nat → Bool) (hpq : ∀ a, q a = true → p a = true)
    (x : Nat) (hx : x ∈ l) (hp : p x = true) (hq : q x = false) :
    (l.filter q).length < (l.filter p).length := by
  induction l with
  | nil => cases hx
  | cons a t ih =>
    rcases List.mem_cons.1 hx with rfl | hx'
    · simp only [List.filter_cons, hp, hq, if_true, Bool.false_eq_true, if_false, List.length_cons]
      exact Nat.lt_succ_of_le (filter_length_mono t p q hpq)
    · have := ih hx'
      simp only [List.filter_cons]
      by_cases hqa : q a = true
      · simp only [hqa, hpq a hqa, if_true, List.length_cons]
        omega
      · simp only [hqa, Bool.false_eq_true, if_false]
        by_cases hpa : p a = true
        · simp only [hpa, if_true, List.length_cons]
          omega
        · simp only [hpa, Bool.false_eq_true, if_false]
          exact this

/-- Number of specs of `U` that are not on the circularity check queue. -/
theorem unvisited_mono (U : List Nat) (c c' : List Nat) (h : c ⊆ c') :
    (U.filter (fun x => !c'.contains x)).length ≤ (U.filter (fun x => !c.contains x)).length := by
  apply filter_length_mono
  intro a ha
  have ha' : a ∉ c' := (not_contains_eq_true_iff _ _).1 ha
  exact (not_contains_eq_true_iff _ _).2 (fun hm => ha' (h hm))

theorem unvisited_lt (U : List Nat) (c : List Nat) (x : Nat) (hx : x ∈ U) (hc : x ∉ c) :
    (U.filter (fun y => !(c ++ [x]).contains y)).length
      < (U.filter (fun y => !c.contains y)).length := by
  apply filter_length_lt U _ _ _ x hx
  · exact (not_contains_eq_true_iff _ _).2 hc
  · simp
  · intro a ha
    have ha' : a ∉ c ++ [x] := (not_contains_eq_true_iff _ _).1 ha
    exact (not_contains_eq_true_iff _ _).2 (fun hm => ha' (List.mem_append_left _ hm))

theorem loadQueueDeps_terminates (U : List Nat) (bound : Nat)
    (recurse : Nat → LoadQueueState → Option (Bool × LoadQueueState)) (spec : Nat)
    (hstep : ∀ d st0 b st1, recurse d st0 = some (b, st1) →
      loadQueueStep st0 st1 ∧ (b = true → d ∈ st1.queue))
    (hsome : ∀ d st0, d ∈ U → dependenciesWithin st0.heap U →
      (U.filter (fun x => !st0.circularityCheckQueue.contains x)).length < bound →
      ∃ r, recurse d st0 = some r ∧ (st0.queue ⊆ U → r.2.queue ⊆ U))
    (deps : DependencyHash) :
    ∀ st : LoadQueueState, (∀ e ∈ deps, e.2 ∈ U) → dependenciesWithin st.heap U →
      (U.filter (fun x => !st.circularityCheckQueue.contains x)).length < bound →
      ∃ r, PluginManagerPrivate.loadQueueDeps recurse spec deps st = some r
        ∧ (st.queue ⊆ U → r.2.queue ⊆ U) := by
  induction deps with
  | nil =>
    intro st _ _ _
    exact ⟨(true, st), rfl, fun h => h⟩
  | cons entry rest ih =>
    intro st hU hw hm
    obtain ⟨key, depSpec⟩ := entry
    simp only [PluginManagerPrivate.loadQueueDeps]
    have hrest : ∀ e ∈ rest, e.2 ∈ U := fun e he => hU e (List.mem_cons_of_mem _ he)
    by_cases ht : key.type = DependencyType.Test
    · simp only [ht, if_true]
      exact ih st hrest hw hm
    · simp only [ht, if_false]
      have hd : depSpec ∈ U := hU (key, depSpec) (by simp)
      obtain ⟨r, hr, hsub⟩ := hsome depSpec st hd hw hm
      obtain ⟨rb, st1⟩ := r
      obtain ⟨⟨g, _, pc, _, _⟩, _⟩ := hstep depSpec st rb st1 hr
      rw [hr]
      cases rb with
      | false => exact ⟨_, rfl, hsub⟩
      | true =>
        simp only
        obtain ⟨r2, hr2, hsub2⟩ := ih st1 hrest (dependenciesWithin_congr g U hw)
          (Nat.lt_of_le_of_lt (unvisited_mono U _ _ pc.subset) hm)
        exact ⟨r2, hr2, fun h => hsub2 (hsub h)⟩

/-- With the resolved dependencies inside a list `U` of specs, a call of
`loadQueue(spec, queue, circularityCheckQueue)` returns when the bound on the
depth is above the number of specs of `U` not yet on the circularity check
queue, and it adds only specs of `U` to the queue. -/
theorem loadQueueSpec_terminates (U : List Nat) (fuel : Nat) :
    ∀ (spec : Nat) (st : LoadQueueState), spec ∈ U → dependenciesWithin st.heap U →
      (U.filter (fun x => !st.circularityCheckQueue.contains x)).length < fuel →
      ∃ r, PluginManagerPrivate.loadQueueSpec fuel spec st = some r
        ∧ (st.queue ⊆ U → r.2.queue ⊆ U) := by
  induction fuel with
  | zero =>
    intro spec st _ _ h
    exact absurd h (Nat.not_lt_zero _)
  | succ fuel ih =>
    intro spec st hs hw hm
    simp only [PluginManagerPrivate.loadQueueSpec]
    by_cases hq : st.queue.contains spec = true
    · rw [if_pos hq]
      exact ⟨_, rfl, fun h => h⟩
    · simp only [hq, Bool.false_eq_true, if_false]
      by_cases hc : st.circularityCheckQueue.contains spec = true
      · rw [if_pos hc]
        exact ⟨_, rfl, fun h => h⟩
      · simp only [hc, Bool.false_eq_true, if_false]
        have hc' : spec ∉ st.circularityCheckQueue :=
          fun hm => hc ((contains_eq_true_iff _ _).2 hm)
        have hadd : ∀ q : List Nat, q ⊆ U → q ++ [spec] ⊆ U := by
          intro q hqU x hx
          rcases List.mem_append.1 hx with hx | hx
          · exact hqU hx
          · rw [List.mem_singleton] at hx
            exact hx ▸ hs
        by_cases hst : (st.heap spec).state = State.Invalid ∨ (st.heap spec).state = State.Read
        · rw [if_pos hst]
          exact ⟨_, rfl, fun h => hadd _ h⟩
        · simp only [hst, if_false]
          have hlt := unvisited_lt U st.circularityCheckQueue spec hs hc'
          obtain ⟨r, hr, hsub⟩ := loadQueueDeps_terminates U fuel
            (PluginManagerPrivate.loadQueueSpec fuel) spec
            (loadQueueSpec_step fuel) ih (st.heap spec).dependencySpecs
            { st with circularityCheckQueue := st.circularityCheckQueue ++ [spec] }
            (hw spec hs) hw (Nat.lt_of_lt_of_le hlt (Nat.le_of_lt_succ hm))
          obtain ⟨rb, st2⟩ := r
          rw [hr]
          cases rb with
          | false => exact ⟨_, rfl, hsub⟩
          | true => exact ⟨_, rfl, fun h => hadd _ (hsub h)⟩

/-- The loop of `loadQueue()` returns, keeps states and resolved dependencies,
and builds an ordered queue of specs of `U`. -/
theorem loadQueueLoop_spec (U : List Nat) (fuel : Nat) (hfuel : U.length < fuel) :
    ∀ (specs : List Nat) (heap : Heap) (queue : List Nat), specs ⊆ U →
      dependenciesWithin heap U → queueOrdered heap queue → queue ⊆ U →
      ∃ heap' queue', PluginManagerPrivate.loadQueueLoop fuel specs heap queue = some (heap', queue')
        ∧ sameGraph heap heap' ∧ queueOrdered heap' queue' ∧ queue <+: queue' ∧ queue' ⊆ U := by
  intro specs
  induction specs with
  | nil =>
    intro heap queue _ _ o hq
    exact ⟨heap, queue, rfl, sameGraph_refl _, o, List.prefix_refl _, hq⟩
  | cons spec rest ih =>
    intro heap queue hsub hw o hq
    have hs : spec ∈ U := hsub (by simp)
    have hlen : (U.filter (fun x => !([] : List Nat).contains x)).length < fuel :=
      Nat.lt_of_le_of_lt (List.length_filter_le _ _) hfuel
    obtain ⟨r, hr, hqs⟩ := loadQueueSpec_terminates U fuel spec ⟨heap, queue, []⟩ hs hw hlen
    simp only [PluginManagerPrivate.loadQueueLoop]
    obtain ⟨rb, st1⟩ := r
    rw [hr]
    obtain ⟨⟨g, pq, _, _, po⟩, _⟩ := loadQueueSpec_step fuel spec _ rb st1 hr
    obtain ⟨heap', queue', e, g', o', pq', hq'⟩ := ih st1.heap st1.queue
      (fun x hx => hsub (List.mem_cons_of_mem _ hx)) (dependenciesWithin_congr g U hw) (po o)
      (hqs hq)
    exact ⟨heap', queue', e, sameGraph_trans g g', o', pq.trans pq', hq'⟩

/-! ## Indirect enabling -/

theorem onlyIndirectlyEnabled_refl (h : Heap) : onlyIndirectlyEnabled h h := fun _ => Or.inl rfl

theorem onlyIndirectlyEnabled_trans {a b c : Heap} (p : onlyIndirectlyEnabled a b)
    (q : onlyIndirectlyEnabled b c) : onlyIndirectlyEnabled a c := by
  intro s
  rcases q s with hq | hq <;> rcases p s with hp | hp
  · exact Or.inl (hq.trans hp)
  · exact Or.inr (hq.trans hp)
  · exact Or.inr (by rw [hq, hp])
  · exact Or.inr (by rw [hq, hp]; rfl)

theorem onlyIndirectlyEnabled_set (h : Heap) (t : Nat) :
    onlyIndirectlyEnabled h (h.set t ((h t).setEnabledIndirectly true)) := by
  intro s
  by_cases hs : s = t
  · subst hs
    exact Or.inr (Heap.set_same _ _ _)
  · exact Or.inl (Heap.set_other _ _ _ _ hs)

theorem onlyIndirectlyEnabled_sameGraph {h h' : Heap} (r : onlyIndirectlyEnabled h h') :
    sameGraph h h' := by
  intro s
  rcases r s with e | e
  · rw [e]
    exact ⟨rfl, rfl⟩
  · rw [e]
    exact ⟨rfl, rfl⟩

theorem onlyIndirectlyEnabled_available (E : QtEnv) {h h' : Heap}
    (r : onlyIndirectlyEnabled h h') (s : Nat) :
    (h' s).isAvailableForHostPlatform E = (h s).isAvailableForHostPlatform E := by
  rcases r s with e | e
  · rw [e]
  · rw [e]
    rfl

theorem onlyIndirectlyEnabled_effective (E : QtEnv) {h h' : Heap}
    (r : onlyIndirectlyEnabled h h') (s : Nat) (he : (h s).isEffectivelyEnabled E = true) :
    (h' s).isEffectivelyEnabled E = true := by
  rcases r s with e | e
  · rw [e]
    exact he
  · rw [e]
    unfold PluginSpec.isEffectivelyEnabled at he ⊢
    have ha : ((h s).setEnabledIndirectly true).isAvailableForHostPlatform E
        = (h s).isAvailableForHostPlatform E := rfl
    rw [ha]
    by_cases hav : (h s).isAvailableForHostPlatform E = true
    · simp [hav, PluginSpec.setEnabledIndirectly]
    · simp [hav] at he

theorem enableWeight_congr (E : QtEnv) {h h' : Heap} (r : onlyIndirectlyEnabled h h') (s : Nat) :
    enableWeight E h' s = enableWeight E h s := by
  unfold enableWeight
  rw [onlyIndirectlyEnabled_available E r s, ← ((onlyIndirectlyEnabled_sameGraph r) s).2]

theorem enablePending_le (E : QtEnv) {h h' : Heap} (r : onlyIndirectlyEnabled h h') (s : Nat) :
    enablePending E h' s ≤ enablePending E h s := by
  unfold enablePending
  rw [onlyIndirectlyEnabled_available E r s, ← ((onlyIndirectlyEnabled_sameGraph r) s).2]
  by_cases c : (h s).isAvailableForHostPlatform E = true ∧ (h' s).isEffectivelyEnabled E = false
  · have c' : (h s).isAvailableForHostPlatform E = true ∧ (h s).isEffectivelyEnabled E = false := by
      refine ⟨c.1, ?_⟩
      by_contra hn
      have := onlyIndirectlyEnabled_effective E r s (by simpa using hn)
      rw [c.2] at this
      cases this
    rw [if_pos c, if_pos c']
  · rw [if_neg c]
    exact Nat.zero_le _

theorem sum_map_le (U : List Nat) (f g : Nat → Nat) (h : ∀ s, f s ≤ g s) :
    (U.map f).sum ≤ (U.map g).sum := by
  induction U with
  | nil => exact Nat.le_refl _
  | cons a t ih =>
    simp only [List.map_cons, List.sum_cons]
    exact Nat.add_le_add (h a) ih

theorem sum_map_add_le (U : List Nat) (f g : Nat → Nat) (h : ∀ s, f s ≤ g s) (t c : Nat)
    (ht : t ∈ U) (hc : f t + c ≤ g t) : (U.map f).sum + c ≤ (U.map g).sum := by
  induction U with
  | nil => cases ht
  | cons a rest ih =>
    simp only [List.map_cons, List.sum_cons]
    rcases List.mem_cons.1 ht with e | ht'
    · subst e
      have := sum_map_le rest f g h
      omega
    · have := ih ht'
      have := h a
      omega

/-- One entry of the resolved dependencies that is enabled indirectly: the cost
of the new work list entry is paid by the reserve of the spec, up to one. -/
theorem enable_entry_cost (E : QtEnv) (U : List Nat) (h : Heap) (t : Nat) (ht : t ∈ U)
    (hne : (h t).isEffectivelyEnabled E = false) :
    enableWeight E h t + (U.map (enablePending E (h.set t ((h t).setEnabledIndirectly true)))).sum
      ≤ (U.map (enablePending E h)).sum + 1 := by
  have r := onlyIndirectlyEnabled_set h t
  by_cases hav : (h t).isAvailableForHostPlatform E = true
  · have hw : enableWeight E h t = 1 + (h t).dependencySpecs.length := by
      unfold enableWeight
      rw [if_pos hav]
    have hp : enablePending E h t = 1 + (h t).dependencySpecs.length := by
      unfold enablePending
      rw [if_pos ⟨hav, hne⟩]
    have hp' : enablePending E (h.set t ((h t).setEnabledIndirectly true)) t = 0 := by
      unfold enablePending
      rw [Heap.set_same]
      have he : ((h t).setEnabledIndirectly true).isEffectivelyEnabled E = true := by
        unfold PluginSpec.isEffectivelyEnabled
        have ha : ((h t).setEnabledIndirectly true).isAvailableForHostPlatform E
            = (h t).isAvailableForHostPlatform E := rfl
        rw [ha]
        simp [hav, PluginSpec.setEnabledIndirectly]
      rw [if_neg]
      rw [he]
      simp
    have := sum_map_add_le U _ _ (fun s => enablePending_le E r s) t (1 + (h t).dependencySpecs.length)
      ht (by rw [hp', hp]; omega)
    omega
  · have hw : enableWeight E h t = 1 := by
      unfold enableWeight
      rw [if_neg hav]
    have := sum_map_le U _ _ (fun s => enablePending_le E r s)
    omega


theorem sum_map_enableWeight_congr (E : QtEnv) {h h' : Heap} (r : onlyIndirectlyEnabled h h')
    (l : List Nat) : (l.map (enableWeight E h')).sum = (l.map (enableWeight E h)).sum := by
  induction l with
  | nil => rfl
  | cons a t ih => simp only [List.map_cons, List.sum_cons, ih, enableWeight_congr E r a]

/-- The loop of `PluginSpecPrivate::enableDependenciesIndirectly`: it only sets
`enabledIndirectly` flags, appends specs of `U` to its result, and the cost of
the appended specs is covered by the reserve and the number of entries. -/
theorem enableInner_spec (E : QtEnv) (U : List Nat) (flag : Bool) (ds : DependencyHash) :
    ∀ (h : Heap) (enabled : List Nat), (∀ e ∈ ds, e.2 ∈ U) →
      onlyIndirectlyEnabled h (PluginSpec.enableDependenciesIndirectlyLoop E flag ds h enabled).1
        ∧ ∃ new, (PluginSpec.enableDependenciesIndirectlyLoop E flag ds h enabled).2 = enabled ++ new
          ∧ new ⊆ U
          ∧ (new.map (enableWeight E h)).sum
              + (U.map (enablePending E
                  (PluginSpec.enableDependenciesIndirectlyLoop E flag ds h enabled).1)).sum
            ≤ (U.map (enablePending E h)).sum + ds.length := by
  induction ds with
  | nil =>
    intro h enabled _
    exact ⟨onlyIndirectlyEnabled_refl _, [], by simp [PluginSpec.enableDependenciesIndirectlyLoop],
      by simp, by simp [PluginSpec.enableDependenciesIndirectlyLoop]⟩
  | cons entry rest ih =>
    intro h enabled hU
    obtain ⟨key, t⟩ := entry
    have hrest : ∀ e ∈ rest, e.2 ∈ U := fun e he => hU e (List.mem_cons_of_mem _ he)
    have ht : t ∈ U := hU (key, t) (by simp)
    simp only [PluginSpec.enableDependenciesIndirectlyLoop]
    by_cases hskip : key.type ≠ DependencyType.Required
        ∧ (flag = false ∨ key.type ≠ DependencyType.Test)
    · rw [if_pos hskip]
      obtain ⟨r, new, e1, e2, e3⟩ := ih h enabled hrest
      exact ⟨r, new, e1, e2, by simp only [List.length_cons]; omega⟩
    · rw [if_neg hskip]
      by_cases heff : (h t).isEffectivelyEnabled E = true
      · simp only [heff, Bool.not_true, Bool.false_eq_true, if_false]
        obtain ⟨r, new, e1, e2, e3⟩ := ih h enabled hrest
        exact ⟨r, new, e1, e2, by simp only [List.length_cons]; omega⟩
      · have heff' : (h t).isEffectivelyEnabled E = false := by simpa using heff
        simp only [heff', Bool.not_false, if_true]
        obtain ⟨r, new, e1, e2, e3⟩ :=
          ih (h.set t ((h t).setEnabledIndirectly true)) (enabled ++ [t]) hrest
        have r0 := onlyIndirectlyEnabled_set h t
        refine ⟨onlyIndirectlyEnabled_trans r0 r, t :: new, ?_, ?_, ?_⟩
        · rw [e1]
          simp
        · intro x hx
          rcases List.mem_cons.1 hx with rfl | hx'
          · exact ht
          · exact e2 hx'
        · have c := enable_entry_cost E U h t ht heff'
          rw [sum_map_enableWeight_congr E r0 new] at e3
          simp only [List.map_cons, List.sum_cons, List.length_cons]
          omega

theorem effective_available (E : QtEnv) (d : PluginSpec) (h : d.isEffectivelyEnabled E = true) :
    d.isAvailableForHostPlatform E = true := by
  unfold PluginSpec.isEffectivelyEnabled at h
  by_cases ha : d.isAvailableForHostPlatform E = true
  · exact ha
  · simp [ha] at h

/-- One iteration of the indirect-enable loop for the spec at the head of the
work list. -/
theorem enableSpec_spec (E : QtEnv) (U : List Nat) (flag : Bool) (h : Heap) (spec : Nat)
    (hs : spec ∈ U) (hw : dependenciesWithin h U) :
    onlyIndirectlyEnabled h (PluginSpec.enableDependenciesIndirectly E spec flag h).1
      ∧ (PluginSpec.enableDependenciesIndirectly E spec flag h).2 ⊆ U
      ∧ ((PluginSpec.enableDependenciesIndirectly E spec flag h).2.map (enableWeight E h)).sum
          + (U.map (enablePending E (PluginSpec.enableDependenciesIndirectly E spec flag h).1)).sum + 1
        ≤ enableWeight E h spec + (U.map (enablePending E h)).sum := by
  unfold PluginSpec.enableDependenciesIndirectly
  by_cases heff : (h spec).isEffectivelyEnabled E = true
  · simp only [heff, Bool.not_true, Bool.false_eq_true, if_false]
    obtain ⟨r, new, e1, e2, e3⟩ := enableInner_spec E U flag (h spec).dependencySpecs h []
      (hw spec hs)
    rw [e1]
    have hwt : enableWeight E h spec = 1 + (h spec).dependencySpecs.length := by
      unfold enableWeight
      rw [if_pos (effective_available E _ heff)]
    refine ⟨r, by simpa using e2, ?_⟩
    simp only [List.nil_append]
    omega
  · have heff' : (h spec).isEffectivelyEnabled E = false := by simpa using heff
    simp only [heff', Bool.not_false, if_true]
    refine ⟨onlyIndirectlyEnabled_refl _, by simp, ?_⟩
    simp only [List.map_nil, List.sum_nil, Nat.zero_add]
    unfold enableWeight
    omega

/-- The indirect-enable loop returns when its bound is at least the measure of
the work list; it only sets `enabledIndirectly` flags. -/
theorem enableLoop_terminates (E : QtEnv) (U testSpecs : List Nat) (fuel : Nat) :
    ∀ (queue : List Nat) (h : Heap), queue ⊆ U → dependenciesWithin h U →
      enablePotential E U queue h ≤ fuel →
      ∃ h', PluginManagerPrivate.enableDependenciesIndirectlyLoop E testSpecs fuel queue h = some h'
        ∧ onlyIndirectlyEnabled h h' := by
  induction fuel with
  | zero =>
    intro queue h _ _ hp
    cases queue with
    | nil => exact ⟨h, rfl, onlyIndirectlyEnabled_refl _⟩
    | cons spec rest =>
      unfold enablePotential enableWeight at hp
      simp only [List.map_cons, List.sum_cons] at hp
      omega
  | succ fuel ih =>
    intro queue h hq hw hp
    cases queue with
    | nil => exact ⟨h, rfl, onlyIndirectlyEnabled_refl _⟩
    | cons spec rest =>
      have hs : spec ∈ U := hq (by simp)
      obtain ⟨r, e2, e3⟩ := enableSpec_spec E U (testSpecs.contains spec) h spec hs hw
      simp only [PluginManagerPrivate.enableDependenciesIndirectlyLoop]
      have hq' : rest ++ (PluginSpec.enableDependenciesIndirectly E spec (testSpecs.contains spec) h).2
          ⊆ U := by
        intro x hx
        rcases List.mem_append.1 hx with hx | hx
        · exact hq (List.mem_cons_of_mem _ hx)
        · exact e2 hx
      have hp' : enablePotential E U
          (rest ++ (PluginSpec.enableDependenciesIndirectly E spec (testSpecs.contains spec) h).2)
          (PluginSpec.enableDependenciesIndirectly E spec (testSpecs.contains spec) h).1 ≤ fuel := by
        unfold enablePotential at hp ⊢
        simp only [List.map_cons, List.sum_cons] at hp
        rw [sum_map_enableWeight_congr E r]
        simp only [List.map_append, List.sum_append]
        omega
      obtain ⟨h', e, r'⟩ := ih _ _ hq'
        (dependenciesWithin_congr (onlyIndirectlyEnabled_sameGraph r) U hw) hp'
      exact ⟨h', e, onlyIndirectlyEnabled_trans r r'⟩

theorem sum_map_filter_le (U : List Nat) (p : Nat → Bool) (f : Nat → Nat) :
    ((U.filter p).map f).sum ≤ (U.map f).sum := by
  induction U with
  | nil => exact Nat.le_refl _
  | cons a t ih =>
    simp only [List.filter_cons]
    split
    · simp only [List.map_cons, List.sum_cons]
      omega
    · simp only [List.map_cons, List.sum_cons]
      omega

theorem enablePotential_le_fuel (E : QtEnv) (U : List Nat) (p : Nat → Bool) (h : Heap) :
    enablePotential E U (U.filter p) h < PluginManagerPrivate.enableFuel h U := by
  unfold enablePotential PluginManagerPrivate.enableFuel
  have h1 := sum_map_filter_le U p (enableWeight E h)
  have h2 : (U.map (enableWeight E h)).sum ≤ (U.map (fun spec => 1 + (h spec).dependencySpecs.length)).sum := by
    apply sum_map_le
    intro s
    unfold enableWeight
    split <;> omega
  have h3 : (U.map (enablePending E h)).sum ≤ (U.map (fun spec => 1 + (h spec).dependencySpecs.length)).sum := by
    apply sum_map_le
    intro s
    unfold enablePending
    split <;> omega
  omega

theorem clearIndirect_sameGraph (specs : List Nat) :
    ∀ heap : Heap, sameGraph heap (specs.foldl
      (fun heap spec => heap.set spec ((heap spec).setEnabledIndirectly false)) heap) := by
  induction specs with
  | nil => intro heap; exact sameGraph_refl _
  | cons a t ih =>
    intro heap
    simp only [List.foldl_cons]
    refine sameGraph_trans ?_ (ih _)
    intro s
    by_cases hs : s = a
    · subst hs
      rw [Heap.set_same]
      exact ⟨rfl, rfl⟩
    · rw [Heap.set_other _ _ _ _ hs]
      exact ⟨rfl, rfl⟩

/-- `PluginManagerPrivate::enableDependenciesIndirectly` returns when the
resolved dependencies point into `pluginSpecs`; it changes neither states nor
resolved dependencies nor the list of specs. -/
theorem enableDependenciesIndirectly_returns (E : QtEnv) (m : PluginManagerPrivate)
    (hw : dependenciesWithin m.heap m.pluginSpecs) :
    ∃ m', m.enableDependenciesIndirectly E = some m' ∧ sameGraph m.heap m'.heap
      ∧ m'.pluginSpecs = m.pluginSpecs := by
  unfold PluginManagerPrivate.enableDependenciesIndirectly
  have g1 := clearIndirect_sameGraph m.pluginSpecs m.heap
  have hw1 := dependenciesWithin_congr g1 _ hw
  obtain ⟨h', e, r⟩ := enableLoop_terminates E m.pluginSpecs m.testSpecs _ _ _
    (fun x hx => (List.mem_filter.1 hx).1) hw1 (Nat.le_of_lt (enablePotential_le_fuel E m.pluginSpecs _ _))
  simp only
  rw [e]
  exact ⟨_, rfl, sameGraph_trans g1 (onlyIndirectlyEnabled_sameGraph r), rfl⟩

/-- One plugin file: the manager is unchanged, or a spec in state `Read`
without resolved dependencies is added at the next address. -/
theorem readPluginFile_spec (E : QtEnv) (m : PluginManagerPrivate) (file : PluginFile) :
    PluginManagerPrivate.readPluginFile E m file = m
      ∨ ((PluginManagerPrivate.readPluginFile E m file).pluginSpecs = m.pluginSpecs ++ [m.nextSpec]
        ∧ (PluginManagerPrivate.readPluginFile E m file).nextSpec = m.nextSpec + 1
        ∧ ((PluginManagerPrivate.readPluginFile E m file).heap m.nextSpec).state = State.Read
        ∧ ((PluginManagerPrivate.readPluginFile E m file).heap m.nextSpec).dependencySpecs = []
        ∧ ∀ s, s ≠ m.nextSpec → (PluginManagerPrivate.readPluginFile E m file).heap s = m.heap s) := by
  obtain ⟨g1, g2⟩ := read_graph E m.pluginIID file PluginSpec.new
  unfold PluginManagerPrivate.readPluginFile
  simp only
  by_cases hr : (PluginSpec.read E m.pluginIID file PluginSpec.new).1 = true
  · right
    simp only [hr, Bool.not_true, Bool.false_eq_true, if_false, Heap.set_same]
    refine ⟨trivial, trivial, ?_, ?_, fun s hs => Heap.set_other _ _ _ _ hs⟩
    · repeat' split
      all_goals exact g2 hr
    · repeat' split
      all_goals exact g1
  · left
    simp [hr]


theorem readPluginFiles_spec (E : QtEnv) (files : List PluginFile) :
    ∀ m : PluginManagerPrivate, (∀ s ∈ m.pluginSpecs, s < m.nextSpec) →
      freshlyRead m.heap m.pluginSpecs → m.pluginSpecs.Nodup →
      (∀ s ∈ (files.foldl (PluginManagerPrivate.readPluginFile E) m).pluginSpecs,
          s < (files.foldl (PluginManagerPrivate.readPluginFile E) m).nextSpec)
        ∧ freshlyRead (files.foldl (PluginManagerPrivate.readPluginFile E) m).heap
            (files.foldl (PluginManagerPrivate.readPluginFile E) m).pluginSpecs
        ∧ (files.foldl (PluginManagerPrivate.readPluginFile E) m).pluginSpecs.Nodup := by
  induction files with
  | nil =>
    intro m h1 h2 h3
    exact ⟨h1, h2, h3⟩
  | cons file rest ih =>
    intro m h1 h2 h3
    simp only [List.foldl_cons]
    apply ih
    all_goals rcases readPluginFile_spec E m file with e | ⟨e1, e2, e3, e4, e5⟩
    · rw [e]
      exact h1
    · rw [e1, e2]
      intro s hs
      rcases List.mem_append.1 hs with hs | hs
      · exact Nat.lt_succ_of_lt (h1 s hs)
      · rw [List.mem_singleton] at hs
        omega
    · rw [e]
      exact h2
    · rw [e1]
      intro s hs
      rcases List.mem_append.1 hs with hs | hs
      · have hne : s ≠ m.nextSpec := Nat.ne_of_lt (h1 s hs)
        rw [e5 s hne]
        exact h2 s hs
      · rw [List.mem_singleton] at hs
        subst hs
        exact ⟨e3, e4⟩
    · rw [e]
      exact h3
    · rw [e1, List.nodup_append]
      refine ⟨h3, List.nodup_singleton _, ?_⟩
      intro a ha hb
      rw [List.mem_singleton] at hb
      subst hb
      exact Nat.lt_irrefl _ (h1 _ ha)

theorem mem_dependencyHash_insert (E : QtEnv) (h : DependencyHash) (key : PluginDependency)
    (value : Nat) (e : PluginDependency × Nat) (he : e ∈ h.insert E key value) :
    e.2 = value ∨ e ∈ h := by
  unfold DependencyHash.insert at he
  split at he
  · rw [List.mem_map] at he
    obtain ⟨x, hx, rfl⟩ := he
    split
    · exact Or.inl rfl
    · exact Or.inr hx
  · have := (E.hashOrder_perm _).mem_iff.1 he
    rcases List.mem_append.1 this with h1 | h1
    · exact Or.inr h1
    · rw [List.mem_singleton] at h1
      subst h1
      exact Or.inl rfl

theorem resolveDependenciesLoop_targets (E : QtEnv) (self : Nat) (specs : List Nat)
    (deps : List PluginDependency) :
    ∀ (heap : Heap) (res : DependencyHash), (∀ e ∈ res, e.2 ∈ specs) →
      ∀ e ∈ (PluginSpec.resolveDependenciesLoop E self specs deps heap res).2, e.2 ∈ specs := by
  induction deps with
  | nil =>
    intro heap res h
    exact h
  | cons dep rest ih =>
    intro heap res h
    simp only [PluginSpec.resolveDependenciesLoop]
    cases hf : specs.find? (fun spec => (heap spec).provides E dep.name dep.version) with
    | some found =>
      apply ih
      intro e he
      rcases mem_dependencyHash_insert E res dep found e he with h1 | h1
      · rw [h1]
        exact List.mem_of_find?_eq_some hf
      · exact h e h1
    | none =>
      simp only
      split
      · exact ih _ res h
      · exact ih _ res h

/-- Resolution of a spec that is in state `Read` without resolved
dependencies leaves it so, or makes it `Resolved` with resolved dependencies
among `specs`. -/
theorem resolveDependencies_resolutionDone (E : QtEnv) (self : Nat) (specs : List Nat)
    (heap : Heap) (hst : (heap self).state = State.Read)
    (hd : (heap self).dependencySpecs = []) :
    resolutionDone (PluginSpec.resolveDependencies E self specs heap).2 specs self := by
  unfold PluginSpec.resolveDependencies
  by_cases he : (heap self).hasError = true
  · simp only [he, if_true]
    exact Or.inl ⟨hst, hd⟩
  · simp only [he, Bool.false_eq_true, if_false]
    have hb : PluginSpec.backToRead self heap = heap := by
      unfold PluginSpec.backToRead
      rw [if_neg (by rw [hst]; decide)]
    rw [hb]
    obtain ⟨_, i2, _, _, _⟩ := resolveDependenciesLoop_spec E self specs (heap self).dependencies heap []
    have ht := resolveDependenciesLoop_targets E self specs (heap self).dependencies heap []
      (fun e he => absurd he (List.not_mem_nil _))
    have hstL : ((PluginSpec.resolveDependenciesLoop E self specs (heap self).dependencies heap
        []).1 self).state = State.Read := by
      rw [i2]
      exact hst
    have hdL : ((PluginSpec.resolveDependenciesLoop E self specs (heap self).dependencies heap
        []).1 self).dependencySpecs = [] := by
      rw [i2]
      exact hd
    unfold PluginSpec.resolveDependenciesFromRead
    simp only [hst, ne_eq, not_true_eq_false, if_false]
    split
    · exact Or.inl ⟨hstL, hdL⟩
    · right
      simp only [Heap.set_same]
      exact ⟨trivial, ht⟩

theorem resolveDependencies_other (E : QtEnv) (self : Nat) (specs : List Nat) (heap : Heap)
    (s : Nat) (hs : s ≠ self) : (PluginSpec.resolveDependencies E self specs heap).2 s = heap s := by
  unfold PluginSpec.resolveDependencies
  split
  · rfl
  · unfold PluginSpec.resolveDependenciesFromRead
    obtain ⟨i1, _⟩ := resolveDependenciesLoop_spec E self specs
      (PluginSpec.backToRead self heap self).dependencies (PluginSpec.backToRead self heap) []
    simp only
    split
    · simp only [Heap.set_other _ _ _ _ hs, backToRead_other _ _ _ hs]
    · split
      · simp only [i1 s hs, backToRead_other _ _ _ hs]
      · simp only [Heap.set_other _ _ _ _ hs, i1 s hs, backToRead_other _ _ _ hs]

theorem resolveAll_spec (E : QtEnv) (U : List Nat) (todo : List Nat) :
    ∀ heap : Heap, todo.Nodup →
      (∀ s ∈ todo, (heap s).state = State.Read ∧ (heap s).dependencySpecs = []) →
      (∀ s ∈ U, s ∉ todo → resolutionDone heap U s) →
      ∀ s ∈ U, resolutionDone (todo.foldl
        (fun heap spec => (PluginSpec.resolveDependencies E spec U heap).2) heap) U s := by
  induction todo with
  | nil =>
    intro heap _ _ h s hs
    exact h s hs (List.not_mem_nil _)
  | cons spec rest ih =>
    intro heap hn hfresh hdone
    simp only [List.foldl_cons]
    have hnr : spec ∉ rest := (List.nodup_cons.1 hn).1
    apply ih _ (List.nodup_cons.1 hn).2
    · intro s hs
      have hne : s ≠ spec := fun e => hnr (e ▸ hs)
      rw [resolveDependencies_other E spec U heap s hne]
      exact hfresh s (List.mem_cons_of_mem _ hs)
    · intro s hs hsr
      by_cases e : s = spec
      · subst e
        exact resolveDependencies_resolutionDone E s U heap (hfresh s (by simp)).1
          (hfresh s (by simp)).2
      · have := hdone s hs (fun hm => by
          rcases List.mem_cons.1 hm with h1 | h1
          · exact e h1
          · exact hsr h1)
        unfold resolutionDone at this ⊢
        rw [resolveDependencies_other E spec U heap s e]
        exact this

theorem resolutionDone_congr {h h' : Heap} (g : sameGraph h h') (U : List Nat) (s : Nat)
    (r : resolutionDone h U s) : resolutionDone h' U s := by
  unfold resolutionDone at *
  rw [← (g s).1, ← (g s).2]
  exact r

/-! ## The load queue after `readPluginPaths` -/

theorem sortByName_perm (heap : Heap) (specs : List Nat) :
    (PluginManagerPrivate.sortByName heap specs).Perm specs :=
  List.perm_insertionSort _ _

/-- `readPluginPaths` returns; afterwards the list of specs has no repetition
and every spec is in state `Read` without resolved dependencies or is
`Resolved` with resolved dependencies among the specs of the manager. -/
theorem readPluginPaths_wellFormed (E : QtEnv) (files : List PluginFile)
    (m : PluginManagerPrivate) :
    ∃ m', PluginManagerPrivate.readPluginPaths E files m = some m' ∧ m'.pluginSpecs.Nodup
      ∧ ∀ s ∈ m'.pluginSpecs, resolutionDone m'.heap m'.pluginSpecs s := by
  obtain ⟨_, f2, f3⟩ := readPluginFiles_spec E files
    { m with pluginSpecs := [], pluginCategories := [([], [])] }
    (fun s hs => absurd hs (List.not_mem_nil _)) (fun s hs => absurd hs (List.not_mem_nil _))
    List.nodup_nil
  generalize hm2 : files.foldl (PluginManagerPrivate.readPluginFile E)
    { m with pluginSpecs := [], pluginCategories := [([], [])] } = m2 at f2 f3
  have r := resolveAll_spec E m2.pluginSpecs m2.pluginSpecs m2.heap f3 f2
    (fun s hs hn => absurd hs hn)
  have hw : dependenciesWithin (m2.resolveDependencies E).heap (m2.resolveDependencies E).pluginSpecs := by
    intro s hs e he
    rcases r s hs with ⟨_, h0⟩ | ⟨_, h1⟩
    · have he' : e ∈ ((m2.resolveDependencies E).heap s).dependencySpecs := he
      have h0' : ((m2.resolveDependencies E).heap s).dependencySpecs = [] := h0
      rw [h0'] at he'
      exact absurd he' (List.not_mem_nil _)
    · exact h1 e he
  obtain ⟨m4, e4, g4, p4⟩ := enableDependenciesIndirectly_returns E (m2.resolveDependencies E) hw
  have hp : m4.pluginSpecs = m2.pluginSpecs := p4
  refine ⟨{ m4 with pluginSpecs := PluginManagerPrivate.sortByName m4.heap m4.pluginSpecs }, ?_, ?_, ?_⟩
  · unfold PluginManagerPrivate.readPluginPaths
    simp only [hm2, e4]
  · exact (sortByName_perm _ _).nodup_iff.2 (hp ▸ f3)
  · intro s hs
    have hs' : s ∈ m2.pluginSpecs := hp ▸ (sortByName_perm _ _).mem_iff.1 hs
    have := resolutionDone_congr g4 _ s (r s hs')
    unfold resolutionDone at this ⊢
    rcases this with h0 | ⟨h1, h2⟩
    · exact Or.inl h0
    · exact Or.inr ⟨h1, fun e he => (sortByName_perm _ _).mem_iff.2 (hp ▸ h2 e he)⟩

theorem queueOrdered_nil (heap : Heap) : queueOrdered heap [] := by
  refine ⟨List.nodup_nil, ?_⟩
  intro pre X post h
  cases pre <;> cases h

/-- `loadQueue()` returns when the resolved dependencies point into
`pluginSpecs`; the queue is ordered and made of specs of `pluginSpecs`. -/
theorem loadQueue_ordered (m : PluginManagerPrivate)
    (hw : dependenciesWithin m.heap m.pluginSpecs) :
    ∃ queue m', m.loadQueue = some (queue, m') ∧ sameGraph m.heap m'.heap
      ∧ queueOrdered m'.heap queue ∧ queue ⊆ m.pluginSpecs ∧ m'.pluginSpecs = m.pluginSpecs := by
  obtain ⟨heap', queue', e, g, o, _, hq⟩ := loadQueueLoop_spec m.pluginSpecs (m.pluginSpecs.length + 1)
    (Nat.lt_succ_self _) m.pluginSpecs m.heap [] (fun _ h => h) hw (queueOrdered_nil _)
    (fun _ h => absurd h (List.not_mem_nil _))
  refine ⟨queue', { m with heap := heap' }, ?_, g, o, hq, rfl⟩
  unfold PluginManagerPrivate.loadQueue
  rw [e]

theorem indexOf_lt_of_mem_append (pre post : List Nat) (X Y : Nat) (hY : Y ∈ pre)
    (hX : X ∉ pre) : (pre ++ X :: post).indexOf Y < (pre ++ X :: post).indexOf X := by
  have h1 : (pre ++ X :: post).indexOf Y = pre.indexOf Y := List.indexOf_append_of_mem hY
  have h2 : (pre ++ X :: post).indexOf X = pre.length := by
    rw [List.indexOf_append_of_not_mem hX]
    simp
  rw [h1, h2]
  exact List.indexOf_lt_length.2 hY

/-- C5. After `readPluginPaths`, `loadQueue()` returns a queue in which, for
every spec X and every required entry (dep -> Y) of the resolved dependencies
of X, Y occurs at a strictly smaller index than X. -/
theorem loadQueue_topological (E : QtEnv) (files : List PluginFile) (m : PluginManagerPrivate) :
    ∃ m1 queue m2, PluginManagerPrivate.readPluginPaths E files m = some m1
      ∧ m1.loadQueue = some (queue, m2)
      ∧ ∀ X ∈ queue, ∀ e ∈ (m2.heap X).dependencySpecs, e.1.type = DependencyType.Required →
          e.2 ∈ queue ∧ queue.indexOf e.2 < queue.indexOf X := by
  obtain ⟨m1, e1, _, wf⟩ := readPluginPaths_wellFormed E files m
  have hw : dependenciesWithin m1.heap m1.pluginSpecs := by
    intro s hs e he
    rcases wf s hs with ⟨_, h0⟩ | ⟨_, h1⟩
    · rw [h0] at he
      exact absurd he (List.not_mem_nil _)
    · exact h1 e he
  obtain ⟨queue, m2, e2, g, o, hq, _⟩ := loadQueue_ordered m1 hw
  refine ⟨m1, queue, m2, e1, e2, ?_⟩
  intro X hX e he ht
  obtain ⟨pre, post, hsplit⟩ := List.append_of_mem hX
  have hXpre : X ∉ pre := by
    intro hm
    have hn := o.1
    rw [hsplit, List.nodup_append] at hn
    exact hn.2.2 hm (by simp)
  have hdone := resolutionDone_congr g _ X (wf X (hq hX))
  rcases hdone with ⟨_, h0⟩ | ⟨h1, _⟩
  · rw [h0] at he
    exact absurd he (List.not_mem_nil _)
  · have hres : isResolved (m2.heap X) := by
      unfold isResolved
      rw [h1]
      exact ⟨by decide, by decide⟩
    have hY : e.2 ∈ pre := o.2 pre X post hsplit hres e he (by rw [ht]; decide)
    rw [hsplit]
    exact ⟨List.mem_append_left _ hY, indexOf_lt_of_mem_append pre post X e.2 hY hXpre⟩

/-! ## Loading all plugins -/

/-- The loop over the dependencies in a graph without cycle: every recursive
call returns true and records no error. -/
theorem loadQueueDeps_acyclic (U : List Nat) (H : Heap)
    (recurse : Nat → LoadQueueState → Option (Bool × LoadQueueState)) (spec : Nat)
    (hstep : ∀ d st0 b st1, recurse d st0 = some (b, st1) →
      loadQueueStep st0 st1 ∧ (b = true → d ∈ st1.queue))
    (hrec : ∀ d st0 b st1, recurse d st0 = some (b, st1) → d ∈ U → st0.heap = H →
      (∀ x ∈ st0.circularityCheckQueue, x ∈ st0.queue ∨ Relation.TransGen (dependsOn H) x d) →
      b = true ∧ st1.heap = H
        ∧ ∀ x ∈ st1.circularityCheckQueue, x ∈ st1.queue ∨ x ∈ st0.circularityCheckQueue)
    (deps : DependencyHash) :
    ∀ (st : LoadQueueState) (b : Bool) (st' : LoadQueueState),
      PluginManagerPrivate.loadQueueDeps recurse spec deps st = some (b, st') → st.heap = H →
      (∀ e ∈ deps, e.2 ∈ U ∧ (e.1.type ≠ DependencyType.Test → dependsOn H spec e.2)) →
      (∀ x ∈ st.circularityCheckQueue,
        x ∈ st.queue ∨ x = spec ∨ Relation.TransGen (dependsOn H) x spec) →
      b = true ∧ st'.heap = H
        ∧ ∀ x ∈ st'.circularityCheckQueue, x ∈ st'.queue ∨ x ∈ st.circularityCheckQueue := by
  induction deps with
  | nil =>
    intro st b st' h hH _ _
    simp only [PluginManagerPrivate.loadQueueDeps, Option.some.injEq, Prod.mk.injEq] at h
    obtain ⟨rfl, rfl⟩ := h
    exact ⟨rfl, hH, fun x hx => Or.inr hx⟩
  | cons entry rest ih =>
    intro st b st' h hH hdeps hinv
    obtain ⟨key, t⟩ := entry
    have hrest : ∀ e ∈ rest, e.2 ∈ U ∧ (e.1.type ≠ DependencyType.Test → dependsOn H spec e.2) :=
      fun e he => hdeps e (List.mem_cons_of_mem _ he)
    simp only [PluginManagerPrivate.loadQueueDeps] at h
    by_cases ht : key.type = DependencyType.Test
    · simp only [ht, if_true] at h
      exact ih st b st' h hH hrest hinv
    · simp only [ht, if_false] at h
      obtain ⟨htU, hedge⟩ := hdeps (key, t) (by simp)
      have hedge' : dependsOn H spec t := hedge ht
      cases hr : recurse t st with
      | none => simp [hr] at h
      | some r =>
        obtain ⟨rb, st1⟩ := r
        have hpre : ∀ x ∈ st.circularityCheckQueue,
            x ∈ st.queue ∨ Relation.TransGen (dependsOn H) x t := by
          intro x hx
          rcases hinv x hx with h1 | h1 | h1
          · exact Or.inl h1
          · exact Or.inr (h1 ▸ Relation.TransGen.single hedge')
          · exact Or.inr (Relation.TransGen.tail h1 hedge')
        obtain ⟨rtrue, rH, rcirc⟩ := hrec t st rb st1 hr htU hH hpre
        obtain ⟨⟨_, pq, _, _, _⟩, _⟩ := hstep t st rb st1 hr
        subst rtrue
        simp only [hr] at h
        have hinv1 : ∀ x ∈ st1.circularityCheckQueue,
            x ∈ st1.queue ∨ x = spec ∨ Relation.TransGen (dependsOn H) x spec := by
          intro x hx
          rcases rcirc x hx with h1 | h1
          · exact Or.inl h1
          · rcases hinv x h1 with h2 | h2
            · exact Or.inl (pq.subset h2)
            · exact Or.inr h2
        obtain ⟨b1, b2, b3⟩ := ih st1 b st' h rH hrest hinv1
        obtain ⟨⟨_, pq', _, _, _⟩, _⟩ := loadQueueDeps_step recurse spec hstep rest st1 b st' h
        refine ⟨b1, b2, fun x hx => ?_⟩
        rcases b3 x hx with h1 | h1
        · exact Or.inl h1
        · rcases rcirc x h1 with h2 | h2
          · exact Or.inl (pq'.subset h2)
          · exact Or.inr h2

/-- In a graph of resolved specs without cycle, a call of
`loadQueue(spec, queue, circularityCheckQueue)` returns true, records no error
and leaves on the circularity check queue only specs that are on the queue. -/
theorem loadQueueSpec_acyclic (U : List Nat) (H : Heap) (hw : dependenciesWithin H U)
    (hres : ∀ s ∈ U, isResolved (H s))
    (hacyclic : ∀ s ∈ U, ¬ Relation.TransGen (dependsOn H) s s) (fuel : Nat) :
    ∀ (spec : Nat) (st : LoadQueueState) (b : Bool) (st' : LoadQueueState),
      PluginManagerPrivate.loadQueueSpec fuel spec st = some (b, st') → spec ∈ U → st.heap = H →
      (∀ x ∈ st.circularityCheckQueue, x ∈ st.queue ∨ Relation.TransGen (dependsOn H) x spec) →
      b = true ∧ st'.heap = H
        ∧ ∀ x ∈ st'.circularityCheckQueue, x ∈ st'.queue ∨ x ∈ st.circularityCheckQueue := by
  induction fuel with
  | zero =>
    intro spec st b st' h
    simp [PluginManagerPrivate.loadQueueSpec] at h
  | succ fuel ih =>
    intro spec st b st' h hs hH hinv
    simp only [PluginManagerPrivate.loadQueueSpec] at h
    by_cases hq : st.queue.contains spec = true
    · simp only [hq, if_true, Option.some.injEq, Prod.mk.injEq] at h
      obtain ⟨rfl, rfl⟩ := h
      exact ⟨rfl, hH, fun x hx => Or.inr hx⟩
    · simp only [hq, Bool.false_eq_true, if_false] at h
      have hq' : spec ∉ st.queue := fun hm => hq ((contains_eq_true_iff _ _).2 hm)
      by_cases hc : st.circularityCheckQueue.contains spec = true
      · have hc' : spec ∈ st.circularityCheckQueue := (contains_eq_true_iff _ _).1 hc
        rcases hinv spec hc' with h1 | h1
        · exact absurd h1 hq'
        · exact absurd h1 (hacyclic spec hs)
      · simp only [hc, Bool.false_eq_true, if_false] at h
        have hstate : ¬ ((st.heap spec).state = State.Invalid ∨ (st.heap spec).state = State.Read) := by
          rw [hH]
          intro hn
          rcases hn with hn | hn
          · exact (hres spec hs).1 hn
          · exact (hres spec hs).2 hn
        simp only [hstate, if_false] at h
        cases hl : PluginManagerPrivate.loadQueueDeps (PluginManagerPrivate.loadQueueSpec fuel) spec
            (st.heap spec).dependencySpecs
            { st with circularityCheckQueue := st.circularityCheckQueue ++ [spec] } with
        | none => simp [hl] at h
        | some r =>
          obtain ⟨rb, st2⟩ := r
          have hdeps : ∀ e ∈ (st.heap spec).dependencySpecs,
              e.2 ∈ U ∧ (e.1.type ≠ DependencyType.Test → dependsOn H spec e.2) := by
            rw [hH]
            intro e he
            exact ⟨hw spec hs e he, fun ht => ⟨e, he, ht, rfl⟩⟩
          have hinv1 : ∀ x ∈ st.circularityCheckQueue ++ [spec],
              x ∈ st.queue ∨ x = spec ∨ Relation.TransGen (dependsOn H) x spec := by
            intro x hx
            rcases List.mem_append.1 hx with h1 | h1
            · rcases hinv x h1 with h2 | h2
              · exact Or.inl h2
              · exact Or.inr (Or.inr h2)
            · rw [List.mem_singleton] at h1
              exact Or.inr (Or.inl h1)
          obtain ⟨b1, b2, b3⟩ := loadQueueDeps_acyclic U H (PluginManagerPrivate.loadQueueSpec fuel)
            spec (loadQueueSpec_step fuel) ih (st.heap spec).dependencySpecs
            { st with circularityCheckQueue := st.circularityCheckQueue ++ [spec] } rb st2 hl hH
            hdeps hinv1
          subst b1
          simp only [hl, Option.some.injEq, Prod.mk.injEq] at h
          obtain ⟨rfl, rfl⟩ := h
          refine ⟨rfl, b2, fun x hx => ?_⟩
          rcases b3 x hx with h1 | h1
          · exact Or.inl (List.mem_append_left _ h1)
          · rcases List.mem_append.1 h1 with h2 | h2
            · exact Or.inr h2
            · rw [List.mem_singleton] at h2
              exact Or.inl (h2 ▸ List.mem_append_right _ (List.mem_singleton_self _))

theorem loadQueueLoop_acyclic (U : List Nat) (H : Heap) (hw : dependenciesWithin H U)
    (hres : ∀ s ∈ U, isResolved (H s))
    (hacyclic : ∀ s ∈ U, ¬ Relation.TransGen (dependsOn H) s s) (fuel : Nat) :
    ∀ (specs : List Nat) (queue : List Nat) (heap' : Heap) (queue' : List Nat), specs ⊆ U →
      PluginManagerPrivate.loadQueueLoop fuel specs H queue = some (heap', queue') →
      heap' = H ∧ queue <+: queue' ∧ ∀ s ∈ specs, s ∈ queue' := by
  intro specs
  induction specs with
  | nil =>
    intro queue heap' queue' _ h
    simp only [PluginManagerPrivate.loadQueueLoop, Option.some.injEq, Prod.mk.injEq] at h
    obtain ⟨rfl, rfl⟩ := h
    exact ⟨rfl, List.prefix_refl _, fun s hs => absurd hs (List.not_mem_nil _)⟩
  | cons spec rest ih =>
    intro queue heap' queue' hsub h
    simp only [PluginManagerPrivate.loadQueueLoop] at h
    cases hr : PluginManagerPrivate.loadQueueSpec fuel spec ⟨H, queue, []⟩ with
    | none => simp [hr] at h
    | some r =>
      obtain ⟨rb, st1⟩ := r
      simp only [hr] at h
      obtain ⟨b1, b2, _⟩ := loadQueueSpec_acyclic U H hw hres hacyclic fuel spec _ rb st1 hr
        (hsub (by simp)) rfl (fun x hx => absurd hx (List.not_mem_nil _))
      obtain ⟨⟨_, pq, _, _, _⟩, hin⟩ := loadQueueSpec_step fuel spec _ rb st1 hr
      rw [b2] at h
      obtain ⟨c1, c2, c3⟩ := ih st1.queue heap' queue' (fun x hx => hsub (List.mem_cons_of_mem _ hx)) h
      refine ⟨c1, pq.trans c2, fun s hs => ?_⟩
      rcases List.mem_cons.1 hs with e | hs'
      · subst e
        exact c2.subset (hin b1)
      · exact c3 s hs'

/-- With all specs resolved and no dependency cycle, `loadQueue()` records no
error and returns an ordered queue that holds exactly the specs of the
manager. -/
theorem loadQueue_acyclic (m : PluginManagerPrivate)
    (hw : dependenciesWithin m.heap m.pluginSpecs)
    (hres : ∀ s ∈ m.pluginSpecs, isResolved (m.heap s))
    (hacyclic : ∀ s ∈ m.pluginSpecs, ¬ Relation.TransGen (dependsOn m.heap) s s) :
    ∃ queue, m.loadQueue = some (queue, m) ∧ queueOrdered m.heap queue
      ∧ ∀ s, s ∈ queue ↔ s ∈ m.pluginSpecs := by
  obtain ⟨queue, m', e, _, o, hq, _⟩ := loadQueue_ordered m hw
  unfold PluginManagerPrivate.loadQueue at e
  cases hl : PluginManagerPrivate.loadQueueLoop (m.pluginSpecs.length + 1) m.pluginSpecs m.heap [] with
  | none => simp [hl] at e
  | some r =>
    obtain ⟨heap', queue'⟩ := r
    simp only [hl, Option.some.injEq, Prod.mk.injEq] at e
    obtain ⟨rfl, rfl⟩ := e
    obtain ⟨c1, _, c3⟩ := loadQueueLoop_acyclic m.pluginSpecs m.heap hw hres hacyclic _ _ _ _ _
      (fun _ h => h) hl
    subst c1
    refine ⟨queue', ?_, o, fun s => ⟨fun h => hq h, fun h => c3 s h⟩⟩
    unfold PluginManagerPrivate.loadQueue
    rw [hl]

theorem firstDependencyNotIn_none (heap : Heap) (dest : State) (deps : DependencyHash)
    (h : ∀ e ∈ deps, e.1.type = DependencyType.Required → (heap e.2).state = dest) :
    PluginManagerPrivate.firstDependencyNotIn heap dest deps = none := by
  induction deps with
  | nil => rfl
  | cons entry rest ih =>
    obtain ⟨key, t⟩ := entry
    have hrest := ih (fun e he => h e (List.mem_cons_of_mem _ he))
    simp only [PluginManagerPrivate.firstDependencyNotIn]
    by_cases ht : key.type = DependencyType.Required
    · have := h (key, t) (by simp) ht
      simp only [ht, ne_eq, not_true_eq_false, if_false, this]
      exact hrest
    · simp only [ne_eq, ht, not_false_eq_true, if_true]
      exact hrest

/-- `loadPlugin(spec, Loaded)` for an enabled resolved spec without error whose
required dependencies are loaded, when the library loads. -/
theorem loadPlugin_loaded (E : QtEnv) (C : Callbacks) (m : PluginManagerPrivate) (spec : Nat)
    (he : (m.heap spec).hasError = false) (hs : (m.heap spec).state = State.Resolved)
    (heff : (m.heap spec).isEffectivelyEnabled E = true)
    (hdeps : ∀ e ∈ (m.heap spec).dependencySpecs, e.1.type = DependencyType.Required →
      (m.heap e.2).state = State.Loaded)
    (hload : C.loaderLoad spec = true) (hinst : (C.loaderInstance spec).isSome = true) :
    (m.loadPlugin E C spec State.Loaded).heap
      = m.heap.set spec ((m.heap spec).asLoaded (C.loaderInstance spec)) := by
  unfold PluginManagerPrivate.loadPlugin
  have h1 : ¬ ((m.heap spec).hasError = true
      ∨ ((m.heap spec).state.toNat : Int) ≠ (State.Loaded.toNat : Int) - 1) := by
    rw [he, hs]
    decide
  rw [if_neg h1]
  simp only [heff, Bool.not_true, Bool.false_and, Bool.false_eq_true, if_false]
  rw [firstDependencyNotIn_none _ _ _ hdeps]
  simp only
  unfold PluginSpec.loadLibrary PluginSpec.asLoaded
  simp only [he, hs, hload, Bool.false_eq_true, if_false, ne_eq, not_true_eq_false, Bool.not_true]
  cases hi : C.loaderInstance spec with
  | none => simp [hi] at hinst
  | some p => rfl

/-- `loadPlugin(spec, Initialized)` for a loaded spec without error whose
required dependencies are initialized, when `initialize()` succeeds. -/
theorem loadPlugin_initialized (E : QtEnv) (C : Callbacks) (m : PluginManagerPrivate) (spec : Nat)
    (he : (m.heap spec).hasError = false) (hs : (m.heap spec).state = State.Loaded)
    (hp : (m.heap spec).plugin.isSome = true)
    (hdeps : ∀ e ∈ (m.heap spec).dependencySpecs, e.1.type = DependencyType.Required →
      (m.heap e.2).state = State.Initialized)
    (hinit : (C.pluginInitialize spec (m.heap spec).arguments).1 = true) :
    (m.loadPlugin E C spec State.Initialized).heap
      = m.heap.set spec ((m.heap spec).inState State.Initialized) := by
  unfold PluginManagerPrivate.loadPlugin
  have h1 : ¬ ((m.heap spec).hasError = true
      ∨ ((m.heap spec).state.toNat : Int) ≠ (State.Initialized.toNat : Int) - 1) := by
    rw [he, hs]
    decide
  rw [if_neg h1]
  have h2 : (!(m.heap spec).isEffectivelyEnabled E && decide (State.Initialized = State.Loaded))
      = false := by
    simp
  rw [h2]
  simp only [Bool.false_eq_true, if_false]
  rw [firstDependencyNotIn_none _ _ _ hdeps]
  simp only
  unfold PluginSpec.initializePlugin PluginSpec.inState
  have hp' : (m.heap spec).plugin.isNone = false := by
    cases hpl : (m.heap spec).plugin with
    | none => simp [hpl] at hp
    | some p => rfl
  simp only [he, hs, hp', hinit, Bool.false_eq_true, if_false, ne_eq, not_true_eq_false,
    Bool.not_true]

/-- The body of the reverse loop of `loadPlugins` for an initialized spec
without error that has a plugin instance. -/
theorem loadPluginsRunning_running (E : QtEnv) (C : Callbacks) (m : PluginManagerPrivate)
    (spec : Nat) (he : (m.heap spec).hasError = false)
    (hs : (m.heap spec).state = State.Initialized) (hp : (m.heap spec).plugin.isSome = true) :
    (PluginManagerPrivate.loadPluginsRunning E C m spec).heap
      = m.heap.set spec ((m.heap spec).inState State.Running) := by
  have hp' : (m.heap spec).plugin.isNone = false := by
    cases hpl : (m.heap spec).plugin with
    | none => simp [hpl] at hp
    | some p => rfl
  have hl : (m.loadPlugin E C spec State.Running).heap
      = m.heap.set spec ((m.heap spec).inState State.Running) := by
    unfold PluginManagerPrivate.loadPlugin
    have h1 : ¬ ((m.heap spec).hasError = true
        ∨ ((m.heap spec).state.toNat : Int) ≠ (State.Running.toNat : Int) - 1) := by
      rw [he, hs]
      decide
    rw [if_neg h1]
    have h2 : (!(m.heap spec).isEffectivelyEnabled E && decide (State.Running = State.Loaded))
        = false := by
      simp
    rw [h2]
    simp only [Bool.false_eq_true, if_false]
    unfold PluginSpec.initializeExtensions PluginSpec.inState
    simp only [he, hs, hp', Bool.false_eq_true, if_false, ne_eq, not_true_eq_false]
  unfold PluginManagerPrivate.loadPluginsRunning
  simp only [hl, Heap.set_same]
  have hst : ((m.heap spec).inState State.Running).state = State.Running := rfl
  rw [if_pos hst]


/-- A pass over a list in which the required dependencies of every spec come
first: every spec that is ready gets the result of its step. -/
theorem orderedPass (step : PluginManagerPrivate → Nat → PluginManagerPrivate)
    (ready : PluginSpec → Prop) (dest : State) (result : Nat → PluginSpec → PluginSpec)
    (hstep : ∀ m X, ready (m.heap X) →
      (∀ e ∈ (m.heap X).dependencySpecs, e.1.type = DependencyType.Required →
        (m.heap e.2).state = dest) →
      (step m X).heap = m.heap.set X (result X (m.heap X)))
    (hresult : ∀ X d, (result X d).state = dest)
    (hready : ∀ d, ready d → d.state ≠ dest) :
    ∀ (todo : List Nat) (m : PluginManagerPrivate), todo.Nodup →
      (∀ X ∈ todo, ready (m.heap X)) →
      (∀ pre X post, todo = pre ++ X :: post →
        ∀ e ∈ (m.heap X).dependencySpecs, e.1.type = DependencyType.Required →
          e.2 ∈ pre ∨ (m.heap e.2).state = dest) →
      (∀ X ∈ todo, (todo.foldl step m).heap X = result X (m.heap X))
        ∧ (∀ s, s ∉ todo → (todo.foldl step m).heap s = m.heap s) := by
  intro todo
  induction todo with
  | nil =>
    intro m _ _ _
    exact ⟨fun X hX => absurd hX (List.not_mem_nil _), fun s _ => rfl⟩
  | cons X rest ih =>
    intro m hn hr ho
    have hXr : X ∉ rest := (List.nodup_cons.1 hn).1
    have hdX : ∀ e ∈ (m.heap X).dependencySpecs, e.1.type = DependencyType.Required →
        (m.heap e.2).state = dest := by
      intro e he ht
      rcases ho [] X rest rfl e he ht with h1 | h1
      · exact absurd h1 (List.not_mem_nil _)
      · exact h1
    have h1 := hstep m X (hr X (by simp)) hdX
    have hother : ∀ s, s ≠ X → (step m X).heap s = m.heap s := by
      intro s hs
      rw [h1, Heap.set_other _ _ _ _ hs]
    have hself : (step m X).heap X = result X (m.heap X) := by
      rw [h1, Heap.set_same]
    simp only [List.foldl_cons]
    obtain ⟨i1, i2⟩ := ih (step m X) (List.nodup_cons.1 hn).2
      (fun Y hY => by
        rw [hother Y (fun e => hXr (e ▸ hY))]
        exact hr Y (List.mem_cons_of_mem _ hY))
      (fun pre Y post hsplit e he ht => by
        have hYX : Y ≠ X := fun e' => hXr (by rw [hsplit, ← e']; simp)
        rw [hother Y hYX] at he
        rcases ho (X :: pre) Y post (by rw [hsplit]; rfl) e he ht with h2 | h2
        · rcases List.mem_cons.1 h2 with h3 | h3
          · right
            rw [h3, hself]
            exact hresult _ _
          · exact Or.inl h3
        · right
          have hne : e.2 ≠ X := by
            intro e'
            rw [e'] at h2
            exact hready _ (hr X (by simp)) h2
          rw [hother _ hne]
          exact h2)
    refine ⟨fun Y hY => ?_, fun s hs => ?_⟩
    · rcases List.mem_cons.1 hY with e | hY'
      · subst e
        rw [i2 Y hXr, hself]
      · rw [i1 Y hY', hother Y (fun e => hXr (e ▸ hY'))]
    · have hsX : s ≠ X := fun e => hs (by simp [e])
      have hsr : s ∉ rest := fun h => hs (List.mem_cons_of_mem _ h)
      rw [i2 s hsr, hother s hsX]

/-- A pass over a list in any order, for steps that do not look at other
specs. -/
theorem plainPass (step : PluginManagerPrivate → Nat → PluginManagerPrivate)
    (ready : PluginSpec → Prop) (result : Nat → PluginSpec → PluginSpec)
    (hstep : ∀ m X, ready (m.heap X) → (step m X).heap = m.heap.set X (result X (m.heap X))) :
    ∀ (todo : List Nat) (m : PluginManagerPrivate), todo.Nodup →
      (∀ X ∈ todo, ready (m.heap X)) →
      (∀ X ∈ todo, (todo.foldl step m).heap X = result X (m.heap X))
        ∧ (∀ s, s ∉ todo → (todo.foldl step m).heap s = m.heap s) := by
  intro todo
  induction todo with
  | nil =>
    intro m _ _
    exact ⟨fun X hX => absurd hX (List.not_mem_nil _), fun s _ => rfl⟩
  | cons X rest ih =>
    intro m hn hr
    have hXr : X ∉ rest := (List.nodup_cons.1 hn).1
    have h1 := hstep m X (hr X (by simp))
    have hother : ∀ s, s ≠ X → (step m X).heap s = m.heap s := by
      intro s hs
      rw [h1, Heap.set_other _ _ _ _ hs]
    have hself : (step m X).heap X = result X (m.heap X) := by
      rw [h1, Heap.set_same]
    simp only [List.foldl_cons]
    obtain ⟨i1, i2⟩ := ih (step m X) (List.nodup_cons.1 hn).2
      (fun Y hY => by
        rw [hother Y (fun e => hXr (e ▸ hY))]
        exact hr Y (List.mem_cons_of_mem _ hY))
    refine ⟨fun Y hY => ?_, fun s hs => ?_⟩
    · rcases List.mem_cons.1 hY with e | hY'
      · subst e
        rw [i2 Y hXr, hself]
      · rw [i1 Y hY', hother Y (fun e => hXr (e ▸ hY'))]
    · have hsX : s ≠ X := fun e => hs (by simp [e])
      have hsr : s ∉ rest := fun h => hs (List.mem_cons_of_mem _ h)
      rw [i2 s hsr, hother s hsX]


/-- A rank that decreases along the dependencies excludes cycles. -/
theorem acyclic_of_rank (H : Heap) (U : List Nat) (rank : Nat → Nat)
    (hw : dependenciesWithin H U)
    (hr : ∀ s ∈ U, ∀ e ∈ (H s).dependencySpecs, e.1.type ≠ DependencyType.Test →
      rank e.2 < rank s) :
    ∀ s ∈ U, ¬ Relation.TransGen (dependsOn H) s s := by
  have key : ∀ s t, Relation.TransGen (dependsOn H) s t → s ∈ U → t ∈ U ∧ rank t < rank s := by
    intro s t h
    induction h with
    | single e =>
      intro hs
      obtain ⟨x, hx, ht, rfl⟩ := e
      exact ⟨hw s hs x hx, hr s hs x hx ht⟩
    | tail _ e ih =>
      intro hs
      obtain ⟨hb, hlt⟩ := ih hs
      obtain ⟨x, hx, ht, rfl⟩ := e
      exact ⟨hw _ hb x hx, Nat.lt_trans (hr _ hb x hx ht) hlt⟩
  intro s hs h
  exact Nat.lt_irrefl _ (key s s h hs).2

/-- C8. When every spec of the manager is resolved, without error and
effectively enabled, the resolved dependencies point to specs of the manager
and form no cycle, every library loads and every `initialize()` succeeds, then
`loadPlugins()` leaves every spec in state `Running` without error. In the
scenario `Core`, `A` (requires `Core`), `B` (requires `A`) the load queue is
`[Core, A, B]` and the three specs reach `Running`. -/
theorem loadPlugins_all_running (E : QtEnv) (C : Callbacks) (m : PluginManagerPrivate)
    (hvalid : ∀ s ∈ m.pluginSpecs, (m.heap s).hasError = false
      ∧ (m.heap s).state = State.Resolved ∧ (m.heap s).isEffectivelyEnabled E = true)
    (hwithin : dependenciesWithin m.heap m.pluginSpecs)
    (hacyclic : ∀ s ∈ m.pluginSpecs, ¬ Relation.TransGen (dependsOn m.heap) s s)
    (hload : ∀ s, C.loaderLoad s = true ∧ (C.loaderInstance s).isSome = true)
    (hinit : ∀ s arguments, (C.pluginInitialize s arguments).1 = true) :
    (∃ m', m.loadPlugins E C = some m'
        ∧ ∀ s ∈ m.pluginSpecs, (m'.heap s).state = State.Running ∧ (m'.heap s).hasError = false)
      ∧ (scenarioChain.bind PluginManagerPrivate.loadQueue).map
          (fun r => r.1.map (fun a => (r.2.heap a).name))
          = some ["Core".toList, "A".toList, "B".toList]
      ∧ (scenarioChain.bind (PluginManagerPrivate.loadPlugins plainEnv scenarioCallbacks)).map
          (fun m' => m'.pluginSpecs.map (fun a =>
            ((m'.heap a).name, (m'.heap a).state, (m'.heap a).hasError)))
          = some [("A".toList, State.Running, false), ("B".toList, State.Running, false),
            ("Core".toList, State.Running, false)] := by
  refine ⟨?_, by decide, by decide⟩
  have hres : ∀ s ∈ m.pluginSpecs, isResolved (m.heap s) := by
    intro s hs
    unfold isResolved
    rw [(hvalid s hs).2.1]
    exact ⟨by decide, by decide⟩
  obtain ⟨queue, eq, o, hmem⟩ := loadQueue_acyclic m hwithin hres hacyclic
  have hvq : ∀ X ∈ queue, (m.heap X).hasError = false ∧ (m.heap X).state = State.Resolved
      ∧ (m.heap X).isEffectivelyEnabled E = true := fun X hX => hvalid X ((hmem X).1 hX)
  -- first pass: libraries
  obtain ⟨a1, _⟩ := orderedPass (fun m spec => m.loadPlugin E C spec State.Loaded)
    (fun d => d.hasError = false ∧ d.state = State.Resolved ∧ d.isEffectivelyEnabled E = true)
    State.Loaded (fun X d => d.asLoaded (C.loaderInstance X))
    (fun m X hr hd => loadPlugin_loaded E C m X hr.1 hr.2.1 hr.2.2 hd (hload X).1 (hload X).2)
    (fun _ _ => rfl) (fun d hr h => by rw [hr.2.1] at h; cases h)
    queue m o.1 hvq
    (fun pre X post hsplit e he ht =>
      Or.inl (o.2 pre X post hsplit (hres X ((hmem X).1 (by rw [hsplit]; simp))) e he
        (by rw [ht]; decide)))
  generalize h1 : queue.foldl (fun m spec => m.loadPlugin E C spec State.Loaded) m = m1 at a1
  -- second pass: initialize
  obtain ⟨a2, _⟩ := orderedPass (fun m spec => m.loadPlugin E C spec State.Initialized)
    (fun d => d.hasError = false ∧ d.state = State.Loaded ∧ d.plugin.isSome = true)
    State.Initialized (fun _ d => d.inState State.Initialized)
    (fun m X hr hd => loadPlugin_initialized E C m X hr.1 hr.2.1 hr.2.2 hd (hinit X _))
    (fun _ _ => rfl) (fun d hr h => by rw [hr.2.1] at h; cases h)
    queue m1 o.1
    (fun X hX => by
      rw [a1 X hX]
      exact ⟨(hvq X hX).1, rfl, (hload X).2⟩)
    (fun pre X post hsplit e he ht => by
      have hX : X ∈ queue := by rw [hsplit]; simp
      rw [a1 X hX] at he
      exact Or.inl (o.2 pre X post hsplit (hres X ((hmem X).1 hX)) e he (by rw [ht]; decide)))
  generalize h2 : queue.foldl (fun m spec => m.loadPlugin E C spec State.Initialized) m1 = m2 at a2
  -- third pass, in reverse: extensionsInitialized
  obtain ⟨a3, _⟩ := plainPass (PluginManagerPrivate.loadPluginsRunning E C)
    (fun d => d.hasError = false ∧ d.state = State.Initialized ∧ d.plugin.isSome = true)
    (fun _ d => d.inState State.Running)
    (fun m X hr => loadPluginsRunning_running E C m X hr.1 hr.2.1 hr.2.2)
    queue.reverse m2 (List.nodup_reverse.2 o.1)
    (fun X hX => by
      have hX' : X ∈ queue := List.mem_reverse.1 hX
      rw [a2 X hX', a1 X hX']
      exact ⟨(hvq X hX').1, rfl, (hload X).2⟩)
  refine ⟨queue.reverse.foldl (PluginManagerPrivate.loadPluginsRunning E C) m2, ?_, ?_⟩
  · unfold PluginManagerPrivate.loadPlugins PluginManagerPrivate.reverseForeach
    rw [eq]
    simp only [h1, h2]
  · intro s hs
    have hq : s ∈ queue := (hmem s).2 hs
    rw [a3 s (List.mem_reverse.2 hq), a2 s hq, a1 s hq]
    exact ⟨rfl, (hvq s hq).1⟩

/-- C8, witness: the manager of the scenario `Core`, `A`, `B`. -/
theorem loadPlugins_all_running_witness :
    ∃ m', (scenarioChain.getD scenarioManager).loadPlugins plainEnv scenarioCallbacks = some m'
      ∧ ∀ s ∈ (scenarioChain.getD scenarioManager).pluginSpecs,
          (m'.heap s).state = State.Running ∧ (m'.heap s).hasError = false :=
  (loadPlugins_all_running plainEnv scenarioCallbacks (scenarioChain.getD scenarioManager)
    (by decide) (by unfold dependenciesWithin; decide)
    (acyclic_of_rank _ _ (fun a => a) (by unfold dependenciesWithin; decide) (by decide))
    (fun _ => ⟨rfl, rfl⟩) (fun _ _ => rfl)).1

set_option maxRecDepth 100000 in
/-- C6. Three specs read from plugin files and resolved, forming the required
cycle `A` → `B` → `C` → `A`: after `loadQueue()` each of them has `hasError`,
and its `errorString` contains `A`, `B` and `C`. When the first spec is named
`%2` instead of `A`, each of the three still has `hasError`, but no
`errorString` contains the name `%2`: the version `1.0` stands in its place. -/
theorem loadQueue_cycle_messages :
    (scenarioCycle "A").map (fun m => m.pluginSpecs.map (fun a =>
        ((m.heap a).name, (m.heap a).state, (m.heap a).hasError)))
      = some [("A".toList, State.Resolved, false), ("B".toList, State.Resolved, false),
          ("C".toList, State.Resolved, false)]
    ∧ ((scenarioCycle "A").bind PluginManagerPrivate.loadQueue).map (fun r =>
        r.2.pluginSpecs.map (fun a => ((r.2.heap a).name, (r.2.heap a).hasError,
          decide ("A".toList <:+: (r.2.heap a).errorString),
          decide ("B".toList <:+: (r.2.heap a).errorString),
          decide ("C".toList <:+: (r.2.heap a).errorString))))
      = some [("A".toList, true, true, true, true), ("B".toList, true, true, true, true),
          ("C".toList, true, true, true, true)]
    ∧ (scenarioCycle "%2").map (fun m => m.pluginSpecs.map (fun a =>
        ((m.heap a).name, (m.heap a).state, (m.heap a).hasError)))
      = some [("%2".toList, State.Resolved, false), ("B".toList, State.Resolved, false),
          ("C".toList, State.Resolved, false)]
    ∧ ((scenarioCycle "%2").bind PluginManagerPrivate.loadQueue).map (fun r =>
        r.2.pluginSpecs.map (fun a => ((r.2.heap a).name, (r.2.heap a).hasError,
          decide ("%2".toList <:+: (r.2.heap a).errorString))))
      = some [("%2".toList, true, false), ("B".toList, true, false), ("C".toList, true, false)]
    ∧ ((scenarioCycle "%2").bind PluginManagerPrivate.loadQueue).map (fun r =>
        r.2.pluginSpecs.map (fun a => (r.2.heap a).errorString))
      = some [("Cannot load plugin because dependency failed to load: B (1.0)\nReason: "
            ++ "Cannot load plugin because dependency failed to load: C (1.0)\nReason: "
            ++ "Circular dependency detected:\nC (1.0) depends on\n1.0 (1.0) depends on\n"
            ++ "B (1.0) depends on\nC (1.0)").toList,
          ("Cannot load plugin because dependency failed to load: C (1.0)\nReason: "
            ++ "Circular dependency detected:\nC (1.0) depends on\n1.0 (1.0) depends on\n"
            ++ "B (1.0) depends on\nC (1.0)").toList,
          ("Cannot load plugin because dependency failed to load: 1.0 (1.0)\nReason: "
            ++ "Cannot load plugin because dependency failed to load: B (1.0)\nReason: "
            ++ "Cannot load plugin because dependency failed to load: C (1.0)\nReason: "
            ++ "Circular dependency detected:\nC (1.0) depends on\n1.0 (1.0) depends on\n"
            ++ "B (1.0) depends on\nC (1.0)").toList] := by
  refine ⟨by decide, by decide, by decide, by decide, by decide⟩

/-! ## Errors recorded by the load queue -/

theorem errorsRecorded_refl (h : Heap) : errorsRecorded h h := fun _ => Or.inl rfl

theorem errorsRecorded_trans {a b c : Heap} (p : errorsRecorded a b) (q : errorsRecorded b c) :
    errorsRecorded a c := by
  intro s
  rcases q s with hq | ⟨msg, hq⟩ <;> rcases p s with hp | ⟨msg', hp⟩
  · exact Or.inl (hq.trans hp)
  · exact Or.inr ⟨msg', hq.trans hp⟩
  · exact Or.inr ⟨msg, by rw [hq, hp]⟩
  · exact Or.inr ⟨msg, by rw [hq, hp]⟩

theorem errorsRecorded_set (h : Heap) (spec : Nat) (msg : QString) :
    errorsRecorded h (h.set spec { h spec with hasError := true, errorString := msg }) := by
  intro s
  by_cases hs : s = spec
  · subst hs
    exact Or.inr ⟨msg, Heap.set_same _ _ _⟩
  · exact Or.inl (Heap.set_other _ _ _ _ hs)

theorem errorsRecorded_sameGraph {h h' : Heap} (r : errorsRecorded h h') : sameGraph h h' := by
  intro s
  rcases r s with e | ⟨msg, e⟩
  · rw [e]
    exact ⟨rfl, rfl⟩
  · rw [e]
    exact ⟨rfl, rfl⟩

theorem errorsRecorded_hasError {h h' : Heap} (r : errorsRecorded h h') (s : Nat)
    (he : (h s).hasError = true) : (h' s).hasError = true := by
  rcases r s with e | ⟨msg, e⟩
  · rw [e]
    exact he
  · rw [e]

theorem errorsRecorded_plugin {h h' : Heap} (r : errorsRecorded h h') (s : Nat) :
    (h' s).plugin = (h s).plugin := by
  rcases r s with e | ⟨msg, e⟩ <;> rw [e]

theorem errorsRecorded_effective (E : QtEnv) {h h' : Heap} (r : errorsRecorded h h') (s : Nat) :
    (h' s).isEffectivelyEnabled E = (h s).isEffectivelyEnabled E := by
  rcases r s with e | ⟨msg, e⟩
  · rw [e]
  · rw [e]
    rfl

theorem loadQueueDeps_errorsRecorded
    (recurse : Nat → LoadQueueState → Option (Bool × LoadQueueState)) (spec : Nat)
    (hrec : ∀ d st0 b st1, recurse d st0 = some (b, st1) → errorsRecorded st0.heap st1.heap)
    (deps : DependencyHash) :
    ∀ (st : LoadQueueState) (b : Bool) (st' : LoadQueueState),
      PluginManagerPrivate.loadQueueDeps recurse spec deps st = some (b, st') →
      errorsRecorded st.heap st'.heap ∧ (b = false → (st'.heap spec).hasError = true) := by
  induction deps with
  | nil =>
    intro st b st' h
    simp only [PluginManagerPrivate.loadQueueDeps, Option.some.injEq, Prod.mk.injEq] at h
    obtain ⟨rfl, rfl⟩ := h
    exact ⟨errorsRecorded_refl _, fun hb => absurd hb (by decide)⟩
  | cons entry rest ih =>
    intro st b st' h
    obtain ⟨key, depSpec⟩ := entry
    simp only [PluginManagerPrivate.loadQueueDeps] at h
    by_cases ht : key.type = DependencyType.Test
    · simp only [ht, if_true] at h
      exact ih st b st' h
    · simp only [ht, if_false] at h
      cases hr : recurse depSpec st with
      | none => simp [hr] at h
      | some r =>
        obtain ⟨rb, st1⟩ := r
        have r1 := hrec depSpec st rb st1 hr
        cases rb with
        | true =>
          simp only [hr] at h
          obtain ⟨s1, s2⟩ := ih st1 b st' h
          exact ⟨errorsRecorded_trans r1 s1, s2⟩
        | false =>
          simp only [hr, Option.some.injEq, Prod.mk.injEq] at h
          obtain ⟨rfl, rfl⟩ := h
          exact ⟨errorsRecorded_trans r1 (errorsRecorded_set _ _ _),
            fun _ => by simp only [Heap.set_same]⟩

/-- A call of `loadQueue(spec, queue, circularityCheckQueue)` only records
errors; when it returns false for a resolved spec, the spec has an error. -/
theorem loadQueueSpec_errorsRecorded (fuel : Nat) :
    ∀ (spec : Nat) (st : LoadQueueState) (b : Bool) (st' : LoadQueueState),
      PluginManagerPrivate.loadQueueSpec fuel spec st = some (b, st') →
      errorsRecorded st.heap st'.heap
        ∧ (b = false → isResolved (st.heap spec) → (st'.heap spec).hasError = true) := by
  induction fuel with
  | zero =>
    intro spec st b st' h
    simp [PluginManagerPrivate.loadQueueSpec] at h
  | succ fuel ih =>
    intro spec st b st' h
    simp only [PluginManagerPrivate.loadQueueSpec] at h
    by_cases hq : st.queue.contains spec = true
    · simp only [hq, if_true, Option.some.injEq, Prod.mk.injEq] at h
      obtain ⟨rfl, rfl⟩ := h
      exact ⟨errorsRecorded_refl _, fun hb => absurd hb (by decide)⟩
    · simp only [hq, Bool.false_eq_true, if_false] at h
      by_cases hc : st.circularityCheckQueue.contains spec = true
      · simp only [hc, if_true, Option.some.injEq, Prod.mk.injEq] at h
        obtain ⟨rfl, rfl⟩ := h
        exact ⟨errorsRecorded_set _ _ _, fun _ _ => by simp only [Heap.set_same]⟩
      · simp only [hc, Bool.false_eq_true, if_false] at h
        by_cases hs : (st.heap spec).state = State.Invalid ∨ (st.heap spec).state = State.Read
        · simp only [hs, if_true, Option.some.injEq, Prod.mk.injEq] at h
          obtain ⟨rfl, rfl⟩ := h
          refine ⟨errorsRecorded_refl _, fun _ hr => ?_⟩
          rcases hs with hs | hs
          · exact absurd hs hr.1
          · exact absurd hs hr.2
        · simp only [hs, if_false] at h
          cases hl : PluginManagerPrivate.loadQueueDeps (PluginManagerPrivate.loadQueueSpec fuel) spec
              (st.heap spec).dependencySpecs
              { st with circularityCheckQueue := st.circularityCheckQueue ++ [spec] } with
          | none => simp [hl] at h
          | some r =>
            obtain ⟨rb, st2⟩ := r
            obtain ⟨l1, l2⟩ := loadQueueDeps_errorsRecorded _ spec
              (fun d st0 b st1 hr => (ih d st0 b st1 hr).1) _ _ _ _ hl
            cases rb with
            | false =>
              simp only [hl, Option.some.injEq, Prod.mk.injEq] at h
              obtain ⟨rfl, rfl⟩ := h
              exact ⟨l1, fun _ _ => l2 rfl⟩
            | true =>
              simp only [hl, Option.some.injEq, Prod.mk.injEq] at h
              obtain ⟨rfl, rfl⟩ := h
              exact ⟨l1, fun hb => absurd hb (by decide)⟩

/-- The loop of `loadQueue()` only records errors, and afterwards every
resolved spec of the list is on the queue or has an error. -/
theorem loadQueueLoop_errorsRecorded (fuel : Nat) :
    ∀ (specs : List Nat) (heap : Heap) (queue : List Nat) (heap' : Heap) (queue' : List Nat),
      PluginManagerPrivate.loadQueueLoop fuel specs heap queue = some (heap', queue') →
      errorsRecorded heap heap' ∧ queue <+: queue'
        ∧ ∀ s ∈ specs, isResolved (heap s) → s ∈ queue' ∨ (heap' s).hasError = true := by
  intro specs
  induction specs with
  | nil =>
    intro heap queue heap' queue' h
    simp only [PluginManagerPrivate.loadQueueLoop, Option.some.injEq, Prod.mk.injEq] at h
    obtain ⟨rfl, rfl⟩ := h
    exact ⟨errorsRecorded_refl _, List.prefix_refl _, fun s hs => absurd hs (List.not_mem_nil _)⟩
  | cons spec rest ih =>
    intro heap queue heap' queue' h
    simp only [PluginManagerPrivate.loadQueueLoop] at h
    cases hr : PluginManagerPrivate.loadQueueSpec fuel spec ⟨heap, queue, []⟩ with
    | none => simp [hr] at h
    | some r =>
      obtain ⟨rb, st1⟩ := r
      simp only [hr] at h
      obtain ⟨e1, e2⟩ := loadQueueSpec_errorsRecorded fuel spec _ rb st1 hr
      obtain ⟨⟨_, pq, _, _, _⟩, hin⟩ := loadQueueSpec_step fuel spec _ rb st1 hr
      obtain ⟨c1, c2, c3⟩ := ih st1.heap st1.queue heap' queue' h
      refine ⟨errorsRecorded_trans e1 c1, pq.trans c2, fun s hs hres => ?_⟩
      rcases List.mem_cons.1 hs with e | hs'
      · subst e
        cases rb with
        | true => exact Or.inl (c2.subset (hin rfl))
        | false => exact Or.inr (errorsRecorded_hasError c1 _ (e2 rfl hres))
      · refine c3 s hs' ?_
        unfold isResolved at hres ⊢
        rw [← ((errorsRecorded_sameGraph e1) s).1]
        exact hres

/-- `loadQueue()` only records errors; every resolved spec of the manager is
then on the queue or has an error. -/
theorem loadQueue_errorsRecorded (m : PluginManagerPrivate) (queue : List Nat)
    (m' : PluginManagerPrivate) (h : m.loadQueue = some (queue, m')) :
    errorsRecorded m.heap m'.heap ∧ m' = { m with heap := m'.heap }
      ∧ ∀ s ∈ m.pluginSpecs, isResolved (m.heap s) → s ∈ queue ∨ (m'.heap s).hasError = true := by
  unfold PluginManagerPrivate.loadQueue at h
  cases hl : PluginManagerPrivate.loadQueueLoop (m.pluginSpecs.length + 1) m.pluginSpecs m.heap [] with
  | none => simp [hl] at h
  | some r =>
    obtain ⟨heap', queue'⟩ := r
    simp only [hl, Option.some.injEq, Prod.mk.injEq] at h
    obtain ⟨rfl, rfl⟩ := h
    obtain ⟨c1, _, c3⟩ := loadQueueLoop_errorsRecorded _ _ _ _ _ _ hl
    exact ⟨c1, rfl, c3⟩

/-! ## Single calls of `loadPlugin` -/

theorem loadPlugin_other (E : QtEnv) (C : Callbacks) (m : PluginManagerPrivate) (spec : Nat)
    (destState : State) (s : Nat) (hs : s ≠ spec) :
    (m.loadPlugin E C spec destState).heap s = m.heap s := by
  unfold PluginManagerPrivate.loadPlugin
  repeat' split
  all_goals first
    | rfl
    | exact Heap.set_other _ _ _ _ hs
    | (simp only []; split <;> exact Heap.set_other _ _ _ _ hs)

theorem loadPluginsRunning_other (E : QtEnv) (C : Callbacks) (m : PluginManagerPrivate)
    (spec : Nat) (s : Nat) (hs : s ≠ spec) :
    (PluginManagerPrivate.loadPluginsRunning E C m spec).heap s = m.heap s := by
  unfold PluginManagerPrivate.loadPluginsRunning
  simp only
  split
  · exact loadPlugin_other E C m spec _ s hs
  · simp only [Heap.set_other _ _ _ _ hs]
    exact loadPlugin_other E C m spec _ s hs

theorem loadPlugin_pluginSpecs (E : QtEnv) (C : Callbacks) (m : PluginManagerPrivate) (spec : Nat)
    (destState : State) : (m.loadPlugin E C spec destState).pluginSpecs = m.pluginSpecs := by
  unfold PluginManagerPrivate.loadPlugin
  repeat' split
  all_goals first
    | rfl
    | (simp only []; split <;> rfl)

/-- A spec that no step of a pass changes has the same members after the pass. -/
theorem foldl_heap_fixed (step : PluginManagerPrivate → Nat → PluginManagerPrivate) (s : Nat)
    (d : PluginSpec) (hstep : ∀ m X, m.heap s = d → (step m X).heap s = d) :
    ∀ (todo : List Nat) (m : PluginManagerPrivate), m.heap s = d → (todo.foldl step m).heap s = d := by
  intro todo
  induction todo with
  | nil => intro m h; exact h
  | cons X rest ih =>
    intro m h
    simp only [List.foldl_cons]
    exact ih _ (hstep m X h)

/-- C13. For a spec with `hasError`, `loadPlugin(spec, dest)` leaves the
manager as it is for every destination state and calls neither the plugin nor
its loader; `resolveDependencies`, `loadLibrary`, `initializePlugin`,
`initializeExtensions` and `delayedInitialize` return false, change nothing and
make no call. -/
theorem hasError_blocks_phases (E : QtEnv) (C : Callbacks) (m : PluginManagerPrivate) (spec : Nat)
    (herr : (m.heap spec).hasError = true) :
    (∀ destState, m.loadPlugin E C spec destState = m
        ∧ m.loadPluginCalls E C spec destState = [])
      ∧ (∀ specs, PluginSpec.resolveDependencies E spec specs m.heap = (false, m.heap))
      ∧ ((m.heap spec).loadLibrary E C spec = (false, m.heap spec)
        ∧ (m.heap spec).loadLibraryCalls C spec = [])
      ∧ ((m.heap spec).initializePlugin C spec = (false, m.heap spec)
        ∧ (m.heap spec).initializePluginCalls spec = [])
      ∧ ((m.heap spec).initializeExtensions = (false, m.heap spec)
        ∧ (m.heap spec).initializeExtensionsCalls spec = [])
      ∧ ((m.heap spec).delayedInitialize C spec = (false, m.heap spec)
        ∧ (m.heap spec).delayedInitializeCalls spec = []) := by
  refine ⟨fun destState => ⟨?_, ?_⟩, fun specs => ?_, ⟨?_, ?_⟩, ⟨?_, ?_⟩, ⟨?_, ?_⟩, ⟨?_, ?_⟩⟩
  · unfold PluginManagerPrivate.loadPlugin
    rw [if_pos (Or.inl herr)]
  · unfold PluginManagerPrivate.loadPluginCalls
    rw [if_pos (Or.inl herr)]
  · unfold PluginSpec.resolveDependencies
    rw [if_pos herr]
  · unfold PluginSpec.loadLibrary
    rw [if_pos herr]
  · unfold PluginSpec.loadLibraryCalls
    rw [if_pos herr]
  · unfold PluginSpec.initializePlugin
    rw [if_pos herr]
  · unfold PluginSpec.initializePluginCalls
    rw [if_pos herr]
  · unfold PluginSpec.initializeExtensions
    rw [if_pos herr]
  · unfold PluginSpec.initializeExtensionsCalls
    rw [if_pos herr]
  · unfold PluginSpec.delayedInitialize
    rw [if_pos herr]
  · unfold PluginSpec.delayedInitializeCalls
    rw [if_pos herr]

/-- C13, witness: the spec `A` of the scenario in which `B` 3.0 is missing has
an error; `loadPlugin(A, Loaded)` changes nothing and makes no call. -/
theorem hasError_blocks_phases_witness :
    ((scenarioMissingVersion.getD scenarioManager).heap 0).hasError = true
      ∧ (scenarioMissingVersion.getD scenarioManager).loadPlugin plainEnv scenarioCallbacks 0
          State.Loaded = scenarioMissingVersion.getD scenarioManager
      ∧ (scenarioMissingVersion.getD scenarioManager).loadPluginCalls plainEnv scenarioCallbacks 0
          State.Loaded = [] :=
  ⟨by decide,
    ((hasError_blocks_phases plainEnv scenarioCallbacks (scenarioMissingVersion.getD scenarioManager)
      0 (by decide)).1 State.Loaded).1,
    ((hasError_blocks_phases plainEnv scenarioCallbacks (scenarioMissingVersion.getD scenarioManager)
      0 (by decide)).1 State.Loaded).2⟩

/-! ## Specs that are not enabled -/

theorem loadPlugin_below (E : QtEnv) (C : Callbacks) (m : PluginManagerPrivate) (spec : Nat)
    (destState : State) (hs : (m.heap spec).state.toNat + 1 < destState.toNat) :
    m.loadPlugin E C spec destState = m := by
  unfold PluginManagerPrivate.loadPlugin
  rw [if_pos]
  right
  omega

theorem loadPlugin_disabled (E : QtEnv) (C : Callbacks) (m : PluginManagerPrivate) (spec : Nat)
    (hdis : (m.heap spec).isEffectivelyEnabled E = false) :
    m.loadPlugin E C spec State.Loaded = m := by
  unfold PluginManagerPrivate.loadPlugin
  split
  · rfl
  · rw [if_pos]
    simp [hdis]

theorem kill_none (d : PluginSpec) (h : d.plugin = none) : d.kill = d := by
  unfold PluginSpec.kill
  rw [h]
  rfl

/-- The three passes of `loadPlugins` leave a spec that is not effectively
enabled, below `Loaded` and without instance as it is. -/
theorem loadPlugins_passes_disabled (E : QtEnv) (C : Callbacks) (spec : Nat) (d : PluginSpec)
    (hdis : d.isEffectivelyEnabled E = false) (hst : d.state.toNat < State.Loaded.toNat)
    (hp : d.plugin = none) (queue : List Nat) (m : PluginManagerPrivate) (hm : m.heap spec = d) :
    ((queue.reverse.foldl (PluginManagerPrivate.loadPluginsRunning E C)
      (queue.foldl (fun m spec => m.loadPlugin E C spec State.Initialized)
        (queue.foldl (fun m spec => m.loadPlugin E C spec State.Loaded) m))).heap spec) = d := by
  have hst' : d.state.toNat < 3 := hst
  apply foldl_heap_fixed
  · intro m X h
    by_cases hX : spec = X
    · subst hX
      unfold PluginManagerPrivate.loadPluginsRunning
      rw [loadPlugin_below E C m spec State.Running (by rw [h]; show d.state.toNat + 1 < 5; omega)]
      simp only
      split
      · exact h
      · show (m.heap.set spec (m.heap spec).kill) spec = d
        rw [Heap.set_same, h]
        exact kill_none d hp
    · rw [loadPluginsRunning_other E C m X spec hX]
      exact h
  apply foldl_heap_fixed
  · intro m X h
    by_cases hX : spec = X
    · subst hX
      rw [loadPlugin_below E C m spec State.Initialized
        (by rw [h]; show d.state.toNat + 1 < 4; omega)]
      exact h
    · rw [loadPlugin_other E C m X _ spec hX]
      exact h
  apply foldl_heap_fixed
  · intro m X h
    by_cases hX : spec = X
    · subst hX
      rw [loadPlugin_disabled E C m spec (by rw [h]; exact hdis)]
      exact h
    · rw [loadPlugin_other E C m X _ spec hX]
      exact h
  exact hm

theorem loadPlugins_returns (E : QtEnv) (C : Callbacks) (m : PluginManagerPrivate)
    (hw : dependenciesWithin m.heap m.pluginSpecs) : ∃ m', m.loadPlugins E C = some m' := by
  obtain ⟨queue, m0, e, _⟩ := loadQueue_ordered m hw
  unfold PluginManagerPrivate.loadPlugins
  rw [e]
  exact ⟨_, rfl⟩

/-- C18. For a spec that is not effectively enabled, `loadPlugin(spec, Loaded)`
leaves the manager as it is (state, `hasError` and `errorString` included) and
makes no call to the library loader. When the spec is below `Loaded` and has no
plugin instance, it is in the same state after `loadPlugins()`, which returns
when the resolved dependencies point into `pluginSpecs`. -/
theorem disabled_never_loaded (E : QtEnv) (C : Callbacks) (m : PluginManagerPrivate) (spec : Nat)
    (hdis : (m.heap spec).isEffectivelyEnabled E = false) :
    (m.loadPlugin E C spec State.Loaded = m ∧ m.loadPluginCalls E C spec State.Loaded = [])
      ∧ ((m.heap spec).state.toNat < State.Loaded.toNat → (m.heap spec).plugin = none →
          (∀ m', m.loadPlugins E C = some m' →
            (m'.heap spec).state = (m.heap spec).state
              ∧ (m'.heap spec).state.toNat < State.Loaded.toNat
              ∧ (m'.heap spec).isEffectivelyEnabled E = false)
          ∧ (dependenciesWithin m.heap m.pluginSpecs → ∃ m', m.loadPlugins E C = some m')) := by
  refine ⟨⟨loadPlugin_disabled E C m spec hdis, ?_⟩, fun hst hp => ⟨fun m' h => ?_,
    loadPlugins_returns E C m⟩⟩
  · unfold PluginManagerPrivate.loadPluginCalls
    split
    · rfl
    · rw [if_pos]
      simp [hdis]
  · unfold PluginManagerPrivate.loadPlugins PluginManagerPrivate.reverseForeach at h
    cases hq : m.loadQueue with
    | none => simp [hq] at h
    | some r =>
      obtain ⟨queue, m0⟩ := r
      simp only [hq, Option.some.injEq] at h
      obtain ⟨er, _, _⟩ := loadQueue_errorsRecorded m queue m0 hq
      have hst0 : (m0.heap spec).state = (m.heap spec).state :=
        ((errorsRecorded_sameGraph er) spec).1.symm
      have hfix := loadPlugins_passes_disabled E C spec (m0.heap spec)
        (by rw [errorsRecorded_effective E er spec]; exact hdis)
        (by rw [hst0]; exact hst)
        (by rw [errorsRecorded_plugin er spec]; exact hp) queue m0 rfl
      rw [h] at hfix
      rw [hfix, hst0]
      exact ⟨rfl, hst, by rw [errorsRecorded_effective E er spec]; exact hdis⟩

set_option maxRecDepth 100000 in
/-- C18, witness: `B` is disabled in the settings; `loadPlugin(B, Loaded)`
changes nothing, and after `loadPlugins()` the spec `B` is still `Resolved`
while `Core` is `Running`. -/
theorem disabled_never_loaded_witness :
    (scenarioDisabled.pluginSpecs.map (fun a => ((scenarioDisabled.heap a).name,
        (scenarioDisabled.heap a).isEffectivelyEnabled plainEnv, (scenarioDisabled.heap a).state))
      = [("B".toList, false, State.Resolved), ("Core".toList, true, State.Resolved)])
      ∧ scenarioDisabled.loadPlugin plainEnv scenarioCallbacks 1 State.Loaded = scenarioDisabled
      ∧ (∃ m', scenarioDisabled.loadPlugins plainEnv scenarioCallbacks = some m')
      ∧ (scenarioDisabled.loadPlugins plainEnv scenarioCallbacks).map (fun m' =>
          m'.pluginSpecs.map (fun a => ((m'.heap a).name, (m'.heap a).state)))
        = some [("B".toList, State.Resolved), ("Core".toList, State.Running)] :=
  ⟨by decide,
    (disabled_never_loaded plainEnv scenarioCallbacks scenarioDisabled 1 (by decide)).1.1,
    ((disabled_never_loaded plainEnv scenarioCallbacks scenarioDisabled 1 (by decide)).2
      (by decide) (by decide)).2 (by unfold dependenciesWithin; decide),
    by decide⟩

/-! ## Order of the states -/

theorem advances_refl (d : PluginSpec) : advances d d := fun h => ⟨Nat.le_refl _, h⟩

theorem advances_trans {a b c : PluginSpec} (p : advances a b) (q : advances b c) :
    advances a c := by
  intro h
  obtain ⟨p1, p2⟩ := p h
  obtain ⟨q1, q2⟩ := q p2
  exact ⟨Nat.le_trans p1 q1, q2⟩

theorem advances_error (d : PluginSpec) (e : Bool) (msg : QString) :
    advances d { d with hasError := e, errorString := msg } := fun h => ⟨Nat.le_refl _, h⟩

theorem advances_loadLibrary (E : QtEnv) (C : Callbacks) (self : Nat) (d : PluginSpec) :
    advances d (d.loadLibrary E C self).2 := by
  intro hinv
  unfold PluginSpec.loadLibrary
  by_cases he : d.hasError = true
  · rw [if_pos he]
    exact ⟨Nat.le_refl _, hinv⟩
  · rw [if_neg he]
    by_cases hs : d.state = State.Resolved
    · rw [if_neg (not_not.2 hs)]
      split
      · exact ⟨Nat.le_refl _, hinv⟩
      · split
        · exact ⟨Nat.le_refl _, hinv⟩
        · simp [hs, State.toNat]
    · rw [if_pos hs]
      split <;> exact ⟨Nat.le_refl _, hinv⟩

theorem advances_initializePlugin (C : Callbacks) (self : Nat) (d : PluginSpec) :
    advances d (d.initializePlugin C self).2 := by
  intro hinv
  unfold PluginSpec.initializePlugin
  by_cases he : d.hasError = true
  · rw [if_pos he]
    exact ⟨Nat.le_refl _, hinv⟩
  · rw [if_neg he]
    by_cases hs : d.state = State.Loaded
    · rw [if_neg (not_not.2 hs)]
      split
      · exact ⟨Nat.le_refl _, hinv⟩
      · split
        · exact ⟨Nat.le_refl _, hinv⟩
        · simp [hs, State.toNat]
    · rw [if_pos hs]
      split <;> exact ⟨Nat.le_refl _, hinv⟩

theorem advances_initializeExtensions (d : PluginSpec) :
    advances d d.initializeExtensions.2 := by
  intro hinv
  unfold PluginSpec.initializeExtensions
  by_cases he : d.hasError = true
  · rw [if_pos he]
    exact ⟨Nat.le_refl _, hinv⟩
  · rw [if_neg he]
    by_cases hs : d.state = State.Initialized
    · rw [if_neg (not_not.2 hs)]
      split
      · exact ⟨Nat.le_refl _, hinv⟩
      · simp [hs, State.toNat]
    · rw [if_pos hs]
      split <;> exact ⟨Nat.le_refl _, hinv⟩

theorem advances_delayedInitialize (C : Callbacks) (self : Nat) (d : PluginSpec) :
    advances d (d.delayedInitialize C self).2 := by
  intro hinv
  unfold PluginSpec.delayedInitialize
  repeat' split
  all_goals exact ⟨Nat.le_refl _, hinv⟩

theorem advances_stop (C : Callbacks) (self : Nat) (d : PluginSpec) :
    advances d (d.stop C self).2 := by
  intro hinv
  unfold PluginSpec.stop
  split
  · exact ⟨Nat.le_refl _, hinv⟩
  · rename_i hp
    have hnd : d.state ≠ State.Deleted := by
      intro hd
      rw [hinv hd] at hp
      exact hp rfl
    refine ⟨?_, fun h => by cases h⟩
    show d.state.toNat ≤ 6
    cases hs : d.state <;> simp [State.toNat]
    exact hnd hs

theorem advances_kill (d : PluginSpec) : advances d d.kill := by
  intro hinv
  unfold PluginSpec.kill
  split
  · exact ⟨Nat.le_refl _, hinv⟩
  · refine ⟨?_, fun _ => rfl⟩
    show d.state.toNat ≤ 7
    cases hs : d.state <;> simp [State.toNat]

theorem advances_loadPlugin (E : QtEnv) (C : Callbacks) (m : PluginManagerPrivate) (spec : Nat)
    (destState : State) :
    advances (m.heap spec) ((m.loadPlugin E C spec destState).heap spec) := by
  unfold PluginManagerPrivate.loadPlugin
  repeat' split
  all_goals first
    | exact advances_refl _
    | (simp only [Heap.set_same]
       first
        | exact advances_error _ _ _
        | exact advances_loadLibrary _ _ _ _
        | exact advances_initializePlugin _ _ _
        | exact advances_initializeExtensions _
        | exact advances_kill _)
    | (simp only []
       split <;> (simp only [Heap.set_same]; exact advances_stop _ _ _))

theorem advances_loadPluginsRunning (E : QtEnv) (C : Callbacks) (m : PluginManagerPrivate)
    (spec : Nat) :
    advances (m.heap spec) ((PluginManagerPrivate.loadPluginsRunning E C m spec).heap spec) := by
  unfold PluginManagerPrivate.loadPluginsRunning
  simp only
  split
  · exact advances_loadPlugin E C m spec _
  · simp only [Heap.set_same]
    exact advances_trans (advances_loadPlugin E C m spec _) (advances_kill _)

theorem resolveDependenciesFromRead_state (E : QtEnv) (self : Nat) (specs : List Nat) (g : Heap) :
    ((PluginSpec.resolveDependenciesFromRead E self specs g).2 self).plugin = (g self).plugin
      ∧ ((g self).state = State.Read →
          ((PluginSpec.resolveDependenciesFromRead E self specs g).2 self).state = State.Read
            ∨ ((PluginSpec.resolveDependenciesFromRead E self specs g).2 self).state = State.Resolved)
      ∧ ((g self).state ≠ State.Read →
          ((PluginSpec.resolveDependenciesFromRead E self specs g).2 self).state = (g self).state) := by
  obtain ⟨_, i2, _⟩ := resolveDependenciesLoop_spec E self specs (g self).dependencies g []
  have hLs : ((PluginSpec.resolveDependenciesLoop E self specs (g self).dependencies g []).1 self).state
      = (g self).state := by rw [i2]
  have hLp : ((PluginSpec.resolveDependenciesLoop E self specs (g self).dependencies g []).1 self).plugin
      = (g self).plugin := by rw [i2]
  unfold PluginSpec.resolveDependenciesFromRead
  by_cases hst : (g self).state = State.Read
  · rw [if_neg (not_not.2 hst)]
    dsimp only
    split
    · exact ⟨hLp, fun _ => Or.inl (hLs.trans hst), fun h => absurd hst h⟩
    · simp only [Heap.set_same]
      exact ⟨hLp, fun _ => Or.inr trivial, fun h => absurd hst h⟩
  · rw [if_pos hst]
    simp only [Heap.set_same]
    exact ⟨trivial, fun h => absurd h hst, fun _ => trivial⟩

/-- `resolveDependencies` leaves the plugin instance of the spec alone, and its
state is not lower afterwards unless it went from `Resolved` to `Read`. -/
theorem resolveDependencies_state (E : QtEnv) (self : Nat) (specs : List Nat) (heap : Heap) :
    ((PluginSpec.resolveDependencies E self specs heap).2 self).plugin = (heap self).plugin
      ∧ ((heap self).state.toNat ≤ ((PluginSpec.resolveDependencies E self specs heap).2 self).state.toNat
        ∨ ((heap self).state = State.Resolved
          ∧ ((PluginSpec.resolveDependencies E self specs heap).2 self).state = State.Read))
      ∧ (((PluginSpec.resolveDependencies E self specs heap).2 self).state = State.Deleted →
          (heap self).state = State.Deleted) := by
  unfold PluginSpec.resolveDependencies
  split
  · exact ⟨rfl, Or.inl (Nat.le_refl _), fun h => h⟩
  · obtain ⟨f1, f2, f3⟩ := resolveDependenciesFromRead_state E self specs
      (PluginSpec.backToRead self heap)
    have hb := backToRead_self self heap
    by_cases hr : (heap self).state = State.Resolved
    · rw [if_pos hr] at hb
      have hbs : (PluginSpec.backToRead self heap self).state = State.Read := by rw [hb]
      have hbp : (PluginSpec.backToRead self heap self).plugin = (heap self).plugin := by rw [hb]
      refine ⟨f1.trans hbp, ?_, fun h => ?_⟩
      · rcases f2 hbs with h | h
        · exact Or.inr ⟨hr, h⟩
        · left
          rw [h, hr]
      · rcases f2 hbs with h' | h' <;> rw [h'] at h <;> cases h
    · rw [if_neg hr] at hb
      rw [hb] at f1 f2 f3
      refine ⟨f1, ?_, fun h => ?_⟩
      · by_cases hread : (heap self).state = State.Read
        · rcases f2 hread with h | h
          · left
            rw [h, hread]
          · left
            rw [h, hread]
            decide
        · left
          rw [f3 hread]
      · by_cases hread : (heap self).state = State.Read
        · rcases f2 hread with h' | h' <;> rw [h'] at h <;> cases h
        · rw [f3 hread] at h
          exact h

/-- One call: no spec steps back in the order of the states, except the spec
of a `resolveDependencies` call that goes from `Resolved` to `Read`; deleted
specs stay without instance. -/
theorem call_advances (E : QtEnv) (C : Callbacks) (m : PluginManagerPrivate)
    (hinv : deletedWithoutInstance m.heap) (call : Call) :
    deletedWithoutInstance (Call.run E C m call).heap
      ∧ ∀ s, (m.heap s).state.toNat ≤ ((Call.run E C m call).heap s).state.toNat
        ∨ ((∃ specs, call = Call.resolveDependencies s specs)
          ∧ (m.heap s).state = State.Resolved
          ∧ ((Call.run E C m call).heap s).state = State.Read) := by
  have single : ∀ (spec : Nat) (m' : PluginManagerPrivate),
      (∀ s, s ≠ spec → m'.heap s = m.heap s) → advances (m.heap spec) (m'.heap spec) →
      deletedWithoutInstance m'.heap
        ∧ ∀ s, (m.heap s).state.toNat ≤ (m'.heap s).state.toNat := by
    intro spec m' hother hadv
    refine ⟨fun s => ?_, fun s => ?_⟩
    · by_cases hs : s = spec
      · subst hs
        exact (hadv (hinv s)).2
      · rw [hother s hs]
        exact hinv s
    · by_cases hs : s = spec
      · subst hs
        exact (hadv (hinv s)).1
      · rw [hother s hs]
  have setOther : ∀ (spec : Nat) (d : PluginSpec) (s : Nat), s ≠ spec →
      (m.heap.set spec d) s = m.heap s := fun spec d s hs => Heap.set_other _ _ _ _ hs
  cases call with
  | loadQueue =>
    show deletedWithoutInstance (match m.loadQueue with | some r => r.2 | none => m).heap ∧ _
    cases hq : m.loadQueue with
    | none =>
      simp only [Call.run, hq]
      exact ⟨hinv, fun s => Or.inl (Nat.le_refl _)⟩
    | some r =>
      obtain ⟨queue, m'⟩ := r
      simp only [Call.run, hq]
      obtain ⟨er, _, _⟩ := loadQueue_errorsRecorded m queue m' hq
      refine ⟨fun s hs => ?_, fun s => Or.inl ?_⟩
      · rw [errorsRecorded_plugin er s]
        exact hinv s (by rw [((errorsRecorded_sameGraph er) s).1]; exact hs)
      · rw [((errorsRecorded_sameGraph er) s).1]
  | loadPlugin spec destState =>
    obtain ⟨h1, h2⟩ := single spec (m.loadPlugin E C spec destState)
      (fun s hs => loadPlugin_other E C m spec destState s hs) (advances_loadPlugin E C m spec _)
    exact ⟨h1, fun s => Or.inl (h2 s)⟩
  | loadPluginsRunning spec =>
    obtain ⟨h1, h2⟩ := single spec (PluginManagerPrivate.loadPluginsRunning E C m spec)
      (fun s hs => loadPluginsRunning_other E C m spec s hs) (advances_loadPluginsRunning E C m spec)
    exact ⟨h1, fun s => Or.inl (h2 s)⟩
  | resolveDependencies spec specs =>
    simp only [Call.run]
    obtain ⟨r1, r2, r3⟩ := resolveDependencies_state E spec specs m.heap
    refine ⟨fun s => ?_, fun s => ?_⟩
    · by_cases hs : s = spec
      · subst hs
        intro hd
        rw [r1]
        exact hinv s (r3 hd)
      · rw [resolveDependencies_other E spec specs m.heap s hs]
        exact hinv s
    · by_cases hs : s = spec
      · subst hs
        rcases r2 with h | ⟨h, h'⟩
        · exact Or.inl h
        · exact Or.inr ⟨⟨specs, rfl⟩, h, h'⟩
      · rw [resolveDependencies_other E spec specs m.heap s hs]
        exact Or.inl (Nat.le_refl _)
  | loadLibrary spec =>
    obtain ⟨h1, h2⟩ := single spec (Call.run E C m (Call.loadLibrary spec)) (setOther spec _)
      (by simp only [Call.run, Heap.set_same]; exact advances_loadLibrary _ _ _ _)
    exact ⟨h1, fun s => Or.inl (h2 s)⟩
  | initializePlugin spec =>
    obtain ⟨h1, h2⟩ := single spec (Call.run E C m (Call.initializePlugin spec)) (setOther spec _)
      (by simp only [Call.run, Heap.set_same]; exact advances_initializePlugin _ _ _)
    exact ⟨h1, fun s => Or.inl (h2 s)⟩
  | initializeExtensions spec =>
    obtain ⟨h1, h2⟩ := single spec (Call.run E C m (Call.initializeExtensions spec)) (setOther spec _)
      (by simp only [Call.run, Heap.set_same]; exact advances_initializeExtensions _)
    exact ⟨h1, fun s => Or.inl (h2 s)⟩
  | delayedInitialize spec =>
    obtain ⟨h1, h2⟩ := single spec (Call.run E C m (Call.delayedInitialize spec)) (setOther spec _)
      (by simp only [Call.run, Heap.set_same]; exact advances_delayedInitialize _ _ _)
    exact ⟨h1, fun s => Or.inl (h2 s)⟩
  | stop spec =>
    obtain ⟨h1, h2⟩ := single spec (Call.run E C m (Call.stop spec)) (setOther spec _)
      (by simp only [Call.run, Heap.set_same]; exact advances_stop _ _ _)
    exact ⟨h1, fun s => Or.inl (h2 s)⟩
  | kill spec =>
    obtain ⟨h1, h2⟩ := single spec (Call.run E C m (Call.kill spec)) (setOther spec _)
      (by simp only [Call.run, Heap.set_same]; exact advances_kill _)
    exact ⟨h1, fun s => Or.inl (h2 s)⟩
  | asyncShutdownFinished spec => exact ⟨hinv, fun s => Or.inl (Nat.le_refl _)⟩

theorem calls_deletedWithoutInstance (E : QtEnv) (C : Callbacks) (calls : List Call) :
    ∀ m : PluginManagerPrivate, deletedWithoutInstance m.heap →
      deletedWithoutInstance (calls.foldl (Call.run E C) m).heap := by
  induction calls with
  | nil => intro m h; exact h
  | cons c rest ih =>
    intro m h
    simp only [List.foldl_cons]
    exact ih _ (call_advances E C m h c).1

/-- C12. Starting from a manager in which no deleted spec has a plugin
instance (as is the case for new specs), after any sequence of calls of
`loadPlugin`, `loadLibrary`, `initializePlugin`, `initializeExtensions`,
`delayedInitialize`, `stop`, `kill`, `resolveDependencies`, `loadQueue`, the
body of the reverse loop of `loadPlugins` and the slot `asyncShutdownFinished`,
a further call does not lower the
state of any spec in the order `Invalid < Read < Resolved < Loaded <
Initialized < Running < Stopped < Deleted`, except that `resolveDependencies`
may take its own spec from `Resolved` to `Read`. -/
theorem state_monotone (E : QtEnv) (C : Callbacks) (m : PluginManagerPrivate)
    (hinv : deletedWithoutInstance m.heap) (calls : List Call) (call : Call) (s : Nat) :
    ((calls.foldl (Call.run E C) m).heap s).state.toNat
        ≤ ((Call.run E C (calls.foldl (Call.run E C) m) call).heap s).state.toNat
      ∨ ((∃ specs, call = Call.resolveDependencies s specs)
        ∧ ((calls.foldl (Call.run E C) m).heap s).state = State.Resolved
        ∧ ((Call.run E C (calls.foldl (Call.run E C) m) call).heap s).state = State.Read) :=
  (call_advances E C _ (calls_deletedWithoutInstance E C calls m hinv) call).2 s

/-- C12, witness: the spec `Core` of the scenario with a disabled plugin is
loaded, initialized, run and then stopped; the last call takes it from
`Running` to `Stopped`. -/
theorem state_monotone_witness :
    ((([Call.loadPlugin 0 State.Loaded, Call.loadPlugin 0 State.Initialized,
          Call.loadPluginsRunning 0].foldl (Call.run plainEnv scenarioCallbacks)
        { scenarioManager with heap := fun _ => scenarioDisabled.heap 0 }).heap 0).state.toNat
        ≤ ((Call.run plainEnv scenarioCallbacks
          ([Call.loadPlugin 0 State.Loaded, Call.loadPlugin 0 State.Initialized,
            Call.loadPluginsRunning 0].foldl (Call.run plainEnv scenarioCallbacks)
            { scenarioManager with heap := fun _ => scenarioDisabled.heap 0 })
          (Call.stop 0)).heap 0).state.toNat
      ∨ ((∃ specs, Call.stop 0 = Call.resolveDependencies 0 specs)
        ∧ (([Call.loadPlugin 0 State.Loaded, Call.loadPlugin 0 State.Initialized,
            Call.loadPluginsRunning 0].foldl (Call.run plainEnv scenarioCallbacks)
          { scenarioManager with heap := fun _ => scenarioDisabled.heap 0 }).heap 0).state
            = State.Resolved
        ∧ ((Call.run plainEnv scenarioCallbacks
          ([Call.loadPlugin 0 State.Loaded, Call.loadPlugin 0 State.Initialized,
            Call.loadPluginsRunning 0].foldl (Call.run plainEnv scenarioCallbacks)
            { scenarioManager with heap := fun _ => scenarioDisabled.heap 0 })
          (Call.stop 0)).heap 0).state = State.Read))
      ∧ (([Call.loadPlugin 0 State.Loaded, Call.loadPlugin 0 State.Initialized,
          Call.loadPluginsRunning 0].foldl (Call.run plainEnv scenarioCallbacks)
        { scenarioManager with heap := fun _ => scenarioDisabled.heap 0 }).heap 0).state
          = State.Running
      ∧ ((Call.run plainEnv scenarioCallbacks
          ([Call.loadPlugin 0 State.Loaded, Call.loadPlugin 0 State.Initialized,
            Call.loadPluginsRunning 0].foldl (Call.run plainEnv scenarioCallbacks)
            { scenarioManager with heap := fun _ => scenarioDisabled.heap 0 })
          (Call.stop 0)).heap 0).state = State.Stopped :=
  ⟨state_monotone plainEnv scenarioCallbacks
      { scenarioManager with heap := fun _ => scenarioDisabled.heap 0 }
      (fun _ h => absurd (show (scenarioDisabled.heap 0).state = State.Deleted from h)
        (show ¬ (scenarioDisabled.heap 0).state = State.Deleted by decide))
      [Call.loadPlugin 0 State.Loaded, Call.loadPlugin 0 State.Initialized,
        Call.loadPluginsRunning 0] (Call.stop 0) 0,
    by decide, by decide⟩

/-! ## Closure of indirect enabling -/

theorem dependenciesEnabled_congr (E : QtEnv) (testSpecs : List Nat) {h h' : Heap}
    (r : onlyIndirectlyEnabled h h') (S : Nat) (c : dependenciesEnabled E testSpecs h S) :
    dependenciesEnabled E testSpecs h' S := by
  intro e he ht hav
  rw [← ((onlyIndirectlyEnabled_sameGraph r) S).2] at he
  rw [onlyIndirectlyEnabled_available E r] at hav
  exact onlyIndirectlyEnabled_effective E r _ (c e he ht hav)

theorem setEnabledIndirectly_effective (E : QtEnv) (d : PluginSpec)
    (hav : d.isAvailableForHostPlatform E = true) :
    (d.setEnabledIndirectly true).isEffectivelyEnabled E = true := by
  unfold PluginSpec.isEffectivelyEnabled
  have ha : (d.setEnabledIndirectly true).isAvailableForHostPlatform E
      = d.isAvailableForHostPlatform E := rfl
  rw [ha]
  simp [hav, PluginSpec.setEnabledIndirectly]

/-- The loop of `PluginSpecPrivate::enableDependenciesIndirectly`: afterwards
every entry it follows is effectively enabled when available, and a spec that
became effectively enabled is in the result. -/
theorem enableInner_closure (E : QtEnv) (flag : Bool) (ds : DependencyHash) :
    ∀ (h : Heap) (enabled : List Nat),
      onlyIndirectlyEnabled h (PluginSpec.enableDependenciesIndirectlyLoop E flag ds h enabled).1
        ∧ (∀ e ∈ ds, (e.1.type = DependencyType.Required
              ∨ (e.1.type = DependencyType.Test ∧ flag = true)) →
            ((PluginSpec.enableDependenciesIndirectlyLoop E flag ds h enabled).1
              e.2).isAvailableForHostPlatform E = true →
            ((PluginSpec.enableDependenciesIndirectlyLoop E flag ds h enabled).1
              e.2).isEffectivelyEnabled E = true)
        ∧ enabled ⊆ (PluginSpec.enableDependenciesIndirectlyLoop E flag ds h enabled).2
        ∧ (∀ s, ((PluginSpec.enableDependenciesIndirectlyLoop E flag ds h enabled).1
              s).isEffectivelyEnabled E = true →
            (h s).isEffectivelyEnabled E = true
              ∨ s ∈ (PluginSpec.enableDependenciesIndirectlyLoop E flag ds h enabled).2) := by
  induction ds with
  | nil =>
    intro h enabled
    simp only [PluginSpec.enableDependenciesIndirectlyLoop]
    exact ⟨onlyIndirectlyEnabled_refl _, fun e he => absurd he (List.not_mem_nil _),
      fun _ hx => hx, fun s hs => Or.inl hs⟩
  | cons entry rest ih =>
    intro h enabled
    obtain ⟨key, t⟩ := entry
    simp only [PluginSpec.enableDependenciesIndirectlyLoop]
    by_cases hskip : key.type ≠ DependencyType.Required
        ∧ (flag = false ∨ key.type ≠ DependencyType.Test)
    · rw [if_pos hskip]
      obtain ⟨r, c, sub, eff⟩ := ih h enabled
      refine ⟨r, fun e he ht => ?_, sub, eff⟩
      rcases List.mem_cons.1 he with rfl | he'
      · exfalso
        rcases ht with ht | ⟨ht, hf⟩
        · exact hskip.1 ht
        · rcases hskip.2 with h1 | h1
          · rw [hf] at h1
            cases h1
          · exact h1 ht
      · exact c e he' ht
    · rw [if_neg hskip]
      by_cases heff : (h t).isEffectivelyEnabled E = true
      · simp only [heff, Bool.not_true, Bool.false_eq_true, if_false]
        obtain ⟨r, c, sub, eff⟩ := ih h enabled
        refine ⟨r, fun e he ht => ?_, sub, eff⟩
        rcases List.mem_cons.1 he with rfl | he'
        · intro _
          exact onlyIndirectlyEnabled_effective E r _ heff
        · exact c e he' ht
      · have heff' : (h t).isEffectivelyEnabled E = false := by simpa using heff
        simp only [heff', Bool.not_false, if_true]
        obtain ⟨r, c, sub, eff⟩ :=
          ih (h.set t ((h t).setEnabledIndirectly true)) (enabled ++ [t])
        have r0 := onlyIndirectlyEnabled_set h t
        refine ⟨onlyIndirectlyEnabled_trans r0 r, fun e he ht => ?_,
          fun x hx => sub (List.mem_append_left _ hx), fun s hs => ?_⟩
        · rcases List.mem_cons.1 he with rfl | he'
          · intro hav
            apply onlyIndirectlyEnabled_effective E r
            rw [Heap.set_same]
            apply setEnabledIndirectly_effective
            rw [onlyIndirectlyEnabled_available E (onlyIndirectlyEnabled_trans r0 r)] at hav
            exact hav
          · exact c e he' ht
        · rcases eff s hs with h1 | h1
          · by_cases hst : s = t
            · right
              rw [hst]
              exact sub (List.mem_append_right _ (List.mem_singleton_self _))
            · left
              rw [Heap.set_other _ _ _ _ hst] at h1
              exact h1
          · exact Or.inr h1

/-- The work list loop: when every effectively enabled spec of `U` is on the
work list or has its dependencies enabled, then after the loop every effectively
enabled spec of `U` has its dependencies enabled. -/
theorem enableLoop_closure (E : QtEnv) (U testSpecs : List Nat) (fuel : Nat) :
    ∀ (queue : List Nat) (h h' : Heap),
      PluginManagerPrivate.enableDependenciesIndirectlyLoop E testSpecs fuel queue h = some h' →
      (∀ S ∈ U, (h S).isEffectivelyEnabled E = true →
        S ∈ queue ∨ dependenciesEnabled E testSpecs h S) →
      ∀ S ∈ U, (h' S).isEffectivelyEnabled E = true → dependenciesEnabled E testSpecs h' S := by
  induction fuel with
  | zero =>
    intro queue h h' hl hinv S hS heff
    cases queue with
    | nil =>
      simp only [PluginManagerPrivate.enableDependenciesIndirectlyLoop, Option.some.injEq] at hl
      subst hl
      rcases hinv S hS heff with h1 | h1
      · exact absurd h1 (List.not_mem_nil _)
      · exact h1
    | cons spec rest => simp [PluginManagerPrivate.enableDependenciesIndirectlyLoop] at hl
  | succ fuel ih =>
    intro queue h h' hl hinv
    cases queue with
    | nil =>
      intro S hS heff
      simp only [PluginManagerPrivate.enableDependenciesIndirectlyLoop, Option.some.injEq] at hl
      subst hl
      rcases hinv S hS heff with h1 | h1
      · exact absurd h1 (List.not_mem_nil _)
      · exact h1
    | cons spec rest =>
      simp only [PluginManagerPrivate.enableDependenciesIndirectlyLoop] at hl
      refine ih _ _ h' hl ?_
      intro S hS heff
      unfold PluginSpec.enableDependenciesIndirectly at heff ⊢
      by_cases hsp : (h spec).isEffectivelyEnabled E = true
      · simp only [hsp, Bool.not_true, Bool.false_eq_true, if_false] at heff ⊢
        obtain ⟨r, c, _, eff⟩ := enableInner_closure E (testSpecs.contains spec)
          (h spec).dependencySpecs h []
        rcases eff S heff with h1 | h1
        · rcases hinv S hS h1 with h2 | h2
          · rcases List.mem_cons.1 h2 with h3 | h3
            · right
              subst h3
              intro e he ht hav
              rw [← ((onlyIndirectlyEnabled_sameGraph r) S).2] at he
              refine c e he ?_ hav
              rcases ht with ht | ⟨ht, hf⟩
              · exact Or.inl ht
              · exact Or.inr ⟨ht, hf⟩
            · exact Or.inl (List.mem_append_left _ h3)
          · exact Or.inr (dependenciesEnabled_congr E testSpecs r S h2)
        · exact Or.inl (List.mem_append_right _ h1)
      · have hsp' : (h spec).isEffectivelyEnabled E = false := by simpa using hsp
        simp only [hsp', Bool.not_false, if_true, List.append_nil] at heff ⊢
        rcases hinv S hS heff with h2 | h2
        · rcases List.mem_cons.1 h2 with h3 | h3
          · rw [h3, hsp'] at heff
            cases heff
          · exact Or.inl h3
        · exact Or.inr h2

theorem clearIndirect_pluginSpecs_filter (E : QtEnv) (m : PluginManagerPrivate)
    (m' : PluginManagerPrivate) (h : m.enableDependenciesIndirectly E = some m') :
    m'.pluginSpecs = m.pluginSpecs ∧ m'.testSpecs = m.testSpecs
      ∧ ∀ S ∈ m.pluginSpecs, (m'.heap S).isEffectivelyEnabled E = true →
          dependenciesEnabled E m.testSpecs m'.heap S := by
  unfold PluginManagerPrivate.enableDependenciesIndirectly at h
  simp only at h
  split at h
  · cases h
  · rename_i heap2 hl
    simp only [Option.some.injEq] at h
    subst h
    refine ⟨rfl, rfl, ?_⟩
    exact enableLoop_closure E m.pluginSpecs m.testSpecs _ _ _ _ hl
      (fun S hS heff => Or.inl (List.mem_filter.2 ⟨hS, heff⟩))

/-- C11. `PluginManagerPrivate::enableDependenciesIndirectly()` returns (when
the resolved dependencies point into `pluginSpecs`), and afterwards, for every
spec S of the manager that is effectively enabled and every required entry of
its resolved dependencies (and every test entry when S is a test spec), the
spec D of the entry is effectively enabled whenever it is available for the
host platform. -/
theorem enableDependenciesIndirectly_closure (E : QtEnv) (m : PluginManagerPrivate)
    (hw : dependenciesWithin m.heap m.pluginSpecs) :
    ∃ m', m.enableDependenciesIndirectly E = some m'
      ∧ ∀ S ∈ m'.pluginSpecs, (m'.heap S).isEffectivelyEnabled E = true →
          ∀ e ∈ (m'.heap S).dependencySpecs,
            (e.1.type = DependencyType.Required
              ∨ (e.1.type = DependencyType.Test ∧ m'.testSpecs.contains S = true)) →
            (m'.heap e.2).isAvailableForHostPlatform E = true →
            (m'.heap e.2).isEffectivelyEnabled E = true := by
  obtain ⟨m', e, _, _⟩ := enableDependenciesIndirectly_returns E m hw
  obtain ⟨p1, p2, p3⟩ := clearIndirect_pluginSpecs_filter E m m' e
  refine ⟨m', e, fun S hS heff => ?_⟩
  rw [p1] at hS
  rw [p2]
  exact p3 S hS heff

set_option maxRecDepth 100000 in
/-- C11, witness: `Core` disabled in the settings while `A` requires it: the
propagation enables `Core` indirectly. -/
theorem enableDependenciesIndirectly_closure_witness :
    (∃ m', scenarioCoreDisabled.enableDependenciesIndirectly plainEnv = some m'
      ∧ ∀ S ∈ m'.pluginSpecs, (m'.heap S).isEffectivelyEnabled plainEnv = true →
          ∀ e ∈ (m'.heap S).dependencySpecs,
            (e.1.type = DependencyType.Required
              ∨ (e.1.type = DependencyType.Test ∧ m'.testSpecs.contains S = true)) →
            (m'.heap e.2).isAvailableForHostPlatform plainEnv = true →
            (m'.heap e.2).isEffectivelyEnabled plainEnv = true)
      ∧ (scenarioCoreDisabled.enableDependenciesIndirectly plainEnv).map (fun m' =>
          m'.pluginSpecs.map (fun a => ((m'.heap a).name, (m'.heap a).enabledBySettings,
            (m'.heap a).enabledIndirectly, (m'.heap a).isEffectivelyEnabled plainEnv)))
        = some [("A".toList, true, false, true), ("B".toList, true, false, true),
            ("Core".toList, false, true, true)] :=
  ⟨enableDependenciesIndirectly_closure plainEnv scenarioCoreDisabled
    (by unfold dependenciesWithin; decide), by decide⟩

/-! ## Errors in the metadata -/

theorem arg_ne_nil (s a : QString) (h : s.head?.map (fun c => decide (c ≠ '%')) = some true) :
    arg s a ≠ [] := by
  cases s with
  | nil => simp at h
  | cons c t =>
    have hc : c ≠ '%' := by simpa using h
    unfold arg
    cases hf : findArgEscapes (c :: t) with
    | none => simp
    | some n => simp [replaceArgEscapes, hc]

theorem multiArg_ne_nil (s : QString) (args : List QString)
    (h : s.head?.map (fun c => decide (c ≠ '%')) = some true) : multiArg s args ≠ [] := by
  cases s with
  | nil => simp at h
  | cons c t =>
    have hc : c ≠ '%' := by simpa using h
    unfold multiArg
    simp [multiArgReplace, hc]

theorem msgValueMissing_ne_nil (key : String) : msgValueMissing key ≠ [] :=
  arg_ne_nil _ _ (by decide)

theorem msgValueIsNotAString_ne_nil (key : String) : msgValueIsNotAString key ≠ [] :=
  arg_ne_nil _ _ (by decide)

theorem msgValueIsNotABool_ne_nil (key : String) : msgValueIsNotABool key ≠ [] :=
  arg_ne_nil _ _ (by decide)

theorem msgValueIsNotAObjectArray_ne_nil (key : String) : msgValueIsNotAObjectArray key ≠ [] :=
  arg_ne_nil _ _ (by decide)

theorem msgValueIsNotAMultilineString_ne_nil (key : String) :
    msgValueIsNotAMultilineString key ≠ [] :=
  arg_ne_nil _ _ (by decide)

theorem msgInvalidFormat_ne_nil (key : String) (content : QString) :
    msgInvalidFormat key content ≠ [] :=
  multiArg_ne_nil _ _ (by decide)

theorem stepDecides_error (d : PluginSpec) (msg : QString) (h : msg ≠ []) :
    stepDecides true d (Except.error (d.reportError msg)) :=
  ⟨rfl, rfl, rfl, h⟩

theorem stepDecides_error_after (d d1 : PluginSpec) (msg : QString) (h : msg ≠ []) :
    stepDecides true d (Except.error (d1.reportError msg)) :=
  ⟨rfl, rfl, rfl, h⟩

theorem readName_decides (d : PluginSpec) :
    stepDecides (missingOrNotString d.metaData PLUGIN_NAME) d (PluginSpec.readName d) := by
  unfold PluginSpec.readName missingOrNotString
  repeat' split
  all_goals simp_all [stepDecides, PluginSpec.reportError, PluginSpec.setName,
    msgValueMissing_ne_nil, msgValueIsNotAString_ne_nil]

theorem readVersion_decides (d : PluginSpec) :
    stepDecides (missingOrNotString d.metaData PLUGIN_VERSION
      || !isValidVersion ((d.metaData.value (QLatin1String PLUGIN_VERSION)).toQString [])) d
      (PluginSpec.readVersion d) := by
  unfold PluginSpec.readVersion missingOrNotString
  repeat' split
  all_goals simp_all [stepDecides, PluginSpec.reportError, PluginSpec.setVersion,
    msgValueMissing_ne_nil, msgValueIsNotAString_ne_nil, msgInvalidFormat_ne_nil]

theorem toQString_default (v : QJsonValue) (a b : QString) (h : v.isString = true) :
    v.toQString a = v.toQString b := by
  cases v <;> simp_all [QJsonValue.isString, QJsonValue.toQString]

theorem readCompatVersion_decides (d : PluginSpec) :
    stepDecides (wrongType QJsonValue.isString d.metaData PLUGIN_COMPATVERSION
      || (!(d.metaData.value (QLatin1String PLUGIN_COMPATVERSION)).isUndefined
        && !isValidVersion ((d.metaData.value (QLatin1String PLUGIN_COMPATVERSION)).toQString [])))
      d (PluginSpec.readCompatVersion d) := by
  unfold PluginSpec.readCompatVersion wrongType
  by_cases hs : (d.metaData.value (QLatin1String PLUGIN_COMPATVERSION)).isString = true
  · rw [toQString_default _ d.version [] hs]
    repeat' split
    all_goals simp_all [stepDecides, PluginSpec.reportError, PluginSpec.setCompatVersion,
      msgValueIsNotAString_ne_nil, msgInvalidFormat_ne_nil]
  · have hu : (d.metaData.value (QLatin1String PLUGIN_COMPATVERSION)).isUndefined = true
        → (d.metaData.value (QLatin1String PLUGIN_COMPATVERSION)).toQString d.version = d.version := by
      intro h
      cases hv : d.metaData.value (QLatin1String PLUGIN_COMPATVERSION) <;>
        simp_all [QJsonValue.isUndefined, QJsonValue.toQString]
    repeat' split
    all_goals simp_all [stepDecides, PluginSpec.reportError, PluginSpec.setCompatVersion,
      msgValueIsNotAString_ne_nil, msgInvalidFormat_ne_nil]

theorem readRequired_decides (d : PluginSpec) :
    stepDecides (wrongType QJsonValue.isBool d.metaData PLUGIN_REQUIRED) d
      (PluginSpec.readRequired d) := by
  unfold PluginSpec.readRequired wrongType
  repeat' split
  all_goals simp_all [stepDecides, PluginSpec.reportError, PluginSpec.setRequired,
    msgValueIsNotABool_ne_nil]

theorem readExperimental_decides (d : PluginSpec) :
    stepDecides (wrongType QJsonValue.isBool d.metaData PLUGIN_EXPERIMENTAL) d
      (PluginSpec.readExperimental d) := by
  unfold PluginSpec.readExperimental wrongType
  repeat' split
  all_goals simp_all [stepDecides, PluginSpec.reportError, PluginSpec.setExperimental,
    msgValueIsNotABool_ne_nil]

theorem applyExperimental_errors (d : PluginSpec) :
    d.applyExperimental.hasError = d.hasError ∧ d.applyExperimental.errorString = d.errorString
      ∧ d.applyExperimental.metaData = d.metaData := by
  unfold PluginSpec.applyExperimental
  split <;> exact ⟨rfl, rfl, rfl⟩

theorem readDisabledByDefault_decides (d : PluginSpec) :
    stepDecides (wrongType QJsonValue.isBool d.metaData PLUGIN_DISABLED_BY_DEFAULT) d
      (PluginSpec.readDisabledByDefault d) := by
  unfold PluginSpec.readDisabledByDefault wrongType
  split
  · simp_all [stepDecides, PluginSpec.reportError, msgValueIsNotABool_ne_nil]
  · rename_i h
    obtain ⟨a1, a2, a3⟩ := applyExperimental_errors (d.setEnabledByDefault
      (!(d.metaData.value (QLatin1String PLUGIN_DISABLED_BY_DEFAULT)).toBool false))
    refine ⟨?_, a1, a2, a3⟩
    simpa using h

theorem readVendor_decides (d : PluginSpec) :
    stepDecides (wrongType QJsonValue.isString d.metaData VENDOR) d (PluginSpec.readVendor d) := by
  unfold PluginSpec.readVendor wrongType
  repeat' split
  all_goals simp_all [stepDecides, PluginSpec.reportError, PluginSpec.setVendor,
    msgValueIsNotAString_ne_nil]

theorem readCopyright_decides (d : PluginSpec) :
    stepDecides (wrongType QJsonValue.isString d.metaData COPYRIGHT) d
      (PluginSpec.readCopyright d) := by
  unfold PluginSpec.readCopyright wrongType
  repeat' split
  all_goals simp_all [stepDecides, PluginSpec.reportError, PluginSpec.setCopyright,
    msgValueIsNotAString_ne_nil]

theorem readDescription_decides (d : PluginSpec) :
    stepDecides (notMultiLine d.metaData DESCRIPTION) d (PluginSpec.readDescription d) := by
  unfold PluginSpec.readDescription notMultiLine
  repeat' split
  all_goals simp_all [stepDecides, PluginSpec.reportError, PluginSpec.setDescription,
    msgValueIsNotAString_ne_nil]

theorem readUrl_decides (d : PluginSpec) :
    stepDecides (wrongType QJsonValue.isString d.metaData URL) d (PluginSpec.readUrl d) := by
  unfold PluginSpec.readUrl wrongType
  repeat' split
  all_goals simp_all [stepDecides, PluginSpec.reportError, PluginSpec.setUrl,
    msgValueIsNotAString_ne_nil]

theorem readCategory_decides (d : PluginSpec) :
    stepDecides (wrongType QJsonValue.isString d.metaData CATEGORY) d
      (PluginSpec.readCategory d) := by
  unfold PluginSpec.readCategory wrongType
  repeat' split
  all_goals simp_all [stepDecides, PluginSpec.reportError, PluginSpec.setCategory,
    msgValueIsNotAString_ne_nil]

theorem readLicense_decides (d : PluginSpec) :
    stepDecides (notMultiLine d.metaData LICENSE) d (PluginSpec.readLicense d) := by
  unfold PluginSpec.readLicense notMultiLine
  repeat' split
  all_goals simp_all [stepDecides, PluginSpec.reportError, PluginSpec.setLicense,
    msgValueIsNotAMultilineString_ne_nil]

theorem readPlatform_decides (E : QtEnv) (d : PluginSpec) :
    stepDecides (wrongType QJsonValue.isString d.metaData PLATFORM
      || (!(E.trimmed ((d.metaData.value (QLatin1String PLATFORM)).toQString [])).isEmpty
        && !E.regexValid (E.trimmed ((d.metaData.value (QLatin1String PLATFORM)).toQString []))))
      d (PluginSpec.readPlatform E d) := by
  unfold PluginSpec.readPlatform wrongType
  have hm : ∀ a b : QString, multiArg (tr "Invalid platform specification \"%1\": %2") [a, b] ≠ [] :=
    fun a b => multiArg_ne_nil _ _ (by decide)
  repeat' split
  all_goals simp_all [stepDecides, PluginSpec.reportError, PluginSpec.setPlatformSpecification,
    msgValueIsNotAString_ne_nil]

theorem readDependency_decides (E : QtEnv) (v : QJsonValue) (d : PluginSpec) :
    stepDecides (dependencyMalformed E v) d (PluginSpec.readDependency E v d) := by
  unfold PluginSpec.readDependency dependencyMalformed missingOrNotString wrongType
  have ha : ∀ a : QString, arg (tr "Dependency: %1") a ≠ [] :=
    fun a => arg_ne_nil _ _ (by decide)
  have hm : ∀ l : List QString,
      multiArg (tr "Dependency: \"%1\" must be \"%2\" or \"%3\" (is \"%4\").") l ≠ [] :=
    fun l => multiArg_ne_nil _ _ (by decide)
  simp only [pure, throw, throwThe, MonadExceptOf.throw, bind, Except.bind, Except.pure]
  generalize v.isObject = b0
  generalize (v.toObject.value (QLatin1String DEPENDENCY_NAME)).isUndefined = b1
  generalize (v.toObject.value (QLatin1String DEPENDENCY_NAME)).isString = b2
  generalize (v.toObject.value (QLatin1String DEPENDENCY_VERSION)).isUndefined = b3
  generalize (v.toObject.value (QLatin1String DEPENDENCY_VERSION)).isString = b4
  generalize isValidVersion ((v.toObject.value (QLatin1String DEPENDENCY_VERSION)).toQString [])
    = b5
  generalize (v.toObject.value (QLatin1String DEPENDENCY_TYPE)).isUndefined = b6
  generalize (v.toObject.value (QLatin1String DEPENDENCY_TYPE)).isString = b7
  generalize E.toLower ((v.toObject.value (QLatin1String DEPENDENCY_TYPE)).toQString []) = ty
  generalize QLatin1String DEPENDENCY_TYPE_HARD = hard
  generalize QLatin1String DEPENDENCY_TYPE_SOFT = soft
  generalize QLatin1String DEPENDENCY_TYPE_TEST = test
  cases b0
  · simp [stepDecides, PluginSpec.reportError, msgValueIsNotAObjectArray_ne_nil]
  cases b1
  swap
  · simp [stepDecides, PluginSpec.reportError, ha]
  cases b2
  · simp [stepDecides, PluginSpec.reportError, ha]
  cases b5
  · cases b3 <;> cases b4 <;> simp [stepDecides, PluginSpec.reportError, ha]
  cases b3 <;> cases b4
  case false.false => simp [stepDecides, PluginSpec.reportError, ha]
  all_goals
    cases b6 <;> cases b7 <;>
      first
        | (simp [stepDecides, PluginSpec.reportError, PluginSpec.appendDependency, ha]; done)
        | (by_cases h1 : ty = hard
           · subst h1
             simp [stepDecides, PluginSpec.reportError, PluginSpec.appendDependency]
           · by_cases h2 : ty = soft
             · subst h2
               simp [stepDecides, PluginSpec.reportError, PluginSpec.appendDependency, h1]
             · by_cases h3 : ty = test
               · subst h3
                 simp [stepDecides, PluginSpec.reportError, PluginSpec.appendDependency, h1, h2]
               · simp [stepDecides, PluginSpec.reportError, PluginSpec.appendDependency, h1, h2,
                   h3, hm])

theorem readArgument_decides (v : QJsonValue) (d : PluginSpec) :
    stepDecides (argumentMalformed v) d (PluginSpec.readArgument v d) := by
  unfold PluginSpec.readArgument argumentMalformed missingOrNotString wrongType
  have ha : ∀ a : QString, arg (tr "Argument: %1") a ≠ [] :=
    fun a => arg_ne_nil _ _ (by decide)
  have hb : ∀ a : QString, arg (tr "Argument: \"%1\" is empty") a ≠ [] :=
    fun a => arg_ne_nil _ _ (by decide)
  simp only [pure, throw, throwThe, MonadExceptOf.throw, bind, Except.bind, Except.pure]
  generalize v.isObject = b0
  generalize (v.toObject.value (QLatin1String ARGUMENT_NAME)).isUndefined = b1
  generalize (v.toObject.value (QLatin1String ARGUMENT_NAME)).isString = b2
  generalize ((v.toObject.value (QLatin1String ARGUMENT_NAME)).toQString []).isEmpty = b3
  generalize (v.toObject.value (QLatin1String ARGUMENT_DESCRIPTION)).isUndefined = b4
  generalize (v.toObject.value (QLatin1String ARGUMENT_DESCRIPTION)).isString = b5
  generalize (v.toObject.value (QLatin1String ARGUMENT_PARAMETER)).isUndefined = b6
  generalize (v.toObject.value (QLatin1String ARGUMENT_PARAMETER)).isString = b7
  cases b0
  · simp [stepDecides, PluginSpec.reportError, msgValueIsNotAObjectArray_ne_nil]
  cases b1
  swap
  · simp [stepDecides, PluginSpec.reportError, ha]
  cases b2
  · simp [stepDecides, PluginSpec.reportError, ha]
  cases b3
  swap
  · simp [stepDecides, PluginSpec.reportError, hb]
  cases b4 <;> cases b5 <;> cases b6 <;> cases b7 <;>
    simp [stepDecides, PluginSpec.reportError, PluginSpec.appendArgumentDescription, ha]

/-- A step that goes on, followed by further steps. -/
theorem stepDecides_bind (b1 b2 : Bool) (d : PluginSpec) (r : Early) (k : PluginSpec → Early)
    (h1 : stepDecides b1 d r) (h2 : ∀ d', d'.metaData = d.metaData → stepDecides b2 d' (k d')) :
    stepDecides (b1 || b2) d (r >>= k) := by
  cases r with
  | error e =>
    obtain ⟨p1, p2, p3, p4⟩ := h1
    show stepDecides (b1 || b2) d (Except.error e)
    exact ⟨by rw [p1]; rfl, p2, p3, p4⟩
  | ok d1 =>
    obtain ⟨p1, p2, p3, p4⟩ := h1
    have := h2 d1 p4
    show stepDecides (b1 || b2) d (k d1)
    unfold stepDecides at this ⊢
    cases hk : k d1 with
    | error e =>
      rw [hk] at this
      simp only at this ⊢
      exact ⟨by rw [p1, this.1]; rfl, this.2⟩
    | ok d2 =>
      rw [hk] at this
      simp only at this ⊢
      exact ⟨by rw [p1, this.1]; rfl, this.2.1.trans p2, this.2.2.1.trans p3, this.2.2.2.trans p4⟩

theorem readDependencies_decides (E : QtEnv) (l : List QJsonValue) :
    ∀ d, stepDecides (l.any (dependencyMalformed E)) d (PluginSpec.readDependencies E l d) := by
  induction l with
  | nil => intro d; exact ⟨rfl, rfl, rfl, rfl⟩
  | cons v rest ih =>
    intro d
    unfold PluginSpec.readDependencies
    simp only [List.any_cons]
    exact stepDecides_bind _ _ d _ _ (readDependency_decides E v d) (fun d' _ => ih d')

theorem readArguments_decides (l : List QJsonValue) :
    ∀ d, stepDecides (l.any argumentMalformed) d (PluginSpec.readArguments l d) := by
  induction l with
  | nil => intro d; exact ⟨rfl, rfl, rfl, rfl⟩
  | cons v rest ih =>
    intro d
    unfold PluginSpec.readArguments
    simp only [List.any_cons]
    exact stepDecides_bind _ _ d _ _ (readArgument_decides v d) (fun d' _ => ih d')

theorem toArray_undefined (v : QJsonValue) (h : v.isUndefined = true) : v.toArray = [] := by
  cases v <;> simp_all [QJsonValue.isUndefined, QJsonValue.toArray]

theorem readDependenciesKey_decides (E : QtEnv) (d : PluginSpec) :
    stepDecides (wrongType QJsonValue.isArray d.metaData DEPENDENCIES
      || (d.metaData.value (QLatin1String DEPENDENCIES)).toArray.any (dependencyMalformed E)) d
      (PluginSpec.readDependenciesKey E d) := by
  unfold PluginSpec.readDependenciesKey wrongType
  have hl := readDependencies_decides E (d.metaData.value (QLatin1String DEPENDENCIES)).toArray d
  split
  · simp_all [stepDecides, PluginSpec.reportError, msgValueIsNotAObjectArray_ne_nil]
  · rename_i h1
    split
    · rename_i h2
      rw [toArray_undefined _ h2]
      simp_all [stepDecides]
    · rename_i h2
      have hb : (!(d.metaData.value (QLatin1String DEPENDENCIES)).isUndefined
          && !(d.metaData.value (QLatin1String DEPENDENCIES)).isArray) = false := by
        simpa using h1
      rw [hb, Bool.false_or]
      exact hl

theorem readArgumentsKey_decides (d : PluginSpec) :
    stepDecides (wrongType QJsonValue.isArray d.metaData ARGUMENTS
      || (d.metaData.value (QLatin1String ARGUMENTS)).toArray.any argumentMalformed) d
      (PluginSpec.readArgumentsKey d) := by
  unfold PluginSpec.readArgumentsKey wrongType
  have hl := readArguments_decides (d.metaData.value (QLatin1String ARGUMENTS)).toArray d
  split
  · simp_all [stepDecides, PluginSpec.reportError, msgValueIsNotAObjectArray_ne_nil]
  · rename_i h1
    split
    · rename_i h2
      rw [toArray_undefined _ h2]
      simp_all [stepDecides]
    · rename_i h2
      have hb : (!(d.metaData.value (QLatin1String ARGUMENTS)).isUndefined
          && !(d.metaData.value (QLatin1String ARGUMENTS)).isArray) = false := by
        simpa using h1
      rw [hb, Bool.false_or]
      exact hl

theorem runSteps_decides (o : QJsonObject) (sb : List ((PluginSpec → Early) × Bool))
    (h : ∀ p ∈ sb, ∀ d : PluginSpec, d.metaData = o → stepDecides p.2 d (p.1 d)) :
    ∀ d : PluginSpec, d.metaData = o →
      stepDecides ((sb.map Prod.snd).any (fun b => b)) d
        (PluginSpec.runSteps (sb.map Prod.fst) d) := by
  induction sb with
  | nil =>
    intro d _
    exact ⟨rfl, rfl, rfl, rfl⟩
  | cons p rest ih =>
    intro d hd
    have h1 := h p (by simp) d hd
    have ih' := ih (fun q hq => h q (List.mem_cons_of_mem _ hq))
    simp only [List.map_cons, List.any_cons, PluginSpec.runSteps]
    cases hs : p.1 d with
    | error e =>
      rw [hs] at h1
      obtain ⟨p1, p2, p3, p4⟩ := h1
      exact ⟨by rw [p1]; rfl, p2, p3, p4⟩
    | ok d1 =>
      rw [hs] at h1
      obtain ⟨p1, p2, p3, p4⟩ := h1
      have := ih' d1 (p4.trans hd)
      simp only
      unfold stepDecides at this ⊢
      cases hk : PluginSpec.runSteps (rest.map Prod.fst) d1 with
      | error e =>
        rw [hk] at this
        simp only at this ⊢
        exact ⟨by rw [p1, this.1]; rfl, this.2⟩
      | ok d2 =>
        rw [hk] at this
        simp only at this ⊢
        exact ⟨by rw [p1, this.1]; rfl, this.2.1.trans p2, this.2.2.1.trans p3,
          this.2.2.2.trans p4⟩

/-- The steps of `readMetaData` after the key `MetaData`, each with the
violation it reports. -/
theorem metaDataSteps_decide (E : QtEnv) (o : QJsonObject) :
    ∀ d : PluginSpec, d.metaData = o →
      stepDecides ((metaDataViolations E o).any (fun b => b)) d
        (PluginSpec.runSteps [PluginSpec.readName, PluginSpec.readVersion,
          PluginSpec.readCompatVersion, PluginSpec.readRequired, PluginSpec.readExperimental,
          PluginSpec.readDisabledByDefault, PluginSpec.readVendor, PluginSpec.readCopyright,
          PluginSpec.readDescription, PluginSpec.readUrl, PluginSpec.readCategory,
          PluginSpec.readLicense, PluginSpec.readPlatform E, PluginSpec.readDependenciesKey E,
          PluginSpec.readArgumentsKey] d) := by
  have key := runSteps_decides o
    [(PluginSpec.readName, missingOrNotString o PLUGIN_NAME),
     (PluginSpec.readVersion, missingOrNotString o PLUGIN_VERSION
       || !isValidVersion ((o.value (QLatin1String PLUGIN_VERSION)).toQString [])),
     (PluginSpec.readCompatVersion, wrongType QJsonValue.isString o PLUGIN_COMPATVERSION
       || (!(o.value (QLatin1String PLUGIN_COMPATVERSION)).isUndefined
         && !isValidVersion ((o.value (QLatin1String PLUGIN_COMPATVERSION)).toQString []))),
     (PluginSpec.readRequired, wrongType QJsonValue.isBool o PLUGIN_REQUIRED),
     (PluginSpec.readExperimental, wrongType QJsonValue.isBool o PLUGIN_EXPERIMENTAL),
     (PluginSpec.readDisabledByDefault, wrongType QJsonValue.isBool o PLUGIN_DISABLED_BY_DEFAULT),
     (PluginSpec.readVendor, wrongType QJsonValue.isString o VENDOR),
     (PluginSpec.readCopyright, wrongType QJsonValue.isString o COPYRIGHT),
     (PluginSpec.readDescription, notMultiLine o DESCRIPTION),
     (PluginSpec.readUrl, wrongType QJsonValue.isString o URL),
     (PluginSpec.readCategory, wrongType QJsonValue.isString o CATEGORY),
     (PluginSpec.readLicense, notMultiLine o LICENSE),
     (PluginSpec.readPlatform E, wrongType QJsonValue.isString o PLATFORM
       || (!(E.trimmed ((o.value (QLatin1String PLATFORM)).toQString [])).isEmpty
         && !E.regexValid (E.trimmed ((o.value (QLatin1String PLATFORM)).toQString [])))),
     (PluginSpec.readDependenciesKey E, wrongType QJsonValue.isArray o DEPENDENCIES
       || (o.value (QLatin1String DEPENDENCIES)).toArray.any (dependencyMalformed E)),
     (PluginSpec.readArgumentsKey, wrongType QJsonValue.isArray o ARGUMENTS
       || (o.value (QLatin1String ARGUMENTS)).toArray.any argumentMalformed)]
    (by
      intro p hp d hd
      simp only [List.mem_cons, List.mem_singleton, List.not_mem_nil, or_false] at hp
      subst hd
      rcases hp with h | h | h | h | h | h | h | h | h | h | h | h | h | h | h <;> subst h
      · exact readName_decides d
      · exact readVersion_decides d
      · exact readCompatVersion_decides d
      · exact readRequired_decides d
      · exact readExperimental_decides d
      · exact readDisabledByDefault_decides d
      · exact readVendor_decides d
      · exact readCopyright_decides d
      · exact readDescription_decides d
      · exact readUrl_decides d
      · exact readCategory_decides d
      · exact readLicense_decides d
      · exact readPlatform_decides E d
      · exact readDependenciesKey_decides E d
      · exact readArgumentsKey_decides d)
  exact key

theorem runSteps_cons (step : PluginSpec → Early) (rest : List (PluginSpec → Early))
    (d : PluginSpec) :
    PluginSpec.runSteps (step :: rest) d
      = match step d with
        | Except.ok d1 => PluginSpec.runSteps rest d1
        | Except.error r => Except.error r := rfl

/-- `readMetaData` by cases: a record without the configured `IID` makes it
return false and change nothing; otherwise it returns true, with an error and a
message exactly when the record has a structural violation. -/
theorem readMetaData_outcome (E : QtEnv) (iid : QString) (md : QJsonObject) (d : PluginSpec) :
    (hasPluginIID iid md = false → d.readMetaData E iid md = (false, d))
      ∧ (hasPluginIID iid md = true →
        (d.readMetaData E iid md).1 = true
          ∧ (structuralViolation E md = true →
            (d.readMetaData E iid md).2.hasError = true
              ∧ (d.readMetaData E iid md).2.errorString ≠ [])
          ∧ (structuralViolation E md = false →
            (d.readMetaData E iid md).2.hasError = d.hasError
              ∧ (d.readMetaData E iid md).2.errorString = d.errorString)) := by
  unfold PluginSpec.readMetaData PluginSpec.readMetaDataSteps hasPluginIID structuralViolation
  rw [runSteps_cons]
  unfold PluginSpec.readIID
  by_cases h1 : (md.value (QLatin1String "IID")).isString = true
  swap
  · simp [h1]
  by_cases h2 : (md.value (QLatin1String "IID")).toQString [] = iid
  swap
  · simp [h1, h2]
  simp only [h1, h2, Bool.not_true, Bool.false_eq_true, if_false, ne_eq, not_true_eq_false,
    Bool.true_and, decide_True, reduceCtorEq, false_implies, true_implies, true_and]
  rw [runSteps_cons]
  unfold PluginSpec.readMetaDataObject
  by_cases h3 : (md.value (QLatin1String PLUGIN_METADATA)).isObject = true
  swap
  · simp [h3, PluginSpec.reportError, tr]
  simp only [h3, Bool.not_true, Bool.false_eq_true, if_false, Bool.false_or]
  have key := metaDataSteps_decide E (md.value (QLatin1String PLUGIN_METADATA)).toObject
    (d.setMetaData (md.value (QLatin1String PLUGIN_METADATA)).toObject) rfl
  unfold stepDecides at key
  split at key
  · rename_i d' hr
    rw [hr]
    obtain ⟨k1, k2, k3, _⟩ := key
    simp only [k1, Bool.false_eq_true, false_implies, true_implies, true_and]
    exact ⟨k2, k3⟩
  · rename_i e hr
    rw [hr]
    obtain ⟨k1, k2, k3, k4⟩ := key
    simp only [k1, Bool.true_eq_false, false_implies, true_implies, and_true]
    exact ⟨k2, k3, k4⟩

theorem hasPluginIID_eq_false (iid : QString) (md : QJsonObject) :
    hasPluginIID iid md = false
      ↔ (md.value (QLatin1String "IID")).isString = false
        ∨ (md.value (QLatin1String "IID")).toQString [] ≠ iid := by
  unfold hasPluginIID
  by_cases h1 : (md.value (QLatin1String "IID")).isString = true <;>
    by_cases h2 : (md.value (QLatin1String "IID")).toQString [] = iid <;> simp [h1, h2]

/-- `read` on a file that the loader resolves: the members before
`readMetaData` runs. -/
theorem read_resolved (E : QtEnv) (iid : QString) (file : PluginFile) (d : PluginSpec)
    (hres : file.resolved = true) :
    ∃ d0 : PluginSpec, d0.hasError = false ∧ d0.errorString = [] ∧ d0.state = State.Invalid
      ∧ PluginSpec.read E iid file d
        = if !(d0.readMetaData E iid file.metaData).1 then
            (false, (d0.readMetaData E iid file.metaData).2)
          else (true, { (d0.readMetaData E iid file.metaData).2 with state := State.Read }) := by
  refine ⟨({ ({ d with
      name := [], version := [], compatVersion := [], vendor := [], copyright := [],
      license := [], description := [], url := [], category := [], location := [],
      state := State.Invalid, hasError := false, errorString := [], dependencies := [],
      metaData := [] } : PluginSpec) with
      location := file.absolutePath, filePath := file.absoluteFilePath } : PluginSpec),
    rfl, rfl, rfl, ?_⟩
  unfold PluginSpec.read
  simp only [hres, Bool.not_true, Bool.false_eq_true, if_false]

/-- C15. `readMetaData` returns false exactly when the value of `IID` is not a
string or differs from the configured plugin IID, and then it changes no
member. For a library file with such a record `PluginSpecPrivate::read` returns
false (`PluginSpec::read` gives no spec) with `hasError` false and an empty
`errorString`, and `readPluginPaths` adds no spec for the file. -/
theorem readMetaData_false_iff (E : QtEnv) (iid : QString) (md : QJsonObject) (d : PluginSpec) :
    ((d.readMetaData E iid md).1 = false
        ↔ (md.value (QLatin1String "IID")).isString = false
          ∨ (md.value (QLatin1String "IID")).toQString [] ≠ iid)
      ∧ ((d.readMetaData E iid md).1 = false → (d.readMetaData E iid md).2 = d)
      ∧ (∀ (m : PluginManagerPrivate) (file : PluginFile), file.resolved = true →
          ((file.metaData.value (QLatin1String "IID")).isString = false
            ∨ (file.metaData.value (QLatin1String "IID")).toQString [] ≠ m.pluginIID) →
          (PluginSpec.read E m.pluginIID file PluginSpec.new).1 = false
            ∧ (PluginSpec.read E m.pluginIID file PluginSpec.new).2.hasError = false
            ∧ (PluginSpec.read E m.pluginIID file PluginSpec.new).2.errorString = []
            ∧ PluginManagerPrivate.readPluginFile E m file = m) := by
  obtain ⟨o1, o2⟩ := readMetaData_outcome E iid md d
  have hiff : (d.readMetaData E iid md).1 = false ↔ hasPluginIID iid md = false := by
    constructor
    · intro h
      by_contra hn
      have := (o2 (by simpa using hn)).1
      rw [h] at this
      cases this
    · intro h
      rw [o1 h]
  refine ⟨hiff.trans (hasPluginIID_eq_false iid md), fun h => ?_, fun m file hres hbad => ?_⟩
  · rw [o1 (hiff.1 h)]
  · obtain ⟨d0, e1, e2, _, er⟩ := read_resolved E m.pluginIID file PluginSpec.new hres
    have hf := (readMetaData_outcome E m.pluginIID file.metaData d0).1
      ((hasPluginIID_eq_false _ _).2 hbad)
    have hr : PluginSpec.read E m.pluginIID file PluginSpec.new = (false, d0) := by
      rw [er, hf]
      rfl
    refine ⟨by rw [hr], by rw [hr]; exact e1, by rw [hr]; exact e2, ?_⟩
    unfold PluginManagerPrivate.readPluginFile
    simp only [hr, Bool.not_false, if_true]

/-- C14. For a library file whose record has the configured `IID`, a
structural violation of the record gives the spec `hasError` and a non-empty
`errorString`, as claimed, and a record without violation is read without
error. But `PluginSpecPrivate::read` returns true and sets the state `Read`
whether or not the record has a violation, so the state does not stay
`Invalid`, and `readPluginPaths` adds the spec to the set in state `Read` with
its error. The documentation of `State` has `Read` for metadata that was read
successfully and is valid, and the error view describes `Invalid` as
"Description file found, but error on read." -/
theorem read_structural_violation (E : QtEnv) (m : PluginManagerPrivate) (file : PluginFile)
    (hres : file.resolved = true) (hiid : hasPluginIID m.pluginIID file.metaData = true) :
    (PluginSpec.read E m.pluginIID file PluginSpec.new).1 = true
      ∧ (PluginSpec.read E m.pluginIID file PluginSpec.new).2.state = State.Read
      ∧ (structuralViolation E file.metaData = true →
          (PluginSpec.read E m.pluginIID file PluginSpec.new).2.hasError = true
            ∧ (PluginSpec.read E m.pluginIID file PluginSpec.new).2.errorString ≠ [])
      ∧ (structuralViolation E file.metaData = false →
          (PluginSpec.read E m.pluginIID file PluginSpec.new).2.hasError = false
            ∧ (PluginSpec.read E m.pluginIID file PluginSpec.new).2.errorString = [])
      ∧ (PluginManagerPrivate.readPluginFile E m file).pluginSpecs = m.pluginSpecs ++ [m.nextSpec]
      ∧ ((PluginManagerPrivate.readPluginFile E m file).heap m.nextSpec).state = State.Read
      ∧ ((PluginManagerPrivate.readPluginFile E m file).heap m.nextSpec).hasError
          = (PluginSpec.read E m.pluginIID file PluginSpec.new).2.hasError := by
  obtain ⟨d0, e1, e2, _, er⟩ := read_resolved E m.pluginIID file PluginSpec.new hres
  obtain ⟨t1, t2, t3⟩ := (readMetaData_outcome E m.pluginIID file.metaData d0).2 hiid
  have hr : PluginSpec.read E m.pluginIID file PluginSpec.new
      = (true, { (d0.readMetaData E m.pluginIID file.metaData).2 with state := State.Read }) := by
    rw [er, t1]
    rfl
  have h1 : (PluginSpec.read E m.pluginIID file PluginSpec.new).1 = true := by rw [hr]
  refine ⟨h1, by rw [hr], fun hv => ?_, fun hv => ?_, ?_⟩
  · rw [hr]
    exact t2 hv
  · rw [hr]
    exact ⟨(t3 hv).1.trans e1, (t3 hv).2.trans e2⟩
  · rcases readPluginFile_spec E m file with e | ⟨p1, _, p3, _, _⟩
    · exfalso
      have hne : (PluginManagerPrivate.readPluginFile E m file).nextSpec = m.nextSpec + 1 := by
        unfold PluginManagerPrivate.readPluginFile
        simp only [h1, Bool.not_true, Bool.false_eq_true, if_false]
      rw [e] at hne
      omega
    · refine ⟨p1, p3, ?_⟩
      unfold PluginManagerPrivate.readPluginFile
      simp only [h1, Bool.not_true, Bool.false_eq_true, if_false, Heap.set_same]
      repeat' split
      all_goals rfl

/-- C14, at the failing input: the record has the configured `IID` and a
`MetaData` object without `Name`, a structural violation. As claimed the spec
has `hasError` and a non-empty `errorString`, the message `"Name" is missing`.
But `read` returns true and the state of the spec is `Read`, not `Invalid`, and
`readPluginPaths` adds the spec to the set in state `Read` with its error. -/
theorem read_structural_violation_witness :
    scenarioFileWithoutName.resolved = true
      ∧ hasPluginIID scenarioManager.pluginIID scenarioFileWithoutName.metaData = true
      ∧ structuralViolation plainEnv scenarioFileWithoutName.metaData = true
      ∧ (PluginSpec.read plainEnv scenarioManager.pluginIID scenarioFileWithoutName
          PluginSpec.new).1 = true
      ∧ (PluginSpec.read plainEnv scenarioManager.pluginIID scenarioFileWithoutName
          PluginSpec.new).2.state = State.Read
      ∧ (PluginSpec.read plainEnv scenarioManager.pluginIID scenarioFileWithoutName
          PluginSpec.new).2.hasError = true
      ∧ (PluginSpec.read plainEnv scenarioManager.pluginIID scenarioFileWithoutName
          PluginSpec.new).2.errorString ≠ []
      ∧ (PluginSpec.read plainEnv scenarioManager.pluginIID scenarioFileWithoutName
          PluginSpec.new).2.errorString = "\"Name\" is missing".toList
      ∧ (PluginManagerPrivate.readPluginFile plainEnv scenarioManager
          scenarioFileWithoutName).pluginSpecs
        = scenarioManager.pluginSpecs ++ [scenarioManager.nextSpec]
      ∧ ((PluginManagerPrivate.readPluginFile plainEnv scenarioManager
          scenarioFileWithoutName).heap scenarioManager.nextSpec).state = State.Read
      ∧ ((PluginManagerPrivate.readPluginFile plainEnv scenarioManager
          scenarioFileWithoutName).heap scenarioManager.nextSpec).hasError = true :=
  have h := read_structural_violation plainEnv scenarioManager scenarioFileWithoutName
    (by decide) (by decide)
  ⟨by decide, by decide, by decide, h.1, h.2.1, (h.2.2.1 (by decide)).1,
    (h.2.2.1 (by decide)).2, by decide, h.2.2.2.2.1, h.2.2.2.2.2.1,
    h.2.2.2.2.2.2.trans (h.2.2.1 (by decide)).1⟩

/-! ## Order of the attempts -/

theorem foldl_run_map (E : QtEnv) (C : Callbacks) (f : Nat → Call)
    (step : PluginManagerPrivate → Nat → PluginManagerPrivate)
    (h : ∀ m s, Call.run E C m (f s) = step m s) :
    ∀ (l : List Nat) (m : PluginManagerPrivate),
      (l.map f).foldl (Call.run E C) m = l.foldl step m := by
  intro l
  induction l with
  | nil => intro m; rfl
  | cons a rest ih =>
    intro m
    simp only [List.map_cons, List.foldl_cons, h]
    exact ih _

theorem loadPluginsAttempts_run (E : QtEnv) (C : Callbacks) (queue : List Nat)
    (m : PluginManagerPrivate) :
    (loadPluginsAttempts queue).foldl (Call.run E C) m
      = PluginManagerPrivate.reverseForeach queue (PluginManagerPrivate.loadPluginsRunning E C)
        (queue.foldl (fun m spec => m.loadPlugin E C spec State.Initialized)
          (queue.foldl (fun m spec => m.loadPlugin E C spec State.Loaded) m)) := by
  unfold loadPluginsAttempts PluginManagerPrivate.reverseForeach
  rw [List.foldl_append, List.foldl_append,
    foldl_run_map E C (fun spec => Call.loadPlugin spec State.Loaded)
      (fun m spec => m.loadPlugin E C spec State.Loaded) (fun _ _ => rfl),
    foldl_run_map E C (fun spec => Call.loadPlugin spec State.Initialized)
      (fun m spec => m.loadPlugin E C spec State.Initialized) (fun _ _ => rfl),
    foldl_run_map E C Call.loadPluginsRunning (PluginManagerPrivate.loadPluginsRunning E C)
      (fun _ _ => rfl)]

theorem stopAllAttempts_run (E : QtEnv) (C : Callbacks) (queue : List Nat)
    (m : PluginManagerPrivate) :
    (stopAllAttempts queue).foldl (Call.run E C) m
      = queue.foldl (fun m spec => m.loadPlugin E C spec State.Stopped) m :=
  foldl_run_map E C _ _ (fun _ _ => rfl) queue m

theorem deleteAllAttempts_run (E : QtEnv) (C : Callbacks) (queue : List Nat)
    (m : PluginManagerPrivate) :
    (deleteAllAttempts queue).foldl (Call.run E C) m
      = PluginManagerPrivate.reverseForeach queue
        (fun m spec => m.loadPlugin E C spec State.Deleted) m :=
  foldl_run_map E C _ _ (fun _ _ => rfl) queue.reverse m

theorem getElem?_reverse_map (queue : List Nat) (f : Nat → Call) (i : Nat)
    (hi : i < queue.length) :
    (queue.reverse.map f)[i]? = queue[queue.length - 1 - i]?.map f := by
  rw [List.getElem?_map, List.getElem?_reverse hi]

set_option maxRecDepth 100000 in
/-- C20. `loadPlugins()` is the sequence of attempts on the load queue
`queue` in which attempt `i` is the transition to `Loaded` of `queue[i]`,
attempt `n + i` the transition to `Initialized` of `queue[i]` and attempt
`2n + i` the transition to `Running` of `queue[n - 1 - i]` (`n` the length of
the queue); `deleteAll()` is the sequence in which attempt `i` is the
transition to `Deleted` of `queue[n - 1 - i]`. In the scenario `Core`, `A`, `B`
the libraries are loaded and the plugins initialized in the order `Core`, `A`,
`B`, and `extensionsInitialized` is called in the order `B`, `A`, `Core`. -/
theorem loadPlugins_attempt_order (E : QtEnv) (C : Callbacks) (m : PluginManagerPrivate) :
    m.loadPlugins E C
        = m.loadQueue.map (fun r => (loadPluginsAttempts r.1).foldl (Call.run E C) r.2)
      ∧ m.deleteAll E C
        = m.loadQueue.map (fun r => (deleteAllAttempts r.1).foldl (Call.run E C) r.2)
      ∧ (∀ (queue : List Nat) (i : Nat), i < queue.length →
          (loadPluginsAttempts queue)[i]?
              = queue[i]?.map (fun spec => Call.loadPlugin spec State.Loaded)
            ∧ (loadPluginsAttempts queue)[queue.length + i]?
              = queue[i]?.map (fun spec => Call.loadPlugin spec State.Initialized)
            ∧ (loadPluginsAttempts queue)[2 * queue.length + i]?
              = queue[queue.length - 1 - i]?.map Call.loadPluginsRunning
            ∧ (deleteAllAttempts queue)[i]?
              = queue[queue.length - 1 - i]?.map (fun spec => Call.loadPlugin spec State.Deleted))
      ∧ ((scenarioChain.bind PluginManagerPrivate.loadQueue).map (fun r =>
          (r.1.map (fun a => (r.2.heap a).name),
            invocationsOf plainEnv scenarioCallbacks (loadPluginsAttempts r.1) r.2))
        = some (["Core".toList, "A".toList, "B".toList],
            [Invocation.loaderLoad 0, Invocation.loaderInstance 0, Invocation.loaderLoad 1,
              Invocation.loaderInstance 1, Invocation.loaderLoad 2, Invocation.loaderInstance 2,
              Invocation.pluginInitialize 0, Invocation.pluginInitialize 1,
              Invocation.pluginInitialize 2, Invocation.extensionsInitialized 2,
              Invocation.extensionsInitialized 1, Invocation.extensionsInitialized 0])) := by
  refine ⟨?_, ?_, fun queue i hi => ⟨?_, ?_, ?_, ?_⟩, by decide⟩
  · unfold PluginManagerPrivate.loadPlugins
    cases m.loadQueue with
    | none => rfl
    | some r =>
      obtain ⟨queue, m0⟩ := r
      simp only [Option.map_some', loadPluginsAttempts_run]
  · unfold PluginManagerPrivate.deleteAll
    cases m.loadQueue with
    | none => rfl
    | some r =>
      obtain ⟨queue, m0⟩ := r
      simp only [Option.map_some', deleteAllAttempts_run]
  · unfold loadPluginsAttempts
    rw [List.append_assoc, List.getElem?_append_left (by simpa using hi), List.getElem?_map]
  · unfold loadPluginsAttempts
    rw [List.getElem?_append_left (by simp; omega),
      List.getElem?_append_right (by simp), List.getElem?_map]
    simp
  · unfold loadPluginsAttempts
    rw [List.getElem?_append_right (by simp; omega), getElem?_reverse_map]
    · simp
      congr 2
      omega
    · simp
      omega
  · unfold deleteAllAttempts
    exact getElem?_reverse_map queue _ i hi

/-! ## Order across the phases -/

theorem firstDependencyNotIn_eq_none (heap : Heap) (dest : State) (deps : DependencyHash)
    (h : PluginManagerPrivate.firstDependencyNotIn heap dest deps = none) :
    ∀ e ∈ deps, e.1.type = DependencyType.Required → (heap e.2).state = dest := by
  induction deps with
  | nil => intro e he; cases he
  | cons entry rest ih =>
    obtain ⟨key, t⟩ := entry
    simp only [PluginManagerPrivate.firstDependencyNotIn] at h
    intro e he ht
    by_cases hk : key.type = DependencyType.Required
    · simp only [hk, ne_eq, not_true_eq_false, if_false] at h
      by_cases hst : (heap t).state = dest
      · simp only [hst, not_true_eq_false, if_false] at h
        rcases List.mem_cons.1 he with rfl | he'
        · exact hst
        · exact ih h e he' ht
      · simp [hst] at h
    · simp only [ne_eq, hk, not_false_eq_true, if_true] at h
      rcases List.mem_cons.1 he with rfl | he'
      · exact absurd ht hk
      · exact ih h e he' ht

theorem loadLibrary_transition (E : QtEnv) (C : Callbacks) (self : Nat) (d : PluginSpec) :
    (d.loadLibrary E C self).2.dependencySpecs = d.dependencySpecs
      ∧ ((d.loadLibrary E C self).2.state ≠ d.state →
        (d.loadLibrary E C self).2.state = State.Loaded
          ∧ (d.loadLibrary E C self).2.hasError = false
          ∧ (d.loadLibrary E C self).2.plugin.isSome = true) := by
  unfold PluginSpec.loadLibrary
  repeat' split
  all_goals simp_all

theorem initializePlugin_transition (C : Callbacks) (self : Nat) (d : PluginSpec) :
    (d.initializePlugin C self).2.dependencySpecs = d.dependencySpecs
      ∧ ((d.initializePlugin C self).2.state ≠ d.state →
        (d.initializePlugin C self).2.state = State.Initialized
          ∧ (d.initializePlugin C self).2.hasError = false
          ∧ (d.initializePlugin C self).2.plugin.isSome = true) := by
  unfold PluginSpec.initializePlugin
  repeat' split
  all_goals simp_all [Option.isSome_iff_ne_none]

theorem initializeExtensions_transition (d : PluginSpec) :
    d.initializeExtensions.2.dependencySpecs = d.dependencySpecs
      ∧ (d.initializeExtensions.2.state ≠ d.state →
        d.initializeExtensions.2.state = State.Running
          ∧ d.initializeExtensions.2.hasError = false
          ∧ d.initializeExtensions.2.plugin.isSome = true) := by
  unfold PluginSpec.initializeExtensions
  repeat' split
  all_goals simp_all [Option.isSome_iff_ne_none]

theorem stop_transition (C : Callbacks) (self : Nat) (d : PluginSpec) :
    (d.stop C self).2.dependencySpecs = d.dependencySpecs
      ∧ ((d.stop C self).2.state ≠ d.state → (d.stop C self).2.state = State.Stopped) := by
  unfold PluginSpec.stop
  repeat' split
  all_goals simp_all

theorem kill_transition (d : PluginSpec) :
    d.kill.dependencySpecs = d.dependencySpecs
      ∧ (d.kill.state ≠ d.state → d.kill.state = State.Deleted) := by
  unfold PluginSpec.kill
  repeat' split
  all_goals simp_all

/-- A call of `loadPlugin` leaves the resolved dependencies of every spec; if
it changes the state of its spec, the spec had no error, was in the state just
before the destination state and is now in the destination state, and for the
destinations that check the dependencies every required dependency was in the
destination state. -/
theorem loadPlugin_transition (E : QtEnv) (C : Callbacks) (m : PluginManagerPrivate) (spec : Nat)
    (destState : State) :
    ((m.loadPlugin E C spec destState).heap spec).dependencySpecs = (m.heap spec).dependencySpecs
      ∧ (((m.loadPlugin E C spec destState).heap spec).state ≠ (m.heap spec).state →
        ((m.loadPlugin E C spec destState).heap spec).state = destState
          ∧ (m.heap spec).hasError = false
          ∧ (m.heap spec).state.toNat + 1 = destState.toNat
          ∧ (destState ≠ State.Running → destState ≠ State.Deleted →
              PluginManagerPrivate.firstDependencyNotIn m.heap destState
                (m.heap spec).dependencySpecs = none)) := by
  by_cases g1 : (m.heap spec).hasError ∨ ((m.heap spec).state.toNat : Int) ≠ (destState.toNat : Int) - 1
  · have : m.loadPlugin E C spec destState = m := by
      unfold PluginManagerPrivate.loadPlugin
      rw [if_pos g1]
    rw [this]
    exact ⟨rfl, fun h => absurd rfl h⟩
  by_cases g2 : (!(m.heap spec).isEffectivelyEnabled E && decide (destState = State.Loaded)) = true
  · have : m.loadPlugin E C spec destState = m := by
      unfold PluginManagerPrivate.loadPlugin
      rw [if_neg g1, if_pos g2]
    rw [this]
    exact ⟨rfl, fun h => absurd rfl h⟩
  have he : (m.heap spec).hasError = false := by
    cases h : (m.heap spec).hasError
    · rfl
    · exact absurd (Or.inl h) g1
  have hst : (m.heap spec).state.toNat + 1 = destState.toNat := by
    have : ((m.heap spec).state.toNat : Int) = (destState.toNat : Int) - 1 :=
      not_not.1 (fun h => g1 (Or.inr h))
    omega
  unfold PluginManagerPrivate.loadPlugin
  rw [if_neg g1, if_neg g2]
  have other : ∀ dest : State,
      ((match PluginManagerPrivate.firstDependencyNotIn m.heap dest (m.heap spec).dependencySpecs with
        | some depSpec =>
          ({ m with heap := m.heap.set spec { m.heap spec with
              hasError := true,
              errorString := PluginManagerPrivate.msgDependencyNotLoaded m.heap depSpec } } :
            PluginManagerPrivate)
        | none => m).heap spec).dependencySpecs = (m.heap spec).dependencySpecs
        ∧ (((match PluginManagerPrivate.firstDependencyNotIn m.heap dest
              (m.heap spec).dependencySpecs with
            | some depSpec =>
              ({ m with heap := m.heap.set spec { m.heap spec with
                  hasError := true,
                  errorString := PluginManagerPrivate.msgDependencyNotLoaded m.heap depSpec } } :
                PluginManagerPrivate)
            | none => m).heap spec).state = (m.heap spec).state) := by
    intro dest
    cases PluginManagerPrivate.firstDependencyNotIn m.heap dest (m.heap spec).dependencySpecs with
    | some depSpec => simp
    | none => exact ⟨rfl, rfl⟩
  cases destState with
  | Running =>
    simp only [Heap.set_same]
    obtain ⟨a, b⟩ := initializeExtensions_transition (m.heap spec)
    exact ⟨a, fun h => ⟨(b h).1, he, hst, fun h => absurd rfl h⟩⟩
  | Deleted =>
    simp only [Heap.set_same]
    obtain ⟨a, b⟩ := kill_transition (m.heap spec)
    exact ⟨a, fun h => ⟨b h, he, hst, fun _ h => absurd rfl h⟩⟩
  | Loaded =>
    simp only []
    cases hf : PluginManagerPrivate.firstDependencyNotIn m.heap State.Loaded
        (m.heap spec).dependencySpecs with
    | some depSpec =>
      simp
    | none =>
      simp only [Heap.set_same]
      obtain ⟨a, b⟩ := loadLibrary_transition E C spec (m.heap spec)
      exact ⟨a, fun h => ⟨(b h).1, he, hst, fun _ _ => trivial⟩⟩
  | Initialized =>
    simp only []
    cases hf : PluginManagerPrivate.firstDependencyNotIn m.heap State.Initialized
        (m.heap spec).dependencySpecs with
    | some depSpec =>
      simp
    | none =>
      simp only [Heap.set_same]
      obtain ⟨a, b⟩ := initializePlugin_transition C spec (m.heap spec)
      exact ⟨a, fun h => ⟨(b h).1, he, hst, fun _ _ => trivial⟩⟩
  | Stopped =>
    simp only []
    cases hf : PluginManagerPrivate.firstDependencyNotIn m.heap State.Stopped
        (m.heap spec).dependencySpecs with
    | some depSpec =>
      simp
    | none =>
      obtain ⟨a, b⟩ := stop_transition C spec (m.heap spec)
      simp only []
      split <;> (simp only [Heap.set_same]; exact ⟨a, fun h => ⟨b h, he, hst, fun _ _ => trivial⟩⟩)
  | Invalid => exact ⟨(other _).1, fun h => absurd (other _).2 h⟩
  | Read => exact ⟨(other _).1, fun h => absurd (other _).2 h⟩
  | Resolved => exact ⟨(other _).1, fun h => absurd (other _).2 h⟩

theorem loadPlugin_dependencySpecs (E : QtEnv) (C : Callbacks) (m : PluginManagerPrivate)
    (spec : Nat) (destState : State) (s : Nat) :
    ((m.loadPlugin E C spec destState).heap s).dependencySpecs = (m.heap s).dependencySpecs := by
  by_cases hs : s = spec
  · subst hs
    exact (loadPlugin_transition E C m s destState).1
  · rw [loadPlugin_other E C m spec destState s hs]

theorem loadPluginsRunning_dependencySpecs (E : QtEnv) (C : Callbacks) (m : PluginManagerPrivate)
    (spec : Nat) (s : Nat) :
    ((PluginManagerPrivate.loadPluginsRunning E C m spec).heap s).dependencySpecs
      = (m.heap s).dependencySpecs := by
  unfold PluginManagerPrivate.loadPluginsRunning
  simp only
  split
  · exact loadPlugin_dependencySpecs E C m spec _ s
  · by_cases hs : s = spec
    · subst hs
      simp only [Heap.set_same]
      rw [(kill_transition _).1]
      exact loadPlugin_dependencySpecs E C m s _ s
    · simp only [Heap.set_other _ _ _ _ hs]
      exact loadPlugin_dependencySpecs E C m spec _ s

theorem loadPlugin_monotone (E : QtEnv) (C : Callbacks) (m : PluginManagerPrivate) (spec : Nat)
    (destState : State) (s : Nat) :
    (m.heap s).state.toNat ≤ ((m.loadPlugin E C spec destState).heap s).state.toNat := by
  by_cases hs : s = spec
  swap
  · rw [loadPlugin_other E C m spec destState s hs]
  subst hs
  by_cases hch : ((m.loadPlugin E C s destState).heap s).state = (m.heap s).state
  · rw [hch]
  · obtain ⟨h1, _, h3, _⟩ := (loadPlugin_transition E C m s destState).2 hch
    rw [h1]
    omega

theorem kill_monotone (d : PluginSpec) : d.state.toNat ≤ d.kill.state.toNat := by
  unfold PluginSpec.kill
  split
  · exact Nat.le_refl _
  · show d.state.toNat ≤ 7
    cases hs : d.state <;> simp [State.toNat]

theorem loadPluginsRunning_monotone (E : QtEnv) (C : Callbacks) (m : PluginManagerPrivate)
    (spec : Nat) (s : Nat) :
    (m.heap s).state.toNat
      ≤ ((PluginManagerPrivate.loadPluginsRunning E C m spec).heap s).state.toNat := by
  unfold PluginManagerPrivate.loadPluginsRunning
  simp only
  split
  · exact loadPlugin_monotone E C m spec _ s
  · by_cases hs : s = spec
    · subst hs
      simp only [Heap.set_same]
      exact Nat.le_trans (loadPlugin_monotone E C m s _ s) (kill_monotone _)
    · simp only [Heap.set_other _ _ _ _ hs]
      exact loadPlugin_monotone E C m spec _ s

/-- The body of the reverse loop of `loadPlugins` takes its spec to `Running`
only from `Initialized`. -/
theorem loadPluginsRunning_transition (E : QtEnv) (C : Callbacks) (m : PluginManagerPrivate)
    (spec : Nat)
    (hch : ((PluginManagerPrivate.loadPluginsRunning E C m spec).heap spec).state
      ≠ (m.heap spec).state) :
    (((PluginManagerPrivate.loadPluginsRunning E C m spec).heap spec).state = State.Running
        ∧ (m.heap spec).state = State.Initialized)
      ∨ ((PluginManagerPrivate.loadPluginsRunning E C m spec).heap spec).state = State.Deleted := by
  unfold PluginManagerPrivate.loadPluginsRunning at hch ⊢
  simp only at hch ⊢
  split at hch
  · rename_i hr
    rw [if_pos hr]
    obtain ⟨h1, _, h3, _⟩ := (loadPlugin_transition E C m spec State.Running).2 hch
    refine Or.inl ⟨hr, ?_⟩
    cases hs : (m.heap spec).state <;> rw [hs] at h3 <;> simp [State.toNat] at h3
  · rename_i hr
    rw [if_neg hr]
    simp only [Heap.set_same] at hch ⊢
    by_cases hk : ((m.loadPlugin E C spec State.Running).heap spec).kill.state
        = ((m.loadPlugin E C spec State.Running).heap spec).state
    · rw [hk] at hch ⊢
      exact absurd ((loadPlugin_transition E C m spec State.Running).2 hch).1 hr
    · exact Or.inr ((kill_transition _).2 hk)

theorem byManager_transition (E : QtEnv) (C : Callbacks) (m : PluginManagerPrivate)
    (hinv : initializedAfterDependencies m.heap) (call : Call) (hby : call.byManager = true) :
    initializedAfterDependencies (Call.run E C m call).heap
      ∧ ∀ X, ((Call.run E C m call).heap X).state ≠ (m.heap X).state →
        ((((Call.run E C m call).heap X).state = State.Loaded
            ∨ ((Call.run E C m call).heap X).state = State.Initialized
            ∨ ((Call.run E C m call).heap X).state = State.Stopped) →
          ∀ e ∈ (m.heap X).dependencySpecs, e.1.type = DependencyType.Required →
            (m.heap e.2).state = ((Call.run E C m call).heap X).state)
        ∧ (((Call.run E C m call).heap X).state = State.Running →
          ∀ e ∈ (m.heap X).dependencySpecs, e.1.type = DependencyType.Required →
            State.Initialized.toNat ≤ (m.heap e.2).state.toNat) := by
  have single : ∀ (spec : Nat) (m' : PluginManagerPrivate),
      (∀ s, s ≠ spec → m'.heap s = m.heap s) →
      (∀ s, (m'.heap s).dependencySpecs = (m.heap s).dependencySpecs) →
      (∀ s, (m.heap s).state.toNat ≤ (m'.heap s).state.toNat) →
      ((m'.heap spec).state ≠ (m.heap spec).state →
        (((m'.heap spec).state = State.Loaded ∨ (m'.heap spec).state = State.Initialized
            ∨ (m'.heap spec).state = State.Stopped) →
          ∀ e ∈ (m.heap spec).dependencySpecs, e.1.type = DependencyType.Required →
            (m.heap e.2).state = (m'.heap spec).state)
        ∧ ((m'.heap spec).state = State.Running → (m.heap spec).state = State.Initialized)) →
      initializedAfterDependencies m'.heap
        ∧ ∀ X, (m'.heap X).state ≠ (m.heap X).state →
          (((m'.heap X).state = State.Loaded ∨ (m'.heap X).state = State.Initialized
              ∨ (m'.heap X).state = State.Stopped) →
            ∀ e ∈ (m.heap X).dependencySpecs, e.1.type = DependencyType.Required →
              (m.heap e.2).state = (m'.heap X).state)
          ∧ ((m'.heap X).state = State.Running →
            ∀ e ∈ (m.heap X).dependencySpecs, e.1.type = DependencyType.Required →
              State.Initialized.toNat ≤ (m.heap e.2).state.toNat) := by
    intro spec m' hother hdeps hmono hch
    refine ⟨fun X hX e he ht => ?_, fun X hX => ?_⟩
    · rw [hdeps X] at he
      by_cases hsame : (m'.heap X).state = (m.heap X).state
      · exact Nat.le_trans (hinv X (by rw [← hsame]; exact hX) e he ht) (hmono e.2)
      · have hXs : X = spec := by
          by_contra hne
          exact hsame (by rw [hother X hne])
        subst hXs
        have := (hch hsame).1 (Or.inr (Or.inl hX)) e he ht
        have h2 := hmono e.2
        rw [this, hX] at h2
        exact h2
    · have hXs : X = spec := by
        by_contra hne
        exact hX (by rw [hother X hne])
      subst hXs
      refine ⟨(hch hX).1, fun hr e he ht => ?_⟩
      exact hinv X ((hch hX).2 hr) e he ht
  cases call with
  | loadQueue =>
    cases hq : m.loadQueue with
    | none =>
      simp only [Call.run, hq]
      exact ⟨hinv, fun X h => absurd rfl h⟩
    | some r =>
      obtain ⟨queue, m'⟩ := r
      simp only [Call.run, hq]
      obtain ⟨er, _, _⟩ := loadQueue_errorsRecorded m queue m' hq
      have sg := errorsRecorded_sameGraph er
      refine ⟨fun X hX e he ht => ?_, fun X h => absurd ((sg X).1).symm h⟩
      rw [← (sg X).2] at he
      rw [← (sg e.2).1]
      exact hinv X (by rw [(sg X).1]; exact hX) e he ht
  | loadPlugin spec destState =>
    refine single spec (m.loadPlugin E C spec destState)
      (fun s hs => loadPlugin_other E C m spec destState s hs)
      (fun s => loadPlugin_dependencySpecs E C m spec destState s)
      (fun s => loadPlugin_monotone E C m spec destState s) (fun hch => ?_)
    obtain ⟨h1, _, h3, h4⟩ := (loadPlugin_transition E C m spec destState).2 hch
    rw [h1]
    refine ⟨fun hd e he ht => ?_, fun hr => ?_⟩
    · refine firstDependencyNotIn_eq_none m.heap destState _ (h4 ?_ ?_) e he ht
      · rcases hd with h | h | h <;> rw [h] <;> decide
      · rcases hd with h | h | h <;> rw [h] <;> decide
    · rw [hr] at h3
      cases hs : (m.heap spec).state <;> rw [hs] at h3 <;> simp [State.toNat] at h3
  | loadPluginsRunning spec =>
    refine single spec (PluginManagerPrivate.loadPluginsRunning E C m spec)
      (fun s hs => loadPluginsRunning_other E C m spec s hs)
      (fun s => loadPluginsRunning_dependencySpecs E C m spec s)
      (fun s => loadPluginsRunning_monotone E C m spec s) (fun hch => ?_)
    rcases loadPluginsRunning_transition E C m spec hch with ⟨h1, h2⟩ | h1
    · rw [h1]
      exact ⟨fun hd => (by rcases hd with h | h | h <;> cases h), fun _ => h2⟩
    · rw [h1]
      exact ⟨fun hd => (by rcases hd with h | h | h <;> cases h), fun h => (by cases h)⟩
  | asyncShutdownFinished spec => exact ⟨hinv, fun X h => absurd rfl h⟩
  | resolveDependencies _ _ => cases hby
  | loadLibrary _ => cases hby
  | initializePlugin _ => cases hby
  | initializeExtensions _ => cases hby
  | delayedInitialize _ => cases hby
  | stop _ => cases hby
  | kill _ => cases hby

theorem calls_initializedAfterDependencies (E : QtEnv) (C : Callbacks) (calls : List Call) :
    ∀ m : PluginManagerPrivate, initializedAfterDependencies m.heap →
      (∀ c ∈ calls, c.byManager = true) →
      initializedAfterDependencies (calls.foldl (Call.run E C) m).heap := by
  induction calls with
  | nil => intro m h _; exact h
  | cons c rest ih =>
    intro m h hby
    simp only [List.foldl_cons]
    exact ih _ (byManager_transition E C m h c (hby c (List.mem_cons_self _ _))).1
      (fun c' hc' => hby c' (List.mem_cons_of_mem _ hc'))

theorem loadPlugins_calls (E : QtEnv) (C : Callbacks) (m m' : PluginManagerPrivate)
    (h : m.loadPlugins E C = some m') :
    ∃ queue, m' = (loadPluginsCalls queue).foldl (Call.run E C) m := by
  unfold PluginManagerPrivate.loadPlugins at h
  cases hq : m.loadQueue with
  | none => rw [hq] at h; cases h
  | some r =>
    obtain ⟨queue, m0⟩ := r
    rw [hq] at h
    simp only [Option.some.injEq] at h
    refine ⟨queue, ?_⟩
    unfold loadPluginsCalls
    simp only [List.foldl_cons, Call.run, hq, loadPluginsAttempts_run]
    exact h.symm

theorem shutdownEventLoopExec_calls (E : QtEnv) (C : Callbacks) :
    ∀ (finished : List Nat) (m1 m2 : PluginManagerPrivate),
      PluginManagerPrivate.shutdownEventLoopExec finished m1 = some m2 →
      ∃ delivered, delivered <+: finished
        ∧ m2 = (delivered.map Call.asyncShutdownFinished).foldl (Call.run E C) m1
        ∧ m2.asynchronousPlugins = [] := by
  intro finished
  induction finished with
  | nil => intro m1 m2 h; cases h
  | cons spec rest ih =>
    intro m1 m2 h
    simp only [PluginManagerPrivate.shutdownEventLoopExec] at h
    split at h
    · rename_i hexit
      simp only [Option.some.injEq] at h
      refine ⟨[spec], by simp, by rw [← h]; rfl, ?_⟩
      rw [← h]
      exact List.isEmpty_iff.1 hexit
    · obtain ⟨delivered, hp, heq, hempty⟩ := ih _ m2 h
      exact ⟨spec :: delivered, by simpa using hp, by rw [heq]; rfl, hempty⟩

theorem shutdown_calls (E : QtEnv) (C : Callbacks) (finished : List Nat)
    (m m' : PluginManagerPrivate) (h : m.shutdown E C finished = some m') :
    ∃ stopQueue delivered deleteQueue,
      m' = (shutdownCalls stopQueue delivered deleteQueue).foldl (Call.run E C) m := by
  unfold PluginManagerPrivate.shutdown PluginManagerPrivate.stopAll at h
  cases hq : m.loadQueue with
  | none => rw [hq] at h; cases h
  | some r =>
    obtain ⟨q1, m0⟩ := r
    rw [hq] at h
    simp only at h
    generalize hm1 : List.foldl (fun m spec => PluginManagerPrivate.loadPlugin E C spec State.Stopped m)
      m0 q1 = m1 at h
    have key : ∀ (delivered : List Nat) (m2 : PluginManagerPrivate),
        m2 = (delivered.map Call.asyncShutdownFinished).foldl (Call.run E C) m1 →
        PluginManagerPrivate.deleteAll E C m2 = some m' →
        ∃ stopQueue delivered deleteQueue,
          m' = (shutdownCalls stopQueue delivered deleteQueue).foldl (Call.run E C) m := by
      intro delivered m2 hm2 hd
      unfold PluginManagerPrivate.deleteAll at hd
      cases hq2 : m2.loadQueue with
      | none => rw [hq2] at hd; cases hd
      | some r2 =>
        obtain ⟨q2, m3⟩ := r2
        rw [hq2] at hd
        simp only [Option.some.injEq] at hd
        refine ⟨q1, delivered, q2, ?_⟩
        unfold shutdownCalls
        simp only [List.foldl_cons, List.foldl_append, List.cons_append, List.append_assoc,
          Call.run, hq, stopAllAttempts_run, deleteAllAttempts_run, hm1, ← hm2, hq2]
        exact hd.symm
    split at h
    · cases he : PluginManagerPrivate.shutdownEventLoopExec finished m1 with
      | none => rw [he] at h; cases h
      | some m2 =>
        rw [he] at h
        obtain ⟨delivered, _, hm2, _⟩ := shutdownEventLoopExec_calls E C finished m1 m2 he
        exact key delivered m2 hm2 h
    · exact key [] m1 rfl h

theorem calls_byManager (queue stopQueue delivered deleteQueue : List Nat) :
    ∀ c ∈ loadPluginsCalls queue ++ shutdownCalls stopQueue delivered deleteQueue,
      c.byManager = true := by
  intro c hc
  simp only [loadPluginsCalls, shutdownCalls, loadPluginsAttempts, stopAllAttempts,
    deleteAllAttempts, List.mem_append, List.mem_cons, List.mem_map, List.mem_reverse] at hc
  rcases hc with (rfl | (⟨_, _, rfl⟩ | ⟨_, _, rfl⟩) | ⟨_, _, rfl⟩)
    | (((rfl | ⟨_, _, rfl⟩) | ⟨_, _, rfl⟩) | rfl | ⟨_, _, rfl⟩)
  all_goals rfl

theorem scenarioChainManager_initial : initializedAfterDependencies scenarioChainManager.heap := by
  intro X hX
  exfalso
  unfold scenarioChainManager at hX
  simp only at hX
  split at hX
  · rename_i h3
    interval_cases X <;> revert hX <;> decide
  · revert hX
    decide

/-- C19. Let no spec be in state `Initialized` before one of its required
resolved dependencies (as is the case before `loadPlugins()`, when no spec is
initialized). `loadPlugins()` and `shutdown()` are sequences of calls of
`loadQueue`, `loadPlugin`, the body of the reverse loop of `loadPlugins` and the
slot `asyncShutdownFinished`. After any sequence of such calls, when a further such
call takes a spec `X` into the state `Loaded`, `Initialized` or `Stopped`, every
required resolved dependency of `X` is in that state before the call; when it
takes `X` into `Running`, every required resolved dependency of `X` is in state
`Initialized` or a later state before the call. -/
theorem transitions_after_dependencies (E : QtEnv) (C : Callbacks) (m : PluginManagerPrivate)
    (hinit : initializedAfterDependencies m.heap) :
    (∀ m', m.loadPlugins E C = some m' →
        ∃ queue, m' = (loadPluginsCalls queue).foldl (Call.run E C) m)
      ∧ (∀ finished m', m.shutdown E C finished = some m' →
        ∃ stopQueue delivered deleteQueue,
          m' = (shutdownCalls stopQueue delivered deleteQueue).foldl (Call.run E C) m)
      ∧ (∀ queue stopQueue delivered deleteQueue,
          ∀ c ∈ loadPluginsCalls queue ++ shutdownCalls stopQueue delivered deleteQueue,
            c.byManager = true)
      ∧ ∀ (calls : List Call) (call : Call), (∀ c ∈ calls, c.byManager = true) →
        call.byManager = true → ∀ X,
        ((Call.run E C (calls.foldl (Call.run E C) m) call).heap X).state
            ≠ ((calls.foldl (Call.run E C) m).heap X).state →
          ((((Call.run E C (calls.foldl (Call.run E C) m) call).heap X).state = State.Loaded
              ∨ ((Call.run E C (calls.foldl (Call.run E C) m) call).heap X).state
                = State.Initialized
              ∨ ((Call.run E C (calls.foldl (Call.run E C) m) call).heap X).state
                = State.Stopped) →
            ∀ e ∈ ((calls.foldl (Call.run E C) m).heap X).dependencySpecs,
              e.1.type = DependencyType.Required →
              ((calls.foldl (Call.run E C) m).heap e.2).state
                = ((Call.run E C (calls.foldl (Call.run E C) m) call).heap X).state)
          ∧ (((Call.run E C (calls.foldl (Call.run E C) m) call).heap X).state = State.Running →
            ∀ e ∈ ((calls.foldl (Call.run E C) m).heap X).dependencySpecs,
              e.1.type = DependencyType.Required →
              State.Initialized.toNat ≤ ((calls.foldl (Call.run E C) m).heap e.2).state.toNat) :=
  ⟨loadPlugins_calls E C m, fun finished m' h => shutdown_calls E C finished m m' h,
    calls_byManager,
    fun calls call hcalls hcall =>
      (byManager_transition E C _ (calls_initializedAfterDependencies E C calls m hinit hcalls)
        call hcall).2⟩

set_option maxRecDepth 100000 in
/-- C19, witness: in the scenario `Core`, `A`, `B`, after `loadQueue` and the
loading of `Core` the call `loadPlugin(A, Loaded)` takes `A` into `Loaded`, and
the required dependency `Core` of `A` is in state `Loaded` before the call. -/
theorem transitions_after_dependencies_witness :
    initializedAfterDependencies scenarioChainManager.heap
      ∧ ((Call.run plainEnv scenarioCallbacks
          ([Call.loadQueue, Call.loadPlugin 0 State.Loaded].foldl
            (Call.run plainEnv scenarioCallbacks) scenarioChainManager)
          (Call.loadPlugin 1 State.Loaded)).heap 1).state = State.Loaded
      ∧ ((([Call.loadQueue, Call.loadPlugin 0 State.Loaded].foldl
            (Call.run plainEnv scenarioCallbacks) scenarioChainManager).heap 1).dependencySpecs.map
          (fun e => (e.1.type, e.2))) = [(DependencyType.Required, 0)]
      ∧ ∀ e ∈ (([Call.loadQueue, Call.loadPlugin 0 State.Loaded].foldl
            (Call.run plainEnv scenarioCallbacks) scenarioChainManager).heap 1).dependencySpecs,
          e.1.type = DependencyType.Required →
          (([Call.loadQueue, Call.loadPlugin 0 State.Loaded].foldl
            (Call.run plainEnv scenarioCallbacks) scenarioChainManager).heap e.2).state
            = ((Call.run plainEnv scenarioCallbacks
              ([Call.loadQueue, Call.loadPlugin 0 State.Loaded].foldl
                (Call.run plainEnv scenarioCallbacks) scenarioChainManager)
              (Call.loadPlugin 1 State.Loaded)).heap 1).state :=
  ⟨scenarioChainManager_initial, by decide, by decide,
    ((transitions_after_dependencies plainEnv scenarioCallbacks scenarioChainManager
      scenarioChainManager_initial).2.2.2 [Call.loadQueue, Call.loadPlugin 0 State.Loaded]
      (Call.loadPlugin 1 State.Loaded) (by decide) (by decide) 1 (by decide)).1
      (Or.inl (by decide))⟩

/-! ## Outcomes of a single step -/

theorem loadLibrary_cases (E : QtEnv) (C : Callbacks) (self : Nat) (d : PluginSpec)
    (he : d.hasError = false) (hs : d.state = State.Resolved) :
    (∃ msg, (d.loadLibrary E C self).2 = { d with hasError := true, errorString := msg })
      ∨ (∃ p, (d.loadLibrary E C self).2 = { d with state := State.Loaded, plugin := some p }) := by
  unfold PluginSpec.loadLibrary
  rw [if_neg (by rw [he]; decide), if_neg (not_not.2 hs)]
  split
  · exact Or.inl ⟨_, rfl⟩
  · split
    · exact Or.inl ⟨_, rfl⟩
    · exact Or.inr ⟨_, rfl⟩

theorem initializePlugin_cases (C : Callbacks) (self : Nat) (d : PluginSpec)
    (he : d.hasError = false) (hs : d.state = State.Loaded) :
    (∃ msg, (d.initializePlugin C self).2 = { d with hasError := true, errorString := msg })
      ∨ ((d.initializePlugin C self).2 = { d with state := State.Initialized }
        ∧ d.plugin.isSome = true) := by
  unfold PluginSpec.initializePlugin
  rw [if_neg (by rw [he]; decide), if_neg (not_not.2 hs)]
  split
  · exact Or.inl ⟨_, rfl⟩
  · rename_i hp
    split
    · exact Or.inl ⟨_, rfl⟩
    · refine Or.inr ⟨rfl, ?_⟩
      cases hpl : d.plugin with
      | none => rw [hpl] at hp; exact absurd rfl hp
      | some p => rfl

theorem initializeExtensions_cases (d : PluginSpec)
    (he : d.hasError = false) (hs : d.state = State.Initialized) :
    (∃ msg, d.initializeExtensions.2 = { d with hasError := true, errorString := msg })
      ∨ (d.initializeExtensions.2 = { d with state := State.Running }
        ∧ d.plugin.isSome = true) := by
  unfold PluginSpec.initializeExtensions
  rw [if_neg (by rw [he]; decide), if_neg (not_not.2 hs)]
  split
  · exact Or.inl ⟨_, rfl⟩
  · rename_i hp
    refine Or.inr ⟨rfl, ?_⟩
    cases hpl : d.plugin with
    | none => rw [hpl] at hp; exact absurd rfl hp
    | some p => rfl

/-- The spec of a call of `loadPlugin` afterwards: unchanged, or (when it had
no error and was in the state just before the destination state) with an error
recorded, or moved to the destination state. -/
theorem loadPlugin_cases (E : QtEnv) (C : Callbacks) (m : PluginManagerPrivate) (spec : Nat)
    (destState : State) :
    ((m.loadPlugin E C spec destState).heap spec = m.heap spec
        ∧ ((m.heap spec).hasError = true ∨ (m.heap spec).state.toNat + 1 ≠ destState.toNat
          ∨ (destState = State.Loaded ∧ (m.heap spec).isEffectivelyEnabled E = false)
          ∨ (destState ≠ State.Loaded ∧ destState ≠ State.Initialized
            ∧ destState ≠ State.Running)))
      ∨ ((m.heap spec).hasError = false ∧ (m.heap spec).state.toNat + 1 = destState.toNat
        ∧ (destState = State.Loaded → (m.heap spec).isEffectivelyEnabled E = true)
        ∧ ((∃ msg, (m.loadPlugin E C spec destState).heap spec
              = { m.heap spec with hasError := true, errorString := msg })
          ∨ (∃ p, (m.loadPlugin E C spec destState).heap spec
              = { m.heap spec with state := destState, plugin := p }
            ∧ (destState.toNat ≤ 5 → p.isSome = true)))) := by
  by_cases g1 : (m.heap spec).hasError ∨ ((m.heap spec).state.toNat : Int) ≠ (destState.toNat : Int) - 1
  · left
    refine ⟨by unfold PluginManagerPrivate.loadPlugin; rw [if_pos g1], ?_⟩
    rcases g1 with h | h
    · exact Or.inl h
    · exact Or.inr (Or.inl (by omega))
  by_cases g2 : (!(m.heap spec).isEffectivelyEnabled E && decide (destState = State.Loaded)) = true
  · left
    refine ⟨by unfold PluginManagerPrivate.loadPlugin; rw [if_neg g1, if_pos g2], ?_⟩
    simp only [Bool.and_eq_true, Bool.not_eq_true', decide_eq_true_eq] at g2
    exact Or.inr (Or.inr (Or.inl ⟨g2.2, g2.1⟩))
  have he : (m.heap spec).hasError = false := by
    cases h : (m.heap spec).hasError
    · rfl
    · exact absurd (Or.inl h) g1
  have hst : (m.heap spec).state.toNat + 1 = destState.toNat := by
    have : ((m.heap spec).state.toNat : Int) = (destState.toNat : Int) - 1 :=
      not_not.1 (fun h => g1 (Or.inr h))
    omega
  have heff : destState = State.Loaded → (m.heap spec).isEffectivelyEnabled E = true := by
    intro hd
    cases h : (m.heap spec).isEffectivelyEnabled E
    · exact absurd (by simp [h, hd]) g2
    · rfl
  have hstate : ∀ s : State, s.toNat + 1 = destState.toNat → (m.heap spec).state = s := by
    intro s hs
    have : (m.heap spec).state.toNat = s.toNat := by omega
    revert this
    cases (m.heap spec).state <;> cases s <;> simp [State.toNat]
  unfold PluginManagerPrivate.loadPlugin
  rw [if_neg g1, if_neg g2]
  cases destState with
  | Running =>
    simp only [Heap.set_same]
    rcases initializeExtensions_cases (m.heap spec) he (hstate State.Initialized rfl) with h | ⟨h, hp⟩
    · exact Or.inr ⟨he, hst, heff, Or.inl h⟩
    · exact Or.inr ⟨he, hst, heff, Or.inr ⟨(m.heap spec).plugin, h, fun _ => hp⟩⟩
  | Deleted =>
    simp only [Heap.set_same]
    unfold PluginSpec.kill
    split
    · exact Or.inl ⟨rfl, Or.inr (Or.inr (Or.inr ⟨by decide, by decide, by decide⟩))⟩
    · exact Or.inr ⟨he, hst, heff, Or.inr ⟨none, rfl, fun h => absurd h (by decide)⟩⟩
  | Loaded =>
    simp only []
    cases hf : PluginManagerPrivate.firstDependencyNotIn m.heap State.Loaded
        (m.heap spec).dependencySpecs with
    | some depSpec =>
      simp only [Heap.set_same]
      exact Or.inr ⟨he, hst, fun _ => heff rfl, Or.inl ⟨_, rfl⟩⟩
    | none =>
      simp only [Heap.set_same]
      rcases loadLibrary_cases E C spec (m.heap spec) he (hstate State.Resolved rfl) with h | ⟨p, h⟩
      · exact Or.inr ⟨he, hst, fun _ => heff rfl, Or.inl h⟩
      · exact Or.inr ⟨he, hst, fun _ => heff rfl, Or.inr ⟨some p, h, fun _ => rfl⟩⟩
  | Initialized =>
    simp only []
    cases hf : PluginManagerPrivate.firstDependencyNotIn m.heap State.Initialized
        (m.heap spec).dependencySpecs with
    | some depSpec =>
      simp only [Heap.set_same]
      exact Or.inr ⟨he, hst, heff, Or.inl ⟨_, rfl⟩⟩
    | none =>
      simp only [Heap.set_same]
      rcases initializePlugin_cases C spec (m.heap spec) he (hstate State.Loaded rfl) with h | ⟨h, hp⟩
      · exact Or.inr ⟨he, hst, heff, Or.inl h⟩
      · exact Or.inr ⟨he, hst, heff, Or.inr ⟨(m.heap spec).plugin, h, fun _ => hp⟩⟩
  | Stopped =>
    simp only []
    cases hf : PluginManagerPrivate.firstDependencyNotIn m.heap State.Stopped
        (m.heap spec).dependencySpecs with
    | some depSpec =>
      simp only [Heap.set_same]
      exact Or.inr ⟨he, hst, heff, Or.inl ⟨_, rfl⟩⟩
    | none =>
      have hstop : ((m.heap spec).stop C spec).2 = m.heap spec
          ∨ ((m.heap spec).stop C spec).2 = { m.heap spec with state := State.Stopped } := by
        unfold PluginSpec.stop
        split
        · exact Or.inl rfl
        · exact Or.inr rfl
      simp only []
      split <;>
        (simp only [Heap.set_same]
         rcases hstop with h | h
         · exact Or.inl ⟨h, Or.inr (Or.inr (Or.inr ⟨by decide, by decide, by decide⟩))⟩
         · exact Or.inr ⟨he, hst, heff, Or.inr ⟨(m.heap spec).plugin, h,
             fun h => absurd h (by decide)⟩⟩)
  | Invalid => exact absurd hst (by simp [State.toNat])
  | Read =>
    simp only []
    cases hf : PluginManagerPrivate.firstDependencyNotIn m.heap State.Read
        (m.heap spec).dependencySpecs with
    | some depSpec =>
      simp only [Heap.set_same]
      exact Or.inr ⟨he, hst, heff, Or.inl ⟨_, rfl⟩⟩
    | none => exact Or.inl ⟨rfl, Or.inr (Or.inr (Or.inr ⟨by decide, by decide, by decide⟩))⟩
  | Resolved =>
    simp only []
    cases hf : PluginManagerPrivate.firstDependencyNotIn m.heap State.Resolved
        (m.heap spec).dependencySpecs with
    | some depSpec =>
      simp only [Heap.set_same]
      exact Or.inr ⟨he, hst, heff, Or.inl ⟨_, rfl⟩⟩
    | none => exact Or.inl ⟨rfl, Or.inr (Or.inr (Or.inr ⟨by decide, by decide, by decide⟩))⟩

/-! ## Passes over the load queue -/

theorem foldl_invariant (step : PluginManagerPrivate → Nat → PluginManagerPrivate)
    (Inv : PluginManagerPrivate → Prop) (h : ∀ m X, Inv m → Inv (step m X)) :
    ∀ (l : List Nat) (m : PluginManagerPrivate), Inv m → Inv (l.foldl step m) := by
  intro l
  induction l with
  | nil => intro m hm; exact hm
  | cons a rest ih =>
    intro m hm
    simp only [List.foldl_cons]
    exact ih _ (h m a hm)

/-- After a pass, every spec of the list has the property that its own step
establishes and that every step keeps. -/
theorem foldl_member (step : PluginManagerPrivate → Nat → PluginManagerPrivate)
    (Inv : PluginManagerPrivate → Prop) (Q : PluginManagerPrivate → Nat → Prop)
    (hInv : ∀ m X, Inv m → Inv (step m X))
    (hstep : ∀ m X, Inv m → Q (step m X) X)
    (hstable : ∀ m X Y, Inv m → Q m Y → Q (step m X) Y) :
    ∀ (l : List Nat) (m : PluginManagerPrivate), Inv m → ∀ X ∈ l, Q (l.foldl step m) X := by
  intro l
  induction l with
  | nil => intro m _ X hX; cases hX
  | cons a rest ih =>
    intro m hm X hX
    simp only [List.foldl_cons]
    rcases List.mem_cons.1 hX with e | hX'
    · subst e
      exact (foldl_invariant step (fun m' => Inv m' ∧ Q m' X)
        (fun m' Y h => ⟨hInv m' Y h.1, hstable m' Y X h.1 h.2⟩) rest (step m X)
        ⟨hInv m X hm, hstep m X hm⟩).2
    · exact ih _ (hInv m a hm) X hX'

/-- A call of `loadPlugin` leaves a spec with an error as it is. -/
theorem loadPlugin_error_fixed (E : QtEnv) (C : Callbacks) (m : PluginManagerPrivate)
    (spec : Nat) (destState : State) (s : Nat) (he : (m.heap s).hasError = true) :
    (m.loadPlugin E C spec destState).heap s = m.heap s := by
  by_cases hs : s = spec
  · subst hs
    rcases loadPlugin_cases E C m s destState with h | ⟨h, _⟩
    · exact h.1
    · rw [he] at h
      cases h
  · exact loadPlugin_other E C m spec destState s hs

theorem loadPlugin_hasError (E : QtEnv) (C : Callbacks) (m : PluginManagerPrivate)
    (spec : Nat) (destState : State) (s : Nat) (he : (m.heap s).hasError = true) :
    ((m.loadPlugin E C spec destState).heap s).hasError = true := by
  rw [loadPlugin_error_fixed E C m spec destState s he]
  exact he

/-- A call of `loadPlugin` leaves the name, the version and the enabling of
every spec. -/
theorem loadPlugin_identity (E : QtEnv) (C : Callbacks) (m : PluginManagerPrivate)
    (spec : Nat) (destState : State) (s : Nat) :
    ((m.loadPlugin E C spec destState).heap s).name = (m.heap s).name
      ∧ ((m.loadPlugin E C spec destState).heap s).version = (m.heap s).version
      ∧ ((m.loadPlugin E C spec destState).heap s).isEffectivelyEnabled E
        = (m.heap s).isEffectivelyEnabled E := by
  by_cases hs : s = spec
  · subst hs
    rcases loadPlugin_cases E C m s destState with h | ⟨_, _, _, ⟨msg, h⟩ | ⟨p, h, _⟩⟩
    · rw [h.1]
      exact ⟨rfl, rfl, rfl⟩
    · rw [h]
      exact ⟨rfl, rfl, rfl⟩
    · rw [h]
      exact ⟨rfl, rfl, rfl⟩
  · rw [loadPlugin_other E C m spec destState s hs]
    exact ⟨rfl, rfl, rfl⟩

/-- After `loadPlugin(X, dest)` for one of the destinations `Loaded`,
`Initialized` and `Running`, the spec `X` has an error, or is not in the state
just before `dest`, or (for `Loaded`) is not effectively enabled; every further
call for the same destination keeps this. -/
theorem loadPlugin_attempted (E : QtEnv) (C : Callbacks) (m : PluginManagerPrivate)
    (X : Nat) (destState : State)
    (hd : destState = State.Loaded ∨ destState = State.Initialized
      ∨ destState = State.Running) :
    ((m.loadPlugin E C X destState).heap X).hasError = true
      ∨ (destState = State.Loaded
        ∧ ((m.loadPlugin E C X destState).heap X).isEffectivelyEnabled E = false)
      ∨ ((m.loadPlugin E C X destState).heap X).state.toNat + 1 ≠ destState.toNat := by
  rcases loadPlugin_cases E C m X destState with ⟨h, r⟩ | ⟨_, hst, _, ⟨msg, h⟩ | ⟨p, h, _⟩⟩
  · rw [h]
    rcases r with r | r | r | r
    · exact Or.inl r
    · exact Or.inr (Or.inr r)
    · exact Or.inr (Or.inl r)
    · rcases hd with hd | hd | hd
      · exact absurd hd r.1
      · exact absurd hd r.2.1
      · exact absurd hd r.2.2
  · rw [h]
    exact Or.inl rfl
  · rw [h]
    right
    right
    show destState.toNat + 1 ≠ destState.toNat
    omega

theorem loadPlugin_attempted_stable (E : QtEnv) (C : Callbacks) (m : PluginManagerPrivate)
    (X Y : Nat) (destState : State)
    (h : (m.heap Y).hasError = true
      ∨ (destState = State.Loaded ∧ (m.heap Y).isEffectivelyEnabled E = false)
      ∨ (m.heap Y).state.toNat + 1 ≠ destState.toNat) :
    ((m.loadPlugin E C X destState).heap Y).hasError = true
      ∨ (destState = State.Loaded
        ∧ ((m.loadPlugin E C X destState).heap Y).isEffectivelyEnabled E = false)
      ∨ ((m.loadPlugin E C X destState).heap Y).state.toNat + 1 ≠ destState.toNat := by
  by_cases hs : Y = X
  · subst hs
    rcases loadPlugin_cases E C m Y destState with ⟨e, _⟩ | ⟨he, hst, heff, _⟩
    · rw [e]
      exact h
    · rcases h with h | h | h
      · rw [he] at h
        cases h
      · rw [heff h.1] at h
        exact absurd h.2 (by decide)
      · exact absurd hst h
  · rw [loadPlugin_other E C m X destState Y hs]
    exact h

/-- A call of `loadPlugin` keeps the specs that reached the state of number
`k` after their required dependencies, for `Loaded` and `Initialized`. -/
theorem loadPlugin_reachedAfterDependencies (E : QtEnv) (C : Callbacks)
    (m : PluginManagerPrivate) (spec : Nat) (destState : State) (k : Nat)
    (hk : k = State.Loaded.toNat ∨ k = State.Initialized.toNat)
    (hinv : reachedAfterDependencies k m.heap) :
    reachedAfterDependencies k (m.loadPlugin E C spec destState).heap := by
  intro X hX e he ht
  rw [loadPlugin_dependencySpecs] at he
  by_cases hsame : ((m.loadPlugin E C spec destState).heap X).state = (m.heap X).state
  · rw [hsame] at hX
    exact Nat.le_trans (hinv X hX e he ht) (loadPlugin_monotone E C m spec destState e.2)
  · have hXs : X = spec := by
      by_contra hne
      exact hsame (by rw [loadPlugin_other E C m spec destState X hne])
    subst hXs
    obtain ⟨h1, _, h3, h4⟩ := (loadPlugin_transition E C m X destState).2 hsame
    rw [h1] at hX
    by_cases hold : k ≤ (m.heap X).state.toNat
    · exact Nat.le_trans (hinv X hold e he ht) (loadPlugin_monotone E C m X destState e.2)
    · have hdk : destState.toNat = k := by omega
      have hdest : destState = State.Loaded ∨ destState = State.Initialized := by
        rcases hk with hk | hk
        · left
          rw [hk] at hdk
          revert hdk
          cases destState <;> simp [State.toNat]
        · right
          rw [hk] at hdk
          revert hdk
          cases destState <;> simp [State.toNat]
      have hnone := h4 (by rcases hdest with h | h <;> rw [h] <;> decide)
        (by rcases hdest with h | h <;> rw [h] <;> decide)
      have := firstDependencyNotIn_eq_none m.heap destState _ hnone e he ht
      have hmono := loadPlugin_monotone E C m X destState e.2
      rw [this, hdk] at hmono
      exact hmono

/-- During the first two passes of `loadPlugins`, a spec in state `Initialized`
or later is in state `Initialized`, without error and with a plugin instance. -/
theorem loadPlugin_initialized_sound (E : QtEnv) (C : Callbacks) (m : PluginManagerPrivate)
    (spec : Nat) (destState : State)
    (hd : destState = State.Loaded ∨ destState = State.Initialized)
    (hinv : ∀ s, State.Initialized.toNat ≤ (m.heap s).state.toNat →
      (m.heap s).state = State.Initialized ∧ (m.heap s).hasError = false
        ∧ (m.heap s).plugin.isSome = true) :
    ∀ s, State.Initialized.toNat ≤ ((m.loadPlugin E C spec destState).heap s).state.toNat →
      ((m.loadPlugin E C spec destState).heap s).state = State.Initialized
        ∧ ((m.loadPlugin E C spec destState).heap s).hasError = false
        ∧ ((m.loadPlugin E C spec destState).heap s).plugin.isSome = true := by
  intro s
  by_cases hs : s = spec
  · subst hs
    rcases loadPlugin_cases E C m s destState with ⟨h, _⟩ | ⟨he, hst, _, ⟨msg, h⟩ | ⟨p, h, hp⟩⟩
    · rw [h]
      exact hinv s
    · rw [h]
      intro h4
      have h4' : State.Initialized.toNat ≤ (m.heap s).state.toNat := h4
      have := (hinv s h4').1
      rw [this] at hst
      rcases hd with hd | hd <;> rw [hd] at hst <;> simp [State.toNat] at hst
    · rw [h]
      intro h4
      have h4' : State.Initialized.toNat ≤ destState.toNat := h4
      rcases hd with hd | hd
      · rw [hd] at h4'
        simp [State.toNat] at h4'
      · subst hd
        exact ⟨rfl, he, hp (by decide)⟩
  · rw [loadPlugin_other E C m spec destState s hs]
    exact hinv s

/-- The body of the reverse loop of `loadPlugins` leaves the error of a spec
with an error. -/
theorem loadPluginsRunning_error_fixed (E : QtEnv) (C : Callbacks) (m : PluginManagerPrivate)
    (spec : Nat) (s : Nat) (he : (m.heap s).hasError = true) :
    ((PluginManagerPrivate.loadPluginsRunning E C m spec).heap s).hasError = true
      ∧ ((PluginManagerPrivate.loadPluginsRunning E C m spec).heap s).errorString
        = (m.heap s).errorString := by
  by_cases hs : s = spec
  · subst hs
    have h1 := loadPlugin_error_fixed E C m s State.Running s he
    unfold PluginManagerPrivate.loadPluginsRunning
    simp only
    split
    · show ((m.loadPlugin E C s State.Running).heap s).hasError = true ∧ _
      rw [h1]
      exact ⟨he, rfl⟩
    · simp only [Heap.set_same]
      rw [h1]
      unfold PluginSpec.kill
      split
      · exact ⟨he, rfl⟩
      · exact ⟨he, rfl⟩
  · rw [loadPluginsRunning_other E C m spec s hs]
    exact ⟨he, rfl⟩

/-- The body of the reverse loop of `loadPlugins` keeps a spec in state
`Initialized` or `Running` that has no error and a plugin instance in one of
these two states, without error. -/
theorem loadPluginsRunning_sound (E : QtEnv) (C : Callbacks) (m : PluginManagerPrivate)
    (spec : Nat) (s : Nat)
    (h : ((m.heap s).state = State.Initialized ∨ (m.heap s).state = State.Running)
      ∧ (m.heap s).hasError = false ∧ (m.heap s).plugin.isSome = true) :
    (((PluginManagerPrivate.loadPluginsRunning E C m spec).heap s).state = State.Initialized
        ∨ ((PluginManagerPrivate.loadPluginsRunning E C m spec).heap s).state = State.Running)
      ∧ ((PluginManagerPrivate.loadPluginsRunning E C m spec).heap s).hasError = false
      ∧ ((PluginManagerPrivate.loadPluginsRunning E C m spec).heap s).plugin.isSome = true := by
  by_cases hs : s = spec
  · subst hs
    obtain ⟨hst, he, hp⟩ := h
    rcases hst with hst | hst
    · rw [loadPluginsRunning_running E C m s he hst hp, Heap.set_same]
      exact ⟨Or.inr rfl, he, hp⟩
    · have h1 : m.loadPlugin E C s State.Running = m := by
        unfold PluginManagerPrivate.loadPlugin
        rw [if_pos]
        right
        rw [hst]
        decide
      unfold PluginManagerPrivate.loadPluginsRunning
      simp only [h1]
      rw [if_pos hst]
      exact ⟨Or.inr hst, he, hp⟩
  · rw [loadPluginsRunning_other E C m spec s hs]
    exact h

theorem firstDependencyNotIn_some (heap : Heap) (dest : State) (deps : DependencyHash)
    (depSpec : Nat) (h : PluginManagerPrivate.firstDependencyNotIn heap dest deps = some depSpec) :
    ∃ e ∈ deps, e.2 = depSpec ∧ e.1.type = DependencyType.Required
      ∧ (heap e.2).state ≠ dest := by
  induction deps with
  | nil => simp [PluginManagerPrivate.firstDependencyNotIn] at h
  | cons entry rest ih =>
    obtain ⟨key, t⟩ := entry
    simp only [PluginManagerPrivate.firstDependencyNotIn] at h
    by_cases hk : key.type = DependencyType.Required
    · simp only [hk, ne_eq, not_true_eq_false, if_false] at h
      by_cases hst : (heap t).state = dest
      · simp only [hst, not_true_eq_false, if_false] at h
        obtain ⟨e, he, r⟩ := ih h
        exact ⟨e, List.mem_cons_of_mem _ he, r⟩
      · simp only [hst, not_false_eq_true, if_true, Option.some.injEq] at h
        exact ⟨(key, t), List.mem_cons_self _ _, h, hk, hst⟩
    · simp only [ne_eq, hk, not_false_eq_true, if_true] at h
      obtain ⟨e, he, r⟩ := ih h
      exact ⟨e, List.mem_cons_of_mem _ he, r⟩

/-- `loadPlugin(spec, Loaded)` on an effectively enabled, resolved spec without
error that has a required dependency which is not loaded: the error recorded
names a required dependency that is not loaded. -/
theorem loadPlugin_dependency_error (E : QtEnv) (C : Callbacks) (m : PluginManagerPrivate)
    (spec : Nat) (he : (m.heap spec).hasError = false)
    (hs : (m.heap spec).state = State.Resolved)
    (heff : (m.heap spec).isEffectivelyEnabled E = true)
    (e : PluginDependency × Nat) (hmem : e ∈ (m.heap spec).dependencySpecs)
    (ht : e.1.type = DependencyType.Required) (hne : (m.heap e.2).state ≠ State.Loaded) :
    ∃ e' ∈ (m.heap spec).dependencySpecs, e'.1.type = DependencyType.Required
      ∧ (m.heap e'.2).state ≠ State.Loaded
      ∧ (m.loadPlugin E C spec State.Loaded).heap spec
        = { m.heap spec with
            hasError := true,
            errorString := PluginManagerPrivate.msgDependencyNotLoaded m.heap e'.2 } := by
  cases hf : PluginManagerPrivate.firstDependencyNotIn m.heap State.Loaded
      (m.heap spec).dependencySpecs with
  | none => exact absurd (firstDependencyNotIn_eq_none _ _ _ hf e hmem ht) hne
  | some depSpec =>
    obtain ⟨e', he', r1, r2, r3⟩ := firstDependencyNotIn_some _ _ _ _ hf
    refine ⟨e', he', r2, r3, ?_⟩
    unfold PluginManagerPrivate.loadPlugin
    have h1 : ¬ ((m.heap spec).hasError = true
        ∨ ((m.heap spec).state.toNat : Int) ≠ (State.Loaded.toNat : Int) - 1) := by
      rw [he, hs]
      decide
    rw [if_neg h1]
    simp only [heff, Bool.not_true, Bool.false_and, Bool.false_eq_true, if_false]
    rw [hf]
    simp only [Heap.set_same, r1]

/-! ## Propagation of failures -/

/-- After `loadPlugins()` on a manager in which no spec is beyond `Resolved`,
an effectively enabled resolved spec has an error when one of its required
resolved dependencies has. -/
theorem loadPlugins_propagates (E : QtEnv) (C : Callbacks) (m : PluginManagerPrivate)
    (hfresh : ∀ s, (m.heap s).state.toNat ≤ State.Resolved.toNat)
    (hwithin : dependenciesWithin m.heap m.pluginSpecs) :
    ∃ m', m.loadPlugins E C = some m'
      ∧ ∀ X ∈ m.pluginSpecs, (m.heap X).isEffectivelyEnabled E = true →
          (m.heap X).state = State.Resolved →
          ∀ e ∈ (m.heap X).dependencySpecs, e.1.type = DependencyType.Required →
            (m'.heap e.2).hasError = true → (m'.heap X).hasError = true := by
  obtain ⟨queue, m0, eq, sg, _, _, _⟩ := loadQueue_ordered m hwithin
  obtain ⟨er, _, c3⟩ := loadQueue_errorsRecorded m queue m0 eq
  have hfresh2 : ∀ s, (m.heap s).state.toNat ≤ 2 := hfresh
  refine ⟨queue.reverse.foldl (PluginManagerPrivate.loadPluginsRunning E C)
    (queue.foldl (fun m spec => m.loadPlugin E C spec State.Initialized)
      (queue.foldl (fun m spec => m.loadPlugin E C spec State.Loaded) m0)), ?_, ?_⟩
  · unfold PluginManagerPrivate.loadPlugins PluginManagerPrivate.reverseForeach
    rw [eq]
  generalize h1 : queue.foldl (fun m spec => m.loadPlugin E C spec State.Loaded) m0 = m1
  generalize h2 : queue.foldl (fun m spec => m.loadPlugin E C spec State.Initialized) m1 = m2
  generalize h3 : queue.reverse.foldl (PluginManagerPrivate.loadPluginsRunning E C) m2 = m3
  intro X hX heff hres e he ht hYerr
  by_contra hX3
  -- the error of `X` would have stayed
  have hX2 : ¬ (m2.heap X).hasError = true := by
    intro h
    apply hX3
    rw [← h3]
    exact foldl_invariant (PluginManagerPrivate.loadPluginsRunning E C)
      (fun mm => (mm.heap X).hasError = true)
      (fun mm Y hh => (loadPluginsRunning_error_fixed E C mm Y X hh).1) _ m2 h
  have hX1 : ¬ (m1.heap X).hasError = true := by
    intro h
    apply hX2
    rw [← h2]
    exact foldl_invariant (fun m spec => m.loadPlugin E C spec State.Initialized)
      (fun mm => (mm.heap X).hasError = true)
      (fun mm Y hh => loadPlugin_hasError E C mm Y _ X hh) _ m1 h
  have hX0 : ¬ (m0.heap X).hasError = true := by
    intro h
    apply hX1
    rw [← h1]
    exact foldl_invariant (fun m spec => m.loadPlugin E C spec State.Loaded)
      (fun mm => (mm.heap X).hasError = true)
      (fun mm Y hh => loadPlugin_hasError E C mm Y _ X hh) _ m0 h
  have hXq : X ∈ queue := by
    rcases c3 X hX (by unfold isResolved; rw [hres]; exact ⟨by decide, by decide⟩) with h | h
    · exact h
    · exact absurd h hX0
  -- first pass
  have hs0 : (m0.heap X).state = State.Resolved := by rw [← (sg X).1]; exact hres
  have heff1 : (m1.heap X).isEffectivelyEnabled E = true := by
    rw [← h1]
    exact foldl_invariant (fun m spec => m.loadPlugin E C spec State.Loaded)
      (fun mm => (mm.heap X).isEffectivelyEnabled E = true)
      (fun mm Y hh => ((loadPlugin_identity E C mm Y _ X).2.2).trans hh) _ m0
      ((errorsRecorded_effective E er X).trans heff)
  have hge1 : 2 ≤ (m1.heap X).state.toNat := by
    rw [← h1]
    exact foldl_invariant (fun m spec => m.loadPlugin E C spec State.Loaded)
      (fun mm => 2 ≤ (mm.heap X).state.toNat)
      (fun mm Y hh => Nat.le_trans hh (loadPlugin_monotone E C mm Y _ X)) _ m0
      (by show 2 ≤ (m0.heap X).state.toNat; rw [hs0]; decide)
  have hq1 := foldl_member (fun m spec => m.loadPlugin E C spec State.Loaded) (fun _ => True)
    (fun mm Y => (mm.heap Y).hasError = true
      ∨ (State.Loaded = State.Loaded ∧ (mm.heap Y).isEffectivelyEnabled E = false)
      ∨ (mm.heap Y).state.toNat + 1 ≠ State.Loaded.toNat)
    (fun _ _ _ => trivial)
    (fun mm Y _ => loadPlugin_attempted E C mm Y State.Loaded (Or.inl rfl))
    (fun mm Y Z _ hh => loadPlugin_attempted_stable E C mm Y Z State.Loaded hh)
    queue m0 trivial X hXq
  rw [h1] at hq1
  have hst1 : 3 ≤ (m1.heap X).state.toNat := by
    rcases hq1 with h | h | h
    · exact absurd h hX1
    · rw [heff1] at h
      exact absurd h.2 (by decide)
    · have h' : (m1.heap X).state.toNat + 1 ≠ 3 := h
      omega
  -- second pass
  have hge2 : 3 ≤ (m2.heap X).state.toNat := by
    rw [← h2]
    exact foldl_invariant (fun m spec => m.loadPlugin E C spec State.Initialized)
      (fun mm => 3 ≤ (mm.heap X).state.toNat)
      (fun mm Y hh => Nat.le_trans hh (loadPlugin_monotone E C mm Y _ X)) _ m1 hst1
  have hq2 := foldl_member (fun m spec => m.loadPlugin E C spec State.Initialized)
    (fun _ => True)
    (fun mm Y => (mm.heap Y).hasError = true
      ∨ (State.Initialized = State.Loaded ∧ (mm.heap Y).isEffectivelyEnabled E = false)
      ∨ (mm.heap Y).state.toNat + 1 ≠ State.Initialized.toNat)
    (fun _ _ _ => trivial)
    (fun mm Y _ => loadPlugin_attempted E C mm Y State.Initialized (Or.inr (Or.inl rfl)))
    (fun mm Y Z _ hh => loadPlugin_attempted_stable E C mm Y Z State.Initialized hh)
    queue m1 trivial X hXq
  rw [h2] at hq2
  have hst2 : 4 ≤ (m2.heap X).state.toNat := by
    rcases hq2 with h | h | h
    · exact absurd h hX2
    · exact absurd h.1 (by decide)
    · have h' : (m2.heap X).state.toNat + 1 ≠ 4 := h
      omega
  -- the dependency is initialized, without error
  have hJ0 : reachedAfterDependencies 4 m0.heap := by
    intro Z hZ
    have := hfresh2 Z
    rw [(sg Z).1] at this
    omega
  have hJ2 : reachedAfterDependencies 4 m2.heap := by
    rw [← h2, ← h1]
    exact foldl_invariant (fun m spec => m.loadPlugin E C spec State.Initialized)
      (fun mm => reachedAfterDependencies 4 mm.heap)
      (fun mm Y hh => loadPlugin_reachedAfterDependencies E C mm Y _ 4 (Or.inr rfl) hh) _ _
      (foldl_invariant (fun m spec => m.loadPlugin E C spec State.Loaded)
        (fun mm => reachedAfterDependencies 4 mm.heap)
        (fun mm Y hh => loadPlugin_reachedAfterDependencies E C mm Y _ 4 (Or.inr rfl) hh) _ _ hJ0)
  have hG2 : ∀ s, State.Initialized.toNat ≤ (m2.heap s).state.toNat →
      (m2.heap s).state = State.Initialized ∧ (m2.heap s).hasError = false
        ∧ (m2.heap s).plugin.isSome = true := by
    rw [← h2, ← h1]
    exact foldl_invariant (fun m spec => m.loadPlugin E C spec State.Initialized)
      (fun mm => ∀ s, State.Initialized.toNat ≤ (mm.heap s).state.toNat →
        (mm.heap s).state = State.Initialized ∧ (mm.heap s).hasError = false
          ∧ (mm.heap s).plugin.isSome = true)
      (fun mm Y hh => loadPlugin_initialized_sound E C mm Y _ (Or.inr rfl) hh) _ _
      (foldl_invariant (fun m spec => m.loadPlugin E C spec State.Loaded)
        (fun mm => ∀ s, State.Initialized.toNat ≤ (mm.heap s).state.toNat →
          (mm.heap s).state = State.Initialized ∧ (mm.heap s).hasError = false
            ∧ (mm.heap s).plugin.isSome = true)
        (fun mm Y hh => loadPlugin_initialized_sound E C mm Y _ (Or.inl rfl) hh) _ _
        (fun s hs => by
          have := hfresh2 s
          rw [(sg s).1] at this
          have hs' : 4 ≤ (m0.heap s).state.toNat := hs
          omega))
  have hdeps2 : (m2.heap X).dependencySpecs = (m.heap X).dependencySpecs := by
    rw [← h2, ← h1]
    exact foldl_invariant (fun m spec => m.loadPlugin E C spec State.Initialized)
      (fun mm => (mm.heap X).dependencySpecs = (m.heap X).dependencySpecs)
      (fun mm Y hh => (loadPlugin_dependencySpecs E C mm Y _ X).trans hh) _ _
      (foldl_invariant (fun m spec => m.loadPlugin E C spec State.Loaded)
        (fun mm => (mm.heap X).dependencySpecs = (m.heap X).dependencySpecs)
        (fun mm Y hh => (loadPlugin_dependencySpecs E C mm Y _ X).trans hh) _ _ (sg X).2.symm)
  have hY2 := hJ2 X hst2 e (by rw [hdeps2]; exact he) ht
  obtain ⟨g1, g2, g3⟩ := hG2 e.2 hY2
  -- third pass
  have hY3 := foldl_invariant (PluginManagerPrivate.loadPluginsRunning E C)
    (fun mm => ((mm.heap e.2).state = State.Initialized ∨ (mm.heap e.2).state = State.Running)
      ∧ (mm.heap e.2).hasError = false ∧ (mm.heap e.2).plugin.isSome = true)
    (fun mm Y hh => loadPluginsRunning_sound E C mm Y e.2 hh) queue.reverse m2
    ⟨Or.inl g1, g2, g3⟩
  rw [h3] at hY3
  rw [hY3.2.1] at hYerr
  cases hYerr

/-! ## Dependencies that are not enabled -/

theorem errorsRecorded_identity {h h' : Heap} (r : errorsRecorded h h') (s : Nat) :
    (h' s).name = (h s).name ∧ (h' s).version = (h s).version := by
  rcases r s with e | ⟨msg, e⟩ <;> rw [e] <;> exact ⟨rfl, rfl⟩

/-- The text set by `loadPlugin` for a dependency whose name and version are
free of `%`. -/
theorem msgDependencyNotLoaded_eq (heap : Heap) (depSpec : Nat)
    (hn : '%' ∉ (heap depSpec).name) (hv : '%' ∉ (heap depSpec).version) :
    PluginManagerPrivate.msgDependencyNotLoaded heap depSpec
      = tr "Cannot load plugin because dependency failed to load: " ++ (heap depSpec).name
        ++ '(' :: ((heap depSpec).version ++ tr ")\nReason: " ++ (heap depSpec).errorString) := by
  unfold PluginManagerPrivate.msgDependencyNotLoaded
  have e1 : tr "Cannot load plugin because dependency failed to load: %1(%2)\nReason: %3"
      = tr "Cannot load plugin because dependency failed to load: "
        ++ '%' :: '1' :: '(' :: ([] ++ '%' :: '2' :: ')' :: (tr "\nReason: " ++ '%' :: '3' :: [])) := by
    decide
  rw [e1, arg_three _ [] _ [] _ _ _ '(' ')' (by decide) hn hv (by decide) (by decide) (by decide)
    (by decide) (by decide) (by decide) (by decide) (by decide)]
  simp [tr]

/-- After `loadPlugins()` on a manager in which no spec is beyond `Resolved`,
an effectively enabled resolved spec `P` with a required resolved dependency
that is not effectively enabled has an error; unless `loadQueue()` recorded an
error on `P`, the error text is the one of `loadPlugin` for a required
dependency of `P`. -/
theorem loadPlugins_dependency_not_enabled (E : QtEnv) (C : Callbacks)
    (m : PluginManagerPrivate)
    (hfresh : ∀ s, (m.heap s).state.toNat ≤ State.Resolved.toNat)
    (hwithin : dependenciesWithin m.heap m.pluginSpecs)
    (P : Nat) (hP : P ∈ m.pluginSpecs) (heff : (m.heap P).isEffectivelyEnabled E = true)
    (hres : (m.heap P).state = State.Resolved)
    (e : PluginDependency × Nat) (he : e ∈ (m.heap P).dependencySpecs)
    (ht : e.1.type = DependencyType.Required)
    (hdis : (m.heap e.2).isEffectivelyEnabled E = false) :
    ∃ m', m.loadPlugins E C = some m' ∧ (m'.heap P).hasError = true
      ∧ ∀ queue m0, m.loadQueue = some (queue, m0) → (m0.heap P).hasError = false →
          ∃ e' ∈ (m.heap P).dependencySpecs, e'.1.type = DependencyType.Required
            ∧ ∃ h' : Heap, (m'.heap P).errorString
                = PluginManagerPrivate.msgDependencyNotLoaded h' e'.2
              ∧ (h' e'.2).name = (m.heap e'.2).name
              ∧ (h' e'.2).version = (m.heap e'.2).version := by
  obtain ⟨queue, m0, eq, sg, _, _, _⟩ := loadQueue_ordered m hwithin
  obtain ⟨er, _, c3⟩ := loadQueue_errorsRecorded m queue m0 eq
  have hfresh2 : ∀ s, (m.heap s).state.toNat ≤ 2 := hfresh
  refine ⟨queue.reverse.foldl (PluginManagerPrivate.loadPluginsRunning E C)
    (queue.foldl (fun m spec => m.loadPlugin E C spec State.Initialized)
      (queue.foldl (fun m spec => m.loadPlugin E C spec State.Loaded) m0)), ?_, ?_⟩
  · unfold PluginManagerPrivate.loadPlugins PluginManagerPrivate.reverseForeach
    rw [eq]
  generalize h1 : queue.foldl (fun m spec => m.loadPlugin E C spec State.Loaded) m0 = m1
  generalize h2 : queue.foldl (fun m spec => m.loadPlugin E C spec State.Initialized) m1 = m2
  generalize h3 : queue.reverse.foldl (PluginManagerPrivate.loadPluginsRunning E C) m2 = m3
  -- the first pass
  have inv1 := foldl_invariant (fun m spec => m.loadPlugin E C spec State.Loaded)
    (fun mm => reachedAfterDependencies 3 mm.heap
      ∧ ((mm.heap e.2).state.toNat ≤ 2 ∧ (mm.heap e.2).isEffectivelyEnabled E = false)
      ∧ (mm.heap P).dependencySpecs = (m.heap P).dependencySpecs
      ∧ (∀ s, (mm.heap s).name = (m.heap s).name ∧ (mm.heap s).version = (m.heap s).version)
      ∧ (mm.heap P).isEffectivelyEnabled E = true
      ∧ 2 ≤ (mm.heap P).state.toNat
      ∧ ((mm.heap P).hasError = true → (m0.heap P).hasError = true
          ∨ ∃ e' ∈ (m.heap P).dependencySpecs, e'.1.type = DependencyType.Required
            ∧ ∃ h' : Heap, (mm.heap P).errorString
                = PluginManagerPrivate.msgDependencyNotLoaded h' e'.2
              ∧ (h' e'.2).name = (m.heap e'.2).name
              ∧ (h' e'.2).version = (m.heap e'.2).version))
    (fun mm Y hh => by
      obtain ⟨i1, i2, i3, i4, i5, i6, i7⟩ := hh
      have j3 : ((mm.loadPlugin E C Y State.Loaded).heap P).dependencySpecs
          = (m.heap P).dependencySpecs := (loadPlugin_dependencySpecs E C mm Y _ P).trans i3
      refine ⟨loadPlugin_reachedAfterDependencies E C mm Y _ 3 (Or.inl rfl) i1, ?_, j3,
        fun s => ?_, ((loadPlugin_identity E C mm Y _ P).2.2).trans i5,
        Nat.le_trans i6 (loadPlugin_monotone E C mm Y _ P), ?_⟩
      · by_cases hY : e.2 = Y
        · rcases loadPlugin_cases E C mm Y State.Loaded with ⟨u, _⟩ | ⟨_, _, hf, _⟩
          · rw [hY, u, ← hY]
            exact i2
          · rw [← hY, i2.2] at hf
            exact absurd (hf rfl) (by decide)
        · rw [loadPlugin_other E C mm Y _ e.2 hY]
          exact i2
      · obtain ⟨a, b, _⟩ := loadPlugin_identity E C mm Y State.Loaded s
        exact ⟨a.trans (i4 s).1, b.trans (i4 s).2⟩
      · by_cases hY : P = Y
        · subst hY
          by_cases herr : (mm.heap P).hasError = true
          · rw [loadPlugin_error_fixed E C mm P _ P herr]
            exact i7
          · intro hafter
            rcases loadPlugin_cases E C mm P State.Loaded with ⟨u, _⟩ | ⟨he0, hst, hf, _⟩
            · rw [u] at hafter
              exact absurd hafter herr
            · have hs : (mm.heap P).state = State.Resolved := by
                revert hst
                cases (mm.heap P).state <;> simp [State.toNat]
              obtain ⟨e', he', r1, _, r3⟩ := loadPlugin_dependency_error E C mm P he0 hs (hf rfl)
                e (by rw [i3]; exact he) ht
                (by
                  intro hl
                  have := i2.1
                  rw [hl] at this
                  simp [State.toNat] at this)
              rw [r3]
              exact Or.inr ⟨e', by rw [← i3]; exact he', r1, mm.heap, rfl, (i4 e'.2).1, (i4 e'.2).2⟩
        · rw [loadPlugin_other E C mm Y _ P hY]
          exact i7)
    queue m0
    ⟨fun Z hZ => by
        have := hfresh2 Z
        rw [(sg Z).1] at this
        omega,
      ⟨by rw [← (sg e.2).1]; exact hfresh2 e.2, (errorsRecorded_effective E er e.2).trans hdis⟩,
      (sg P).2.symm, fun s => errorsRecorded_identity er s,
      (errorsRecorded_effective E er P).trans heff,
      by rw [← (sg P).1, hres]; decide, fun h => Or.inl h⟩
  rw [h1] at inv1
  obtain ⟨i1, i2, i3, _, i5, i6, i7⟩ := inv1
  have herr1 : (m1.heap P).hasError = true := by
    by_cases h0 : (m0.heap P).hasError = true
    · rw [← h1]
      exact foldl_invariant (fun m spec => m.loadPlugin E C spec State.Loaded)
        (fun mm => (mm.heap P).hasError = true)
        (fun mm Y hh => loadPlugin_hasError E C mm Y _ P hh) _ m0 h0
    · have hPq : P ∈ queue := by
        rcases c3 P hP (by unfold isResolved; rw [hres]; exact ⟨by decide, by decide⟩) with h | h
        · exact h
        · exact absurd h h0
      have hq1 := foldl_member (fun m spec => m.loadPlugin E C spec State.Loaded) (fun _ => True)
        (fun mm Y => (mm.heap Y).hasError = true
          ∨ (State.Loaded = State.Loaded ∧ (mm.heap Y).isEffectivelyEnabled E = false)
          ∨ (mm.heap Y).state.toNat + 1 ≠ State.Loaded.toNat)
        (fun _ _ _ => trivial)
        (fun mm Y _ => loadPlugin_attempted E C mm Y State.Loaded (Or.inl rfl))
        (fun mm Y Z _ hh => loadPlugin_attempted_stable E C mm Y Z State.Loaded hh)
        queue m0 trivial P hPq
      rw [h1] at hq1
      rcases hq1 with h | h | h
      · exact h
      · rw [i5] at h
        exact absurd h.2 (by decide)
      · have h' : (m1.heap P).state.toNat + 1 ≠ 3 := h
        have h3' : 3 ≤ (m1.heap P).state.toNat := by omega
        have := i1 P h3' e (by rw [i3]; exact he) ht
        have := i2.1
        omega
  -- the error stays in the other passes
  have hfix2 := foldl_invariant (fun m spec => m.loadPlugin E C spec State.Initialized)
    (fun mm => (mm.heap P).hasError = true ∧ (mm.heap P).errorString = (m1.heap P).errorString)
    (fun mm Y hh => by
      show ((mm.loadPlugin E C Y State.Initialized).heap P).hasError = true
        ∧ ((mm.loadPlugin E C Y State.Initialized).heap P).errorString = (m1.heap P).errorString
      rw [loadPlugin_error_fixed E C mm Y _ P hh.1]
      exact hh) queue m1 ⟨herr1, rfl⟩
  rw [h2] at hfix2
  have hfix3 := foldl_invariant (PluginManagerPrivate.loadPluginsRunning E C)
    (fun mm => (mm.heap P).hasError = true ∧ (mm.heap P).errorString = (m1.heap P).errorString)
    (fun mm Y hh => ⟨(loadPluginsRunning_error_fixed E C mm Y P hh.1).1,
      ((loadPluginsRunning_error_fixed E C mm Y P hh.1).2).trans hh.2⟩) queue.reverse m2 hfix2
  rw [h3] at hfix3
  refine ⟨hfix3.1, fun queue' m0' eq' h0 => ?_⟩
  rw [eq] at eq'
  simp only [Option.some.injEq, Prod.mk.injEq] at eq'
  obtain ⟨_, rfl⟩ := eq'
  rw [hfix3.2]
  rcases i7 herr1 with h | h
  · rw [h0] at h
    cases h
  · exact h

/-- The error recorded by `loadPlugin` for the destinations `Loaded`,
`Initialized` and `Stopped` when a required dependency is not in the
destination state. -/
theorem loadPlugin_dependency_message (E : QtEnv) (C : Callbacks) (m : PluginManagerPrivate)
    (spec : Nat) (destState : State) (depSpec : Nat)
    (he : (m.heap spec).hasError = false)
    (hst : (m.heap spec).state.toNat + 1 = destState.toNat)
    (heff : destState = State.Loaded → (m.heap spec).isEffectivelyEnabled E = true)
    (hd : destState = State.Loaded ∨ destState = State.Initialized
      ∨ destState = State.Stopped)
    (hf : PluginManagerPrivate.firstDependencyNotIn m.heap destState
      (m.heap spec).dependencySpecs = some depSpec) :
    (m.loadPlugin E C spec destState).heap spec
      = { m.heap spec with
          hasError := true,
          errorString := PluginManagerPrivate.msgDependencyNotLoaded m.heap depSpec } := by
  have g1 : ¬ ((m.heap spec).hasError = true
      ∨ ((m.heap spec).state.toNat : Int) ≠ (destState.toNat : Int) - 1) := by
    intro h
    rcases h with h | h
    · rw [he] at h
      cases h
    · omega
  have g2 : ¬ (!(m.heap spec).isEffectivelyEnabled E && decide (destState = State.Loaded)) = true := by
    by_cases hl : destState = State.Loaded
    · simp [heff hl]
    · simp [hl]
  unfold PluginManagerPrivate.loadPlugin
  rw [if_neg g1, if_neg g2]
  rcases hd with rfl | rfl | rfl <;> simp only [hf, Heap.set_same]

theorem scenarioChainManager_fresh :
    ∀ s, (scenarioChainManager.heap s).state.toNat ≤ State.Resolved.toNat := by
  intro s
  unfold scenarioChainManager
  simp only
  split
  · rename_i h3
    interval_cases s <;> decide
  · decide

/-- C16. After `loadPlugins()` on a manager in which no spec is beyond
`Resolved` and the resolved dependencies point into `pluginSpecs`, every
effectively enabled resolved spec X of the manager has `hasError` when the spec
Y of one of its required resolved dependencies has `hasError`. The error that
`loadPlugin` records on a spec when its dependency check fails has the text
`Cannot load plugin because dependency failed to load: name(version)`,
`Reason: errorString` with the name, the version and the `errorString` of the
first required dependency that is not in the destination state (for a name and
a version without `%`). -/
theorem loadPlugins_failure_propagates (E : QtEnv) (C : Callbacks) (m : PluginManagerPrivate)
    (hfresh : ∀ s, (m.heap s).state.toNat ≤ State.Resolved.toNat)
    (hwithin : dependenciesWithin m.heap m.pluginSpecs) :
    (∃ m', m.loadPlugins E C = some m'
      ∧ ∀ X ∈ m.pluginSpecs, (m.heap X).isEffectivelyEnabled E = true →
          (m.heap X).state = State.Resolved →
          ∀ e ∈ (m.heap X).dependencySpecs, e.1.type = DependencyType.Required →
            (m'.heap e.2).hasError = true → (m'.heap X).hasError = true)
      ∧ ∀ (m0 : PluginManagerPrivate) (spec : Nat) (destState : State) (depSpec : Nat),
          (m0.heap spec).hasError = false →
          (m0.heap spec).state.toNat + 1 = destState.toNat →
          (destState = State.Loaded → (m0.heap spec).isEffectivelyEnabled E = true) →
          (destState = State.Loaded ∨ destState = State.Initialized
            ∨ destState = State.Stopped) →
          PluginManagerPrivate.firstDependencyNotIn m0.heap destState
            (m0.heap spec).dependencySpecs = some depSpec →
          ((m0.loadPlugin E C spec destState).heap spec).hasError = true
            ∧ ((m0.loadPlugin E C spec destState).heap spec).errorString
              = PluginManagerPrivate.msgDependencyNotLoaded m0.heap depSpec
            ∧ ('%' ∉ (m0.heap depSpec).name → '%' ∉ (m0.heap depSpec).version →
              ((m0.loadPlugin E C spec destState).heap spec).errorString
                = tr "Cannot load plugin because dependency failed to load: "
                  ++ (m0.heap depSpec).name
                  ++ '(' :: ((m0.heap depSpec).version ++ tr ")\nReason: "
                    ++ (m0.heap depSpec).errorString)) := by
  refine ⟨loadPlugins_propagates E C m hfresh hwithin,
    fun m0 spec destState depSpec he hst heff hd hf => ?_⟩
  rw [loadPlugin_dependency_message E C m0 spec destState depSpec he hst heff hd hf]
  exact ⟨rfl, rfl, fun hn hv => msgDependencyNotLoaded_eq m0.heap depSpec hn hv⟩

set_option maxRecDepth 100000 in
/-- C16, witness: in the scenario `Core`, `A`, `B` the library of `Core` fails
to load; `A`, which requires `Core`, and `B`, which requires `A`, get an error,
and the error of `A` is the text for `Core`. -/
theorem loadPlugins_failure_propagates_witness :
    (∀ s, (scenarioChainManager.heap s).state.toNat ≤ State.Resolved.toNat)
      ∧ dependenciesWithin scenarioChainManager.heap scenarioChainManager.pluginSpecs
      ∧ (∃ m', scenarioChainManager.loadPlugins plainEnv callbacksLibrariesFail = some m'
        ∧ ∀ X ∈ scenarioChainManager.pluginSpecs,
            (scenarioChainManager.heap X).isEffectivelyEnabled plainEnv = true →
            (scenarioChainManager.heap X).state = State.Resolved →
            ∀ e ∈ (scenarioChainManager.heap X).dependencySpecs,
              e.1.type = DependencyType.Required →
              (m'.heap e.2).hasError = true → (m'.heap X).hasError = true)
      ∧ (scenarioChainManager.loadPlugins plainEnv callbacksLibrariesFail).map (fun m' =>
          m'.pluginSpecs.map (fun a => ((m'.heap a).name, (m'.heap a).hasError)))
        = some [("A".toList, true), ("B".toList, true), ("Core".toList, true)]
      ∧ (scenarioChainManager.loadPlugins plainEnv callbacksLibrariesFail).map (fun m' =>
          (m'.heap 1).errorString)
        = some ("Cannot load plugin because dependency failed to load: Core(2.0)\nReason: "
            ++ "/plugins/libCore.so: cannot load library").toList :=
  ⟨scenarioChainManager_fresh, by unfold dependenciesWithin; decide,
    (loadPlugins_failure_propagates plainEnv callbacksLibrariesFail scenarioChainManager
      scenarioChainManager_fresh (by unfold dependenciesWithin; decide)).1,
    by decide, by decide⟩

set_option maxRecDepth 100000 in
/-- C16, counterexample. `A` requires `Core` and `Lib`, and both libraries fail
to load: after `loadPlugins()` the spec `Lib` has an error, but the error text
of `A` names `Core` only and does not contain the name `Lib`. In the scenario
`Core`, `A`, `B` in which the library of `A` fails to load and `initialize()` of
`Core` fails, `Core` has an error and the error text of `A`, which requires
`Core`, is the one of its own library. -/
theorem loadPlugins_error_names_first_failure :
    scenarioTwoDependencies.map (fun m =>
        ((m.heap 2).name, (m.heap 2).state, (m.heap 2).isEffectivelyEnabled plainEnv,
          (m.heap 1).name))
      = some ("A".toList, State.Resolved, true, "Lib".toList)
    ∧ scenarioTwoDependencies.map (fun m =>
        (m.heap 2).dependencySpecs.map (fun e => (e.1.type, e.2)))
      = some [(DependencyType.Required, 0), (DependencyType.Required, 1)]
    ∧ (scenarioTwoDependencies.bind
        (PluginManagerPrivate.loadPlugins plainEnv callbacksLibrariesFail)).map (fun m' =>
          ((m'.heap 1).hasError, (m'.heap 1).errorString, (m'.heap 2).hasError,
            (m'.heap 2).errorString, decide ((m'.heap 1).name <:+: (m'.heap 2).errorString),
            decide ((m'.heap 1).errorString <:+: (m'.heap 2).errorString)))
      = some (true, "/plugins/libLib.so: cannot load library".toList, true,
          ("Cannot load plugin because dependency failed to load: Core(1.0)\nReason: "
            ++ "/plugins/libCore.so: cannot load library").toList, false, false)
    ∧ scenarioChain.map (fun m =>
        ((m.heap 1).name, (m.heap 1).state, (m.heap 1).isEffectivelyEnabled plainEnv,
          (m.heap 0).name))
      = some ("A".toList, State.Resolved, true, "Core".toList)
    ∧ scenarioChain.map (fun m => (m.heap 1).dependencySpecs.map (fun e => (e.1.type, e.2)))
      = some [(DependencyType.Required, 0)]
    ∧ (scenarioChain.bind
        (PluginManagerPrivate.loadPlugins plainEnv callbacksInitializeFails)).map (fun m' =>
          ((m'.heap 0).hasError, (m'.heap 0).errorString, (m'.heap 1).hasError,
            (m'.heap 1).errorString, decide ((m'.heap 0).name <:+: (m'.heap 1).errorString)))
      = some (true, "Plugin initialization failed: no display".toList, true,
          "/plugins/libA.so: cannot load library".toList, false) := by
  refine ⟨by decide, by decide, by decide, by decide, by decide, by decide⟩

/-! ## Disabled dependencies of enabled plugins -/

theorem clearIndirect_spec (specs : List Nat) :
    ∀ (heap : Heap) (s : Nat),
      (specs.foldl (fun heap spec => heap.set spec ((heap spec).setEnabledIndirectly false))
        heap) s
        = if s ∈ specs then (heap s).setEnabledIndirectly false else heap s := by
  induction specs with
  | nil => intro heap s; simp
  | cons a t ih =>
    intro heap s
    simp only [List.foldl_cons]
    rw [ih]
    by_cases hs : s = a
    · subst hs
      simp only [Heap.set_same, List.mem_cons, true_or, if_true]
      split <;> rfl
    · simp only [Heap.set_other _ _ _ _ hs, List.mem_cons, hs, false_or]

theorem isEffectivelyEnabled_not_available (E : QtEnv) (d : PluginSpec)
    (h : d.isAvailableForHostPlatform E = false) : d.isEffectivelyEnabled E = false := by
  unfold PluginSpec.isEffectivelyEnabled
  rw [h]
  rfl

/-- `PluginManagerPrivate::enableDependenciesIndirectly` returns when the
resolved dependencies point into `pluginSpecs`; it changes nothing but the
members `enabledIndirectly`, and a spec of the manager that is enabled without
regard to `enabledIndirectly` is effectively enabled afterwards. -/
theorem enableDependenciesIndirectly_flags (E : QtEnv) (m : PluginManagerPrivate)
    (hw : dependenciesWithin m.heap m.pluginSpecs) :
    ∃ m', m.enableDependenciesIndirectly E = some m'
      ∧ (∀ s, ∃ b, m'.heap s = (m.heap s).setEnabledIndirectly b)
      ∧ ∀ P ∈ m.pluginSpecs,
          ((m.heap P).setEnabledIndirectly false).isEffectivelyEnabled E = true →
          (m'.heap P).isEffectivelyEnabled E = true := by
  unfold PluginManagerPrivate.enableDependenciesIndirectly
  have g1 := clearIndirect_sameGraph m.pluginSpecs m.heap
  have hw1 := dependenciesWithin_congr g1 _ hw
  obtain ⟨h', e, r⟩ := enableLoop_terminates E m.pluginSpecs m.testSpecs _ _ _
    (fun x hx => (List.mem_filter.1 hx).1) hw1
    (Nat.le_of_lt (enablePotential_le_fuel E m.pluginSpecs _ _))
  simp only
  rw [e]
  refine ⟨_, rfl, fun s => ?_, fun P hP hen => ?_⟩
  · show ∃ b, h' s = (m.heap s).setEnabledIndirectly b
    rcases r s with h | h
    · rw [h, clearIndirect_spec]
      split
      · exact ⟨false, rfl⟩
      · exact ⟨(m.heap s).enabledIndirectly, rfl⟩
    · rw [h, clearIndirect_spec]
      split
      · exact ⟨true, rfl⟩
      · exact ⟨true, rfl⟩
  · show (h' P).isEffectivelyEnabled E = true
    apply onlyIndirectlyEnabled_effective E r P
    rw [clearIndirect_spec, if_pos hP]
    exact hen

/-- An error that `loadQueue()` recorded on a spec stays as it is through
`loadPlugins()`: the spec keeps `hasError` and the `errorString` of
`loadQueue()`. -/
theorem loadPlugins_keeps_queue_error (E : QtEnv) (C : Callbacks) (m : PluginManagerPrivate)
    (queue : List Nat) (m0 : PluginManagerPrivate) (hq : m.loadQueue = some (queue, m0))
    (P : Nat) (h0 : (m0.heap P).hasError = true) :
    ∃ m', m.loadPlugins E C = some m' ∧ (m'.heap P).hasError = true
      ∧ (m'.heap P).errorString = (m0.heap P).errorString := by
  refine ⟨queue.reverse.foldl (PluginManagerPrivate.loadPluginsRunning E C)
    (queue.foldl (fun m spec => m.loadPlugin E C spec State.Initialized)
      (queue.foldl (fun m spec => m.loadPlugin E C spec State.Loaded) m0)), ?_, ?_⟩
  · unfold PluginManagerPrivate.loadPlugins PluginManagerPrivate.reverseForeach
    rw [hq]
  have step : ∀ destState (mm : PluginManagerPrivate) (Y : Nat),
      ((mm.heap P).hasError = true ∧ (mm.heap P).errorString = (m0.heap P).errorString) →
      (((mm.loadPlugin E C Y destState).heap P).hasError = true
        ∧ ((mm.loadPlugin E C Y destState).heap P).errorString = (m0.heap P).errorString) := by
    intro destState mm Y hh
    rw [loadPlugin_error_fixed E C mm Y _ P hh.1]
    exact hh
  have f1 := foldl_invariant (fun m spec => m.loadPlugin E C spec State.Loaded)
    (fun mm => (mm.heap P).hasError = true ∧ (mm.heap P).errorString = (m0.heap P).errorString)
    (fun mm Y hh => step State.Loaded mm Y hh) queue m0 ⟨h0, rfl⟩
  have f2 := foldl_invariant (fun m spec => m.loadPlugin E C spec State.Initialized)
    (fun mm => (mm.heap P).hasError = true ∧ (mm.heap P).errorString = (m0.heap P).errorString)
    (fun mm Y hh => step State.Initialized mm Y hh) queue _ f1
  exact foldl_invariant (PluginManagerPrivate.loadPluginsRunning E C)
    (fun mm => (mm.heap P).hasError = true ∧ (mm.heap P).errorString = (m0.heap P).errorString)
    (fun mm Y hh => ⟨(loadPluginsRunning_error_fixed E C mm Y P hh.1).1,
      ((loadPluginsRunning_error_fixed E C mm Y P hh.1).2).trans hh.2⟩) queue.reverse _ f2

/-- C17. Let P be a resolved spec of a manager in which no spec is beyond
`Resolved`, enabled without regard to `enabledIndirectly`, and D the spec of a
required entry of its resolved dependencies, with any enabling flags.
`enableDependenciesIndirectly()` returns and leaves P effectively enabled, and D
is effectively enabled afterwards exactly when it is available for the host
platform. `loadQueue()` and `loadPlugins()` then return, and when D is not
available for the host platform, P has `hasError` after `loadPlugins()`: when
P has `hasError` after `loadQueue()`, its `errorString` stays the one that
`loadQueue()` left; otherwise its `errorString` is the text `Cannot load plugin
because dependency failed to load: name(version)`, `Reason: errorString` of a
required dependency of P (for a name and a version without `%`). -/
theorem required_dependency_enabled_indirectly (E : QtEnv) (C : Callbacks)
    (m : PluginManagerPrivate)
    (hfresh : ∀ s, (m.heap s).state.toNat ≤ State.Resolved.toNat)
    (hwithin : dependenciesWithin m.heap m.pluginSpecs)
    (P : Nat) (hP : P ∈ m.pluginSpecs)
    (henabled : ((m.heap P).setEnabledIndirectly false).isEffectivelyEnabled E = true)
    (hres : (m.heap P).state = State.Resolved)
    (e : PluginDependency × Nat) (he : e ∈ (m.heap P).dependencySpecs)
    (ht : e.1.type = DependencyType.Required) :
    ∃ m1, m.enableDependenciesIndirectly E = some m1
      ∧ (m1.heap P).isEffectivelyEnabled E = true
      ∧ (m1.heap e.2).isEffectivelyEnabled E = (m.heap e.2).isAvailableForHostPlatform E
      ∧ ∃ queue m0 m', m1.loadQueue = some (queue, m0) ∧ m1.loadPlugins E C = some m'
        ∧ ((m.heap e.2).isAvailableForHostPlatform E = false →
          (m'.heap P).hasError = true
            ∧ ((m0.heap P).hasError = true →
              (m'.heap P).errorString = (m0.heap P).errorString)
            ∧ ((m0.heap P).hasError = false →
              ∃ e' ∈ (m.heap P).dependencySpecs, e'.1.type = DependencyType.Required
                ∧ ∃ reason : QString,
                  ('%' ∉ (m.heap e'.2).name → '%' ∉ (m.heap e'.2).version →
                    (m'.heap P).errorString
                      = tr "Cannot load plugin because dependency failed to load: "
                        ++ (m.heap e'.2).name
                        ++ '(' :: ((m.heap e'.2).version ++ tr ")\nReason: " ++ reason)))) := by
  obtain ⟨m1, e1, flags, hen⟩ := enableDependenciesIndirectly_flags E m hwithin
  obtain ⟨p1, _, p3⟩ := clearIndirect_pluginSpecs_filter E m m1 e1
  have hst : ∀ s, (m1.heap s).state = (m.heap s).state := by
    intro s
    obtain ⟨b, hb⟩ := flags s
    rw [hb]
    rfl
  have hdeps : ∀ s, (m1.heap s).dependencySpecs = (m.heap s).dependencySpecs := by
    intro s
    obtain ⟨b, hb⟩ := flags s
    rw [hb]
    rfl
  have hav : ∀ s, (m1.heap s).isAvailableForHostPlatform E
      = (m.heap s).isAvailableForHostPlatform E := by
    intro s
    obtain ⟨b, hb⟩ := flags s
    rw [hb]
    rfl
  have hid : ∀ s, (m1.heap s).name = (m.heap s).name ∧ (m1.heap s).version = (m.heap s).version := by
    intro s
    obtain ⟨b, hb⟩ := flags s
    rw [hb]
    exact ⟨rfl, rfl⟩
  have heffP := hen P hP henabled
  have hfresh1 : ∀ s, (m1.heap s).state.toNat ≤ State.Resolved.toNat := by
    intro s
    rw [hst s]
    exact hfresh s
  have hwithin1 : dependenciesWithin m1.heap m1.pluginSpecs := by
    rw [p1]
    exact dependenciesWithin_congr (fun s => ⟨(hst s).symm, (hdeps s).symm⟩) _ hwithin
  have heffD : (m1.heap e.2).isEffectivelyEnabled E = (m.heap e.2).isAvailableForHostPlatform E := by
    cases ha : (m.heap e.2).isAvailableForHostPlatform E
    · exact isEffectivelyEnabled_not_available E _ (by rw [hav]; exact ha)
    · exact p3 P hP heffP e (by rw [hdeps]; exact he) (Or.inl ht) (by rw [hav]; exact ha)
  obtain ⟨queue, m0, hq, _⟩ := loadQueue_ordered m1 hwithin1
  obtain ⟨m', e'⟩ := loadPlugins_returns E C m1 hwithin1
  refine ⟨m1, e1, heffP, heffD, queue, m0, m', hq, e', fun hna => ?_⟩
  obtain ⟨m'', e'', herr, hmsg⟩ := loadPlugins_dependency_not_enabled E C m1 hfresh1 hwithin1 P
    (by rw [p1]; exact hP) heffP (by rw [hst]; exact hres) e (by rw [hdeps]; exact he) ht
    (by rw [heffD]; exact hna)
  rw [e'] at e''
  simp only [Option.some.injEq] at e''
  subst e''
  refine ⟨herr, fun h0 => ?_, fun h0 => ?_⟩
  · obtain ⟨m3, e3, _, hkeep⟩ := loadPlugins_keeps_queue_error E C m1 queue m0 hq P h0
    rw [e'] at e3
    simp only [Option.some.injEq] at e3
    subst e3
    exact hkeep
  · obtain ⟨d, hd, hdt, h', hm, hn, hv⟩ := hmsg queue m0 hq h0
    refine ⟨d, by rw [← hdeps]; exact hd, hdt, (h' d.2).errorString, fun hpn hpv => ?_⟩
    rw [hm, msgDependencyNotLoaded_eq h' d.2 (by rw [hn, (hid d.2).1]; exact hpn)
      (by rw [hv, (hid d.2).2]; exact hpv), hn, hv, (hid d.2).1, (hid d.2).2]

theorem scenarioCoreOtherPlatform_fresh :
    ∀ s, (scenarioCoreOtherPlatform.heap s).state.toNat ≤ State.Resolved.toNat := by
  intro s
  unfold scenarioCoreOtherPlatform
  simp only
  by_cases h0 : s = 0
  · subst h0
    decide
  · rw [Heap.set_other _ _ _ _ h0]
    exact scenarioChainManager_fresh s

set_option maxRecDepth 100000 in
/-- C17, witness: in the scenario `Core`, `A`, `B` the spec `Core` is disabled in
the settings and not available for the host platform; `A` requires it and ends
with an error naming `Core` and its version. -/
theorem required_dependency_enabled_indirectly_witness :
    (∀ s, (scenarioCoreOtherPlatform.heap s).state.toNat ≤ State.Resolved.toNat)
      ∧ dependenciesWithin scenarioCoreOtherPlatform.heap scenarioCoreOtherPlatform.pluginSpecs
      ∧ 1 ∈ scenarioCoreOtherPlatform.pluginSpecs
      ∧ ((scenarioCoreOtherPlatform.heap 1).setEnabledIndirectly false).isEffectivelyEnabled
          otherPlatformEnv = true
      ∧ (scenarioCoreOtherPlatform.heap 1).state = State.Resolved
      ∧ ((⟨"Core".toList, "1.5".toList, DependencyType.Required⟩, 0) : PluginDependency × Nat)
          ∈ (scenarioCoreOtherPlatform.heap 1).dependencySpecs
      ∧ (scenarioCoreOtherPlatform.heap 0).isAvailableForHostPlatform otherPlatformEnv = false
      ∧ (∃ m1, scenarioCoreOtherPlatform.enableDependenciesIndirectly otherPlatformEnv = some m1
        ∧ (m1.heap 1).isEffectivelyEnabled otherPlatformEnv = true
        ∧ (m1.heap 0).isEffectivelyEnabled otherPlatformEnv
          = (scenarioCoreOtherPlatform.heap 0).isAvailableForHostPlatform otherPlatformEnv
        ∧ ∃ queue m0 m', m1.loadQueue = some (queue, m0)
          ∧ m1.loadPlugins otherPlatformEnv scenarioCallbacks = some m'
          ∧ ((scenarioCoreOtherPlatform.heap 0).isAvailableForHostPlatform otherPlatformEnv
              = false →
            (m'.heap 1).hasError = true
              ∧ ((m0.heap 1).hasError = true →
                (m'.heap 1).errorString = (m0.heap 1).errorString)
              ∧ ((m0.heap 1).hasError = false →
                ∃ e' ∈ (scenarioCoreOtherPlatform.heap 1).dependencySpecs,
                  e'.1.type = DependencyType.Required
                  ∧ ∃ reason : QString,
                    ('%' ∉ (scenarioCoreOtherPlatform.heap e'.2).name →
                      '%' ∉ (scenarioCoreOtherPlatform.heap e'.2).version →
                      (m'.heap 1).errorString
                        = tr "Cannot load plugin because dependency failed to load: "
                          ++ (scenarioCoreOtherPlatform.heap e'.2).name
                          ++ '(' :: ((scenarioCoreOtherPlatform.heap e'.2).version
                            ++ tr ")\nReason: " ++ reason)))))
      ∧ ((scenarioCoreOtherPlatform.enableDependenciesIndirectly otherPlatformEnv).bind
          PluginManagerPrivate.loadQueue).map (fun r => (r.2.heap 1).hasError) = some false
      ∧ ((scenarioCoreOtherPlatform.enableDependenciesIndirectly otherPlatformEnv).bind
          (PluginManagerPrivate.loadPlugins otherPlatformEnv scenarioCallbacks)).map (fun m' =>
            ((m'.heap 1).name, (m'.heap 1).hasError, (m'.heap 1).errorString))
        = some ("A".toList, true,
            "Cannot load plugin because dependency failed to load: Core(2.0)\nReason: ".toList) :=
  ⟨scenarioCoreOtherPlatform_fresh, by unfold dependenciesWithin; decide, by decide, by decide,
    by decide, by decide, by decide,
    required_dependency_enabled_indirectly otherPlatformEnv scenarioCallbacks
      scenarioCoreOtherPlatform scenarioCoreOtherPlatform_fresh
      (by unfold dependenciesWithin; decide) 1 (by decide) (by decide) (by decide)
      (⟨"Core".toList, "1.5".toList, DependencyType.Required⟩, 0) (by decide) rfl,
    by decide, by decide⟩

set_option maxRecDepth 100000 in
/-- C17, counterexample. In the scenario `Core`, `A`, `B`, where `A` requires
`Core`, `Core` is disabled in the settings or force-disabled; after
`enableDependenciesIndirectly()` and `loadPlugins()` the spec `Core` is enabled
indirectly, and `A` is in state `Running` without error and with an empty
`errorString`. -/
theorem disabled_dependency_is_loaded :
    ((scenarioCoreDisabled.heap 0).name, (scenarioCoreDisabled.heap 0).enabledBySettings,
        (scenarioCoreDisabled.heap 0).isEffectivelyEnabled plainEnv,
        (scenarioCoreDisabled.heap 1).name,
        (scenarioCoreDisabled.heap 1).isEffectivelyEnabled plainEnv)
      = ("Core".toList, false, false, "A".toList, true)
    ∧ (scenarioCoreDisabled.heap 1).dependencySpecs.map (fun e => (e.1.type, e.2))
      = [(DependencyType.Required, 0)]
    ∧ ((scenarioCoreDisabled.enableDependenciesIndirectly plainEnv).bind
        (PluginManagerPrivate.loadPlugins plainEnv scenarioCallbacks)).map (fun m' =>
          m'.pluginSpecs.map (fun a => ((m'.heap a).name, (m'.heap a).state,
            (m'.heap a).hasError, (m'.heap a).errorString)))
      = some [("A".toList, State.Running, false, []), ("B".toList, State.Running, false, []),
          ("Core".toList, State.Running, false, [])]
    ∧ ((scenarioCoreForceDisabled.heap 0).name, (scenarioCoreForceDisabled.heap 0).forceDisabled,
        (scenarioCoreForceDisabled.heap 0).isEffectivelyEnabled plainEnv,
        (scenarioCoreForceDisabled.heap 1).isEffectivelyEnabled plainEnv)
      = ("Core".toList, true, false, true)
    ∧ ((scenarioCoreForceDisabled.enableDependenciesIndirectly plainEnv).bind
        (PluginManagerPrivate.loadPlugins plainEnv scenarioCallbacks)).map (fun m' =>
          m'.pluginSpecs.map (fun a => ((m'.heap a).name, (m'.heap a).state,
            (m'.heap a).hasError, (m'.heap a).errorString)))
      = some [("A".toList, State.Running, false, []), ("B".toList, State.Running, false, []),
          ("Core".toList, State.Running, false, [])] := by
  refine ⟨by decide, by decide, by decide, by decide, by decide⟩

/-! ## Order of the shutdown -/

theorem loadPluginCalls_stopped (E : QtEnv) (C : Callbacks) (m : PluginManagerPrivate)
    (X : Nat) (h : Invocation.aboutToShutdown X ∈ m.loadPluginCalls E C X State.Stopped) :
    (m.heap X).hasError = false ∧ (m.heap X).state = State.Running
      ∧ ∀ e ∈ (m.heap X).dependencySpecs, e.1.type = DependencyType.Required →
          (m.heap e.2).state = State.Stopped := by
  unfold PluginManagerPrivate.loadPluginCalls at h
  split at h
  · cases h
  · rename_i g1
    split at h
    · cases h
    · simp only at h
      cases hf : PluginManagerPrivate.firstDependencyNotIn m.heap State.Stopped
          (m.heap X).dependencySpecs with
      | some d => rw [hf] at h; cases h
      | none =>
        have he : (m.heap X).hasError = false := by
          cases hh : (m.heap X).hasError
          · rfl
          · exact absurd (Or.inl hh) g1
        have hs : (m.heap X).state = State.Running := by
          have : ((m.heap X).state.toNat : Int) = (State.Stopped.toNat : Int) - 1 :=
            not_not.1 (fun hh => g1 (Or.inr hh))
          revert this
          cases (m.heap X).state <;> simp [State.toNat]
        exact ⟨he, hs, firstDependencyNotIn_eq_none _ _ _ hf⟩

theorem loadPlugin_stopped_blocked (E : QtEnv) (C : Callbacks) (m : PluginManagerPrivate)
    (X : Nat) (he : (m.heap X).hasError = false) (hs : (m.heap X).state = State.Running)
    (e : PluginDependency × Nat) (hmem : e ∈ (m.heap X).dependencySpecs)
    (ht : e.1.type = DependencyType.Required) (hne : (m.heap e.2).state ≠ State.Stopped) :
    m.loadPluginCalls E C X State.Stopped = []
      ∧ ((m.loadPlugin E C X State.Stopped).heap X).hasError = true
      ∧ ((m.loadPlugin E C X State.Stopped).heap X).state = State.Running := by
  cases hf : PluginManagerPrivate.firstDependencyNotIn m.heap State.Stopped
      (m.heap X).dependencySpecs with
  | none => exact absurd (firstDependencyNotIn_eq_none _ _ _ hf e hmem ht) hne
  | some depSpec =>
    have g1 : ¬ ((m.heap X).hasError = true
        ∨ ((m.heap X).state.toNat : Int) ≠ (State.Stopped.toNat : Int) - 1) := by
      rw [he, hs]
      decide
    refine ⟨?_, ?_⟩
    · unfold PluginManagerPrivate.loadPluginCalls
      rw [if_neg g1]
      simp only [hf]
      split <;> rfl
    · rw [loadPlugin_dependency_message E C m X State.Stopped depSpec he (by rw [hs]; rfl)
        (fun h => by cases h) (Or.inr (Or.inr rfl)) hf]
      exact ⟨rfl, hs⟩

set_option maxRecDepth 100000 in
/-- C21. `stopAll()` is the sequence of attempts on the load queue `queue` in
which attempt `i` is the transition to `Stopped` of `queue[i]`: the queue is
walked from the first spec to the last, so that a plugin is stopped after every
plugin it requires. `loadPlugin(X, Stopped)` calls `aboutToShutdown()` of X only
when every required resolved dependency of X is in state `Stopped`; for a
running spec X with a required dependency that is not stopped it makes no call
and records an error on X. In the scenario `Core`, `A`, `B`, after
`loadPlugins()`, `aboutToShutdown()` is called in the order `Core`, `A`, `B`. -/
theorem stopAll_attempt_order (E : QtEnv) (C : Callbacks) (m : PluginManagerPrivate) :
    m.stopAll E C
        = m.loadQueue.map (fun r => (stopAllAttempts r.1).foldl (Call.run E C) r.2)
      ∧ (∀ (queue : List Nat) (i : Nat), i < queue.length →
          (stopAllAttempts queue)[i]?
            = queue[i]?.map (fun spec => Call.loadPlugin spec State.Stopped))
      ∧ (∀ X, Invocation.aboutToShutdown X ∈ m.loadPluginCalls E C X State.Stopped →
          ∀ e ∈ (m.heap X).dependencySpecs, e.1.type = DependencyType.Required →
            (m.heap e.2).state = State.Stopped)
      ∧ (∀ X, (m.heap X).hasError = false → (m.heap X).state = State.Running →
          ∀ e ∈ (m.heap X).dependencySpecs, e.1.type = DependencyType.Required →
            (m.heap e.2).state ≠ State.Stopped →
            m.loadPluginCalls E C X State.Stopped = []
              ∧ ((m.loadPlugin E C X State.Stopped).heap X).hasError = true
              ∧ ((m.loadPlugin E C X State.Stopped).heap X).state = State.Running)
      ∧ (((scenarioChain.bind (PluginManagerPrivate.loadPlugins plainEnv scenarioCallbacks)).bind
          PluginManagerPrivate.loadQueue).map (fun r =>
            (r.1.map (fun a => (r.2.heap a).name),
              invocationsOf plainEnv scenarioCallbacks (stopAllAttempts r.1) r.2))
        = some (["Core".toList, "A".toList, "B".toList],
            [Invocation.aboutToShutdown 0, Invocation.aboutToShutdown 1,
              Invocation.aboutToShutdown 2])) := by
  refine ⟨?_, fun queue i hi => ?_, fun X h => (loadPluginCalls_stopped E C m X h).2.2,
    fun X he hs e hmem ht hne => loadPlugin_stopped_blocked E C m X he hs e hmem ht hne,
    by decide⟩
  · unfold PluginManagerPrivate.stopAll
    cases m.loadQueue with
    | none => rfl
    | some r =>
      obtain ⟨queue, m0⟩ := r
      simp only [Option.map_some', stopAllAttempts_run]
  · unfold stopAllAttempts
    rw [List.getElem?_map]

set_option maxRecDepth 100000 in
/-- C21, counterexample. In the scenario `Core`, `A` (requires `Core`), `B`
(requires `A`), after `loadPlugins()` the three plugins run; `stopAll()` calls
`aboutToShutdown()` of `Core` first, then of `A`, then of `B`: `Core` is stopped
before the plugins that require it, in the order of the initialization. -/
theorem stopAll_stops_dependencies_first :
    (scenarioChain.bind (PluginManagerPrivate.loadPlugins plainEnv scenarioCallbacks)).map
        (fun m => ([0, 1, 2].map (fun a => ((m.heap a).name, (m.heap a).state)),
          (m.heap 1).dependencySpecs.map (fun e => (e.1.type, e.2))))
      = some ([("Core".toList, State.Running), ("A".toList, State.Running),
          ("B".toList, State.Running)], [(DependencyType.Required, 0)])
    ∧ ((scenarioChain.bind (PluginManagerPrivate.loadPlugins plainEnv scenarioCallbacks)).bind
        PluginManagerPrivate.loadQueue).map (fun r =>
          invocationsOf plainEnv scenarioCallbacks (stopAllAttempts r.1) r.2)
      = some [Invocation.aboutToShutdown 0, Invocation.aboutToShutdown 1,
          Invocation.aboutToShutdown 2]
    ∧ ((scenarioChain.bind (PluginManagerPrivate.loadPlugins plainEnv scenarioCallbacks)).bind
        (PluginManagerPrivate.stopAll plainEnv scenarioCallbacks)).map
        (fun m => [0, 1, 2].map (fun a => ((m.heap a).state, (m.heap a).hasError)))
      = some [(State.Stopped, false), (State.Stopped, false), (State.Stopped, false)] := by
  refine ⟨by decide, by decide, by decide⟩

/-! ## Specs after `loadPlugins` -/

theorem foldl_heap_untouched (step : PluginManagerPrivate → Nat → PluginManagerPrivate)
    (hother : ∀ m X s, s ≠ X → (step m X).heap s = m.heap s) (s : Nat) :
    ∀ (l : List Nat) (m : PluginManagerPrivate), s ∉ l → (l.foldl step m).heap s = m.heap s := by
  intro l
  induction l with
  | nil => intro m _; rfl
  | cons a rest ih =>
    intro m hs
    simp only [List.foldl_cons]
    rw [ih _ (fun h => hs (List.mem_cons_of_mem _ h)), hother m a s (fun e => hs (by simp [e]))]

/-- The forward passes of `loadPlugins` keep every spec either as it was below
`Loaded`, without plugin instance, or in state `Loaded` or `Initialized` with a
plugin instance. -/
theorem loadPlugin_forward_shape (E : QtEnv) (C : Callbacks) (m : PluginManagerPrivate)
    (spec : Nat) (destState : State)
    (hd : destState = State.Loaded ∨ destState = State.Initialized) (s : Nat) (st : State)
    (h : ((m.heap s).state.toNat ≤ 2 ∧ (m.heap s).plugin = none ∧ (m.heap s).state = st)
      ∨ (((m.heap s).state = State.Loaded ∨ (m.heap s).state = State.Initialized)
        ∧ (m.heap s).plugin.isSome = true)) :
    (((m.loadPlugin E C spec destState).heap s).state.toNat ≤ 2
        ∧ ((m.loadPlugin E C spec destState).heap s).plugin = none
        ∧ ((m.loadPlugin E C spec destState).heap s).state = st)
      ∨ ((((m.loadPlugin E C spec destState).heap s).state = State.Loaded
          ∨ ((m.loadPlugin E C spec destState).heap s).state = State.Initialized)
        ∧ ((m.loadPlugin E C spec destState).heap s).plugin.isSome = true) := by
  by_cases hs : s = spec
  · subst hs
    rcases loadPlugin_cases E C m s destState with ⟨u, _⟩ | ⟨_, _, _, ⟨msg, u⟩ | ⟨p, u, hp⟩⟩
    · rw [u]
      exact h
    · rw [u]
      exact h
    · rw [u]
      right
      refine ⟨hd, hp ?_⟩
      rcases hd with hd | hd <;> rw [hd] <;> decide
  · rw [loadPlugin_other E C m spec destState s hs]
    exact h

theorem loadPluginsRunning_heap (E : QtEnv) (C : Callbacks) (m : PluginManagerPrivate)
    (spec : Nat) :
    (PluginManagerPrivate.loadPluginsRunning E C m spec).heap spec
      = if ((m.loadPlugin E C spec State.Running).heap spec).state = State.Running then
          (m.loadPlugin E C spec State.Running).heap spec
        else ((m.loadPlugin E C spec State.Running).heap spec).kill := by
  unfold PluginManagerPrivate.loadPluginsRunning
  simp only
  split
  · rfl
  · simp only [Heap.set_same]

/-- The body of the reverse loop of `loadPlugins` on a spec: a spec below
`Loaded` without instance stays as it is, a spec in state `Loaded` or
`Initialized` with an instance ends running without error or deleted without
instance, and running and deleted specs stay. -/
theorem loadPluginsRunning_shape (E : QtEnv) (C : Callbacks) (m : PluginManagerPrivate)
    (spec : Nat) (s : Nat) (d2 : PluginSpec) (st : State)
    (h : ((m.heap s).state.toNat ≤ 2 ∧ (m.heap s).plugin = none ∧ (m.heap s).state = st)
      ∨ (m.heap s = d2 ∧ (d2.state = State.Loaded ∨ d2.state = State.Initialized)
        ∧ d2.plugin.isSome = true)
      ∨ ((m.heap s).state = State.Running ∧ (m.heap s).plugin.isSome = true
        ∧ (m.heap s).hasError = false ∧ d2.state = State.Initialized)
      ∨ ((m.heap s).state = State.Deleted ∧ (m.heap s).plugin = none
        ∧ (d2.state = State.Loaded ∨ d2.state = State.Initialized))) :
    ((((PluginManagerPrivate.loadPluginsRunning E C m spec).heap s).state.toNat ≤ 2
        ∧ ((PluginManagerPrivate.loadPluginsRunning E C m spec).heap s).plugin = none
        ∧ ((PluginManagerPrivate.loadPluginsRunning E C m spec).heap s).state = st)
      ∨ ((PluginManagerPrivate.loadPluginsRunning E C m spec).heap s = d2
        ∧ (d2.state = State.Loaded ∨ d2.state = State.Initialized)
        ∧ d2.plugin.isSome = true)
      ∨ (((PluginManagerPrivate.loadPluginsRunning E C m spec).heap s).state = State.Running
        ∧ ((PluginManagerPrivate.loadPluginsRunning E C m spec).heap s).plugin.isSome = true
        ∧ ((PluginManagerPrivate.loadPluginsRunning E C m spec).heap s).hasError = false
        ∧ d2.state = State.Initialized)
      ∨ (((PluginManagerPrivate.loadPluginsRunning E C m spec).heap s).state = State.Deleted
        ∧ ((PluginManagerPrivate.loadPluginsRunning E C m spec).heap s).plugin = none
        ∧ (d2.state = State.Loaded ∨ d2.state = State.Initialized)))
      ∧ (s = spec →
        ¬ ((PluginManagerPrivate.loadPluginsRunning E C m spec).heap s = d2
          ∧ (d2.state = State.Loaded ∨ d2.state = State.Initialized)
          ∧ d2.plugin.isSome = true)) := by
  by_cases hs : s = spec
  swap
  · rw [loadPluginsRunning_other E C m spec s hs]
    exact ⟨h, fun e => absurd e hs⟩
  subst hs
  have hkill : ∀ d : PluginSpec, d.plugin.isSome = true →
      d.kill = { d with plugin := none, state := State.Deleted } := by
    intro d hp
    unfold PluginSpec.kill
    cases hpl : d.plugin with
    | none => rw [hpl] at hp; cases hp
    | some p => rfl
  have hnone : ∀ d : PluginSpec, d.plugin.isSome = true → d.plugin ≠ none := by
    intro d hp e
    rw [e] at hp
    cases hp
  rw [loadPluginsRunning_heap]
  rcases h with ⟨a1, a2, a3⟩ | ⟨b1, b2, b3⟩ | ⟨r1, r2, r3, r4⟩ | ⟨t1, t2, t3⟩
  · -- below `Loaded`
    have e1 : m.loadPlugin E C s State.Running = m :=
      loadPlugin_below E C m s State.Running (by show (m.heap s).state.toNat + 1 < 5; omega)
    rw [e1]
    have hnr : (m.heap s).state ≠ State.Running := by
      intro e
      rw [e] at a1
      simp [State.toNat] at a1
    rw [if_neg hnr, kill_none _ a2]
    refine ⟨Or.inl ⟨a1, a2, a3⟩, fun _ hb => ?_⟩
    rw [← hb.1] at hb
    exact hnone _ hb.2.2 a2
  · -- loaded or initialized
    rcases loadPlugin_cases E C m s State.Running with ⟨u, _⟩ | ⟨he, hst, _, ⟨msg, u⟩ | ⟨p, u, hp⟩⟩
    · have hnr : ((m.loadPlugin E C s State.Running).heap s).state ≠ State.Running := by
        rw [u, b1]
        rcases b2 with e | e <;> rw [e] <;> decide
      rw [if_neg hnr, u, hkill _ (by rw [b1]; exact b3)]
      refine ⟨Or.inr (Or.inr (Or.inr ⟨rfl, rfl, b2⟩)), fun _ hb => ?_⟩
      have := congrArg PluginSpec.plugin hb.1
      exact hnone _ b3 this.symm
    · have hnr : ((m.loadPlugin E C s State.Running).heap s).state ≠ State.Running := by
        rw [u]
        show (m.heap s).state ≠ State.Running
        rw [b1]
        rcases b2 with e | e <;> rw [e] <;> decide
      rw [if_neg hnr, u, hkill _ (by show (m.heap s).plugin.isSome = true; rw [b1]; exact b3)]
      refine ⟨Or.inr (Or.inr (Or.inr ⟨rfl, rfl, b2⟩)), fun _ hb => ?_⟩
      have := congrArg PluginSpec.plugin hb.1
      exact hnone _ b3 this.symm
    · have hr : ((m.loadPlugin E C s State.Running).heap s).state = State.Running := by
        rw [u]
      rw [if_pos hr, u]
      have hi : d2.state = State.Initialized := by
        rw [b1] at hst
        revert hst
        cases d2.state <;> simp [State.toNat]
      refine ⟨Or.inr (Or.inr (Or.inl ⟨rfl, hp (by decide), he, hi⟩)), fun _ hb => ?_⟩
      have := congrArg PluginSpec.state hb.1
      rw [hi] at this
      cases this
  · -- running
    have e1 : m.loadPlugin E C s State.Running = m := by
      unfold PluginManagerPrivate.loadPlugin
      rw [if_pos]
      right
      rw [r1]
      decide
    rw [e1, if_pos r1]
    refine ⟨Or.inr (Or.inr (Or.inl ⟨r1, r2, r3, r4⟩)), fun _ hb => ?_⟩
    rw [← hb.1, r1] at hb
    rcases hb.2.1 with e | e <;> cases e
  · -- deleted
    have e1 : m.loadPlugin E C s State.Running = m := by
      unfold PluginManagerPrivate.loadPlugin
      rw [if_pos]
      right
      rw [t1]
      decide
    rw [e1]
    have hnr : (m.heap s).state ≠ State.Running := by
      rw [t1]
      decide
    rw [if_neg hnr, kill_none _ t2]
    refine ⟨Or.inr (Or.inr (Or.inr ⟨t1, t2, t3⟩)), fun _ hb => ?_⟩
    rw [← hb.1] at hb
    exact hnone _ hb.2.2 t2

theorem scenarioChainManager_unloaded :
    ∀ s, (scenarioChainManager.heap s).state.toNat ≤ State.Resolved.toNat
      ∧ (scenarioChainManager.heap s).plugin = none := by
  intro s
  unfold scenarioChainManager
  simp only
  split
  · rename_i h3
    interval_cases s <;> decide
  · decide

/-- C22. On a manager in which no spec is beyond `Resolved` or has a plugin
instance, `loadPlugins()` returns, and afterwards every spec of the load queue
is in state `Running` (with its plugin instance, without error), or is in state
`Deleted` without plugin instance and was in state `Loaded` or `Initialized`
after the two forward passes, or is in the state it had before, below `Loaded`,
without plugin instance. No spec is in state `Loaded` or `Initialized`. -/
theorem loadPlugins_none_half_initialized (E : QtEnv) (C : Callbacks)
    (m : PluginManagerPrivate)
    (hfresh : ∀ s, (m.heap s).state.toNat ≤ State.Resolved.toNat ∧ (m.heap s).plugin = none)
    (hwithin : dependenciesWithin m.heap m.pluginSpecs) :
    ∃ queue m0 m', m.loadQueue = some (queue, m0) ∧ m.loadPlugins E C = some m'
      ∧ (∀ X ∈ queue,
          ((m'.heap X).state = State.Running ∧ (m'.heap X).plugin.isSome = true
            ∧ (m'.heap X).hasError = false)
          ∨ ((m'.heap X).state = State.Deleted ∧ (m'.heap X).plugin = none
            ∧ (((queue.foldl (fun m spec => m.loadPlugin E C spec State.Initialized)
                  (queue.foldl (fun m spec => m.loadPlugin E C spec State.Loaded) m0)).heap
                    X).state = State.Loaded
              ∨ ((queue.foldl (fun m spec => m.loadPlugin E C spec State.Initialized)
                  (queue.foldl (fun m spec => m.loadPlugin E C spec State.Loaded) m0)).heap
                    X).state = State.Initialized))
          ∨ ((m'.heap X).state = (m.heap X).state
            ∧ (m'.heap X).state.toNat < State.Loaded.toNat ∧ (m'.heap X).plugin = none))
      ∧ ∀ s, (m'.heap s).state ≠ State.Loaded ∧ (m'.heap s).state ≠ State.Initialized := by
  obtain ⟨queue, m0, eq, sg, _, _, _⟩ := loadQueue_ordered m hwithin
  obtain ⟨er, _, _⟩ := loadQueue_errorsRecorded m queue m0 eq
  refine ⟨queue, m0, queue.reverse.foldl (PluginManagerPrivate.loadPluginsRunning E C)
    (queue.foldl (fun m spec => m.loadPlugin E C spec State.Initialized)
      (queue.foldl (fun m spec => m.loadPlugin E C spec State.Loaded) m0)), eq, ?_, ?_⟩
  · unfold PluginManagerPrivate.loadPlugins PluginManagerPrivate.reverseForeach
    rw [eq]
  have h0 : ∀ s, ((m0.heap s).state.toNat ≤ 2 ∧ (m0.heap s).plugin = none
        ∧ (m0.heap s).state = (m.heap s).state)
      ∨ (((m0.heap s).state = State.Loaded ∨ (m0.heap s).state = State.Initialized)
        ∧ (m0.heap s).plugin.isSome = true) := by
    intro s
    left
    rw [errorsRecorded_plugin er s, ← (sg s).1]
    exact ⟨(hfresh s).1, (hfresh s).2, rfl⟩
  have h12 := foldl_invariant (fun m spec => m.loadPlugin E C spec State.Initialized)
    (fun mm => ∀ s, ((mm.heap s).state.toNat ≤ 2 ∧ (mm.heap s).plugin = none
        ∧ (mm.heap s).state = (m.heap s).state)
      ∨ (((mm.heap s).state = State.Loaded ∨ (mm.heap s).state = State.Initialized)
        ∧ (mm.heap s).plugin.isSome = true))
    (fun mm Y hh s => loadPlugin_forward_shape E C mm Y _ (Or.inr rfl) s _ (hh s)) queue _
    (foldl_invariant (fun m spec => m.loadPlugin E C spec State.Loaded)
      (fun mm => ∀ s, ((mm.heap s).state.toNat ≤ 2 ∧ (mm.heap s).plugin = none
          ∧ (mm.heap s).state = (m.heap s).state)
        ∨ (((mm.heap s).state = State.Loaded ∨ (mm.heap s).state = State.Initialized)
          ∧ (mm.heap s).plugin.isSome = true))
      (fun mm Y hh s => loadPlugin_forward_shape E C mm Y _ (Or.inl rfl) s _ (hh s)) queue m0 h0)
  have hunt : ∀ s, s ∉ queue →
      ((queue.foldl (fun m spec => m.loadPlugin E C spec State.Initialized)
        (queue.foldl (fun m spec => m.loadPlugin E C spec State.Loaded) m0)).heap s).state
        = (m.heap s).state := by
    intro s hs
    rw [foldl_heap_untouched (fun m spec => m.loadPlugin E C spec State.Initialized)
        (fun mm X t ht => loadPlugin_other E C mm X _ t ht) s queue _ hs,
      foldl_heap_untouched (fun m spec => m.loadPlugin E C spec State.Loaded)
        (fun mm X t ht => loadPlugin_other E C mm X _ t ht) s queue _ hs, ← (sg s).1]
  generalize (queue.foldl (fun m spec => m.loadPlugin E C spec State.Initialized)
      (queue.foldl (fun m spec => m.loadPlugin E C spec State.Loaded) m0)) = m2 at h12 hunt ⊢
  have h3 := foldl_member (PluginManagerPrivate.loadPluginsRunning E C)
    (fun mm => ∀ s, ((mm.heap s).state.toNat ≤ 2 ∧ (mm.heap s).plugin = none
        ∧ (mm.heap s).state = (m.heap s).state)
      ∨ (mm.heap s = m2.heap s
        ∧ ((m2.heap s).state = State.Loaded ∨ (m2.heap s).state = State.Initialized)
        ∧ (m2.heap s).plugin.isSome = true)
      ∨ ((mm.heap s).state = State.Running ∧ (mm.heap s).plugin.isSome = true
        ∧ (mm.heap s).hasError = false ∧ (m2.heap s).state = State.Initialized)
      ∨ ((mm.heap s).state = State.Deleted ∧ (mm.heap s).plugin = none
        ∧ ((m2.heap s).state = State.Loaded ∨ (m2.heap s).state = State.Initialized)))
    (fun mm X => ¬ (mm.heap X = m2.heap X
        ∧ ((m2.heap X).state = State.Loaded ∨ (m2.heap X).state = State.Initialized)
        ∧ (m2.heap X).plugin.isSome = true))
    (fun mm Y hh s => (loadPluginsRunning_shape E C mm Y s (m2.heap s) _ (hh s)).1)
    (fun mm X hh => (loadPluginsRunning_shape E C mm X X (m2.heap X) _ (hh X)).2 rfl)
    (fun mm X Y hh hq => by
      by_cases hYX : Y = X
      · subst hYX
        exact (loadPluginsRunning_shape E C mm Y Y (m2.heap Y) _ (hh Y)).2 rfl
      · show ¬ ((PluginManagerPrivate.loadPluginsRunning E C mm X).heap Y = m2.heap Y ∧ _)
        rw [loadPluginsRunning_other E C mm X Y hYX]
        exact hq)
    queue.reverse m2
    (fun s => by
      rcases h12 s with h | h
      · exact Or.inl h
      · exact Or.inr (Or.inl ⟨rfl, h.1, h.2⟩))
  have hinv3 := foldl_invariant (PluginManagerPrivate.loadPluginsRunning E C)
    (fun mm => ∀ s, ((mm.heap s).state.toNat ≤ 2 ∧ (mm.heap s).plugin = none
        ∧ (mm.heap s).state = (m.heap s).state)
      ∨ (mm.heap s = m2.heap s
        ∧ ((m2.heap s).state = State.Loaded ∨ (m2.heap s).state = State.Initialized)
        ∧ (m2.heap s).plugin.isSome = true)
      ∨ ((mm.heap s).state = State.Running ∧ (mm.heap s).plugin.isSome = true
        ∧ (mm.heap s).hasError = false ∧ (m2.heap s).state = State.Initialized)
      ∨ ((mm.heap s).state = State.Deleted ∧ (mm.heap s).plugin = none
        ∧ ((m2.heap s).state = State.Loaded ∨ (m2.heap s).state = State.Initialized)))
    (fun mm Y hh s => (loadPluginsRunning_shape E C mm Y s (m2.heap s) _ (hh s)).1)
    queue.reverse m2
    (fun s => by
      rcases h12 s with h | h
      · exact Or.inl h
      · exact Or.inr (Or.inl ⟨rfl, h.1, h.2⟩))
  generalize queue.reverse.foldl (PluginManagerPrivate.loadPluginsRunning E C) m2 = m3
    at h3 hinv3 ⊢
  have key : ∀ X ∈ queue,
      ((m3.heap X).state = State.Running ∧ (m3.heap X).plugin.isSome = true
        ∧ (m3.heap X).hasError = false)
      ∨ ((m3.heap X).state = State.Deleted ∧ (m3.heap X).plugin = none
        ∧ ((m2.heap X).state = State.Loaded ∨ (m2.heap X).state = State.Initialized))
      ∨ ((m3.heap X).state = (m.heap X).state
        ∧ (m3.heap X).state.toNat < State.Loaded.toNat ∧ (m3.heap X).plugin = none) := by
    intro X hX
    have hq := h3 X (List.mem_reverse.2 hX)
    rcases hinv3 X with ⟨a1, a2, a3⟩ | b | ⟨r1, r2, r3, _⟩ | ⟨t1, t2, t3⟩
    · exact Or.inr (Or.inr ⟨a3, Nat.lt_succ_of_le a1, a2⟩)
    · exact absurd b hq
    · exact Or.inl ⟨r1, r2, r3⟩
    · exact Or.inr (Or.inl ⟨t1, t2, t3⟩)
  refine ⟨key, fun s => ?_⟩
  by_cases hs : s ∈ queue
  · rcases key s hs with ⟨r1, _⟩ | ⟨t1, _⟩ | ⟨_, a2, _⟩
    · rw [r1]
      exact ⟨by decide, by decide⟩
    · rw [t1]
      exact ⟨by decide, by decide⟩
    · constructor <;> intro e <;> rw [e] at a2 <;> simp [State.toNat] at a2
  · rcases hinv3 s with ⟨a1, _, _⟩ | ⟨b1, b2, b3⟩ | ⟨r1, _⟩ | ⟨t1, _⟩
    · constructor <;> intro e <;> rw [e] at a1 <;> simp [State.toNat] at a1
    · exfalso
      have h2 := (hfresh s).1
      rw [← hunt s hs] at h2
      rcases b2 with e | e <;> rw [e] at h2 <;> simp [State.toNat] at h2
    · rw [r1]
      exact ⟨by decide, by decide⟩
    · rw [t1]
      exact ⟨by decide, by decide⟩

set_option maxRecDepth 100000 in
/-- C22, witness: in the scenario `Core`, `A`, `B` the library of `A` fails to
load and `initialize()` of `Core` fails: after `loadPlugins()` the spec `Core`
is deleted, without instance, and `A` and `B` are still in state `Resolved`. -/
theorem loadPlugins_none_half_initialized_witness :
    (∀ s, (scenarioChainManager.heap s).state.toNat ≤ State.Resolved.toNat
        ∧ (scenarioChainManager.heap s).plugin = none)
      ∧ dependenciesWithin scenarioChainManager.heap scenarioChainManager.pluginSpecs
      ∧ (∃ queue m0 m', scenarioChainManager.loadQueue = some (queue, m0)
        ∧ scenarioChainManager.loadPlugins plainEnv callbacksInitializeFails = some m'
        ∧ (∀ X ∈ queue,
            ((m'.heap X).state = State.Running ∧ (m'.heap X).plugin.isSome = true
              ∧ (m'.heap X).hasError = false)
            ∨ ((m'.heap X).state = State.Deleted ∧ (m'.heap X).plugin = none
              ∧ (((queue.foldl (fun m spec =>
                    m.loadPlugin plainEnv callbacksInitializeFails spec State.Initialized)
                    (queue.foldl (fun m spec =>
                      m.loadPlugin plainEnv callbacksInitializeFails spec State.Loaded) m0)).heap
                      X).state = State.Loaded
                ∨ ((queue.foldl (fun m spec =>
                    m.loadPlugin plainEnv callbacksInitializeFails spec State.Initialized)
                    (queue.foldl (fun m spec =>
                      m.loadPlugin plainEnv callbacksInitializeFails spec State.Loaded) m0)).heap
                      X).state = State.Initialized))
            ∨ ((m'.heap X).state = (scenarioChainManager.heap X).state
              ∧ (m'.heap X).state.toNat < State.Loaded.toNat ∧ (m'.heap X).plugin = none))
        ∧ ∀ s, (m'.heap s).state ≠ State.Loaded ∧ (m'.heap s).state ≠ State.Initialized)
      ∧ (scenarioChainManager.loadPlugins plainEnv callbacksInitializeFails).map (fun m' =>
          m'.pluginSpecs.map (fun a => ((m'.heap a).name, (m'.heap a).state,
            (m'.heap a).plugin)))
        = some [("A".toList, State.Resolved, none), ("B".toList, State.Resolved, none),
            ("Core".toList, State.Deleted, none)]
      ∧ (scenarioChainManager.loadPlugins plainEnv scenarioCallbacks).map (fun m' =>
          m'.pluginSpecs.map (fun a => ((m'.heap a).name, (m'.heap a).state,
            (m'.heap a).plugin)))
        = some [("A".toList, State.Running, some 1), ("B".toList, State.Running, some 2),
            ("Core".toList, State.Running, some 0)] :=
  ⟨scenarioChainManager_unloaded, by unfold dependenciesWithin; decide,
    loadPlugins_none_half_initialized plainEnv callbacksInitializeFails scenarioChainManager
      scenarioChainManager_unloaded (by unfold dependenciesWithin; decide),
    by decide, by decide⟩

/-! ## Delayed initialization -/

theorem nextDelayedInitializeLoop_spec (C : Callbacks) :
    ∀ (queue : List Nat) (heap : Heap) (called : List (Nat × Bool)),
      ∃ entries : List (Nat × Bool),
        (PluginManagerPrivate.nextDelayedInitializeLoop C queue heap called).2.2
            = called ++ entries
          ∧ queue = entries.map Prod.fst
            ++ (PluginManagerPrivate.nextDelayedInitializeLoop C queue heap called).1
          ∧ (∀ c ∈ entries.dropLast, c.2 = false)
          ∧ ((PluginManagerPrivate.nextDelayedInitializeLoop C queue heap called).1 ≠ [] →
              ∃ s, entries.getLast? = some (s, true))
          ∧ (queue ≠ [] → entries ≠ []) := by
  intro queue
  induction queue with
  | nil =>
    intro heap called
    exact ⟨[], by simp [PluginManagerPrivate.nextDelayedInitializeLoop],
      by simp [PluginManagerPrivate.nextDelayedInitializeLoop],
      by simp, by simp [PluginManagerPrivate.nextDelayedInitializeLoop], by simp⟩
  | cons spec rest ih =>
    intro heap called
    simp only [PluginManagerPrivate.nextDelayedInitializeLoop]
    split
    · exact ⟨[(spec, true)], rfl, rfl, by simp, fun _ => ⟨spec, rfl⟩, by simp⟩
    · obtain ⟨entries, e1, e2, e3, e4, _⟩ := ih
        (heap.set spec ((heap spec).delayedInitialize C spec).2) (called ++ [(spec, false)])
      refine ⟨(spec, false) :: entries, ?_, ?_, ?_, ?_, by simp⟩
      · rw [e1]
        simp
      · simp only [List.map_cons, List.cons_append]
        rw [← e2]
      · intro c hc
        cases entries with
        | nil => simp at hc
        | cons a t =>
          simp only [List.dropLast_cons₂, List.mem_cons] at hc
          rcases hc with rfl | hc
          · rfl
          · exact e3 c hc
      · intro hne
        obtain ⟨s, hs⟩ := e4 hne
        refine ⟨s, ?_⟩
        cases entries with
        | nil => simp at hs
        | cons a t =>
          rw [List.getLast?_cons_cons]
          exact hs

theorem nextDelayedInitialize_spec (C : Callbacks) (m : PluginManagerPrivate) :
    (m.delayedInitializeQueue = (m.nextDelayedInitialize C).called.map Prod.fst
        ++ (m.nextDelayedInitialize C).manager.delayedInitializeQueue
      ∧ (∀ c ∈ (m.nextDelayedInitialize C).called.dropLast, c.2 = false)
      ∧ ((m.nextDelayedInitialize C).manager.delayedInitializeQueue ≠ [] →
          ∃ s, (m.nextDelayedInitialize C).called.getLast? = some (s, true))
      ∧ (m.delayedInitializeQueue ≠ [] → (m.nextDelayedInitialize C).called ≠ []))
      ∧ ((m.nextDelayedInitialize C).manager.delayedInitializeQueue = [] →
          (m.nextDelayedInitialize C).manager.m_isInitializationDone = true
            ∧ (m.nextDelayedInitialize C).emitted = [Signal.initializationDone]
            ∧ (m.nextDelayedInitialize C).timerStarted = false)
      ∧ ((m.nextDelayedInitialize C).manager.delayedInitializeQueue ≠ [] →
          (m.nextDelayedInitialize C).manager.m_isInitializationDone = m.m_isInitializationDone
            ∧ (m.nextDelayedInitialize C).emitted = []
            ∧ (m.nextDelayedInitialize C).timerStarted = true) := by
  obtain ⟨entries, e1, e2, e3, e4, e5⟩ :=
    nextDelayedInitializeLoop_spec C m.delayedInitializeQueue m.heap []
  rw [List.nil_append] at e1
  unfold PluginManagerPrivate.nextDelayedInitialize
  simp only
  split
  · rename_i hempty
    have hq := List.isEmpty_iff.1 hempty
    simp only [e1]
    refine ⟨⟨e2, e3, fun h => absurd hq h, e5⟩, fun _ => by simp, fun h => absurd hq h⟩
  · rename_i hne
    have hq : (PluginManagerPrivate.nextDelayedInitializeLoop C m.delayedInitializeQueue
        m.heap []).1 ≠ [] := fun h => hne (List.isEmpty_iff.2 h)
    simp only [e1]
    exact ⟨⟨e2, e3, fun _ => e4 hq, e5⟩, fun h => absurd h hq, fun _ => by simp⟩

theorem delayedInitializeTicks_spec (C : Callbacks) :
    ∀ (fuel : Nat) (m : PluginManagerPrivate), m.delayedInitializeQueue.length < fuel →
      ∃ ticks, PluginManagerPrivate.delayedInitializeTicks C fuel m = some ticks
        ∧ (ticks.map (fun t => t.called.map Prod.fst)).flatten = m.delayedInitializeQueue
        ∧ (∀ t ∈ ticks.dropLast, t.emitted = []
            ∧ t.manager.m_isInitializationDone = m.m_isInitializationDone
            ∧ t.manager.delayedInitializeQueue ≠ [])
        ∧ ∃ last, ticks.getLast? = some last ∧ last.emitted = [Signal.initializationDone]
            ∧ last.manager.m_isInitializationDone = true
            ∧ last.manager.delayedInitializeQueue = [] := by
  intro fuel
  induction fuel with
  | zero => intro m h; exact absurd h (Nat.not_lt_zero _)
  | succ fuel ih =>
    intro m hlen
    obtain ⟨⟨s1, s2, s3, s4⟩, hdone, hmore⟩ := nextDelayedInitialize_spec C m
    simp only [PluginManagerPrivate.delayedInitializeTicks]
    by_cases hq : (m.nextDelayedInitialize C).manager.delayedInitializeQueue = []
    · obtain ⟨d1, d2, d3⟩ := hdone hq
      rw [d3]
      simp only [Bool.false_eq_true, if_false]
      refine ⟨[m.nextDelayedInitialize C], rfl, ?_, by simp, m.nextDelayedInitialize C, rfl, d2,
        d1, hq⟩
      rw [hq, List.append_nil] at s1
      simp [← s1]
    · obtain ⟨d1, d2, d3⟩ := hmore hq
      rw [d3]
      simp only [if_true]
      have hne : m.delayedInitializeQueue ≠ [] := by
        intro h
        rw [h] at s1
        have := congrArg List.length s1
        simp only [List.length_nil, List.length_append, List.length_map] at this
        exact hq (List.length_eq_zero.1 (by omega))
      have hcalled := s4 hne
      have hlt : (m.nextDelayedInitialize C).manager.delayedInitializeQueue.length < fuel := by
        have := congrArg List.length s1
        simp only [List.length_append, List.length_map] at this
        have hpos : 0 < (m.nextDelayedInitialize C).called.length :=
          List.length_pos.2 hcalled
        omega
      obtain ⟨ticks, t1, t2, t3, last, t4, t5, t6, t7⟩ := ih _ hlt
      rw [t1]
      refine ⟨m.nextDelayedInitialize C :: ticks, rfl, ?_, ?_, last, ?_, t5, t6, t7⟩
      · simp only [List.map_cons, List.flatten_cons, t2]
        exact s1.symm
      · intro t ht
        cases ticks with
        | nil => simp at t4
        | cons a rest =>
          simp only [List.dropLast_cons₂, List.mem_cons] at ht
          rcases ht with rfl | ht
          · exact ⟨d2, d1, hq⟩
          · obtain ⟨u1, u2, u3⟩ := t3 t ht
            exact ⟨u1, u2.trans d1, u3⟩
      · cases ticks with
        | nil => simp at t4
        | cons a rest =>
          rw [List.getLast?_cons_cons]
          exact t4

set_option maxRecDepth 100000 in
/-- C23. One run of `nextDelayedInitialize` takes entries from the front of
`delayedInitializeQueue` in order and calls `delayedInitialize` on each: every
call but the last one returned false, the last one returned true when entries
remain, and the remaining entries stay queued in order; with a non-empty queue
at least one call is made. The run sets `m_isInitializationDone`, emits
`initializationDone` and leaves the timer stopped when it leaves the queue
empty; otherwise it leaves `m_isInitializationDone` as it was, emits nothing and
starts the timer again. The runs that follow each other end within `n + 1` runs
(`n` the length of the queue); the specs they call `delayedInitialize` on are,
in order, the entries of the queue, each once, and only the last run sets
`m_isInitializationDone` and emits `initializationDone`. In the scenario `Core`,
`A`, `B` where `delayedInitialize()` of `A` returns true, the first run calls
`B` and `A` and the second `Core`. -/
theorem nextDelayedInitialize_drain (C : Callbacks) (m : PluginManagerPrivate) :
    (m.delayedInitializeQueue = (m.nextDelayedInitialize C).called.map Prod.fst
        ++ (m.nextDelayedInitialize C).manager.delayedInitializeQueue
      ∧ (∀ c ∈ (m.nextDelayedInitialize C).called.dropLast, c.2 = false)
      ∧ ((m.nextDelayedInitialize C).manager.delayedInitializeQueue ≠ [] →
          ∃ s, (m.nextDelayedInitialize C).called.getLast? = some (s, true))
      ∧ (m.delayedInitializeQueue ≠ [] → (m.nextDelayedInitialize C).called ≠ []))
      ∧ ((m.nextDelayedInitialize C).manager.delayedInitializeQueue = [] →
          (m.nextDelayedInitialize C).manager.m_isInitializationDone = true
            ∧ (m.nextDelayedInitialize C).emitted = [Signal.initializationDone]
            ∧ (m.nextDelayedInitialize C).timerStarted = false)
      ∧ ((m.nextDelayedInitialize C).manager.delayedInitializeQueue ≠ [] →
          (m.nextDelayedInitialize C).manager.m_isInitializationDone = m.m_isInitializationDone
            ∧ (m.nextDelayedInitialize C).emitted = []
            ∧ (m.nextDelayedInitialize C).timerStarted = true)
      ∧ (∃ ticks, PluginManagerPrivate.delayedInitializeTicks C
            (m.delayedInitializeQueue.length + 1) m = some ticks
          ∧ (ticks.map (fun t => t.called.map Prod.fst)).flatten = m.delayedInitializeQueue
          ∧ (∀ t ∈ ticks.dropLast, t.emitted = []
              ∧ t.manager.m_isInitializationDone = m.m_isInitializationDone
              ∧ t.manager.delayedInitializeQueue ≠ [])
          ∧ ∃ last, ticks.getLast? = some last ∧ last.emitted = [Signal.initializationDone]
              ∧ last.manager.m_isInitializationDone = true
              ∧ last.manager.delayedInitializeQueue = [])
      ∧ ((scenarioChain.bind (PluginManagerPrivate.loadPlugins plainEnv callbacksDelayed)).map
          (fun m' => (m'.delayedInitializeQueue.map (fun a => (m'.heap a).name),
            m'.m_isInitializationDone))
        = some (["B".toList, "A".toList, "Core".toList], false))
      ∧ (((scenarioChain.bind (PluginManagerPrivate.loadPlugins plainEnv callbacksDelayed)).bind
          (PluginManagerPrivate.delayedInitializeTicks callbacksDelayed 4)).map
            (fun ticks => ticks.map (fun t => (t.called, t.emitted)))
        = some [([(2, false), (1, true)], []), ([(0, false)], [Signal.initializationDone])])
      ∧ (((scenarioChain.bind (PluginManagerPrivate.loadPlugins plainEnv callbacksDelayed)).bind
          (PluginManagerPrivate.delayedInitializeTicks callbacksDelayed 4)).map
            (fun ticks => ticks.map (fun t =>
              (t.manager.delayedInitializeQueue, t.manager.m_isInitializationDone)))
        = some [([0], false), ([], true)]) := by
  obtain ⟨a, b, c⟩ := nextDelayedInitialize_spec C m
  exact ⟨a, b, c, delayedInitializeTicks_spec C _ m (Nat.lt_succ_self _), by decide, by decide,
    by decide⟩

/-! ## Asynchronous shutdown -/

/-- `loadPlugin(X, Stopped)` adds X to `asynchronousPlugins` exactly when it
calls `aboutToShutdown()` of X and the call returns `AsynchronousShutdown`. -/
theorem loadPlugin_stopped_asynchronous (E : QtEnv) (C : Callbacks) (m : PluginManagerPrivate)
    (X s : Nat) :
    s ∈ (m.loadPlugin E C X State.Stopped).asynchronousPlugins
      ↔ s ∈ m.asynchronousPlugins
        ∨ (Invocation.aboutToShutdown s ∈ m.loadPluginCalls E C X State.Stopped
          ∧ C.aboutToShutdownAsynchronous s = true) := by
  unfold PluginManagerPrivate.loadPlugin PluginManagerPrivate.loadPluginCalls
  by_cases g1 : (m.heap X).hasError ∨ ((m.heap X).state.toNat : Int) ≠ (State.Stopped.toNat : Int) - 1
  · rw [if_pos g1, if_pos g1]
    simp
  rw [if_neg g1, if_neg g1]
  have g2 : ¬ (!(m.heap X).isEffectivelyEnabled E && decide (State.Stopped = State.Loaded)) = true := by
    simp
  rw [if_neg g2, if_neg g2]
  simp only
  cases hf : PluginManagerPrivate.firstDependencyNotIn m.heap State.Stopped
      (m.heap X).dependencySpecs with
  | some d => simp
  | none =>
    simp only
    unfold PluginSpec.stop PluginSpec.stopCalls
    by_cases hp : (m.heap X).plugin.isNone = true
    · simp [hp]
    · simp only [hp, Bool.false_eq_true, if_false, List.mem_singleton, Invocation.aboutToShutdown.injEq]
      by_cases hc : C.aboutToShutdownAsynchronous X = true
      · simp only [hc, if_true]
        by_cases hin : m.asynchronousPlugins.contains X = true
        · rw [if_pos hin]
          constructor
          · exact fun h => Or.inl h
          · rintro (h | ⟨rfl, _⟩)
            · exact h
            · exact (contains_eq_true_iff _ _).1 hin
        · rw [if_neg hin]
          simp only [List.mem_append, List.mem_singleton]
          constructor
          · rintro (h | rfl)
            · exact Or.inl h
            · exact Or.inr ⟨rfl, hc⟩
          · rintro (h | ⟨rfl, _⟩)
            · exact Or.inl h
            · exact Or.inr rfl
      · simp only [hc, Bool.false_eq_true, if_false]
        constructor
        · exact fun h => Or.inl h
        · rintro (h | ⟨rfl, h⟩)
          · exact h
          · exact absurd h hc

theorem stopAllAttempts_asynchronous (E : QtEnv) (C : Callbacks) (s : Nat) :
    ∀ (queue : List Nat) (m : PluginManagerPrivate),
      s ∈ ((stopAllAttempts queue).foldl (Call.run E C) m).asynchronousPlugins
        ↔ s ∈ m.asynchronousPlugins
          ∨ (Invocation.aboutToShutdown s ∈ invocationsOf E C (stopAllAttempts queue) m
            ∧ C.aboutToShutdownAsynchronous s = true) := by
  intro queue
  induction queue with
  | nil =>
    intro m
    simp [stopAllAttempts, invocationsOf]
  | cons X rest ih =>
    intro m
    have ih' := ih (m.loadPlugin E C X State.Stopped)
    unfold stopAllAttempts at ih' ⊢
    simp only [List.map_cons, List.foldl_cons, invocationsOf, Call.run, Call.invocations,
      List.mem_append]
    rw [ih', loadPlugin_stopped_asynchronous]
    tauto

theorem stop_plugin (C : Callbacks) (self : Nat) (d : PluginSpec) :
    (d.stop C self).2.plugin = d.plugin := by
  unfold PluginSpec.stop
  split <;> rfl

theorem loadPlugin_stopped_plugin (E : QtEnv) (C : Callbacks) (m : PluginManagerPrivate)
    (X s : Nat) :
    ((m.loadPlugin E C X State.Stopped).heap s).plugin = (m.heap s).plugin := by
  by_cases hs : s = X
  swap
  · rw [loadPlugin_other E C m X _ s hs]
  subst hs
  unfold PluginManagerPrivate.loadPlugin
  split
  · rfl
  · split
    · rfl
    · simp only
      split
      · simp only [Heap.set_same]
      · split <;> simp only [Heap.set_same, stop_plugin]

theorem loadPlugin_deleted_asynchronous (E : QtEnv) (C : Callbacks) (m : PluginManagerPrivate)
    (X : Nat) :
    (m.loadPlugin E C X State.Deleted).asynchronousPlugins = m.asynchronousPlugins := by
  unfold PluginManagerPrivate.loadPlugin
  split
  · rfl
  · split <;> rfl

theorem deleteAll_asynchronous (E : QtEnv) (C : Callbacks) (m m' : PluginManagerPrivate)
    (h : m.deleteAll E C = some m') : m'.asynchronousPlugins = m.asynchronousPlugins := by
  unfold PluginManagerPrivate.deleteAll PluginManagerPrivate.reverseForeach at h
  cases hq : m.loadQueue with
  | none => rw [hq] at h; cases h
  | some r =>
    obtain ⟨queue, m0⟩ := r
    rw [hq] at h
    simp only [Option.some.injEq] at h
    obtain ⟨_, hm0, _⟩ := loadQueue_errorsRecorded m queue m0 hq
    rw [← h]
    have := foldl_invariant (fun m spec => m.loadPlugin E C spec State.Deleted)
      (fun mm => mm.asynchronousPlugins = m.asynchronousPlugins)
      (fun mm Y hh => (loadPlugin_deleted_asynchronous E C mm Y).trans hh) queue.reverse m0
      (by rw [hm0])
    exact this

theorem shutdownEventLoopExec_spec :
    ∀ (finished : List Nat) (m1 : PluginManagerPrivate),
      (∀ m2, PluginManagerPrivate.shutdownEventLoopExec finished m1 = some m2 →
          m2.asynchronousPlugins = [] ∧ m2.heap = m1.heap)
        ∧ ((∃ s ∈ m1.asynchronousPlugins, s ∉ finished) →
          PluginManagerPrivate.shutdownEventLoopExec finished m1 = none) := by
  intro finished
  induction finished with
  | nil =>
    intro m1
    exact ⟨fun m2 h => (by cases h), fun _ => rfl⟩
  | cons spec rest ih =>
    intro m1
    simp only [PluginManagerPrivate.shutdownEventLoopExec]
    split
    · rename_i hexit
      refine ⟨fun m2 h => ?_, fun hex => ?_⟩
      · simp only [Option.some.injEq] at h
        rw [← h]
        exact ⟨List.isEmpty_iff.1 hexit, rfl⟩
      · exfalso
        obtain ⟨s, hs, hn⟩ := hex
        have hempty : (m1.asynchronousPlugins.filter (fun s => s ≠ spec)) = [] :=
          List.isEmpty_iff.1 hexit
        have hne : decide (s ≠ spec) = true := by
          simp only [ne_eq, decide_not, Bool.not_eq_true', decide_eq_false_iff_not]
          exact fun e => hn (by simp [e])
        have : s ∈ m1.asynchronousPlugins.filter (fun s => s ≠ spec) :=
          List.mem_filter.2 ⟨hs, hne⟩
        rw [hempty] at this
        cases this
    · obtain ⟨i1, i2⟩ := ih (m1.asyncShutdownFinished spec).1
      refine ⟨fun m2 h => i1 m2 h, fun hex => i2 ?_⟩
      obtain ⟨s, hs, hn⟩ := hex
      refine ⟨s, List.mem_filter.2 ⟨hs, ?_⟩, fun h => hn (List.mem_cons_of_mem _ h)⟩
      simp only [ne_eq, decide_not, Bool.not_eq_true', decide_eq_false_iff_not]
      exact fun e => hn (by simp [e])

set_option maxRecDepth 100000 in
/-- C24. After `stopAll()`, `asynchronousPlugins` holds the specs it held before
and the specs whose `aboutToShutdown()` was called by `stopAll()` and returned
`AsynchronousShutdown`, and no others; `stopAll()` deletes no plugin instance.
When `shutdown()` returns, `deleteAll()` ran on a manager with an empty
`asynchronousPlugins` and the objects as `stopAll()` left them, and
`asynchronousPlugins` is still empty afterwards; when one of the asynchronous
plugins never signals, `shutdown()` does not return and `deleteAll()` does not
run. `asyncShutdownFinished` removes the spec of the signalling plugin from
`asynchronousPlugins`, changes nothing else, and calls `exit()` of the event
loop exactly when the set is empty afterwards. In the scenario `Core`, `A`, `B`
where `aboutToShutdown()` of `A` returns `AsynchronousShutdown`, the set is
`{A}` after `stopAll()`; `shutdown()` does not return without a signal, and
with the signals of `Core` and `A` it deletes the three plugins. -/
theorem asynchronous_shutdown (E : QtEnv) (C : Callbacks) (m : PluginManagerPrivate) :
    (∀ queue m0 m1, m.loadQueue = some (queue, m0) → m.stopAll E C = some m1 →
        (∀ s, s ∈ m1.asynchronousPlugins
          ↔ s ∈ m.asynchronousPlugins
            ∨ (Invocation.aboutToShutdown s ∈ invocationsOf E C (stopAllAttempts queue) m0
              ∧ C.aboutToShutdownAsynchronous s = true))
        ∧ ∀ s, (m1.heap s).plugin = (m.heap s).plugin)
      ∧ (∀ finished m', m.shutdown E C finished = some m' →
          ∃ m1 m2, m.stopAll E C = some m1 ∧ m2.asynchronousPlugins = []
            ∧ m2.heap = m1.heap ∧ PluginManagerPrivate.deleteAll E C m2 = some m'
            ∧ m'.asynchronousPlugins = [])
      ∧ (∀ finished m1, m.stopAll E C = some m1 →
          (∃ s ∈ m1.asynchronousPlugins, s ∉ finished) → m.shutdown E C finished = none)
      ∧ (∀ spec,
          (m.asyncShutdownFinished spec).1
              = { m with asynchronousPlugins := m.asynchronousPlugins.filter (fun s => s ≠ spec) }
            ∧ (∀ s, s ∈ (m.asyncShutdownFinished spec).1.asynchronousPlugins
                ↔ s ∈ m.asynchronousPlugins ∧ s ≠ spec)
            ∧ ((m.asyncShutdownFinished spec).2 = true
                ↔ (m.asyncShutdownFinished spec).1.asynchronousPlugins = []))
      ∧ (((scenarioChain.bind (PluginManagerPrivate.loadPlugins plainEnv callbacksAsynchronous)).bind
          (PluginManagerPrivate.stopAll plainEnv callbacksAsynchronous)).map
            (fun m1 => (m1.asynchronousPlugins, (m1.heap 1).name))
        = some ([1], "A".toList))
      ∧ (((scenarioChain.bind (PluginManagerPrivate.loadPlugins plainEnv callbacksAsynchronous)).bind
          (PluginManagerPrivate.shutdown plainEnv callbacksAsynchronous [])).isSome = false)
      ∧ (((scenarioChain.bind (PluginManagerPrivate.loadPlugins plainEnv callbacksAsynchronous)).bind
          (PluginManagerPrivate.shutdown plainEnv callbacksAsynchronous [0])).isSome = false)
      ∧ (((scenarioChain.bind (PluginManagerPrivate.loadPlugins plainEnv callbacksAsynchronous)).bind
          (PluginManagerPrivate.shutdown plainEnv callbacksAsynchronous [0, 1])).map
            (fun m' => (m'.asynchronousPlugins,
              [0, 1, 2].map (fun a => ((m'.heap a).state, (m'.heap a).plugin))))
        = some ([], [(State.Deleted, none), (State.Deleted, none), (State.Deleted, none)])) := by
  refine ⟨fun queue m0 m1 hq hs => ?_, fun finished m' h => ?_, fun finished m1 hs hex => ?_,
    fun spec => ⟨rfl, fun s => ?_, ?_⟩, by decide, by decide, by decide, by decide⟩
  · obtain ⟨er, hm0, _⟩ := loadQueue_errorsRecorded m queue m0 hq
    unfold PluginManagerPrivate.stopAll at hs
    rw [hq] at hs
    simp only [Option.some.injEq] at hs
    rw [← stopAllAttempts_run] at hs
    refine ⟨fun s => ?_, fun s => ?_⟩
    · rw [← hs, stopAllAttempts_asynchronous E C s queue m0]
      have : m0.asynchronousPlugins = m.asynchronousPlugins := by rw [hm0]
      rw [this]
    · rw [← hs, stopAllAttempts_run]
      have := foldl_invariant (fun m spec => m.loadPlugin E C spec State.Stopped)
        (fun mm => (mm.heap s).plugin = (m.heap s).plugin)
        (fun mm Y hh => (loadPlugin_stopped_plugin E C mm Y s).trans hh) queue m0
        (errorsRecorded_plugin er s)
      exact this
  · unfold PluginManagerPrivate.shutdown at h
    cases hs : m.stopAll E C with
    | none => rw [hs] at h; cases h
    | some m1 =>
      rw [hs] at h
      simp only at h
      split at h
      · cases he : PluginManagerPrivate.shutdownEventLoopExec finished m1 with
        | none => rw [he] at h; cases h
        | some m2 =>
          rw [he] at h
          obtain ⟨e1, e2⟩ := (shutdownEventLoopExec_spec finished m1).1 m2 he
          exact ⟨m1, m2, rfl, e1, e2, h, (deleteAll_asynchronous E C m2 m' h).trans e1⟩
      · rename_i hne
        have hempty : m1.asynchronousPlugins = [] := by
          cases hl : m1.asynchronousPlugins with
          | nil => rfl
          | cons a t => rw [hl] at hne; simp at hne
        exact ⟨m1, m1, rfl, hempty, rfl, h, (deleteAll_asynchronous E C m1 m' h).trans hempty⟩
  · unfold PluginManagerPrivate.shutdown
    rw [hs]
    simp only
    obtain ⟨s, hmem, hn⟩ := hex
    have hne : (!m1.asynchronousPlugins.isEmpty) = true := by
      cases hl : m1.asynchronousPlugins with
      | nil => rw [hl] at hmem; cases hmem
      | cons a t => rfl
    rw [if_pos hne, (shutdownEventLoopExec_spec finished m1).2 ⟨s, hmem, hn⟩]
  · show s ∈ m.asynchronousPlugins.filter (fun s => s ≠ spec) ↔ _
    simp [List.mem_filter]
  · show (m.asynchronousPlugins.filter (fun s => s ≠ spec)).isEmpty = true
      ↔ m.asynchronousPlugins.filter (fun s => s ≠ spec) = []
    exact List.isEmpty_iff

/-! ## Object pool -/

/-- C25. `addObject` of the null pointer or of an object that is in the pool
returns the manager as it is (the pool with the same contents and size) and
emits no signal; `removeObject` of the null pointer or of an object that is not
in the pool does the same. An object that is not in the pool is appended by
`addObject`, with the signal `objectAdded`; an object of the pool is removed by
`removeObject` after the signal `aboutToRemoveObject`, and is not in the pool
afterwards. A pool without repetition stays without repetition. -/
theorem objectPool_rejects (m : PluginManagerPrivate) :
    m.addObject none = (m, [])
      ∧ (∀ o, o ∈ m.allObjects → m.addObject (some o) = (m, []))
      ∧ m.removeObject none = (m, [])
      ∧ (∀ o, o ∉ m.allObjects → m.removeObject (some o) = (m, []))
      ∧ (∀ o, o ∉ m.allObjects →
          m.addObject (some o)
            = ({ m with allObjects := m.allObjects ++ [o] }, [Signal.objectAdded o]))
      ∧ (∀ o, o ∈ m.allObjects →
          (m.removeObject (some o)).2 = [Signal.aboutToRemoveObject o]
            ∧ (m.removeObject (some o)).1.heap = m.heap
            ∧ (∀ x, x ∈ (m.removeObject (some o)).1.allObjects ↔ x ∈ m.allObjects ∧ x ≠ o)
            ∧ (m.removeObject (some o)).1.allObjects.length < m.allObjects.length)
      ∧ (m.allObjects.Nodup → ∀ obj, (m.addObject obj).1.allObjects.Nodup
          ∧ (m.removeObject obj).1.allObjects.Nodup) := by
  refine ⟨rfl, fun o ho => ?_, rfl, fun o ho => ?_, fun o ho => ?_, fun o ho => ?_,
    fun hn obj => ?_⟩
  · unfold PluginManagerPrivate.addObject
    simp only
    rw [if_pos ((contains_eq_true_iff _ _).2 ho)]
  · unfold PluginManagerPrivate.removeObject
    simp only
    rw [if_pos]
    simp [ho]
  · unfold PluginManagerPrivate.addObject
    simp only
    rw [if_neg (fun h => ho ((contains_eq_true_iff _ _).1 h))]
  · have hc : m.allObjects.contains o = true := (contains_eq_true_iff _ _).2 ho
    unfold PluginManagerPrivate.removeObject
    simp only [hc, Bool.not_true, Bool.false_eq_true, if_false]
    refine ⟨trivial, trivial, fun x => by simp [List.mem_filter], ?_⟩
    have h1 : (m.allObjects.filter (fun x => decide (x ≠ o))).length
        < m.allObjects.length := by
      apply List.length_filter_lt_length_iff_exists.2
      exact ⟨o, ho, by simp⟩
    exact h1
  · cases obj with
    | none => exact ⟨hn, hn⟩
    | some o =>
      constructor
      · unfold PluginManagerPrivate.addObject
        simp only
        split
        · exact hn
        · rename_i hc
          have ho : o ∉ m.allObjects := fun h => hc ((contains_eq_true_iff _ _).2 h)
          show (m.allObjects ++ [o]).Nodup
          rw [List.nodup_append]
          exact ⟨hn, List.nodup_singleton o, by
            intro a ha hb
            rw [List.mem_singleton] at hb
            exact ho (hb ▸ ha)⟩
      · unfold PluginManagerPrivate.removeObject
        simp only
        split
        · exact hn
        · exact hn.filter _

/-! ## Aggregation -/

/-- After `Aggregate::Aggregate` the new aggregate is its own entry in
`aggregateMap()`. -/
theorem Aggregate.new_parentAggregate (this : Nat) (w : AggregateWorld) :
    Aggregate.parentAggregate (Aggregate.new this w) this = some this := by
  simp [Aggregate.new, Aggregate.parentAggregate, AggregateWorld.mapInsert,
    AggregateWorld.setComponents]

/-- An object with an entry in `aggregateMap()` is rejected by `add`. -/
theorem Aggregate.add_owned (this c parentAggregation : Nat) (w : AggregateWorld)
    (h : w.aggregateMap c = some parentAggregation) :
    Aggregate.add this (some c) w = (w, []) := by
  simp [Aggregate.add, h]

/-- An object without an entry in `aggregateMap()` is appended by `add`. -/
theorem Aggregate.add_unowned (this c : Nat) (w : AggregateWorld)
    (h : w.aggregateMap c = none) :
    Aggregate.add this (some c) w =
      ((((w.setComponents this (w.m_components this ++ [c])).connect c this).mapInsert c this),
        [Signal.changed this]) := by
  simp [Aggregate.add, h]

/-- C26. `Aggregate::add` rejects: `A.add(null)` changes nothing and emits
nothing; so does `A.add(c)` when `aggregateMap()` maps `c` to `A` (c is already
in A, or is A itself) or to any other aggregate `B` (c is owned by B, or c is
the aggregate B, which the constructor maps to itself). In particular, right
after `B.add(c)` accepted `c`, `A.add(c)` leaves the component lists, the table
and the connections as they are, with `c` in the list of `B` only, and
`A.add(B)` is rejected for every aggregate `B` just constructed. An object
without an entry is accepted: appended to the list of `A`, entered in the table,
`changed()` emitted. -/
theorem add_rejects (w : AggregateWorld) (A : Nat) :
    Aggregate.add A none w = (w, [])
    ∧ (∀ c, Aggregate.parentAggregate w c = some A → Aggregate.add A (some c) w = (w, []))
    ∧ (∀ c B, B ≠ A → Aggregate.parentAggregate w c = some B →
        Aggregate.add A (some c) w = (w, []))
    ∧ (∀ B, Aggregate.add A (some B) (Aggregate.new B w) = (Aggregate.new B w, []))
    ∧ (∀ B c, B ≠ A → Aggregate.parentAggregate w c = none →
        Aggregate.parentAggregate (Aggregate.add B (some c) w).1 c = some B
        ∧ Aggregate.add A (some c) (Aggregate.add B (some c) w).1 =
            ((Aggregate.add B (some c) w).1, [])
        ∧ (Aggregate.add B (some c) w).1.m_components B = w.m_components B ++ [c]
        ∧ (Aggregate.add B (some c) w).1.m_components A = w.m_components A)
    ∧ (∀ c, Aggregate.parentAggregate w c = none →
        (Aggregate.add A (some c) w).2 = [Signal.changed A]
        ∧ (Aggregate.add A (some c) w).1.m_components A = w.m_components A ++ [c]
        ∧ Aggregate.parentAggregate (Aggregate.add A (some c) w).1 c = some A)
    ∧ (Aggregate.add 1 (some 3)
          (Aggregate.add 2 (some 3) (Aggregate.new 2 (Aggregate.new 1 AggregateWorld.empty))).1).2 = []
    ∧ (Aggregate.add 1 (some 3)
          (Aggregate.add 2 (some 3) (Aggregate.new 2 (Aggregate.new 1 AggregateWorld.empty))).1).1.m_components 1 = []
    ∧ (Aggregate.add 1 (some 3)
          (Aggregate.add 2 (some 3) (Aggregate.new 2 (Aggregate.new 1 AggregateWorld.empty))).1).1.m_components 2 = [3] := by
  refine ⟨rfl, fun c h => Aggregate.add_owned A c A w h,
    fun c B _ h => Aggregate.add_owned A c B w h,
    fun B => Aggregate.add_owned A B B _ (Aggregate.new_parentAggregate B w),
    fun B c hne h => ?_, fun c h => ?_, by decide, by decide, by decide⟩
  · have hB : (Aggregate.add B (some c) w).1.aggregateMap c = some B := by
      rw [Aggregate.add_unowned B c w h]
      simp [AggregateWorld.mapInsert]
    refine ⟨hB, Aggregate.add_owned A c B _ hB, ?_, ?_⟩
    · rw [Aggregate.add_unowned B c w h]
      simp [AggregateWorld.mapInsert, AggregateWorld.connect, AggregateWorld.setComponents]
    · rw [Aggregate.add_unowned B c w h]
      simp [AggregateWorld.mapInsert, AggregateWorld.connect, AggregateWorld.setComponents,
        Ne.symm hne]
  · rw [Aggregate.add_unowned A c w h]
    simp [AggregateWorld.mapInsert, AggregateWorld.connect, AggregateWorld.setComponents,
      Aggregate.parentAggregate]

/-- Every component of a list is mapped to the aggregate of the list, and no
list holds an object twice. -/
theorem AggregateCall.run_owned (w : AggregateWorld) (call : AggregateCall)
    (hcall : AggregateCall.ownRemoves w [call])
    (hinv : (∀ A c, c ∈ w.m_components A → w.aggregateMap c = some A)
      ∧ ∀ A, (w.m_components A).Nodup) :
    (∀ A c, c ∈ (AggregateCall.run w call).m_components A →
        (AggregateCall.run w call).aggregateMap c = some A)
      ∧ ∀ A, ((AggregateCall.run w call).m_components A).Nodup := by
  obtain ⟨hmap, hnd⟩ := hinv
  cases call with
  | construct this =>
    have hfresh : ∀ A, this ∉ w.m_components A := hcall.1
    constructor
    · intro A c hc
      simp only [AggregateCall.run, Aggregate.new, AggregateWorld.mapInsert,
        AggregateWorld.setComponents] at hc ⊢
      by_cases hA : A = this
      · simp [hA] at hc
      · simp only [hA, if_false] at hc
        have hne : c ≠ this := fun h => hfresh A (h ▸ hc)
        simp only [hne, if_false]
        exact hmap A c hc
    · intro A
      simp only [AggregateCall.run, Aggregate.new, AggregateWorld.mapInsert,
        AggregateWorld.setComponents]
      by_cases hA : A = this
      · simp [hA]
      · simp only [hA, if_false]
        exact hnd A
  | add this component =>
    cases component with
    | none => exact ⟨hmap, hnd⟩
    | some c =>
      cases hc : w.aggregateMap c with
      | some p =>
        simp only [AggregateCall.run, Aggregate.add_owned this c p w hc]
        exact ⟨hmap, hnd⟩
      | none =>
        simp only [AggregateCall.run, Aggregate.add_unowned this c w hc]
        have hnot : ∀ A, c ∉ w.m_components A := fun A hin => by
          have := hmap A c hin
          rw [hc] at this
          exact Option.noConfusion this
        constructor
        · intro A x hx
          simp only [AggregateWorld.mapInsert, AggregateWorld.connect,
            AggregateWorld.setComponents] at hx ⊢
          by_cases hA : A = this
          · simp only [hA, if_true, List.mem_append, List.mem_singleton] at hx
            rcases hx with hx | hx
            · have hne : x ≠ c := fun h => hnot this (h ▸ hx)
              simp only [hne, if_false]
              exact hA ▸ hmap this x hx
            · simp [hx, hA]
          · simp only [hA, if_false] at hx
            have hne : x ≠ c := fun h => hnot A (h ▸ hx)
            simp only [hne, if_false]
            exact hmap A x hx
        · intro A
          simp only [AggregateWorld.mapInsert, AggregateWorld.connect,
            AggregateWorld.setComponents]
          by_cases hA : A = this
          · simp only [hA, if_true]
            exact List.Nodup.append (hnd this) (List.nodup_singleton c)
              (by
                intro x hx hx2
                rw [List.mem_singleton] at hx2
                exact hnot this (hx2 ▸ hx))
          · simp only [hA, if_false]
            exact hnd A
  | remove this component =>
    cases component with
    | none => exact ⟨hmap, hnd⟩
    | some c =>
      have hown : w.aggregateMap c = none ∨ w.aggregateMap c = some this := hcall.1
      have hnot : ∀ A, A ≠ this → c ∉ w.m_components A := fun A hA hin => by
        have h1 := hmap A c hin
        rcases hown with h | h
        · rw [h] at h1
          exact Option.noConfusion h1
        · rw [h] at h1
          exact hA (Option.some.inj h1).symm
      constructor
      · intro A x hx
        simp only [AggregateCall.run, Aggregate.remove, AggregateWorld.mapRemove,
          AggregateWorld.disconnect, AggregateWorld.setComponents] at hx ⊢
        by_cases hA : A = this
        · simp only [hA, if_true, List.mem_filter, decide_eq_true_eq] at hx
          simp only [hx.2, if_false]
          exact hA ▸ hmap this x hx.1
        · simp only [hA, if_false] at hx
          have hne : x ≠ c := fun h => hnot A hA (h ▸ hx)
          simp only [hne, if_false]
          exact hmap A x hx
      · intro A
        simp only [AggregateCall.run, Aggregate.remove, AggregateWorld.mapRemove,
          AggregateWorld.disconnect, AggregateWorld.setComponents]
        by_cases hA : A = this
        · simp only [hA, if_true]
          exact (hnd this).filter _
        · simp only [hA, if_false]
          exact hnd A

/-- The first call of a sequence made as the interface expects is such a call. -/
theorem AggregateCall.ownRemoves_head (w : AggregateWorld) (call : AggregateCall)
    (rest : List AggregateCall) (h : AggregateCall.ownRemoves w (call :: rest)) :
    AggregateCall.ownRemoves w [call] ∧ AggregateCall.ownRemoves (AggregateCall.run w call) rest := by
  cases call with
  | construct this => exact ⟨⟨h.1, trivial⟩, h.2⟩
  | add this component => exact ⟨trivial, h⟩
  | remove this component =>
    cases component with
    | none => exact ⟨trivial, h⟩
    | some c => exact ⟨⟨h.1, trivial⟩, h.2⟩

/-- The table and the lists agree after every sequence of calls made as the
interface expects. -/
theorem AggregateCall.foldl_owned (calls : List AggregateCall) :
    ∀ w : AggregateWorld, AggregateCall.ownRemoves w calls →
      ((∀ A c, c ∈ w.m_components A → w.aggregateMap c = some A)
        ∧ ∀ A, (w.m_components A).Nodup) →
      (∀ A c, c ∈ (calls.foldl AggregateCall.run w).m_components A →
          (calls.foldl AggregateCall.run w).aggregateMap c = some A)
        ∧ ∀ A, ((calls.foldl AggregateCall.run w).m_components A).Nodup := by
  induction calls with
  | nil => intro w _ h; exact h
  | cons call rest ih =>
    intro w hcalls hinv
    obtain ⟨h1, h2⟩ := AggregateCall.ownRemoves_head w call rest hcalls
    exact ih _ h2 (AggregateCall.run_owned w call h1 hinv)

/-- C27. The invariant fails for `new A; new B; B.add(c); A.remove(c);
A.add(c)` (A = 1, B = 2, c = 3): `A.remove(c)` erases the entry of `c` from
`aggregateMap()` although `c` is a component of `B`, so `A.add(c)` accepts it
and `c` is in the lists of both; with `B.add(c)` as the last call instead, `c`
is twice in the list of `B`. The invariant does hold after every sequence in
which `remove` is called only with components that have no entry or belong to
the aggregate they are removed from. -/
theorem atMostOneBundle_violated :
    ([AggregateCall.construct 1, AggregateCall.construct 2, AggregateCall.add 2 (some 3),
        AggregateCall.remove 1 (some 3), AggregateCall.add 1 (some 3)].foldl
        AggregateCall.run AggregateWorld.empty).m_components 1 = [3]
    ∧ ([AggregateCall.construct 1, AggregateCall.construct 2, AggregateCall.add 2 (some 3),
        AggregateCall.remove 1 (some 3), AggregateCall.add 1 (some 3)].foldl
        AggregateCall.run AggregateWorld.empty).m_components 2 = [3]
    ∧ ([AggregateCall.construct 1, AggregateCall.construct 2, AggregateCall.add 2 (some 3),
        AggregateCall.remove 1 (some 3), AggregateCall.add 2 (some 3)].foldl
        AggregateCall.run AggregateWorld.empty).m_components 2 = [3, 3]
    ∧ ([AggregateCall.construct 1, AggregateCall.construct 2, AggregateCall.add 2 (some 3)].foldl
        AggregateCall.run AggregateWorld.empty).m_components 1 = []
    ∧ Aggregate.parentAggregate
        ([AggregateCall.construct 1, AggregateCall.construct 2, AggregateCall.add 2 (some 3),
          AggregateCall.remove 1 (some 3)].foldl AggregateCall.run AggregateWorld.empty) 3 = none
    ∧ (∀ calls : List AggregateCall, AggregateCall.ownRemoves AggregateWorld.empty calls →
        (∀ A B c, A ≠ B →
          c ∈ (calls.foldl AggregateCall.run AggregateWorld.empty).m_components A →
          c ∉ (calls.foldl AggregateCall.run AggregateWorld.empty).m_components B)
        ∧ ∀ A, ((calls.foldl AggregateCall.run AggregateWorld.empty).m_components A).Nodup) := by
  refine ⟨by decide, by decide, by decide, by decide, by decide, fun calls hcalls => ?_⟩
  obtain ⟨hmap, hnd⟩ := AggregateCall.foldl_owned calls AggregateWorld.empty hcalls
    ⟨fun A c hc => by simp [AggregateWorld.empty] at hc,
      fun A => by simp [AggregateWorld.empty]⟩
  refine ⟨fun A B c hne hA hB => ?_, hnd⟩
  have h1 := hmap A c hA
  rw [hmap B c hB] at h1
  exact hne (Option.some.inj h1).symm

/-- The objects of `scenarioBundle`, written out. -/
theorem scenarioBundle_eq (X Y Z : Nat) (hXY : X ≠ Y) (hXZ : X ≠ Z) (hYZ : Y ≠ Z) :
    scenarioBundle X Y Z =
      { aggregateMap := fun x => if x = Y then some Z else if x = X then some Z
          else if x = Z then some Z else none,
        m_components := fun x => if x = Z then [X, Y] else [],
        isAggregate := fun x => decide (x = Z),
        connections := [(X, Z), (Y, Z)],
        destroyed := [] } := by
  simp [scenarioBundle, Aggregate.add, Aggregate.new, AggregateWorld.empty,
    AggregateWorld.mapInsert, AggregateWorld.setComponents, AggregateWorld.connect, hXZ, hYZ,
    Ne.symm hXY]
  funext x
  split <;> rfl

/-- C28. Coupled lifetime. With distinct objects X, Y and a new aggregate Z,
after `Z->add(X); Z->add(Y)` the list of Z is `[X, Y]` and all three are mapped
to Z. Then `delete X`, `delete Y` and `delete Z` each return (three nested
deletions suffice) and destroy the three objects, each exactly once: in the
order Y, Z, X for `delete X`, in the order X, Z, Y for `delete Y`, and X, Y, Z
for `delete Z`. Afterwards none of the three has an entry in `aggregateMap()`,
Z is no aggregate any more and no connection is left. -/
theorem coupled_lifetime (X Y Z fuel : Nat) (hXY : X ≠ Y) (hXZ : X ≠ Z) (hYZ : Y ≠ Z) :
    (scenarioBundle X Y Z).m_components Z = [X, Y]
    ∧ Aggregate.parentAggregate (scenarioBundle X Y Z) X = some Z
    ∧ Aggregate.parentAggregate (scenarioBundle X Y Z) Y = some Z
    ∧ Aggregate.parentAggregate (scenarioBundle X Y Z) Z = some Z
    ∧ (scenarioBundle X Y Z).destroyed = []
    ∧ (deleteObject (fuel + 3) X (scenarioBundle X Y Z)).map (fun w => w.destroyed) =
        some [Y, Z, X]
    ∧ (deleteObject (fuel + 3) Y (scenarioBundle X Y Z)).map (fun w => w.destroyed) =
        some [X, Z, Y]
    ∧ (deleteObject (fuel + 3) Z (scenarioBundle X Y Z)).map (fun w => w.destroyed) =
        some [X, Y, Z]
    ∧ (∀ target ∈ [X, Y, Z], ∃ w, deleteObject (fuel + 3) target (scenarioBundle X Y Z) = some w
        ∧ (∀ o ∈ [X, Y, Z], w.destroyed.count o = 1)
        ∧ w.destroyed.length = 3
        ∧ Aggregate.parentAggregate w X = none
        ∧ Aggregate.parentAggregate w Y = none
        ∧ Aggregate.parentAggregate w Z = none
        ∧ w.isAggregate Z = false
        ∧ w.m_components Z = []
        ∧ w.connections = []) := by
  rw [scenarioBundle_eq X Y Z hXY hXZ hYZ]
  have hYX := Ne.symm hXY
  have hZX := Ne.symm hXZ
  have hZY := Ne.symm hYZ
  refine ⟨by simp, by simp [Aggregate.parentAggregate, hXY],
    by simp [Aggregate.parentAggregate], by simp [Aggregate.parentAggregate, hZX, hZY], rfl,
    ?_, ?_, ?_, ?_⟩
  · simp [deleteObject, AggregateWorld.mapRemove, AggregateWorld.setComponents,
      AggregateWorld.disconnect, hXY, hXZ, hYZ, hYX, hZX, hZY]
  · simp [deleteObject, AggregateWorld.mapRemove, AggregateWorld.setComponents,
      AggregateWorld.disconnect, hXY, hXZ, hYZ, hYX, hZX, hZY]
  · simp [deleteObject, AggregateWorld.mapRemove, AggregateWorld.setComponents,
      AggregateWorld.disconnect, hXY, hXZ, hYZ, hYX, hZX, hZY]
  · intro target ht
    simp only [List.mem_cons, List.mem_singleton, List.not_mem_nil, or_false] at ht
    rcases ht with rfl | rfl | rfl
    · simp [deleteObject, AggregateWorld.mapRemove, AggregateWorld.setComponents,
        AggregateWorld.disconnect, Aggregate.parentAggregate, List.count_cons,
        hXY, hXZ, hYZ, hYX, hZX, hZY]
    · simp [deleteObject, AggregateWorld.mapRemove, AggregateWorld.setComponents,
        AggregateWorld.disconnect, Aggregate.parentAggregate, List.count_cons,
        hXY, hXZ, hYZ, hYX, hZX, hZY]
    · simp [deleteObject, AggregateWorld.mapRemove, AggregateWorld.setComponents,
        AggregateWorld.disconnect, Aggregate.parentAggregate, List.count_cons,
        hXY, hXZ, hYZ, hYX, hZX, hZY]

/-- The objects 1 and 2 in the aggregate 3. -/
theorem coupled_lifetime_witness :
    (scenarioBundle 1 2 3).m_components 3 = [1, 2]
    ∧ (deleteObject 3 1 (scenarioBundle 1 2 3)).map (fun w => w.destroyed) = some [2, 3, 1]
    ∧ (deleteObject 3 2 (scenarioBundle 1 2 3)).map (fun w => w.destroyed) = some [1, 3, 2]
    ∧ (deleteObject 3 3 (scenarioBundle 1 2 3)).map (fun w => w.destroyed) = some [1, 2, 3] :=
  have h := coupled_lifetime 1 2 3 0 (by decide) (by decide) (by decide)
  ⟨h.1, h.2.2.2.2.2.1, h.2.2.2.2.2.2.1, h.2.2.2.2.2.2.2.1⟩

/-- C29. `query<T>(obj)`, with `isT o` for "`qobject_cast<T *>(o)` is not null":
null for the null pointer; `obj` itself when `obj` is of type T; otherwise, when
`aggregateMap()` maps `obj` to an aggregate, the first component in the list of
that aggregate that is of type T - every component before it is not of type T -
and null when no component is; null when `obj` is not of type T and has no
entry. `add` appends, so the list is in the order of insertion. In the example
of the class documentation (object = 1 of type MyInterface, objectEx = 2 of type
MyInterfaceEx, aggregate = 3) all four assertions hold, and before the objects
are added `query<MyInterfaceEx>(object)` is null. -/
theorem query_semantics (isT : Nat → Bool) (w : AggregateWorld) :
    Aggregation.query isT none w = none
    ∧ (∀ obj, isT obj = true → Aggregation.query isT (some obj) w = some obj)
    ∧ (∀ obj aggregate, isT obj = false → Aggregate.parentAggregate w obj = some aggregate →
        Aggregation.query isT (some obj) w = (w.m_components aggregate).find? isT)
    ∧ (∀ obj aggregate result, isT obj = false →
        Aggregate.parentAggregate w obj = some aggregate →
        Aggregation.query isT (some obj) w = some result →
        isT result = true ∧
        ∃ before after, w.m_components aggregate = before ++ result :: after
          ∧ ∀ x ∈ before, isT x = false)
    ∧ (∀ obj aggregate, isT obj = false → Aggregate.parentAggregate w obj = some aggregate →
        (Aggregation.query isT (some obj) w = none ↔
          ∀ x ∈ w.m_components aggregate, isT x = false))
    ∧ (∀ obj, isT obj = false → Aggregate.parentAggregate w obj = none →
        Aggregation.query isT (some obj) w = none)
    ∧ (∀ aggregate c, Aggregate.parentAggregate w c = none →
        (Aggregate.add aggregate (some c) w).1.m_components aggregate =
          w.m_components aggregate ++ [c])
    ∧ Aggregation.query (fun o => decide (o = 1)) (some 1) (scenarioBundle 1 2 3) = some 1
    ∧ Aggregation.query (fun o => decide (o = 2)) (some 1) (scenarioBundle 1 2 3) = some 2
    ∧ Aggregation.query (fun o => decide (o = 1)) (some 2) (scenarioBundle 1 2 3) = some 1
    ∧ Aggregation.query (fun o => decide (o = 2)) (some 2) (scenarioBundle 1 2 3) = some 2
    ∧ Aggregation.query (fun o => decide (o = 1)) (some 1) AggregateWorld.empty = some 1
    ∧ Aggregation.query (fun o => decide (o = 2)) (some 1) AggregateWorld.empty = none := by
  have hq : ∀ obj aggregate, isT obj = false → Aggregate.parentAggregate w obj = some aggregate →
      Aggregation.query isT (some obj) w = (w.m_components aggregate).find? isT := by
    intro obj aggregate h1 h2
    simp [Aggregation.query, Aggregation.queryAggregate, Aggregate.component, h1, h2]
  refine ⟨rfl, fun obj h => by simp [Aggregation.query, h], hq, ?_, ?_, ?_, ?_,
    by decide, by decide, by decide, by decide, by decide, by decide⟩
  · intro obj aggregate result h1 h2 h3
    rw [hq obj aggregate h1 h2] at h3
    refine ⟨List.find?_some h3, ?_⟩
    obtain ⟨_, before, after, h4, h5⟩ := List.find?_eq_some.1 h3
    exact ⟨before, after, h4, fun x hx => by simpa using h5 x hx⟩
  · intro obj aggregate h1 h2
    rw [hq obj aggregate h1 h2, List.find?_eq_none]
    exact ⟨fun h x hx => by simpa using h x hx, fun h x hx => by simp [h x hx]⟩
  · intro obj h1 h2
    simp [Aggregation.query, h1, h2]
  · intro aggregate c h
    rw [Aggregate.add_unowned aggregate c w h]
    simp [AggregateWorld.mapInsert, AggregateWorld.connect, AggregateWorld.setComponents]

/-! ## Crash check -/

/-- The loop of `pluginsRequiringPlugin` only adds to the set. -/
theorem pluginsRequiringPluginLoop_mono (heap : Heap) (queue : List Nat) :
    ∀ acc x, x ∈ acc → x ∈ pluginsRequiringPluginLoop heap queue acc := by
  induction queue with
  | nil => intro acc x h; exact h
  | cons spec rest ih =>
    intro acc x h
    simp only [pluginsRequiringPluginLoop]
    split
    · apply ih
      split
      · exact h
      · exact List.mem_append_left _ h
    · exact ih _ _ h

/-- The loop of `pluginsRequiringPlugin` over two parts of the queue. -/
theorem pluginsRequiringPluginLoop_append (heap : Heap) (l1 l2 : List Nat) :
    ∀ acc, pluginsRequiringPluginLoop heap (l1 ++ l2) acc =
      pluginsRequiringPluginLoop heap l2 (pluginsRequiringPluginLoop heap l1 acc) := by
  induction l1 with
  | nil => intro acc; rfl
  | cons spec rest ih =>
    intro acc
    simp only [List.cons_append, pluginsRequiringPluginLoop]
    split
    · exact ih _
    · exact ih _

/-- The loop of `pluginsRequiringPlugin` adds specs of the queue only. -/
theorem pluginsRequiringPluginLoop_subset (heap : Heap) (queue : List Nat) :
    ∀ acc x, x ∈ pluginsRequiringPluginLoop heap queue acc → x ∈ acc ∨ x ∈ queue := by
  induction queue with
  | nil => intro acc x h; exact Or.inl h
  | cons spec rest ih =>
    intro acc x h
    simp only [pluginsRequiringPluginLoop] at h
    split at h
    · rcases ih _ _ h with h1 | h1
      · split at h1
        · exact Or.inl h1
        · rcases List.mem_append.1 h1 with h2 | h2
          · exact Or.inl h2
          · rw [List.mem_singleton] at h2
            exact Or.inr (h2 ▸ List.mem_cons_self _ _)
      · exact Or.inr (List.mem_cons_of_mem _ h1)
    · rcases ih _ _ h with h1 | h1
      · exact Or.inl h1
      · exact Or.inr (List.mem_cons_of_mem _ h1)

/-- A required entry whose value is in the set makes `requiresAny` true. -/
theorem requiresAny_of_entry (d : PluginSpec) (plugins : List Nat) (e : PluginDependency × Nat)
    (he : e ∈ d.dependencySpecs) (ht : e.1.type = DependencyType.Required)
    (hin : e.2 ∈ plugins) : d.requiresAny plugins = true := by
  unfold PluginSpec.requiresAny
  rw [List.any_eq_true]
  exact ⟨e, he, by simp [ht, hin]⟩

/-- A spec of an ordered queue that transitively requires `foo` is in the set
once the loop of `pluginsRequiringPlugin` has passed it. -/
theorem pluginsRequiringPluginLoop_complete (heap : Heap) (queue : List Nat) (foo : Nat)
    (ho : queueOrdered heap queue) (X : Nat)
    (hX : Relation.TransGen (requiresSpec heap) X foo) :
    ∀ pre post, queue = pre ++ X :: post →
      X ∈ pluginsRequiringPluginLoop heap (pre ++ [X]) [foo] := by
  induction hX using Relation.TransGen.head_induction_on with
  | @base a h =>
    intro pre post _
    obtain ⟨_, e, he, ht, hv⟩ := h
    rw [pluginsRequiringPluginLoop_append]
    have hfoo : foo ∈ pluginsRequiringPluginLoop heap pre [foo] :=
      pluginsRequiringPluginLoop_mono heap pre _ _ (List.mem_singleton_self foo)
    simp only [pluginsRequiringPluginLoop]
    rw [requiresAny_of_entry (heap a) _ e he ht (hv ▸ hfoo)]
    simp only [if_true]
    split
    · rename_i hc
      simpa using hc
    · simp
  | @ih a Y h _ ihY =>
    intro pre post hq
    obtain ⟨hres, e, he, ht, hv⟩ := h
    have hYpre : Y ∈ pre := by
      have := ho.2 pre a post hq hres e he (by rw [ht]; decide)
      rw [hv] at this
      exact this
    obtain ⟨p1, p2, hp⟩ := List.append_of_mem hYpre
    have hY := ihY p1 (p2 ++ a :: post) (by rw [hq, hp]; simp)
    have hYin : Y ∈ pluginsRequiringPluginLoop heap pre [foo] := by
      rw [hp, show p1 ++ Y :: p2 = (p1 ++ [Y]) ++ p2 by simp, pluginsRequiringPluginLoop_append]
      exact pluginsRequiringPluginLoop_mono heap p2 _ _ hY
    rw [pluginsRequiringPluginLoop_append]
    simp only [pluginsRequiringPluginLoop]
    rw [requiresAny_of_entry (heap a) _ e he ht (hv ▸ hYin)]
    simp only [if_true]
    split
    · rename_i hc
      simpa using hc
    · simp

/-- The members of a spec after `setForceDisabled(true)`. -/
theorem setForceDisabled_true (d : PluginSpec) :
    (d.setForceDisabled true).forceDisabled = true ∧ (d.setForceDisabled true).forceEnabled = false
      ∧ (d.setForceDisabled true).state = d.state
      ∧ (d.setForceDisabled true).dependencySpecs = d.dependencySpecs := by
  simp [PluginSpec.setForceDisabled]

/-- The loop `for (PluginSpec *other : dependents) other->d->setForceDisabled(true)`
changes the specs of `dependents`, and nothing else. -/
theorem forceDisableLoop_spec (dependents : List Nat) :
    ∀ heap : Heap,
      (∀ s ∈ dependents,
        ((dependents.foldl (fun heap other => heap.set other ((heap other).setForceDisabled true))
          heap) s).forceDisabled = true
        ∧ ((dependents.foldl (fun heap other => heap.set other ((heap other).setForceDisabled true))
          heap) s).forceEnabled = false)
      ∧ (∀ s, s ∉ dependents →
        (dependents.foldl (fun heap other => heap.set other ((heap other).setForceDisabled true))
          heap) s = heap s)
      ∧ (∀ s, (heap s).forceDisabled = true ∧ (heap s).forceEnabled = false →
        ((dependents.foldl (fun heap other => heap.set other ((heap other).setForceDisabled true))
          heap) s).forceDisabled = true
        ∧ ((dependents.foldl (fun heap other => heap.set other ((heap other).setForceDisabled true))
          heap) s).forceEnabled = false)
      ∧ sameGraph heap
        (dependents.foldl (fun heap other => heap.set other ((heap other).setForceDisabled true))
          heap) := by
  induction dependents with
  | nil =>
    intro heap
    exact ⟨fun s hs => absurd hs (List.not_mem_nil _), fun _ _ => rfl, fun _ h => h,
      sameGraph_refl _⟩
  | cons other rest ih =>
    intro heap
    obtain ⟨i1, i2, i3, i4⟩ := ih (heap.set other ((heap other).setForceDisabled true))
    simp only [List.foldl_cons]
    have hset : ((heap.set other ((heap other).setForceDisabled true)) other).forceDisabled = true
        ∧ ((heap.set other ((heap other).setForceDisabled true)) other).forceEnabled = false := by
      rw [Heap.set_same]
      exact ⟨(setForceDisabled_true _).1, (setForceDisabled_true _).2.1⟩
    refine ⟨fun s hs => ?_, fun s hs => ?_, fun s hs => ?_, ?_⟩
    · rcases List.mem_cons.1 hs with h | h
      · subst h
        exact i3 s hset
      · exact i1 s h
    · have h1 : s ≠ other := fun h => hs (h ▸ List.mem_cons_self _ _)
      have h2 : s ∉ rest := fun h => hs (List.mem_cons_of_mem _ h)
      rw [i2 s h2, Heap.set_other _ _ _ _ h1]
    · apply i3
      by_cases h1 : s = other
      · subst h1
        exact hset
      · rw [Heap.set_other _ _ _ _ h1]
        exact hs
    · refine sameGraph_trans (fun s => ?_) i4
      by_cases h1 : s = other
      · subst h1
        rw [Heap.set_same]
        exact ⟨(setForceDisabled_true _).2.2.1.symm, (setForceDisabled_true _).2.2.2.symm⟩
      · rw [Heap.set_other _ _ _ _ h1]
        exact ⟨rfl, rfl⟩

/-- Recording errors leaves the force flags. -/
theorem errorsRecorded_force {h h' : Heap} (r : errorsRecorded h h') (s : Nat) :
    (h' s).forceDisabled = (h s).forceDisabled ∧ (h' s).forceEnabled = (h s).forceEnabled := by
  rcases r s with e | ⟨msg, e⟩ <;> rw [e] <;> exact ⟨rfl, rfl⟩

/-- The relation `requiresSpec` depends on states and resolved dependencies
only. -/
theorem requiresSpec_congr {h h' : Heap} (g : sameGraph h h') (a b : Nat)
    (r : requiresSpec h a b) : requiresSpec h' a b := by
  obtain ⟨hres, e, he, ht, hv⟩ := r
  refine ⟨?_, e, ?_, ht, hv⟩
  · unfold isResolved at hres ⊢
    rw [← (g a).1]
    exact hres
  · rw [← (g a).2]
    exact he

/-- Crash recovery, for the specs of the load queue. With the crash check
enabled, a lock file whose first line, trimmed, is the name of the spec `foo`,
and `foo` not a required plugin, `checkForProblematicPlugins` returns, and when
the user chooses "Disable Plugin", `foo` and every spec of the load queue that
transitively requires `foo` - through resolved dependencies of type `Required`
of specs that went through dependency resolution - have `forceDisabled` true
and `forceEnabled` false afterwards. A spec that is not on the load queue and
is not `foo` keeps both flags as they were. When the user chooses "Continue",
or there is no lock file, no flag changes. -/
theorem checkForProblematicPlugins_disables (E : QtEnv) (m : PluginManagerPrivate)
    (line : QString) (foo : Nat)
    (hw : dependenciesWithin m.heap m.pluginSpecs)
    (hcheck : m.enableCrashCheck = true)
    (hfoo : m.pluginByName (E.trimmed line) = some foo)
    (hreq : (m.heap foo).isRequired = false) :
    ∃ queue m1 m', m.loadQueue = some (queue, m1)
      ∧ m.checkForProblematicPlugins E (some line) true = some m'
      ∧ (m'.heap foo).forceDisabled = true ∧ (m'.heap foo).forceEnabled = false
      ∧ (∀ X ∈ queue, Relation.TransGen (requiresSpec m.heap) X foo →
          (m'.heap X).forceDisabled = true ∧ (m'.heap X).forceEnabled = false)
      ∧ (∀ s, s ≠ foo → s ∉ queue →
          (m'.heap s).forceDisabled = (m.heap s).forceDisabled
          ∧ (m'.heap s).forceEnabled = (m.heap s).forceEnabled)
      ∧ m.checkForProblematicPlugins E (some line) false = some m1
      ∧ (∀ s, (m1.heap s).forceDisabled = (m.heap s).forceDisabled
          ∧ (m1.heap s).forceEnabled = (m.heap s).forceEnabled)
      ∧ m.checkForProblematicPlugins E none true = some m := by
  obtain ⟨queue, m1, hq, g, ho, _, hps⟩ := loadQueue_ordered m hw
  obtain ⟨er, _, _⟩ := loadQueue_errorsRecorded m queue m1 hq
  obtain ⟨i1, i2, i3, i4⟩ := forceDisableLoop_spec
    ((pluginsRequiringPluginLoop m1.heap queue [foo]).filter (fun s => s ≠ foo))
    (m1.heap.set foo ((m1.heap foo).setForceDisabled true))
  have g1 : sameGraph m1.heap (m1.heap.set foo ((m1.heap foo).setForceDisabled true)) := by
    intro s
    by_cases h1 : s = foo
    · subst h1
      rw [Heap.set_same]
      exact ⟨(setForceDisabled_true _).2.2.1.symm, (setForceDisabled_true _).2.2.2.symm⟩
    · rw [Heap.set_other _ _ _ _ h1]
      exact ⟨rfl, rfl⟩
  have key : ∀ heap2 : Heap, sameGraph m.heap heap2 →
      ∃ m', PluginManagerPrivate.enableDependenciesIndirectly E { m1 with heap := heap2 } = some m'
        ∧ ∀ s, (m'.heap s).forceDisabled = (heap2 s).forceDisabled
          ∧ (m'.heap s).forceEnabled = (heap2 s).forceEnabled := by
    intro heap2 g2
    have hw2 : dependenciesWithin ({ m1 with heap := heap2 } : PluginManagerPrivate).heap
        ({ m1 with heap := heap2 } : PluginManagerPrivate).pluginSpecs := by
      show dependenciesWithin heap2 m1.pluginSpecs
      rw [hps]
      exact dependenciesWithin_congr g2 _ hw
    obtain ⟨m', hm', hflags, _⟩ := enableDependenciesIndirectly_flags E _ hw2
    refine ⟨m', hm', fun s => ?_⟩
    obtain ⟨b, hb⟩ := hflags s
    rw [hb]
    exact ⟨rfl, rfl⟩
  obtain ⟨m', hm', hkeep⟩ := key _ (sameGraph_trans g (sameGraph_trans g1 i4))
  have hfooSet := i3 foo (by
    rw [Heap.set_same]
    exact ⟨(setForceDisabled_true _).1, (setForceDisabled_true _).2.1⟩)
  refine ⟨queue, m1, m', hq, ?_, ?_, ?_, ?_, ?_, ?_, fun s => errorsRecorded_force er s, ?_⟩
  · simp only [PluginManagerPrivate.checkForProblematicPlugins, hcheck, lockedPluginName, hfoo,
      hreq, PluginManagerPrivate.pluginsRequiringPlugin, hq]
    exact hm'
  · rw [(hkeep foo).1]
    exact hfooSet.1
  · rw [(hkeep foo).2]
    exact hfooSet.2
  · intro X hX hreqX
    rw [(hkeep X).1, (hkeep X).2]
    by_cases hXfoo : X = foo
    · subst hXfoo
      exact hfooSet
    · obtain ⟨pre, post, hsplit⟩ := List.append_of_mem hX
      have hin := pluginsRequiringPluginLoop_complete m1.heap queue foo ho X
        (Relation.TransGen.mono (fun a b r => requiresSpec_congr g a b r) hreqX) pre post hsplit
      have hin2 : X ∈ pluginsRequiringPluginLoop m1.heap queue [foo] := by
        rw [hsplit, show pre ++ X :: post = (pre ++ [X]) ++ post by simp,
          pluginsRequiringPluginLoop_append]
        exact pluginsRequiringPluginLoop_mono m1.heap post _ _ hin
      exact i1 X (List.mem_filter.2 ⟨hin2, by simpa using hXfoo⟩)
  · intro s hs hsq
    have hnot : s ∉ (pluginsRequiringPluginLoop m1.heap queue [foo]).filter (fun s => s ≠ foo) := by
      intro h
      rcases pluginsRequiringPluginLoop_subset m1.heap queue _ _ (List.mem_filter.1 h).1 with h1 | h1
      · exact hs (List.mem_singleton.1 h1)
      · exact hsq h1
    rw [(hkeep s).1, (hkeep s).2, i2 s hnot, Heap.set_other _ _ _ _ hs]
    exact errorsRecorded_force er s
  · simp [PluginManagerPrivate.checkForProblematicPlugins, hcheck, lockedPluginName, hfoo,
      hreq, PluginManagerPrivate.pluginsRequiringPlugin, hq]
  · simp [PluginManagerPrivate.checkForProblematicPlugins, hcheck, lockedPluginName]

set_option maxRecDepth 100000 in
/-- The specs `Foo`, `A` (requiring `Foo` and `B`), `B` (requiring `A`) and `C`
(requiring `Foo`), with a lock file naming `Foo`, the user choosing "Disable
Plugin": `Foo` and `C` of the load queue are disabled. -/
theorem checkForProblematicPlugins_disables_witness :
    ∃ queue m1 m', (scenarioCrash.getD scenarioManager).loadQueue = some (queue, m1)
      ∧ (scenarioCrash.getD scenarioManager).checkForProblematicPlugins plainEnv
          (some "Foo\n".toList) true = some m'
      ∧ (m'.heap 0).forceDisabled = true ∧ (m'.heap 0).forceEnabled = false
      ∧ (∀ X ∈ queue,
          Relation.TransGen (requiresSpec (scenarioCrash.getD scenarioManager).heap) X 0 →
          (m'.heap X).forceDisabled = true ∧ (m'.heap X).forceEnabled = false) :=
  have h := checkForProblematicPlugins_disables plainEnv (scenarioCrash.getD scenarioManager)
    "Foo\n".toList 0 (by unfold dependenciesWithin; decide) (by decide) (by decide) (by decide)
  match h with
  | ⟨queue, m1, m', h1, h2, h3, h4, h5, _⟩ => ⟨queue, m1, m', h1, h2, h3, h4, h5⟩

set_option maxRecDepth 100000 in
/-- C30. Crash recovery at the specs `Foo`, `A` (requiring `Foo` and `B`), `B`
(requiring `A`) and `C` (requiring `Foo`), with the crash check enabled, a lock
file naming `Foo`, which is not a required plugin, and the user choosing
"Disable Plugin". `A` went through dependency resolution and has a resolved
dependency of type `Required` on `Foo`, but `A` and `B` require each other, so
`loadQueue()` leaves both out: the load queue is `Foo`, `C`, and
`pluginsRequiringPlugin(Foo)` is `C` alone. Afterwards `Foo` and `C` have
`forceDisabled` true and `forceEnabled` false, while `A`, which requires `Foo`,
and `B`, which requires `Foo` through `A`, have `forceDisabled` false. -/
theorem checkForProblematicPlugins_skips_cycle :
    scenarioCrash.map (fun m => m.pluginSpecs.map (fun a =>
        ((m.heap a).name, (m.heap a).state,
          (m.heap a).dependencySpecs.map (fun e => (e.1.type, e.2)))))
      = some [("A".toList, State.Resolved,
            [(DependencyType.Required, 0), (DependencyType.Required, 2)]),
          ("B".toList, State.Resolved, [(DependencyType.Required, 1)]),
          ("C".toList, State.Resolved, [(DependencyType.Required, 0)]),
          ("Foo".toList, State.Resolved, [])]
    ∧ scenarioCrash.map (fun m => (m.enableCrashCheck, (m.heap 0).name, (m.heap 0).isRequired,
        m.pluginSpecs.map (fun a => ((m.heap a).forceDisabled, (m.heap a).forceEnabled))))
      = some (true, "Foo".toList, false,
          [(false, false), (false, false), (false, false), (false, false)])
    ∧ (scenarioCrash.bind PluginManagerPrivate.loadQueue).map (fun r => r.1) = some [0, 3]
    ∧ (scenarioCrash.bind (fun m => m.pluginsRequiringPlugin 0)).map
        (fun r => r.1.map (fun a => (r.2.heap a).name)) = some ["C".toList]
    ∧ (scenarioCrash.bind (PluginManagerPrivate.checkForProblematicPlugins plainEnv
        (some "Foo\n".toList) true)).map (fun m => m.pluginSpecs.map (fun a =>
          ((m.heap a).name, (m.heap a).forceDisabled, (m.heap a).forceEnabled)))
      = some [("A".toList, false, false), ("B".toList, false, false),
          ("C".toList, true, false), ("Foo".toList, true, false)] := by
  refine ⟨by decide, by decide, by decide, by decide, by decide⟩

/-! ## Equality and hash of dependencies -/

/-- C31. `PluginDependency::operator==` holds exactly when name, version and
type are all equal, that is, when the two dependencies are the same value, and
two dependencies that compare equal have the same `qHash`. The hash looks at
the name only: dependencies with the same name have the same hash whatever
their version and type, as `Core 1.0 Required` and `Core 2.0 Optional`, which
are not equal. -/
theorem dependency_eq_hash (E : QtEnv) (a b : PluginDependency) :
    (a.eq b = true ↔ a.name = b.name ∧ a.version = b.version ∧ a.type = b.type)
    ∧ (a.eq b = true ↔ a = b)
    ∧ (a.eq b = true → qHash E a = qHash E b)
    ∧ (a.name = b.name → qHash E a = qHash E b)
    ∧ PluginDependency.eq ⟨"Core".toList, "1.0".toList, DependencyType.Required⟩
        ⟨"Core".toList, "2.0".toList, DependencyType.Optional⟩ = false
    ∧ qHash E ⟨"Core".toList, "1.0".toList, DependencyType.Required⟩ =
        qHash E ⟨"Core".toList, "2.0".toList, DependencyType.Optional⟩ := by
  have h1 : a.eq b = true ↔ a.name = b.name ∧ a.version = b.version ∧ a.type = b.type := by
    simp [PluginDependency.eq, and_assoc]
  refine ⟨h1, ?_, ?_, ?_, by decide, rfl⟩
  · rw [h1]
    constructor
    · rintro ⟨h2, h3, h4⟩
      cases a
      cases b
      simp only at h2 h3 h4
      subst h2 h3 h4
      rfl
    · rintro rfl
      exact ⟨rfl, rfl, rfl⟩
  · intro h
    unfold qHash
    rw [(h1.1 h).1]
  · intro h
    unfold qHash
    rw [h]

/-! ## Format of versions -/

/-- A larger bound does not change the result of the indirect-enable loop. -/
theorem enableLoop_fuel_succ (E : QtEnv) (testSpecs : List Nat) (fuel : Nat) :
    ∀ (queue : List Nat) (h h' : Heap),
      PluginManagerPrivate.enableDependenciesIndirectlyLoop E testSpecs fuel queue h = some h' →
      PluginManagerPrivate.enableDependenciesIndirectlyLoop E testSpecs (fuel + 1) queue h
        = some h' := by
  induction fuel with
  | zero =>
    intro queue h h' e
    cases queue with
    | nil => exact e
    | cons spec rest => cases e
  | succ fuel ih =>
    intro queue h h' e
    cases queue with
    | nil => exact e
    | cons spec rest =>
      simp only [PluginManagerPrivate.enableDependenciesIndirectlyLoop] at e ⊢
      exact ih _ _ _ e

theorem enableLoop_fuel_mono (E : QtEnv) (testSpecs : List Nat) (fuel fuel' : Nat)
    (hle : fuel ≤ fuel') (queue : List Nat) (h h' : Heap)
    (e : PluginManagerPrivate.enableDependenciesIndirectlyLoop E testSpecs fuel queue h = some h') :
    PluginManagerPrivate.enableDependenciesIndirectlyLoop E testSpecs fuel' queue h = some h' := by
  induction hle with
  | refl => exact e
  | step _ ih => exact enableLoop_fuel_succ E testSpecs _ _ _ _ ih

/-- C36. The work list loop of
`PluginManagerPrivate::enableDependenciesIndirectly` terminates: when the
resolved dependencies of the specs of the manager point to specs of the manager
(a finite graph, with or without cycles, whatever the types of the entries and
whatever specs are available for the host platform), the function returns and
leaves the list of specs, the states and the resolved dependencies as they
were; and from every work list of specs of the manager and every state of the
flags the loop reaches the empty work list within a number of iterations given
by the measure of the work list, with the same result for every larger bound. -/
theorem enableDependenciesIndirectly_terminates (E : QtEnv) (m : PluginManagerPrivate)
    (hw : dependenciesWithin m.heap m.pluginSpecs) :
    (∃ m', m.enableDependenciesIndirectly E = some m' ∧ m'.pluginSpecs = m.pluginSpecs
      ∧ sameGraph m.heap m'.heap)
    ∧ ∀ (queue : List Nat) (h : Heap), queue ⊆ m.pluginSpecs → sameGraph m.heap h →
        ∃ h', ∀ fuel, enablePotential E m.pluginSpecs queue h ≤ fuel →
          PluginManagerPrivate.enableDependenciesIndirectlyLoop E m.testSpecs fuel queue h
            = some h' := by
  constructor
  · obtain ⟨m', e, g, p⟩ := enableDependenciesIndirectly_returns E m hw
    exact ⟨m', e, p, g⟩
  · intro queue h hq g
    obtain ⟨h', e, _⟩ := enableLoop_terminates E m.pluginSpecs m.testSpecs _ queue h hq
      (dependenciesWithin_congr g _ hw) (Nat.le_refl _)
    exact ⟨h', fun fuel hf => enableLoop_fuel_mono E m.testSpecs _ fuel hf queue h h' e⟩

set_option maxRecDepth 100000 in
/-- The three specs of the required cycle `A` → `B` → `C` → `A`: the function
returns, with all three effectively enabled. -/
theorem enableDependenciesIndirectly_terminates_witness :
    (∃ m', ((scenarioCycle "A").getD scenarioManager).enableDependenciesIndirectly plainEnv
        = some m'
      ∧ m'.pluginSpecs = ((scenarioCycle "A").getD scenarioManager).pluginSpecs
      ∧ sameGraph ((scenarioCycle "A").getD scenarioManager).heap m'.heap)
    ∧ ((scenarioCycle "A").getD scenarioManager).pluginSpecs.map (fun a =>
        ((((scenarioCycle "A").getD scenarioManager).heap a).dependencySpecs.map
          (fun e => (e.1.type, e.2))))
      = [[(DependencyType.Required, 1)], [(DependencyType.Required, 2)],
          [(DependencyType.Required, 0)]] :=
  ⟨(enableDependenciesIndirectly_terminates plainEnv ((scenarioCycle "A").getD scenarioManager)
    (by unfold dependenciesWithin; decide)).1, by decide⟩

/-! ## The load queue as a permutation -/

/-- The loop of `loadQueue()` keeps an ordered queue ordered, whatever the
specs. -/
theorem loadQueueLoop_ordered (fuel : Nat) :
    ∀ (specs : List Nat) (heap : Heap) (queue : List Nat) (heap' : Heap) (queue' : List Nat),
      PluginManagerPrivate.loadQueueLoop fuel specs heap queue = some (heap', queue') →
      queueOrdered heap queue → queueOrdered heap' queue' := by
  intro specs
  induction specs with
  | nil =>
    intro heap queue heap' queue' h o
    simp only [PluginManagerPrivate.loadQueueLoop, Option.some.injEq, Prod.mk.injEq] at h
    obtain ⟨rfl, rfl⟩ := h
    exact o
  | cons spec rest ih =>
    intro heap queue heap' queue' h o
    simp only [PluginManagerPrivate.loadQueueLoop] at h
    cases hs : PluginManagerPrivate.loadQueueSpec fuel spec ⟨heap, queue, []⟩ with
    | none => simp [hs] at h
    | some r =>
      obtain ⟨b, st⟩ := r
      simp only [hs] at h
      exact ih _ _ _ _ h ((loadQueueSpec_step fuel spec _ b st hs).1.2.2.2.2 o)

/-- C37. If `pluginSpecs` has no duplicates, every spec went through dependency
resolution, the resolved dependencies point to specs of the manager and those
that are not test dependencies form no cycle, then `loadQueue()` returns a
permutation of `pluginSpecs`, in which every spec comes after the specs it
depends on, and leaves the manager as it was: no `hasError`, no `errorString`
changes. And whenever `loadQueue()` returns, for any manager, its queue holds
no spec twice. -/
theorem loadQueue_permutation (m : PluginManagerPrivate)
    (hnodup : m.pluginSpecs.Nodup)
    (hw : dependenciesWithin m.heap m.pluginSpecs)
    (hres : ∀ s ∈ m.pluginSpecs, isResolved (m.heap s))
    (hacyclic : ∀ s ∈ m.pluginSpecs, ¬ Relation.TransGen (dependsOn m.heap) s s) :
    (∃ queue m', m.loadQueue = some (queue, m') ∧ m' = m
      ∧ (∀ s, (m'.heap s).hasError = (m.heap s).hasError
        ∧ (m'.heap s).errorString = (m.heap s).errorString)
      ∧ queue.Perm m.pluginSpecs ∧ queue.Nodup ∧ queueOrdered m.heap queue)
    ∧ ∀ (n : PluginManagerPrivate) queue n', n.loadQueue = some (queue, n') → queue.Nodup := by
  constructor
  · obtain ⟨queue, e, o, hmem⟩ := loadQueue_acyclic m hw hres hacyclic
    exact ⟨queue, m, e, rfl, fun _ => ⟨rfl, rfl⟩,
      (List.perm_ext_iff_of_nodup o.1 hnodup).2 hmem, o.1, o⟩
  · intro n queue n' h
    unfold PluginManagerPrivate.loadQueue at h
    cases hl : PluginManagerPrivate.loadQueueLoop (n.pluginSpecs.length + 1) n.pluginSpecs
        n.heap [] with
    | none => simp [hl] at h
    | some r =>
      obtain ⟨heap', queue'⟩ := r
      simp only [hl, Option.some.injEq, Prod.mk.injEq] at h
      obtain ⟨rfl, _⟩ := h
      exact (loadQueueLoop_ordered _ _ _ _ _ _ hl (queueOrdered_nil _)).1

set_option maxRecDepth 100000 in
/-- The diamond `Core`, `A` and `B` (requiring `Core`), `D` (requiring `A` and
`B`): the queue is `Core`, `A`, `B`, `D`. -/
theorem loadQueue_permutation_witness :
    (∃ queue m', (scenarioDiamond.getD scenarioManager).loadQueue = some (queue, m')
      ∧ m' = scenarioDiamond.getD scenarioManager
      ∧ (∀ s, (m'.heap s).hasError = ((scenarioDiamond.getD scenarioManager).heap s).hasError
        ∧ (m'.heap s).errorString = ((scenarioDiamond.getD scenarioManager).heap s).errorString)
      ∧ queue.Perm (scenarioDiamond.getD scenarioManager).pluginSpecs ∧ queue.Nodup
      ∧ queueOrdered (scenarioDiamond.getD scenarioManager).heap queue)
    ∧ (scenarioDiamond.bind PluginManagerPrivate.loadQueue).map
        (fun r => r.1.map (fun a => (r.2.heap a).name))
      = some ["Core".toList, "A".toList, "B".toList, "D".toList] :=
  ⟨(loadQueue_permutation (scenarioDiamond.getD scenarioManager) (by decide)
      (by unfold dependenciesWithin; decide) (by unfold isResolved; decide)
      (acyclic_of_rank _ _ (fun a => a) (by unfold dependenciesWithin; decide) (by decide))).1,
    by decide⟩

/-! ## Plugins requiring a plugin -/

theorem requiresDirectly_congr {h h' : Heap} (g : sameGraph h h') (a b : Nat)
    (r : requiresDirectly h a b) : requiresDirectly h' a b := by
  obtain ⟨e, he, ht, hv⟩ := r
  exact ⟨e, by rw [← (g a).2]; exact he, ht, hv⟩

theorem sameGraph_symm {h h' : Heap} (g : sameGraph h h') : sameGraph h' h :=
  fun s => ⟨(g s).1.symm, (g s).2.symm⟩

/-- `requiresAny` is true only through a required entry whose value is in the
set. -/
theorem requiresAny_entry (d : PluginSpec) (plugins : List Nat)
    (h : d.requiresAny plugins = true) :
    ∃ e ∈ d.dependencySpecs, e.1.type = DependencyType.Required ∧ e.2 ∈ plugins := by
  unfold PluginSpec.requiresAny at h
  rw [List.any_eq_true] at h
  obtain ⟨e, he, hp⟩ := h
  simp only [Bool.and_eq_true, decide_eq_true_eq] at hp
  exact ⟨e, he, hp.1, by simpa using hp.2⟩

/-- Every spec that the loop of `pluginsRequiringPlugin` adds to the set requires
`S` through one or more required entries, and the set stays without
repetition. -/
theorem pluginsRequiringPluginLoop_sound (heap : Heap) (S : Nat) (queue : List Nat) :
    ∀ acc : List Nat, acc.Nodup →
      (∀ x ∈ acc, x = S ∨ Relation.TransGen (requiresDirectly heap) x S) →
      (pluginsRequiringPluginLoop heap queue acc).Nodup
        ∧ ∀ x ∈ pluginsRequiringPluginLoop heap queue acc,
            x = S ∨ Relation.TransGen (requiresDirectly heap) x S := by
  induction queue with
  | nil => intro acc h1 h2; exact ⟨h1, h2⟩
  | cons spec rest ih =>
    intro acc h1 h2
    simp only [pluginsRequiringPluginLoop]
    split
    · rename_i hreq
      obtain ⟨e, he, ht, hin⟩ := requiresAny_entry _ _ hreq
      have hspec : Relation.TransGen (requiresDirectly heap) spec S := by
        have hedge : requiresDirectly heap spec e.2 := ⟨e, he, ht, rfl⟩
        rcases h2 e.2 hin with h | h
        · rw [h] at hedge
          exact Relation.TransGen.single hedge
        · exact Relation.TransGen.head hedge h
      split
      · exact ih acc h1 h2
      · rename_i hc
        refine ih _ ?_ ?_
        · exact List.Nodup.append h1 (List.nodup_singleton _)
            (by
              intro x hx hx2
              rw [List.mem_singleton] at hx2
              subst hx2
              exact hc (by simpa using hx))
        · intro x hx
          rcases List.mem_append.1 hx with h | h
          · exact h2 x h
          · rw [List.mem_singleton] at h
            subst h
            exact Or.inr hspec
    · exact ih acc h1 h2

/-- On an ordered queue whose specs have resolved dependencies only when they
went through dependency resolution, a chain of required entries from a spec of
the queue runs through specs of the queue. -/
theorem requiresSpec_of_requiresDirectly (heap : Heap) (queue : List Nat) (S : Nat)
    (ho : queueOrdered heap queue)
    (hun : ∀ s ∈ queue, (heap s).dependencySpecs ≠ [] → isResolved (heap s)) (X : Nat)
    (hX : Relation.TransGen (requiresDirectly heap) X S) :
    X ∈ queue → Relation.TransGen (requiresSpec heap) X S := by
  induction hX using Relation.TransGen.head_induction_on with
  | @base a h =>
    intro ha
    obtain ⟨e, he, ht, hv⟩ := h
    exact Relation.TransGen.single ⟨hun a ha (List.ne_nil_of_mem he), e, he, ht, hv⟩
  | @ih a Y h _ ihY =>
    intro ha
    obtain ⟨e, he, ht, hv⟩ := h
    have hres := hun a ha (List.ne_nil_of_mem he)
    obtain ⟨pre, post, hsplit⟩ := List.append_of_mem ha
    have hY : Y ∈ queue := by
      have := ho.2 pre a post hsplit hres e he (by rw [ht]; decide)
      rw [hv] at this
      rw [hsplit]
      exact List.mem_append_left _ this
    exact Relation.TransGen.head ⟨hres, e, he, ht, hv⟩ (ihY hY)

/-- C32. When the resolved dependencies point to specs of the manager and only
specs that went through dependency resolution have resolved dependencies,
`pluginsRequiringPlugin(S)` returns, and its result holds exactly the specs X
other than S of the load queue from which S is reached through one or more
resolved dependencies of type `Required`; the result holds no spec twice and
never S. -/
theorem pluginsRequiringPlugin_exact (m : PluginManagerPrivate) (S : Nat)
    (hw : dependenciesWithin m.heap m.pluginSpecs)
    (hun : ∀ s ∈ m.pluginSpecs, (m.heap s).dependencySpecs ≠ [] → isResolved (m.heap s)) :
    ∃ queue m1 result, m.loadQueue = some (queue, m1)
      ∧ m.pluginsRequiringPlugin S = some (result, m1)
      ∧ (∀ X, X ∈ result ↔
          (X ≠ S ∧ X ∈ queue ∧ Relation.TransGen (requiresDirectly m.heap) X S))
      ∧ result.Nodup ∧ S ∉ result := by
  obtain ⟨queue, m1, hq, g, ho, hsub, _⟩ := loadQueue_ordered m hw
  obtain ⟨snd1, snd2⟩ := pluginsRequiringPluginLoop_sound m1.heap S queue [S]
    (List.nodup_singleton S) (fun x hx => Or.inl (List.mem_singleton.1 hx))
  have hun1 : ∀ s ∈ queue, (m1.heap s).dependencySpecs ≠ [] → isResolved (m1.heap s) := by
    intro s hs hne
    have h1 := hun s (hsub hs) (by rw [(g s).2]; exact hne)
    unfold isResolved at h1 ⊢
    rw [← (g s).1]
    exact h1
  refine ⟨queue, m1, (pluginsRequiringPluginLoop m1.heap queue [S]).filter (fun s => s ≠ S),
    hq, ?_, fun X => ⟨fun h => ?_, fun h => ?_⟩, snd1.filter _, ?_⟩
  · simp only [PluginManagerPrivate.pluginsRequiringPlugin, hq]
  · obtain ⟨h1, h2⟩ := List.mem_filter.1 h
    have hne : X ≠ S := by simpa using h2
    refine ⟨hne, ?_, ?_⟩
    · rcases pluginsRequiringPluginLoop_subset m1.heap queue _ _ h1 with h3 | h3
      · exact absurd (List.mem_singleton.1 h3) hne
      · exact h3
    · rcases snd2 X h1 with h3 | h3
      · exact absurd h3 hne
      · exact Relation.TransGen.mono
          (fun a b r => requiresDirectly_congr (sameGraph_symm g) a b r) h3
  · obtain ⟨hne, hXq, hreach⟩ := h
    have hreach1 : Relation.TransGen (requiresSpec m1.heap) X S :=
      requiresSpec_of_requiresDirectly m1.heap queue S ho hun1 X
        (Relation.TransGen.mono (fun a b r => requiresDirectly_congr g a b r) hreach) hXq
    obtain ⟨pre, post, hsplit⟩ := List.append_of_mem hXq
    have hin := pluginsRequiringPluginLoop_complete m1.heap queue S ho X hreach1 pre post hsplit
    have hin2 : X ∈ pluginsRequiringPluginLoop m1.heap queue [S] := by
      rw [hsplit, show pre ++ X :: post = (pre ++ [X]) ++ post by simp,
        pluginsRequiringPluginLoop_append]
      exact pluginsRequiringPluginLoop_mono m1.heap post _ _ hin
    exact List.mem_filter.2 ⟨hin2, by simpa using hne⟩
  · intro h
    have := (List.mem_filter.1 h).2
    simp at this

set_option maxRecDepth 100000 in
/-- The specs `Foo`, `A` (requiring `Foo` and `B`), `B` (requiring `A`) and `C`
(requiring `Foo`): the load queue is `Foo`, `C`, and `pluginsRequiringPlugin(Foo)`
is `C`. -/
theorem pluginsRequiringPlugin_exact_witness :
    (∃ queue m1 result, (scenarioCrash.getD scenarioManager).loadQueue = some (queue, m1)
      ∧ (scenarioCrash.getD scenarioManager).pluginsRequiringPlugin 0 = some (result, m1)
      ∧ (∀ X, X ∈ result ↔
          (X ≠ 0 ∧ X ∈ queue
            ∧ Relation.TransGen (requiresDirectly (scenarioCrash.getD scenarioManager).heap) X 0))
      ∧ result.Nodup ∧ 0 ∉ result)
    ∧ ((scenarioCrash.getD scenarioManager).pluginsRequiringPlugin 0).map (fun r => r.1)
      = some [3] :=
  ⟨pluginsRequiringPlugin_exact (scenarioCrash.getD scenarioManager) 0
    (by unfold dependenciesWithin; decide) (by unfold isResolved; decide), by decide⟩

/-! ## Effect of the crash check -/

set_option maxRecDepth 100000 in
/-- C38. The specs `Foo`, `A` (requiring `Foo` and `B`), `B` (requiring `A`)
and `C` (requiring `Foo`), all enabled, no test run requested, a lock file
naming `Foo`, the user choosing "Disable Plugin". `A` and `B` require each
other and are left out of the load queue, so `pluginsRequiringPlugin(Foo)` is
`C` alone. Afterwards `Foo` has `forceDisabled` true, but
`enableDependenciesIndirectly()` finds `A` effectively enabled and sets
`enabledIndirectly` on its dependency `Foo`: `Foo.isEffectivelyEnabled()` is
true, and `loadPlugins()` brings `Foo` to the state `Running` again. `C` is
not effectively enabled and stays in `Resolved`. -/
theorem checkForProblematicPlugins_reenables :
    scenarioCrash.map (fun m => (m.testSpecs, m.pluginSpecs.map (fun a =>
        ((m.heap a).name, (m.heap a).isEffectivelyEnabled plainEnv))))
      = some ([], [("A".toList, true), ("B".toList, true), ("C".toList, true),
          ("Foo".toList, true)])
    ∧ (scenarioCrash.bind (fun m => m.pluginsRequiringPlugin 0)).map
        (fun r => r.1.map (fun a => (r.2.heap a).name)) = some ["C".toList]
    ∧ (scenarioCrash.bind (PluginManagerPrivate.checkForProblematicPlugins plainEnv
        (some "Foo\n".toList) true)).map (fun m => m.pluginSpecs.map (fun a =>
          ((m.heap a).name, (m.heap a).forceDisabled, (m.heap a).enabledIndirectly,
            (m.heap a).isEffectivelyEnabled plainEnv)))
      = some [("A".toList, false, false, true), ("B".toList, false, false, true),
          ("C".toList, true, false, false), ("Foo".toList, true, true, true)]
    ∧ ((scenarioCrash.bind (PluginManagerPrivate.checkForProblematicPlugins plainEnv
        (some "Foo\n".toList) true)).bind
          (PluginManagerPrivate.loadPlugins plainEnv scenarioCallbacks)).map
        (fun m => m.pluginSpecs.map (fun a => ((m.heap a).name, (m.heap a).state)))
      = some [("A".toList, State.Resolved), ("B".toList, State.Resolved),
          ("C".toList, State.Resolved), ("Foo".toList, State.Running)] := by
  refine ⟨by decide, by decide, by decide, by decide⟩

/-! ## Settings -/

theorem readDependency_keepsEnabled (E : QtEnv) (v : QJsonValue) (d : PluginSpec) :
    keeps enabledMembers d (PluginSpec.readDependency E v d) := by
  unfold PluginSpec.readDependency
  simp only [pure, throw, throwThe, MonadExceptOf.throw, bind, Except.bind, Except.pure]
  repeat' (first | apply keeps_ite | rfl)

theorem readDependencies_keepsEnabled (E : QtEnv) (l : List QJsonValue) :
    ∀ d, keeps enabledMembers d (PluginSpec.readDependencies E l d) := by
  induction l with
  | nil => intro d; rfl
  | cons v rest ih =>
    intro d
    unfold PluginSpec.readDependencies
    exact keeps_bind _ d _ _ (readDependency_keepsEnabled E v d) (fun d' _ => ih d')

theorem readArgument_keepsEnabled (v : QJsonValue) (d : PluginSpec) :
    keeps enabledMembers d (PluginSpec.readArgument v d) := by
  unfold PluginSpec.readArgument
  simp only [pure, throw, throwThe, MonadExceptOf.throw, bind, Except.bind, Except.pure]
  repeat' (first | apply keeps_ite | rfl)

theorem readArguments_keepsEnabled (l : List QJsonValue) :
    ∀ d, keeps enabledMembers d (PluginSpec.readArguments l d) := by
  induction l with
  | nil => intro d; rfl
  | cons v rest ih =>
    intro d
    unfold PluginSpec.readArguments
    exact keeps_bind _ d _ _ (readArgument_keepsEnabled v d) (fun d' _ => ih d')

theorem settingsAtDefault_of_keeps (d : PluginSpec) (r : Early)
    (h : d.enabledBySettings = d.enabledByDefault) (k : keeps enabledMembers d r) :
    settingsAtDefault r := by
  cases r with
  | ok d' =>
    have k' : enabledMembers d' = enabledMembers d := k
    simp only [enabledMembers, Prod.mk.injEq] at k'
    show d'.enabledBySettings = d'.enabledByDefault
    rw [k'.1, k'.2]
    exact h
  | error e =>
    have k' : enabledMembers e.2 = enabledMembers d := k
    simp only [enabledMembers, Prod.mk.injEq] at k'
    show e.2.enabledBySettings = e.2.enabledByDefault
    rw [k'.1, k'.2]
    exact h

/-- Every step of `readMetaData` ends with `enabledBySettings` equal to
`enabledByDefault` when it started so; the step `DisabledByDefault` assigns
one to the other. -/
theorem readMetaDataSteps_settingsAtDefault (E : QtEnv) (iid : QString) (md : QJsonObject) :
    ∀ step ∈ PluginSpec.readMetaDataSteps E iid md, ∀ d,
      d.enabledBySettings = d.enabledByDefault → settingsAtDefault (step d) := by
  intro step hstep d hd
  simp only [PluginSpec.readMetaDataSteps, List.mem_cons, List.mem_singleton, List.not_mem_nil,
    or_false] at hstep
  rcases hstep with h | h | h | h | h | h | h | h | h | h | h | h | h | h | h | h | h <;> subst h
  · apply settingsAtDefault_of_keeps d _ hd
    unfold PluginSpec.readIID
    repeat' (first | apply keeps_ite | rfl)
  · apply settingsAtDefault_of_keeps d _ hd
    unfold PluginSpec.readMetaDataObject
    repeat' (first | apply keeps_ite | rfl)
  · apply settingsAtDefault_of_keeps d _ hd
    unfold PluginSpec.readName
    repeat' (first | apply keeps_ite | rfl)
  · apply settingsAtDefault_of_keeps d _ hd
    unfold PluginSpec.readVersion
    repeat' (first | apply keeps_ite | rfl)
  · apply settingsAtDefault_of_keeps d _ hd
    unfold PluginSpec.readCompatVersion
    repeat' (first | apply keeps_ite | rfl)
  · apply settingsAtDefault_of_keeps d _ hd
    unfold PluginSpec.readRequired
    repeat' (first | apply keeps_ite | rfl)
  · apply settingsAtDefault_of_keeps d _ hd
    unfold PluginSpec.readExperimental
    repeat' (first | apply keeps_ite | rfl)
  · unfold PluginSpec.readDisabledByDefault
    split
    · exact hd
    · show (PluginSpec.applyExperimental _).enabledBySettings
        = (PluginSpec.applyExperimental _).enabledByDefault
      unfold PluginSpec.applyExperimental
      split <;> rfl
  · apply settingsAtDefault_of_keeps d _ hd
    unfold PluginSpec.readVendor
    repeat' (first | apply keeps_ite | rfl)
  · apply settingsAtDefault_of_keeps d _ hd
    unfold PluginSpec.readCopyright
    repeat' (first | apply keeps_ite | rfl)
  · apply settingsAtDefault_of_keeps d _ hd
    unfold PluginSpec.readDescription
    apply keeps_ite
    · rfl
    · split <;> rfl
  · apply settingsAtDefault_of_keeps d _ hd
    unfold PluginSpec.readUrl
    repeat' (first | apply keeps_ite | rfl)
  · apply settingsAtDefault_of_keeps d _ hd
    unfold PluginSpec.readCategory
    repeat' (first | apply keeps_ite | rfl)
  · apply settingsAtDefault_of_keeps d _ hd
    unfold PluginSpec.readLicense
    apply keeps_ite
    · rfl
    · split <;> rfl
  · apply settingsAtDefault_of_keeps d _ hd
    unfold PluginSpec.readPlatform
    repeat' (first | apply keeps_ite | rfl)
  · apply settingsAtDefault_of_keeps d _ hd
    unfold PluginSpec.readDependenciesKey
    repeat' (first | apply keeps_ite | rfl | exact readDependencies_keepsEnabled E _ d)
  · apply settingsAtDefault_of_keeps d _ hd
    unfold PluginSpec.readArgumentsKey
    repeat' (first | apply keeps_ite | rfl | exact readArguments_keepsEnabled _ d)

theorem runSteps_settingsAtDefault (steps : List (PluginSpec → Early))
    (h : ∀ step ∈ steps, ∀ d, d.enabledBySettings = d.enabledByDefault →
      settingsAtDefault (step d)) :
    ∀ d, d.enabledBySettings = d.enabledByDefault →
      settingsAtDefault (PluginSpec.runSteps steps d) := by
  induction steps with
  | nil => intro d hd; exact hd
  | cons step rest ih =>
    intro d hd
    have h1 := h step (by simp) d hd
    unfold PluginSpec.runSteps
    cases hs : step d with
    | error r =>
      rw [hs] at h1
      exact h1
    | ok d1 =>
      rw [hs] at h1
      exact ih (fun s hs' => h s (List.mem_cons_of_mem _ hs')) d1 h1

/-- After `PluginSpecPrivate::read` on a new spec, `enabledBySettings` has the
value of `enabledByDefault`. -/
theorem read_settingsAtDefault (E : QtEnv) (iid : QString) (file : PluginFile) :
    (PluginSpec.read E iid file PluginSpec.new).2.enabledBySettings
      = (PluginSpec.read E iid file PluginSpec.new).2.enabledByDefault := by
  unfold PluginSpec.read
  simp only
  split
  · rfl
  · have h := runSteps_settingsAtDefault _ (readMetaDataSteps_settingsAtDefault E iid file.metaData)
      { { PluginSpec.new with
          name := [], version := [], compatVersion := [], vendor := [], copyright := [],
          license := [], description := [], url := [], category := [], location := [],
          state := State.Invalid, hasError := false, errorString := [], dependencies := [],
          metaData := [] } with
        location := file.absolutePath, filePath := file.absoluteFilePath } rfl
    unfold PluginSpec.readMetaData
    cases hr : PluginSpec.runSteps (PluginSpec.readMetaDataSteps E iid file.metaData) _ with
    | error r =>
      rw [hr] at h
      simp only
      split <;> exact h
    | ok d1 =>
      rw [hr] at h
      simp only
      split <;> exact h

/-- The lists written by `writeSettings`: the names of the specs enabled by
default and disabled in the settings, and the names of the specs disabled by
default and enabled in the settings, in the order of `pluginSpecs`. -/
theorem writeSettings_eq (m : PluginManagerPrivate) :
    m.writeSettings =
      ((m.pluginSpecs.filter (fun s =>
          (m.heap s).enabledByDefault && !(m.heap s).enabledBySettings)).map
          (fun s => (m.heap s).name),
        (m.pluginSpecs.filter (fun s =>
          !(m.heap s).enabledByDefault && (m.heap s).enabledBySettings)).map
          (fun s => (m.heap s).name)) := by
  unfold PluginManagerPrivate.writeSettings
  have key : ∀ (specs : List Nat) (lists : List QString × List QString),
      specs.foldl (fun (lists : List QString × List QString) spec =>
          ((if (m.heap spec).enabledByDefault && !(m.heap spec).enabledBySettings then
              lists.1 ++ [(m.heap spec).name] else lists.1),
            (if !(m.heap spec).enabledByDefault && (m.heap spec).enabledBySettings then
              lists.2 ++ [(m.heap spec).name] else lists.2))) lists
        = (lists.1 ++ (specs.filter (fun s =>
              (m.heap s).enabledByDefault && !(m.heap s).enabledBySettings)).map
              (fun s => (m.heap s).name),
           lists.2 ++ (specs.filter (fun s =>
              !(m.heap s).enabledByDefault && (m.heap s).enabledBySettings)).map
              (fun s => (m.heap s).name)) := by
    intro specs
    induction specs with
    | nil => intro lists; simp
    | cons a rest ih =>
      intro lists
      simp only [List.foldl_cons]
      rw [ih]
      cases hd : (m.heap a).enabledByDefault <;> cases hs : (m.heap a).enabledBySettings <;>
        simp [List.filter_cons, hd, hs]
  have := key m.pluginSpecs ([], [])
  simpa using this

/-- The names on the two lists written by `writeSettings`. -/
theorem writeSettings_mem (m : PluginManagerPrivate) (n : QString) :
    (n ∈ m.writeSettings.1 ↔ ∃ s ∈ m.pluginSpecs, (m.heap s).name = n
        ∧ (m.heap s).enabledByDefault = true ∧ (m.heap s).enabledBySettings = false)
    ∧ (n ∈ m.writeSettings.2 ↔ ∃ s ∈ m.pluginSpecs, (m.heap s).name = n
        ∧ (m.heap s).enabledByDefault = false ∧ (m.heap s).enabledBySettings = true) := by
  rw [writeSettings_eq]
  constructor
  · simp only [List.mem_map, List.mem_filter, Bool.and_eq_true, Bool.not_eq_true']
    constructor
    · rintro ⟨s, ⟨h1, h2, h3⟩, h4⟩
      exact ⟨s, h1, h4, h2, h3⟩
    · rintro ⟨s, h1, h4, h2, h3⟩
      exact ⟨s, ⟨h1, h2, h3⟩, h4⟩
  · simp only [List.mem_map, List.mem_filter, Bool.and_eq_true, Bool.not_eq_true']
    constructor
    · rintro ⟨s, ⟨h1, h2, h3⟩, h4⟩
      exact ⟨s, h1, h4, h2, h3⟩
    · rintro ⟨s, h1, h4, h2, h3⟩
      exact ⟨s, ⟨h1, h2, h3⟩, h4⟩

/-- The spec that `readPluginFile` adds for a file that `read` accepts: its
name and `enabledByDefault` are those left by the lists of the installation,
and `enabledBySettings` follows the lists of the user. -/
theorem readPluginFile_settings (E : QtEnv) (m0 : PluginManagerPrivate) (file : PluginFile)
    (hread : (PluginSpec.read E m0.pluginIID file PluginSpec.new).1 = true) :
    ((m0.readPluginFile E file).heap m0.nextSpec).enabledBySettings =
      (if ((m0.readPluginFile E file).heap m0.nextSpec).enabledByDefault then
        !m0.disabledPlugins.contains ((m0.readPluginFile E file).heap m0.nextSpec).name
      else m0.forceEnabledPlugins.contains ((m0.readPluginFile E file).heap m0.nextSpec).name) := by
  have hP := read_settingsAtDefault E m0.pluginIID file
  unfold PluginManagerPrivate.readPluginFile
  simp only [hread, Bool.not_true, Bool.false_eq_true, if_false, Heap.set_same]
  generalize (PluginSpec.read E m0.pluginIID file PluginSpec.new).2 = r at hP
  cases hd : r.enabledByDefault <;> by_cases hc1 : r.name ∈ m0.defaultDisabledPlugins <;>
    by_cases hc2 : r.name ∈ m0.defaultEnabledPlugins <;>
    by_cases hc3 : r.name ∈ m0.forceEnabledPlugins <;>
    by_cases hc4 : r.name ∈ m0.disabledPlugins <;>
    simp [hd, hc1, hc2, hc3, hc4, hP, PluginSpec.setEnabledByDefault,
      PluginSpec.setEnabledBySettings]

/-- C39. Enable/disable settings round trip. Let the names of the specs of the
manager `m` be pairwise distinct, and let the manager `m0` read a plugin file
with the two lists that `m.writeSettings()` wrote as its lists of disabled and
force-enabled plugins. If `read` accepts the file and the spec that
`readPluginPaths` adds for it has the name and the `enabledByDefault` of the
spec `s` of `m`, then it has the `enabledBySettings` of `s`. With pairwise
distinct names no name is on both written lists. -/
theorem settings_round_trip (E : QtEnv) (m m0 : PluginManagerPrivate) (file : PluginFile)
    (s : Nat)
    (hdistinct : ∀ a ∈ m.pluginSpecs, ∀ b ∈ m.pluginSpecs,
      (m.heap a).name = (m.heap b).name → a = b)
    (hs : s ∈ m.pluginSpecs)
    (hlists : m0.disabledPlugins = m.writeSettings.1
      ∧ m0.forceEnabledPlugins = m.writeSettings.2)
    (hread : (PluginSpec.read E m0.pluginIID file PluginSpec.new).1 = true)
    (hname : ((m0.readPluginFile E file).heap m0.nextSpec).name = (m.heap s).name)
    (hdefault : ((m0.readPluginFile E file).heap m0.nextSpec).enabledByDefault
      = (m.heap s).enabledByDefault) :
    ((m0.readPluginFile E file).heap m0.nextSpec).enabledBySettings
        = (m.heap s).enabledBySettings
      ∧ ∀ n, n ∈ m.writeSettings.1 → n ∉ m.writeSettings.2 := by
  constructor
  · rw [readPluginFile_settings E m0 file hread, hdefault, hname, hlists.1, hlists.2]
    cases hd : (m.heap s).enabledByDefault
    · simp only [Bool.false_eq_true, if_false]
      cases hset : (m.heap s).enabledBySettings
      · rw [Bool.eq_false_iff]
        intro hc
        have hc' : (m.heap s).name ∈ m.writeSettings.2 := by simpa using hc
        obtain ⟨t, ht, hn, _, h2⟩ := (writeSettings_mem m _).2.1 hc'
        have := hdistinct t ht s hs hn
        subst this
        rw [hset] at h2
        cases h2
      · have : (m.heap s).name ∈ m.writeSettings.2 :=
          (writeSettings_mem m _).2.2 ⟨s, hs, rfl, hd, hset⟩
        simpa using this
    · simp only [if_true]
      cases hset : (m.heap s).enabledBySettings
      · have : (m.heap s).name ∈ m.writeSettings.1 :=
          (writeSettings_mem m _).1.2 ⟨s, hs, rfl, hd, hset⟩
        simpa using this
      · have hnot : (m.heap s).name ∉ m.writeSettings.1 := by
          intro hc
          obtain ⟨t, ht, hn, _, h2⟩ := (writeSettings_mem m _).1.1 hc
          have := hdistinct t ht s hs hn
          subst this
          rw [hset] at h2
          cases h2
        simpa using hnot
  · intro n h1 h2
    obtain ⟨a, ha, hna, hda, _⟩ := (writeSettings_mem m n).1.1 h1
    obtain ⟨b, hb, hnb, hdb, _⟩ := (writeSettings_mem m n).2.1 h2
    have := hdistinct a ha b hb (hna.trans hnb.symm)
    subst this
    rw [hda] at hdb
    cases hdb

set_option maxRecDepth 100000 in
/-- The scenario `Core`, `B` with `B` disabled by the user: the lists written are
`B` and nothing, and reading the file of `B` again with these lists gives a
spec that is disabled in the settings. -/
theorem settings_round_trip_witness :
    (((scenarioReadBack.readPluginFile plainEnv (scenarioFile "B" "1.0" none [])).heap
        scenarioReadBack.nextSpec).enabledBySettings = (scenarioDisabled.heap 1).enabledBySettings
      ∧ ∀ n, n ∈ scenarioDisabled.writeSettings.1 → n ∉ scenarioDisabled.writeSettings.2)
    ∧ scenarioDisabled.writeSettings = (["B".toList], [])
    ∧ (scenarioDisabled.heap 1).enabledBySettings = false :=
  ⟨settings_round_trip plainEnv scenarioDisabled scenarioReadBack
    (scenarioFile "B" "1.0" none []) 1 (by decide) (by decide) ⟨rfl, rfl⟩ (by decide)
    (by decide) (by decide), by decide, by decide⟩

set_option maxRecDepth 100000 in
/-- Two plugin files named `A`, version 1.0 enabled by default and version 2.0
disabled by default. After the user disabled the first and enabled the second,
`A` is on both lists written by `writeSettings`. -/
theorem writeSettings_lists_overlap :
    scenarioSameNameRead.pluginSpecs.map (fun s =>
        ((scenarioSameNameRead.heap s).name, (scenarioSameNameRead.heap s).version,
          (scenarioSameNameRead.heap s).enabledByDefault,
          (scenarioSameNameRead.heap s).enabledBySettings))
      = [("A".toList, "1.0".toList, true, true), ("A".toList, "2.0".toList, false, false)]
    ∧ scenarioSameName.pluginSpecs.map (fun s =>
        ((scenarioSameName.heap s).name, (scenarioSameName.heap s).version,
          (scenarioSameName.heap s).enabledByDefault,
          (scenarioSameName.heap s).enabledBySettings))
      = [("A".toList, "1.0".toList, true, false), ("A".toList, "2.0".toList, false, true)]
    ∧ scenarioSameName.writeSettings = (["A".toList], ["A".toList]) := by
  refine ⟨by decide, by decide, by decide⟩

/-! ## Arguments for a running instance -/

theorem split_ne_nil (sep : Char) (s : QString) : split sep s ≠ [] := by
  induction s with
  | nil => simp [split]
  | cons c r ih =>
    unfold split
    split
    · simp
    · split <;> simp

theorem split_noSep (sep : Char) (a : QString) (h : sep ∉ a) : split sep a = [a] := by
  induction a with
  | nil => rfl
  | cons c r ih =>
    have hc : c ≠ sep := fun e => h (e ▸ List.mem_cons_self _ _)
    have hr : sep ∉ r := fun e => h (List.mem_cons_of_mem _ e)
    simp [split, hc, ih hr]

theorem split_append_sep (sep : Char) (a b : QString) (h : sep ∉ a) :
    split sep (a ++ sep :: b) = a :: split sep b := by
  induction a with
  | nil => simp [split]
  | cons c r ih =>
    have hc : c ≠ sep := fun e => h (e ▸ List.mem_cons_self _ _)
    have hr : sep ∉ r := fun e => h (List.mem_cons_of_mem _ e)
    simp [split, hc, ih hr]

/-- Splitting the joined items gives the items back when no item contains the
separator. -/
theorem split_joinWith (sep : Char) (items : List QString) (hne : items ≠ [])
    (h : ∀ t ∈ items, sep ∉ t) : split sep (joinWith sep items) = items := by
  induction items with
  | nil => exact absurd rfl hne
  | cons a rest ih =>
    cases rest with
    | nil => exact split_noSep sep a (h a (by simp))
    | cons b rest' =>
      show split sep (a ++ sep :: joinWith sep (b :: rest')) = _
      rw [split_append_sep sep a _ (h a (by simp)),
        ih (by simp) (fun t ht => h t (List.mem_cons_of_mem _ ht))]

theorem joinWith_append (sep : Char) (A B : List QString) (hA : A ≠ []) (hB : B ≠ []) :
    joinWith sep (A ++ B) = joinWith sep A ++ sep :: joinWith sep B := by
  induction A with
  | nil => exact absurd rfl hA
  | cons a rest ih =>
    cases rest with
    | nil =>
      cases B with
      | nil => exact absurd rfl hB
      | cons b B' => rfl
    | cons a2 rest' =>
      show a ++ sep :: joinWith sep ((a2 :: rest') ++ B) = _
      rw [ih (by simp)]
      simp [joinWith]

theorem joinWith_cons (sep : Char) (a : QString) (B : List QString) (hB : B ≠ []) :
    joinWith sep (a :: B) = a ++ sep :: joinWith sep B := by
  cases B with
  | nil => exact absurd rfl hB
  | cons b B' => rfl

theorem joinWith_ne_nil (sep : Char) (a : QString) (rest : List QString) (ha : a ≠ []) :
    joinWith sep (a :: rest) ≠ [] := by
  cases rest with
  | nil => exact ha
  | cons b r =>
    show a ++ sep :: joinWith sep (b :: r) ≠ []
    simp

/-- The loop of `serializedArguments` over the plugins joins their items. -/
theorem serializedArguments_plugins (heap : Heap) (specs : List Nat) :
    ∀ T : List QString, (T = [] ∨ ∃ t rest, T = t :: rest ∧ t ≠ []) →
      specs.foldl (fun (rc : QString) ps =>
        if !(heap ps).arguments.isEmpty then
          (if !rc.isEmpty then rc ++ ['|'] else rc) ++ [':'] ++ (heap ps).name ++ ['|']
            ++ joinWith '|' (heap ps).arguments
        else rc) (joinWith '|' T)
        = joinWith '|' (T ++ pluginTokens heap specs)
      ∧ (T ++ pluginTokens heap specs = []
        ∨ ∃ t rest, T ++ pluginTokens heap specs = t :: rest ∧ t ≠ []) := by
  induction specs with
  | nil =>
    intro T hT
    simp only [List.foldl_nil, pluginTokens, List.append_nil]
    exact ⟨trivial, hT⟩
  | cons ps rest ih =>
    intro T hT
    simp only [List.foldl_cons, pluginTokens]
    by_cases ha : (heap ps).arguments = []
    · simp only [ha, List.isEmpty_nil, Bool.not_true, Bool.false_eq_true, if_false, if_true,
        List.nil_append]
      exact ih T hT
    · have hne : (heap ps).arguments.isEmpty = false := by
        cases h : (heap ps).arguments with
        | nil => exact absurd h ha
        | cons _ _ => rfl
      simp only [hne, Bool.not_false, if_true, ha, if_false]
      have hstep : (if !(joinWith '|' T).isEmpty then joinWith '|' T ++ ['|'] else joinWith '|' T)
            ++ [':'] ++ (heap ps).name ++ ['|'] ++ joinWith '|' (heap ps).arguments
          = joinWith '|' (T ++ ((':' :: (heap ps).name) :: (heap ps).arguments)) := by
        rcases hT with rfl | ⟨t, r, rfl, ht⟩
        · simp only [joinWith, List.isEmpty_nil, Bool.not_true, Bool.false_eq_true, if_false,
            List.nil_append]
          rw [joinWith_cons '|' _ _ ha]
          simp
        · have hj : (joinWith '|' (t :: r)).isEmpty = false := by
            cases h : joinWith '|' (t :: r) with
            | nil => exact absurd h (joinWith_ne_nil '|' t r ht)
            | cons _ _ => rfl
          simp only [hj, Bool.not_false, if_true]
          rw [joinWith_append '|' (t :: r) _ (by simp) (by simp), joinWith_cons '|' _ _ ha]
          simp
      rw [hstep]
      have hT' : (T ++ ((':' :: (heap ps).name) :: (heap ps).arguments) = []
          ∨ ∃ t rest, T ++ ((':' :: (heap ps).name) :: (heap ps).arguments) = t :: rest
            ∧ t ≠ []) := by
        rcases hT with rfl | ⟨t, r, rfl, ht⟩
        · exact Or.inr ⟨_, _, rfl, by simp⟩
        · exact Or.inr ⟨t, _, rfl, ht⟩
      have := ih _ hT'
      simpa [List.append_assoc] using this

/-- The loop of `serializedArguments` over the arguments of the manager. -/
theorem serializedArguments_arguments (arguments : List QString) :
    ∀ (T : List QString), T ≠ [] →
      arguments.foldl (fun (rc : QString) argument => rc ++ ('|' :: argument)) (joinWith '|' T)
        = joinWith '|' (T ++ arguments) := by
  induction arguments with
  | nil => intro T _; simp
  | cons a rest ih =>
    intro T hT
    simp only [List.foldl_cons]
    have : joinWith '|' T ++ '|' :: a = joinWith '|' (T ++ [a]) := by
      rw [joinWith_append '|' T [a] hT (by simp)]
      rfl
    rw [this, ih _ (by simp)]
    simp

/-- The text of `serializedArguments` is its items joined by `|`. -/
theorem serializedArguments_eq (m : PluginManagerPrivate) (currentPath : QString) :
    m.serializedArguments currentPath
      = joinWith '|' (pluginTokens m.heap m.pluginSpecs ++ tailTokens currentPath m.arguments) := by
  obtain ⟨h1, h2⟩ := serializedArguments_plugins m.heap m.pluginSpecs [] (Or.inl rfl)
  simp only [List.nil_append] at h1 h2
  unfold PluginManagerPrivate.serializedArguments
  simp only
  rw [show joinWith '|' [] = [] from rfl] at h1
  rw [h1]
  have hpwd : pwdKeywordC ++ ['|'] ++ currentPath = joinWith '|' [pwdKeywordC, currentPath] := by
    simp [joinWith]
  have h3 : (if !(joinWith '|' (pluginTokens m.heap m.pluginSpecs)).isEmpty then
        joinWith '|' (pluginTokens m.heap m.pluginSpecs) ++ ['|']
      else joinWith '|' (pluginTokens m.heap m.pluginSpecs))
        ++ (pwdKeywordC ++ ['|'] ++ currentPath)
      = joinWith '|' (pluginTokens m.heap m.pluginSpecs ++ [pwdKeywordC, currentPath]) := by
    rw [hpwd]
    rcases h2 with h2 | ⟨t, r, h2, ht⟩
    · rw [h2]
      simp [joinWith]
    · rw [h2]
      have hj : (joinWith '|' (t :: r)).isEmpty = false := by
        cases h : joinWith '|' (t :: r) with
        | nil => exact absurd h (joinWith_ne_nil '|' t r ht)
        | cons _ _ => rfl
      simp only [hj, Bool.not_false, if_true]
      rw [joinWith_append '|' (t :: r) _ (by simp) (by simp)]
      simp
  rw [h3]
  unfold tailTokens
  by_cases ha : m.arguments = []
  · simp [ha]
  · have hne : m.arguments.isEmpty = false := by
      cases h : m.arguments with
      | nil => exact absurd h ha
      | cons _ _ => rfl
    simp only [hne, Bool.not_false, if_true, ha, if_false]
    have hj : (joinWith '|' (pluginTokens m.heap m.pluginSpecs ++ [pwdKeywordC, currentPath])).isEmpty
        = false := by
      cases hp : pluginTokens m.heap m.pluginSpecs with
      | nil => rfl
      | cons t r =>
        rcases h2 with h2 | ⟨t', r', h2, ht⟩
        · rw [hp] at h2
          cases h2
        · rw [hp] at h2
          cases h2
          cases h : joinWith '|' (t :: r ++ [pwdKeywordC, currentPath]) with
          | nil => exact absurd h (joinWith_ne_nil '|' t _ ht)
          | cons _ _ => rfl
    simp only [hj, Bool.not_false, if_true]
    have : joinWith '|' (pluginTokens m.heap m.pluginSpecs ++ [pwdKeywordC, currentPath]) ++ ['|']
          ++ argumentKeywordC
        = joinWith '|' ((pluginTokens m.heap m.pluginSpecs ++ [pwdKeywordC, currentPath])
          ++ [argumentKeywordC]) := by
      rw [joinWith_append '|' _ [argumentKeywordC] (by simp) (by simp)]
      simp [joinWith]
    rw [this, serializedArguments_arguments _ _ (by simp)]
    simp

theorem subList_skip (pre l : List QString) (key : QString) (h : ∀ x ∈ pre, x ≠ key) :
    subList (pre ++ l) key = subList l key := by
  induction pre with
  | nil => rfl
  | cons a rest ih =>
    have ha : a ≠ key := h a (by simp)
    have := ih (fun x hx => h x (List.mem_cons_of_mem _ hx))
    unfold subList at this ⊢
    simp only [List.cons_append, List.dropWhile, ha, ne_eq, not_false_eq_true, decide_True]
    exact this

theorem subList_hit (l : List QString) (key : QString) :
    subList (key :: l) key = l.takeWhile (fun x => !startsWith x ':') := by
  simp [subList, List.dropWhile]

theorem takeWhile_colonFree (args l : List QString)
    (hargs : ∀ x ∈ args, startsWith x ':' = false)
    (hl : l = [] ∨ ∃ t r, l = t :: r ∧ startsWith t ':' = true) :
    (args ++ l).takeWhile (fun x => !startsWith x ':') = args := by
  induction args with
  | nil =>
    rcases hl with rfl | ⟨t, r, rfl, ht⟩
    · rfl
    · simp [List.takeWhile, ht]
  | cons a rest ih =>
    have ha := hargs a (by simp)
    simp [List.takeWhile, ha, ih (fun x hx => hargs x (List.mem_cons_of_mem _ hx))]

theorem ne_of_colonFree (x key : QString) (hx : startsWith x ':' = false)
    (hkey : startsWith key ':' = true) : x ≠ key := by
  intro h
  rw [h, hkey] at hx
  cases hx

theorem pluginTokens_append_head (heap : Heap) (specs : List Nat) (tail : List QString)
    (htail : ∃ t r, tail = t :: r ∧ startsWith t ':' = true) :
    ∃ t r, pluginTokens heap specs ++ tail = t :: r ∧ startsWith t ':' = true := by
  induction specs with
  | nil => simpa [pluginTokens] using htail
  | cons ps rest ih =>
    unfold pluginTokens
    by_cases ha : (heap ps).arguments = []
    · simp only [ha, if_true, List.nil_append]
      exact ih
    · simp only [ha, if_false]
      exact ⟨_, _, rfl, by simp [startsWith]⟩

/-- `subList` for the key of a plugin name on the items of the serialized
arguments: the arguments of the first plugin of that name that has arguments,
or what `subList` finds after the items of the plugins. -/
theorem subList_pluginTokens (heap : Heap) (n : QString) (A : List QString)
    (tail : List QString) (htail : ∃ t r, tail = t :: r ∧ startsWith t ':' = true)
    (specs : List Nat)
    (hA : ∀ a ∈ specs, (heap a).name = n → (heap a).arguments ≠ [] → (heap a).arguments = A)
    (hcolon : ∀ a ∈ specs, ∀ x ∈ (heap a).arguments, startsWith x ':' = false) :
    ((∃ a ∈ specs, (heap a).name = n ∧ (heap a).arguments ≠ []) →
        subList (pluginTokens heap specs ++ tail) (':' :: n) = A)
    ∧ ((¬ ∃ a ∈ specs, (heap a).name = n ∧ (heap a).arguments ≠ []) →
        subList (pluginTokens heap specs ++ tail) (':' :: n) = subList tail (':' :: n)) := by
  induction specs with
  | nil =>
    constructor
    · rintro ⟨a, ha, _⟩
      exact absurd ha (List.not_mem_nil _)
    · intro _
      rfl
  | cons ps rest ih =>
    obtain ⟨i1, i2⟩ := ih (fun a ha => hA a (List.mem_cons_of_mem _ ha))
      (fun a ha => hcolon a (List.mem_cons_of_mem _ ha))
    by_cases hargs : (heap ps).arguments = []
    · have htok : pluginTokens heap (ps :: rest) = pluginTokens heap rest := by
        simp [pluginTokens, hargs]
      rw [htok]
      constructor
      · rintro ⟨a, ha, h1, h2⟩
        rcases List.mem_cons.1 ha with rfl | ha
        · exact absurd hargs h2
        · exact i1 ⟨a, ha, h1, h2⟩
      · intro hno
        exact i2 (fun ⟨a, ha, h1, h2⟩ => hno ⟨a, List.mem_cons_of_mem _ ha, h1, h2⟩)
    · have htok : pluginTokens heap (ps :: rest) ++ tail
          = (':' :: (heap ps).name) :: ((heap ps).arguments ++ (pluginTokens heap rest ++ tail)) := by
        simp [pluginTokens, hargs]
      rw [htok]
      by_cases hn : (heap ps).name = n
      · have hval : subList ((':' :: (heap ps).name) ::
            ((heap ps).arguments ++ (pluginTokens heap rest ++ tail))) (':' :: n) = A := by
          rw [hn, subList_hit, takeWhile_colonFree _ _ (hcolon ps (by simp))
            (Or.inr (pluginTokens_append_head heap rest tail htail))]
          exact hA ps (by simp) hn hargs
        constructor
        · intro _
          exact hval
        · intro hno
          exact absurd ⟨ps, by simp, hn, hargs⟩ hno
      · have hskip : subList ((':' :: (heap ps).name) ::
            ((heap ps).arguments ++ (pluginTokens heap rest ++ tail))) (':' :: n)
            = subList (pluginTokens heap rest ++ tail) (':' :: n) := by
          have := subList_skip ((':' :: (heap ps).name) :: (heap ps).arguments)
            (pluginTokens heap rest ++ tail) (':' :: n)
            (by
              intro x hx
              rcases List.mem_cons.1 hx with rfl | hx
              · intro h
                exact hn (List.cons.inj h).2
              · exact ne_of_colonFree x _ (hcolon ps (by simp) x hx) (by simp [startsWith]))
          simpa using this
        rw [hskip]
        constructor
        · rintro ⟨a, ha, h1, h2⟩
          rcases List.mem_cons.1 ha with rfl | ha
          · exact absurd h1 hn
          · exact i1 ⟨a, ha, h1, h2⟩
        · intro hno
          exact i2 (fun ⟨a, ha, h1, h2⟩ => hno ⟨a, List.mem_cons_of_mem _ ha, h1, h2⟩)

/-- `subList` on the items after those of the plugins. -/
theorem subList_tailTokens (currentPath : QString) (arguments : List QString)
    (hpath : startsWith currentPath ':' = false)
    (hargs : ∀ x ∈ arguments, startsWith x ':' = false) :
    subList (tailTokens currentPath arguments) pwdKeywordC = [currentPath]
    ∧ subList (tailTokens currentPath arguments) argumentKeywordC = arguments
    ∧ ∀ n, n ≠ "pwd".toList → n ≠ "arguments".toList →
        subList (tailTokens currentPath arguments) (':' :: n) = [] := by
  have hk1 : startsWith argumentKeywordC ':' = true := by decide
  have hk2 : startsWith pwdKeywordC ':' = true := by decide
  have hne : pwdKeywordC ≠ argumentKeywordC := by decide
  refine ⟨?_, ?_, ?_⟩
  · unfold tailTokens
    rw [subList_hit]
    have := takeWhile_colonFree [currentPath]
      (if arguments = [] then [] else argumentKeywordC :: arguments)
      (by simpa using hpath)
      (by
        by_cases ha : arguments = []
        · exact Or.inl (by simp [ha])
        · exact Or.inr ⟨argumentKeywordC, arguments, by simp [ha], hk1⟩)
    simpa using this
  · unfold tailTokens
    have := subList_skip [pwdKeywordC, currentPath]
      (if arguments = [] then [] else argumentKeywordC :: arguments) argumentKeywordC
      (by
        intro x hx
        simp only [List.mem_cons, List.mem_singleton, List.not_mem_nil, or_false] at hx
        rcases hx with rfl | rfl
        · exact hne
        · exact ne_of_colonFree _ _ hpath hk1)
    simp only [List.cons_append, List.nil_append] at this
    rw [this]
    by_cases ha : arguments = []
    · simp [ha, subList]
    · simp only [ha, if_false]
      rw [subList_hit]
      have := takeWhile_colonFree arguments [] hargs (Or.inl rfl)
      simpa using this
  · intro n hn1 hn2
    have hkey : startsWith (':' :: n) ':' = true := by simp [startsWith]
    have hall : ∀ x ∈ tailTokens currentPath arguments, x ≠ ':' :: n := by
      intro x hx
      unfold tailTokens at hx
      simp only [List.mem_cons] at hx
      rcases hx with rfl | rfl | hx
      · intro h
        exact hn1 (List.cons.inj h).2.symm
      · exact ne_of_colonFree _ _ hpath hkey
      · by_cases ha : arguments = []
        · simp [ha] at hx
        · simp only [ha, if_false, List.mem_cons] at hx
          rcases hx with rfl | hx
          · intro h
            exact hn2 (List.cons.inj h).2.symm
          · exact ne_of_colonFree _ _ (hargs x hx) hkey
    have := subList_skip (tailTokens currentPath arguments) [] (':' :: n) hall
    simp only [List.append_nil] at this
    rw [this]
    rfl

theorem pluginTokens_mem (heap : Heap) (specs : List Nat) (t : QString)
    (ht : t ∈ pluginTokens heap specs) :
    ∃ a ∈ specs, t = ':' :: (heap a).name ∨ t ∈ (heap a).arguments := by
  induction specs with
  | nil => simp [pluginTokens] at ht
  | cons ps rest ih =>
    unfold pluginTokens at ht
    rcases List.mem_append.1 ht with h | h
    · by_cases ha : (heap ps).arguments = []
      · simp [ha] at h
      · simp only [ha, if_false, List.mem_cons] at h
        rcases h with h | h
        · exact ⟨ps, by simp, Or.inl h⟩
        · exact ⟨ps, by simp, Or.inr h⟩
    · obtain ⟨a, ha, h1⟩ := ih h
      exact ⟨a, List.mem_cons_of_mem _ ha, h1⟩

/-- C34. Round trip of the arguments for a running instance. If the names of
the plugins are pairwise distinct and differ from `pwd` and `arguments`, no
plugin name, argument or the current directory contains `|`, and no argument
nor the current directory starts with `:`, then the text of
`serializedArguments()` split at `|` is the list of its items, and on it
`subList` with the key `:` + name returns the arguments of that plugin, for
every plugin (a plugin without arguments gets none), with the key `:arguments`
it returns the arguments of the manager, and with the key `:pwd` the current
directory. `remoteArguments` on that text calls every running plugin with its
arguments, the current directory and the arguments of the manager. -/
theorem serializedArguments_round_trip (m : PluginManagerPrivate) (currentPath : QString)
    (hdistinct : ∀ a ∈ m.pluginSpecs, ∀ b ∈ m.pluginSpecs,
      (m.heap a).name = (m.heap b).name → a = b)
    (hkeys : ∀ a ∈ m.pluginSpecs,
      (m.heap a).name ≠ "pwd".toList ∧ (m.heap a).name ≠ "arguments".toList)
    (hsep : (∀ a ∈ m.pluginSpecs, '|' ∉ (m.heap a).name ∧ ∀ x ∈ (m.heap a).arguments, '|' ∉ x)
      ∧ '|' ∉ currentPath ∧ ∀ x ∈ m.arguments, '|' ∉ x)
    (hcolon : (∀ a ∈ m.pluginSpecs, ∀ x ∈ (m.heap a).arguments, startsWith x ':' = false)
      ∧ startsWith currentPath ':' = false ∧ ∀ x ∈ m.arguments, startsWith x ':' = false) :
    split '|' (m.serializedArguments currentPath)
        = pluginTokens m.heap m.pluginSpecs ++ tailTokens currentPath m.arguments
    ∧ (∀ s ∈ m.pluginSpecs,
        subList (split '|' (m.serializedArguments currentPath)) (':' :: (m.heap s).name)
          = (m.heap s).arguments)
    ∧ subList (split '|' (m.serializedArguments currentPath)) argumentKeywordC = m.arguments
    ∧ subList (split '|' (m.serializedArguments currentPath)) pwdKeywordC = [currentPath]
    ∧ m.remoteArguments (m.serializedArguments currentPath)
        = (m.pluginSpecs.filter (fun ps => decide ((m.heap ps).state = State.Running))).map
            (fun ps => (ps, (m.heap ps).arguments, currentPath, m.arguments)) := by
  obtain ⟨hsep1, hsep2, hsep3⟩ := hsep
  obtain ⟨hcolon1, hcolon2, hcolon3⟩ := hcolon
  have hsplit : split '|' (m.serializedArguments currentPath)
      = pluginTokens m.heap m.pluginSpecs ++ tailTokens currentPath m.arguments := by
    rw [serializedArguments_eq]
    apply split_joinWith
    · simp [tailTokens]
    · intro t ht
      rcases List.mem_append.1 ht with h | h
      · obtain ⟨a, ha, h1 | h1⟩ := pluginTokens_mem m.heap m.pluginSpecs t h
        · rw [h1]
          intro hm
          rcases List.mem_cons.1 hm with h2 | h2
          · exact absurd h2 (by decide)
          · exact (hsep1 a ha).1 h2
        · exact (hsep1 a ha).2 t h1
      · unfold tailTokens at h
        simp only [List.mem_cons] at h
        rcases h with rfl | rfl | h
        · decide
        · exact hsep2
        · by_cases hargs : m.arguments = []
          · simp [hargs] at h
          · simp only [hargs, if_false, List.mem_cons] at h
            rcases h with rfl | h
            · decide
            · exact hsep3 t h
  have htail : ∃ t r, tailTokens currentPath m.arguments = t :: r ∧ startsWith t ':' = true :=
    ⟨_, _, rfl, by decide⟩
  obtain ⟨t1, t2, t3⟩ := subList_tailTokens currentPath m.arguments hcolon2 hcolon3
  have hplugin : ∀ s ∈ m.pluginSpecs,
      subList (split '|' (m.serializedArguments currentPath)) (':' :: (m.heap s).name)
        = (m.heap s).arguments := by
    intro s hs
    rw [hsplit]
    obtain ⟨p1, p2⟩ := subList_pluginTokens m.heap (m.heap s).name (m.heap s).arguments
      (tailTokens currentPath m.arguments) htail m.pluginSpecs
      (fun a ha hn _ => by rw [hdistinct a ha s hs hn]) hcolon1
    by_cases hargs : (m.heap s).arguments = []
    · rw [p2 (by
        rintro ⟨a, ha, hn, hne⟩
        rw [hdistinct a ha s hs hn] at hne
        exact hne hargs), t3 _ (hkeys s hs).1 (hkeys s hs).2, hargs]
    · exact p1 ⟨s, hs, rfl, hargs⟩
  have harguments : subList (split '|' (m.serializedArguments currentPath)) argumentKeywordC
      = m.arguments := by
    rw [hsplit]
    obtain ⟨_, p2⟩ := subList_pluginTokens m.heap "arguments".toList []
      (tailTokens currentPath m.arguments) htail m.pluginSpecs
      (fun a ha hn _ => absurd hn (hkeys a ha).2) hcolon1
    have := p2 (fun ⟨a, ha, hn, _⟩ => (hkeys a ha).2 hn)
    rw [show argumentKeywordC = ':' :: "arguments".toList from rfl, this]
    exact t2
  have hpwd : subList (split '|' (m.serializedArguments currentPath)) pwdKeywordC
      = [currentPath] := by
    rw [hsplit]
    obtain ⟨_, p2⟩ := subList_pluginTokens m.heap "pwd".toList []
      (tailTokens currentPath m.arguments) htail m.pluginSpecs
      (fun a ha hn _ => absurd hn (hkeys a ha).1) hcolon1
    have := p2 (fun ⟨a, ha, hn, _⟩ => (hkeys a ha).1 hn)
    rw [show pwdKeywordC = ':' :: "pwd".toList from rfl, this]
    exact t1
  refine ⟨hsplit, hplugin, harguments, hpwd, ?_⟩
  have hne : (m.serializedArguments currentPath).isEmpty = false := by
    cases h : m.serializedArguments currentPath with
    | nil =>
      rw [h] at hsplit
      have hlen := congrArg List.length hsplit
      simp [split, tailTokens] at hlen
      omega
    | cons _ _ => rfl
  unfold PluginManagerPrivate.remoteArguments
  simp only [hne, Bool.false_eq_true, if_false, hpwd, harguments, List.isEmpty_cons,
    List.headD_cons]
  apply List.map_congr_left
  intro ps hps
  rw [hplugin ps (List.mem_filter.1 hps).1]

/-- The plugins `Core` and `A` running, `A` with the arguments `-x` and the
empty text, the manager with the argument `file.txt`, the current directory
`/home`: the text is `:A|-x||:pwd|/home|:arguments|file.txt`. -/
theorem serializedArguments_round_trip_witness :
    (split '|' (scenarioArguments.serializedArguments "/home".toList)
        = pluginTokens scenarioArguments.heap scenarioArguments.pluginSpecs
          ++ tailTokens "/home".toList scenarioArguments.arguments
      ∧ (∀ s ∈ scenarioArguments.pluginSpecs,
          subList (split '|' (scenarioArguments.serializedArguments "/home".toList))
            (':' :: (scenarioArguments.heap s).name) = (scenarioArguments.heap s).arguments)
      ∧ subList (split '|' (scenarioArguments.serializedArguments "/home".toList))
          argumentKeywordC = scenarioArguments.arguments
      ∧ subList (split '|' (scenarioArguments.serializedArguments "/home".toList)) pwdKeywordC
          = ["/home".toList]
      ∧ scenarioArguments.remoteArguments (scenarioArguments.serializedArguments "/home".toList)
          = (scenarioArguments.pluginSpecs.filter
              (fun ps => decide ((scenarioArguments.heap ps).state = State.Running))).map
              (fun ps => (ps, (scenarioArguments.heap ps).arguments, "/home".toList,
                scenarioArguments.arguments)))
    ∧ scenarioArguments.serializedArguments "/home".toList
        = ":A|-x||:pwd|/home|:arguments|file.txt".toList
    ∧ scenarioArguments.remoteArguments ":A|-x||:pwd|/home|:arguments|file.txt".toList
        = [(1, ["-x".toList, []], "/home".toList, ["file.txt".toList]),
           (0, [], "/home".toList, ["file.txt".toList])] :=
  ⟨serializedArguments_round_trip scenarioArguments "/home".toList (by decide) (by decide)
    (by decide) (by decide), by decide, by decide⟩

/-! ## ANSI escape codes -/

/-- C40. `parseText` reads `numbers` out of range. For the text `ESC [ 3 8 ; 5 m`
the list `numbers` is `38`, `5`; at `i = 0` the code is 38, `++i` gives 1, which
is below `numbers.size()`, `numbers.at(1)` is 5, and the 256 colour case reads
`numbers.at(i + 1)`, that is `numbers.at(2)`, with `numbers.size()` equal to 2.
This holds for every handler without pending text that waits for no terminator
and for every format of the input; the same for `ESC [ 4 8 ; 5 m`, and after
other text and numbers (`abc ESC [ 1 ; 3 8 ; 5 m` reads `numbers.at(3)` of 3).
With the colour index present (`ESC [ 3 8 ; 5 ; 1 m`) all reads are in range,
and the RGB case tests `(i + 3) < numbers.size()` before it reads
(`ESC [ 3 8 ; 2 ; 1 m` reads nothing out of range). -/
theorem parseText_reads_out_of_range (closed : Bool) (previous format : QTextCharFormat)
    (alternate : QString) :
    AnsiEscapeCodeHandler.parseText ⟨closed, previous, [], false, alternate⟩
        ⟨AnsiEscapeCodeHandler.controlSequence "38;5m", format⟩
      = Except.error (AnsiFault.outOfRange 2 2)
    ∧ AnsiEscapeCodeHandler.parseText ⟨closed, previous, [], false, alternate⟩
        ⟨AnsiEscapeCodeHandler.controlSequence "48;5m", format⟩
      = Except.error (AnsiFault.outOfRange 2 2)
    ∧ AnsiEscapeCodeHandler.parseText ⟨closed, previous, [], false, alternate⟩
        ⟨"abc".toList ++ AnsiEscapeCodeHandler.controlSequence "1;38;5m" ++ "def".toList, format⟩
      = Except.error (AnsiFault.outOfRange 3 3)
    ∧ (AnsiEscapeCodeHandler.readNumbers "38;5m".toList [] [] AnsiEscapeCodeHandler.escape).2.1
      = ["38".toList, "5".toList]
    ∧ AnsiEscapeCodeHandler.parseText ⟨closed, previous, [], false, alternate⟩
        ⟨AnsiEscapeCodeHandler.controlSequence "38;5;1m" ++ "x".toList, format⟩
      = Except.ok
          (⟨false, { (if closed then format else previous) with
              foreground := some (QColor.rgb 170 0 0) }, [], false, alternate⟩,
            [⟨"x".toList, { (if closed then format else previous) with
              foreground := some (QColor.rgb 170 0 0) }⟩])
    ∧ AnsiEscapeCodeHandler.parseText ⟨closed, previous, [], false, alternate⟩
        ⟨AnsiEscapeCodeHandler.controlSequence "38;2;1m" ++ "x".toList, format⟩
      = Except.ok
          (⟨closed, previous, [], false, alternate⟩,
            [⟨"x".toList, if closed then format else previous⟩]) := by
  refine ⟨rfl, rfl, rfl, rfl, rfl, rfl⟩

/-! ## Order of discovery -/

set_option maxRecDepth 100000 in
/-- C33. The load order depends on the order of discovery when two plugin
files have the same name. The files are `A` 1.0, `A` 2.0 (compatible down to
1.0) and `B` requiring `A` 1.0. Found in the order `A` 1.0, `A` 2.0, `B`, the
dependency of `B` is resolved to `A` 1.0 and the load queue is `A` 1.0, `A` 2.0,
`B`; found in the order `A` 2.0, `A` 1.0, `B`, the dependency of `B` is resolved
to `A` 2.0 and the load queue is `A` 2.0, `A` 1.0, `B`. With the two files `A`
alone the queues are `A` 1.0, `A` 2.0 and `A` 2.0, `A` 1.0. For files with
different names (`Core`, `A`, `B`) both orders give the same queue. -/
theorem loadQueue_depends_on_discovery_order :
    (scenarioDiscovery [scenarioFile "A" "1.0" none [], scenarioFileUserA,
        scenarioFile "B" "1.0" none [("A", "1.0")]]).bind describedLoadQueue
      = some [("A".toList, "1.0".toList), ("A".toList, "2.0".toList), ("B".toList, "1.0".toList)]
    ∧ (scenarioDiscovery [scenarioFile "A" "1.0" none [], scenarioFileUserA,
        scenarioFile "B" "1.0" none [("A", "1.0")]]).bind describedDependencies
      = some [[], [], [("A".toList, "1.0".toList)]]
    ∧ (scenarioDiscovery [scenarioFileUserA, scenarioFile "A" "1.0" none [],
        scenarioFile "B" "1.0" none [("A", "1.0")]]).bind describedLoadQueue
      = some [("A".toList, "2.0".toList), ("A".toList, "1.0".toList), ("B".toList, "1.0".toList)]
    ∧ (scenarioDiscovery [scenarioFileUserA, scenarioFile "A" "1.0" none [],
        scenarioFile "B" "1.0" none [("A", "1.0")]]).bind describedDependencies
      = some [[], [], [("A".toList, "2.0".toList)]]
    ∧ (scenarioDiscovery [scenarioFile "A" "1.0" none [], scenarioFileUserA]).bind
        describedLoadQueue
      = some [("A".toList, "1.0".toList), ("A".toList, "2.0".toList)]
    ∧ (scenarioDiscovery [scenarioFileUserA, scenarioFile "A" "1.0" none []]).bind
        describedLoadQueue
      = some [("A".toList, "2.0".toList), ("A".toList, "1.0".toList)]
    ∧ (scenarioDiscovery [scenarioFile "Core" "1.0" none [],
        scenarioFile "A" "1.0" none [("Core", "1.0")],
        scenarioFile "B" "1.0" none [("A", "1.0")]]).bind describedLoadQueue
      = some [("Core".toList, "1.0".toList), ("A".toList, "1.0".toList),
          ("B".toList, "1.0".toList)]
    ∧ (scenarioDiscovery [scenarioFile "B" "1.0" none [("A", "1.0")],
        scenarioFile "A" "1.0" none [("Core", "1.0")],
        scenarioFile "Core" "1.0" none []]).bind describedLoadQueue
      = some [("Core".toList, "1.0".toList), ("A".toList, "1.0".toList),
          ("B".toList, "1.0".toList)] := by
  refine ⟨by decide, by decide, by decide, by decide, by decide, by decide, by decide, by decide⟩

/-! ## Crash check with every dependent on the load queue -/

/-- The loop of `PluginSpecPrivate::enableDependenciesIndirectly` leaves a spec
alone that none of the entries it follows points to. -/
theorem enableInner_frame (E : QtEnv) (flag : Bool) (s : Nat) (ds : DependencyHash) :
    ∀ (h : Heap) (enabled : List Nat),
      (∀ e ∈ ds, (e.1.type = DependencyType.Required
          ∨ (flag = true ∧ e.1.type = DependencyType.Test)) → e.2 ≠ s) →
      (PluginSpec.enableDependenciesIndirectlyLoop E flag ds h enabled).1 s = h s := by
  induction ds with
  | nil => intro h enabled _; rfl
  | cons entry rest ih =>
    intro h enabled hs
    obtain ⟨key, dependencySpec⟩ := entry
    have hrest : ∀ e ∈ rest, (e.1.type = DependencyType.Required
        ∨ (flag = true ∧ e.1.type = DependencyType.Test)) → e.2 ≠ s :=
      fun e he => hs e (List.mem_cons_of_mem _ he)
    simp only [PluginSpec.enableDependenciesIndirectlyLoop]
    split
    · exact ih h enabled hrest
    · rename_i hfollow
      split
      · rw [ih _ _ hrest]
        have hne : dependencySpec ≠ s := by
          apply hs (key, dependencySpec) (List.mem_cons_self _ _)
          by_cases h1 : key.type = DependencyType.Required
          · exact Or.inl h1
          · refine Or.inr ?_
            by_cases h2 : flag = true
            · by_cases h3 : key.type = DependencyType.Test
              · exact ⟨h2, h3⟩
              · exact absurd ⟨h1, Or.inr h3⟩ hfollow
            · exact absurd ⟨h1, Or.inl (by simpa using h2)⟩ hfollow
        exact Heap.set_other _ _ _ _ (Ne.symm hne)
      · exact ih h enabled hrest

/-- One iteration of the indirect-enable loop leaves a spec alone when the spec
at the head of the work list is not effectively enabled or follows no entry
that points to it. -/
theorem enableSpec_frame (E : QtEnv) (flag : Bool) (h : Heap) (spec s : Nat)
    (hs : (h spec).isEffectivelyEnabled E = false
      ∨ ∀ e ∈ (h spec).dependencySpecs, (e.1.type = DependencyType.Required
          ∨ (flag = true ∧ e.1.type = DependencyType.Test)) → e.2 ≠ s) :
    (PluginSpec.enableDependenciesIndirectly E spec flag h).1 s = h s := by
  unfold PluginSpec.enableDependenciesIndirectly
  by_cases heff : (h spec).isEffectivelyEnabled E = true
  · simp only [heff, Bool.not_true, Bool.false_eq_true, if_false]
    rcases hs with hs | hs
    · rw [heff] at hs
      cases hs
    · exact enableInner_frame E flag s _ h [] hs
  · simp [heff]

theorem enableSpec_onlyIndirectlyEnabled (E : QtEnv) (flag : Bool) (h : Heap) (spec : Nat) :
    onlyIndirectlyEnabled h (PluginSpec.enableDependenciesIndirectly E spec flag h).1 := by
  unfold PluginSpec.enableDependenciesIndirectly
  split
  · exact onlyIndirectlyEnabled_refl _
  · exact (enableInner_closure E flag (h spec).dependencySpecs h []).1

/-- The work list loop leaves the specs of a set alone when none of them is
effectively enabled and every spec that follows an entry into the set belongs
to the set. -/
theorem enableLoop_frame (E : QtEnv) (testSpecs : List Nat) (D : Nat → Prop) (fuel : Nat) :
    ∀ (queue : List Nat) (h h' : Heap),
      PluginManagerPrivate.enableDependenciesIndirectlyLoop E testSpecs fuel queue h = some h' →
      (∀ spec, ∀ e ∈ (h spec).dependencySpecs,
        (e.1.type = DependencyType.Required
          ∨ (testSpecs.contains spec = true ∧ e.1.type = DependencyType.Test)) →
        D e.2 → D spec) →
      (∀ s, D s → (h s).isEffectivelyEnabled E = false) →
      ∀ s, D s → h' s = h s := by
  induction fuel with
  | zero =>
    intro queue h h' hl _ _ s _
    cases queue with
    | nil =>
      simp only [PluginManagerPrivate.enableDependenciesIndirectlyLoop, Option.some.injEq] at hl
      rw [hl]
    | cons spec rest => simp [PluginManagerPrivate.enableDependenciesIndirectlyLoop] at hl
  | succ fuel ih =>
    intro queue h h' hl hclosed hoff s hs
    cases queue with
    | nil =>
      simp only [PluginManagerPrivate.enableDependenciesIndirectlyLoop, Option.some.injEq] at hl
      rw [hl]
    | cons spec rest =>
      simp only [PluginManagerPrivate.enableDependenciesIndirectlyLoop] at hl
      have hframe : ∀ x, D x →
          (PluginSpec.enableDependenciesIndirectly E spec (testSpecs.contains spec) h).1 x
            = h x := by
        intro x hx
        apply enableSpec_frame
        by_cases heff : (h spec).isEffectivelyEnabled E = true
        · refine Or.inr (fun e he hf hex => ?_)
          have hD : D spec := hclosed spec e he hf (hex ▸ hx)
          rw [hoff spec hD] at heff
          cases heff
        · exact Or.inl (by simpa using heff)
      have g := onlyIndirectlyEnabled_sameGraph
        (enableSpec_onlyIndirectlyEnabled E (testSpecs.contains spec) h spec)
      have := ih _ _ _ hl
        (fun sp e he hf hD => hclosed sp e (by rw [(g sp).2]; exact he) hf hD)
        (fun x hx => by rw [hframe x hx]; exact hoff x hx) s hs
      rw [this, hframe s hs]

/-- The specs of a set that are force-disabled, and that no spec outside the
set follows an entry to, are not effectively enabled after
`PluginManagerPrivate::enableDependenciesIndirectly`. -/
theorem enableDependenciesIndirectly_frame (E : QtEnv) (m m' : PluginManagerPrivate)
    (D : Nat → Prop) (h : m.enableDependenciesIndirectly E = some m')
    (hD : ∀ s, D s → s ∈ m.pluginSpecs ∧ (m.heap s).forceEnabled = false
      ∧ (m.heap s).forceDisabled = true)
    (hclosed : ∀ spec, ∀ e ∈ (m.heap spec).dependencySpecs,
      (e.1.type = DependencyType.Required
        ∨ (m.testSpecs.contains spec = true ∧ e.1.type = DependencyType.Test)) →
      D e.2 → D spec) :
    ∀ s, D s → (m'.heap s).isEffectivelyEnabled E = false := by
  unfold PluginManagerPrivate.enableDependenciesIndirectly at h
  simp only at h
  split at h
  · cases h
  · rename_i heap2 hl
    simp only [Option.some.injEq] at h
    subst h
    have g := clearIndirect_sameGraph m.pluginSpecs m.heap
    have hoff : ∀ s, D s → ((m.pluginSpecs.foldl
        (fun heap spec => heap.set spec ((heap spec).setEnabledIndirectly false)) m.heap)
          s).isEffectivelyEnabled E = false := by
      intro s hs
      obtain ⟨h1, h2, h3⟩ := hD s hs
      rw [clearIndirect_spec, if_pos h1]
      unfold PluginSpec.isEffectivelyEnabled PluginSpec.setEnabledIndirectly
      simp only
      split
      · rfl
      · simp [h2, h3, PluginSpec.isAvailableForHostPlatform]
    intro s hs
    have := enableLoop_frame E m.testSpecs D _ _ _ _ hl
      (fun spec e he hf hDe => hclosed spec e (by rw [(g spec).2]; exact he) hf hDe) hoff s hs
    show (heap2 s).isEffectivelyEnabled E = false
    rw [this]
    exact hoff s hs

/-- Crash-recovery disablement when every spec that requires the plugin is on
the load queue. With the crash check enabled, no test specs, a lock file
naming the spec `foo`, which is not a required plugin, and every spec that
reaches `foo` through resolved dependencies of type `Required` on the load
queue: after the user chose "Disable Plugin", neither `foo` nor any spec of
`pluginsRequiringPlugin(foo)` is effectively enabled. -/
theorem checkForProblematicPlugins_effective (E : QtEnv) (m : PluginManagerPrivate)
    (line : QString) (foo : Nat)
    (hw : dependenciesWithin m.heap m.pluginSpecs)
    (hun : ∀ s ∈ m.pluginSpecs, (m.heap s).dependencySpecs ≠ [] → isResolved (m.heap s))
    (hcheck : m.enableCrashCheck = true) (htest : m.testSpecs = [])
    (hfoo : m.pluginByName (E.trimmed line) = some foo)
    (hreq : (m.heap foo).isRequired = false)
    (hall : ∀ queue m1, m.loadQueue = some (queue, m1) →
      ∀ X, Relation.TransGen (requiresDirectly m.heap) X foo → X ∈ queue) :
    ∃ result m1 m', m.pluginsRequiringPlugin foo = some (result, m1)
      ∧ m.checkForProblematicPlugins E (some line) true = some m'
      ∧ (m'.heap foo).isEffectivelyEnabled E = false
      ∧ ∀ X ∈ result, (m'.heap X).isEffectivelyEnabled E = false := by
  obtain ⟨queue, m1, hq, g, ho, hsub, hps⟩ := loadQueue_ordered m hw
  obtain ⟨er, hm1, _⟩ := loadQueue_errorsRecorded m queue m1 hq
  have htest1 : m1.testSpecs = [] := by
    rw [hm1]
    exact htest
  obtain ⟨i1, i2, i3, i4⟩ := forceDisableLoop_spec
    ((pluginsRequiringPluginLoop m1.heap queue [foo]).filter (fun s => s ≠ foo))
    (m1.heap.set foo ((m1.heap foo).setForceDisabled true))
  have g1 : sameGraph m1.heap (m1.heap.set foo ((m1.heap foo).setForceDisabled true)) := by
    intro s
    by_cases h1 : s = foo
    · subst h1
      rw [Heap.set_same]
      exact ⟨(setForceDisabled_true _).2.2.1.symm, (setForceDisabled_true _).2.2.2.symm⟩
    · rw [Heap.set_other _ _ _ _ h1]
      exact ⟨rfl, rfl⟩
  have g2 := sameGraph_trans g (sameGraph_trans g1 i4)
  obtain ⟨_, snd2⟩ := pluginsRequiringPluginLoop_sound m1.heap foo queue [foo]
    (List.nodup_singleton foo) (fun x hx => Or.inl (List.mem_singleton.1 hx))
  have hun1 : ∀ s ∈ queue, (m1.heap s).dependencySpecs ≠ [] → isResolved (m1.heap s) := by
    intro s hs hne
    have h1 := hun s (hsub hs) (by rw [(g s).2]; exact hne)
    unfold isResolved at h1 ⊢
    rw [← (g s).1]
    exact h1
  have hfooSpecs : foo ∈ m.pluginSpecs := by
    unfold PluginManagerPrivate.pluginByName at hfoo
    exact List.mem_of_find?_eq_some hfoo
  have key : ∀ heap2 : Heap, sameGraph m.heap heap2 →
      ∃ m', PluginManagerPrivate.enableDependenciesIndirectly E { m1 with heap := heap2 }
        = some m' := by
    intro heap2 gg
    have hw2 : dependenciesWithin ({ m1 with heap := heap2 } : PluginManagerPrivate).heap
        ({ m1 with heap := heap2 } : PluginManagerPrivate).pluginSpecs := by
      show dependenciesWithin heap2 m1.pluginSpecs
      rw [hps]
      exact dependenciesWithin_congr gg _ hw
    obtain ⟨m', hm', _⟩ := enableDependenciesIndirectly_returns E _ hw2
    exact ⟨m', hm'⟩
  obtain ⟨m', hm'⟩ := key _ g2
  have hoff := enableDependenciesIndirectly_frame E _ m'
    (fun s => s = foo
      ∨ s ∈ (pluginsRequiringPluginLoop m1.heap queue [foo]).filter (fun s => s ≠ foo)) hm'
    (by
      intro s hs
      refine ⟨?_, ?_⟩
      · show s ∈ m1.pluginSpecs
        rw [hps]
        rcases hs with rfl | hs
        · exact hfooSpecs
        · rcases pluginsRequiringPluginLoop_subset m1.heap queue _ _ (List.mem_filter.1 hs).1
            with h3 | h3
          · rw [List.mem_singleton.1 h3]
            exact hfooSpecs
          · exact hsub h3
      · rcases hs with rfl | hs
        · have := i3 s (by
            rw [Heap.set_same]
            exact ⟨(setForceDisabled_true _).1, (setForceDisabled_true _).2.1⟩)
          exact ⟨this.2, this.1⟩
        · have := i1 s hs
          exact ⟨this.2, this.1⟩)
    (by
      intro spec e he hf hDe
      have hty : e.1.type = DependencyType.Required := by
        rcases hf with hf | ⟨hc, _⟩
        · exact hf
        · have : ({ m1 with heap := _ } : PluginManagerPrivate).testSpecs = [] := htest1
          rw [this] at hc
          simp at hc
      have hedge : requiresDirectly m.heap spec e.2 :=
        ⟨e, by rw [(g2 spec).2]; exact he, hty, rfl⟩
      have hreach : Relation.TransGen (requiresDirectly m.heap) spec foo := by
        rcases hDe with h1 | h1
        · rw [h1] at hedge
          exact Relation.TransGen.single hedge
        · rcases snd2 e.2 (List.mem_filter.1 h1).1 with h2 | h2
          · rw [h2] at hedge
            exact Relation.TransGen.single hedge
          · exact Relation.TransGen.head hedge (Relation.TransGen.mono
              (fun a b r => requiresDirectly_congr (sameGraph_symm g) a b r) h2)
      by_cases hsf : spec = foo
      · exact Or.inl hsf
      · refine Or.inr ?_
        have hXq := hall queue m1 hq spec hreach
        have hreach1 : Relation.TransGen (requiresSpec m1.heap) spec foo :=
          requiresSpec_of_requiresDirectly m1.heap queue foo ho hun1 spec
            (Relation.TransGen.mono (fun a b r => requiresDirectly_congr g a b r) hreach) hXq
        obtain ⟨pre, post, hsplit⟩ := List.append_of_mem hXq
        have hin := pluginsRequiringPluginLoop_complete m1.heap queue foo ho spec hreach1 pre
          post hsplit
        have hin2 : spec ∈ pluginsRequiringPluginLoop m1.heap queue [foo] := by
          rw [hsplit, show pre ++ spec :: post = (pre ++ [spec]) ++ post by simp,
            pluginsRequiringPluginLoop_append]
          exact pluginsRequiringPluginLoop_mono m1.heap post _ _ hin
        exact List.mem_filter.2 ⟨hin2, by simpa using hsf⟩)
  refine ⟨(pluginsRequiringPluginLoop m1.heap queue [foo]).filter (fun s => s ≠ foo), m1, m',
    ?_, ?_, hoff foo (Or.inl rfl), fun X hX => hoff X (Or.inr hX)⟩
  · simp only [PluginManagerPrivate.pluginsRequiringPlugin, hq]
  · simp only [PluginManagerPrivate.checkForProblematicPlugins, hcheck, lockedPluginName, hfoo,
      hreq, PluginManagerPrivate.pluginsRequiringPlugin, hq]
    exact hm'

set_option maxRecDepth 100000 in
/-- The scenario `Core`, `A` (requires `Core`), `B` (requires `A`) with a lock
file naming `Core`: all three specs are on the load queue, and after the user
chose "Disable Plugin" none of them is effectively enabled. -/
theorem checkForProblematicPlugins_effective_witness :
    (∃ result m1 m', scenarioChainManager.pluginsRequiringPlugin 0 = some (result, m1)
      ∧ scenarioChainManager.checkForProblematicPlugins plainEnv (some "Core\n".toList) true
          = some m'
      ∧ (m'.heap 0).isEffectivelyEnabled plainEnv = false
      ∧ ∀ X ∈ result, (m'.heap X).isEffectivelyEnabled plainEnv = false)
    ∧ (scenarioChainManager.pluginsRequiringPlugin 0).map (fun r => r.1) = some [1, 2] := by
  refine ⟨checkForProblematicPlugins_effective plainEnv scenarioChainManager "Core\n".toList 0
    (by unfold dependenciesWithin; decide) (by unfold isResolved; decide) (by decide)
    (by decide) (by decide) (by decide) ?_, by decide⟩
  intro queue m1 hq X hX
  have hqueue : scenarioChainManager.loadQueue.map (fun r => r.1) = some [0, 1, 2] := by decide
  rw [hq] at hqueue
  simp only [Option.map_some', Option.some.injEq] at hqueue
  rw [hqueue]
  have hlt : X < 3 := by
    by_contra hge
    have hnew : scenarioChainManager.heap X = PluginSpec.new := by
      show (if X < 3 then _ else PluginSpec.new) = PluginSpec.new
      rw [if_neg hge]
    have hedge : ∃ Y, requiresDirectly scenarioChainManager.heap X Y := by
      cases hX with
      | single h => exact ⟨_, h⟩
      | tail h1 _ =>
        obtain ⟨Y, hY⟩ := Relation.TransGen.head'_iff.1 (Relation.TransGen.tail h1 ‹_›)
        exact ⟨Y, hY.1⟩
    obtain ⟨Y, e, he, _⟩ := hedge
    rw [hnew] at he
    exact absurd he (List.not_mem_nil _)
  interval_cases X <;> simp

end ExtensionSystem
